import Mathlib

/-!
Buffer manager (Assigment_2/buffer_mgr.c) over the storage manager
(Assigment_2/storage_mgr.c)

A shallow embedding of the buffer pool of `buffer_mgr.c` and of the block
I/O of `storage_mgr.c` that it calls.

Modelling conventions

* C `int` values are `Int`; the arithmetic is modelled without wrap-around
  (signed overflow is undefined in C). `INT_MAX` is the constant of `limits.h`.
* Two `int` expressions of the code take a page number that the client
  chooses: the offset `pageNum * PAGE_SIZE` of `readBlock` and `writeBlock`,
  which is an `int` for the pages below 524288 only, and the sum `pageNum + 1`
  of `pinPage`, which is an `int` below `INT_MAX` only. `readBlock`,
  `writeBlock` and `pinPageLoad` have them unbounded. The functions of the
  namespace `Stdio` are the same code with the 32-bit value of these
  expressions and with the file position of the stream; the lemmas
  `readBlock_refines`, `writeBlock_refines`, `appendEmptyBlock_refines`,
  `ensureCapacity_refines` and `forceFlushLoop_refines` show that the two
  agree as long as the expressions are `int`s.
* The frame array `mgmt->frames` together with its element count
  `mgmt->numFrames` is one `List Frame`; `numFrames` is its length.
* A page buffer is the list of its bytes. The pointer `page->data` of a page
  handle aliases a frame buffer, so it is modelled by the index of that frame.
* The `FILE *` of a file handle is modelled by the list of the pages of the
  file it refers to, plus a flag that says whether the pointer is non-null.
* The debug output (`printf`, `debugPrintAccess`, `debugPrintPageHistory`) has
  no effect on the state and is left out.
* The CLOCK sweep of `selectVictim` is a `while (true)` loop; it is modelled
  with an explicit step budget (`fuel`), and `none` means that the sweep did
  not finish within the budget (or read outside the frame array).
-/

namespace BufferMgr

/-! ## dberror.h, limits.h -/

abbrev RC := Int

def PAGE_SIZE : Nat := 4096

def RC_OK : RC := 0
def RC_FILE_NOT_FOUND : RC := 1
def RC_FILE_HANDLE_NOT_INIT : RC := 2
def RC_WRITE_FAILED : RC := 3
def RC_READ_NON_EXISTING_PAGE : RC := 4
def RC_MALLOC_FAILED : RC := 1000
def RC_PINNED_PAGES_IN_BUFFER : RC := 1001
def RC_BUFFER_POOL_NOT_INIT : RC := 1002
def RC_PAGE_NOT_FOUND : RC := 1003
def RC_NO_FREE_BUFFER_ERROR : RC := 1004

def INT_MAX : Int := 2147483647

/-! ## storage_mgr.h / storage_mgr.c -/

/-- The bytes of one page buffer (`SM_PageHandle`, a `char *` to `PAGE_SIZE` bytes). -/
abbrev PageData := List Nat

/-- The page that `calloc(PAGE_SIZE, sizeof(char))` yields: `PAGE_SIZE` zero bytes. -/
def zeroPage : PageData := List.replicate PAGE_SIZE 0

/-- The struct `SM_FileHandle`. `mgmtInfo` says whether the `FILE *` is non-null and
`file` is the content, page by page, of the file behind it. -/
structure SM_FileHandle where
  totalNumPages : Int
  curPagePos : Int
  mgmtInfo : Bool
  file : List PageData
deriving DecidableEq, Repr

/-- Effect of `fseek(file, n * PAGE_SIZE, SEEK_SET); fwrite(page, 1, PAGE_SIZE, file)`:
page `n` is overwritten; a write past the end first fills the gap with zero bytes. -/
def writeAt (file : List PageData) (n : Nat) (pg : PageData) : List PageData :=
  if n < file.length then file.set n pg
  else file ++ List.replicate (n - file.length) zeroPage ++ [pg]

/-- The function `readBlock` of storage_mgr.c (lines 99-114). Returns the code, the file
handle and the content of `memPage` after the call. A `fread` at the end of the file
transfers nothing and leaves the buffer as it was. The offset `pageNum * PAGE_SIZE` of
line 107 is the one of page `pageNum` here, which the `int` product of the code is for
the pages below 524288 only; `Stdio.readBlock` has the `int` product, and
`readBlock_refines` shows that the two agree on those pages. -/
def readBlock (pageNum : Int) (fHandle : SM_FileHandle) (memPage : PageData) :
    RC × SM_FileHandle × PageData :=
  if fHandle.mgmtInfo = false ∨ pageNum < 0 ∨ pageNum ≥ fHandle.totalNumPages then
    (RC_READ_NON_EXISTING_PAGE, fHandle, memPage)
  else
    (RC_OK, { fHandle with curPagePos := pageNum },
      (fHandle.file[pageNum.toNat]?).getD memPage)

/-- The function `writeBlock` of storage_mgr.c (lines 200-210). The offset
`pageNum * PAGE_SIZE` of line 205 is the one of page `pageNum` here, which the `int`
product of the code is for the pages below 524288 only; `Stdio.writeBlock` has the `int`
product, and `writeBlock_refines` shows that the two agree on those pages. -/
def writeBlock (pageNum : Int) (fHandle : SM_FileHandle) (memPage : PageData) :
    RC × SM_FileHandle :=
  if fHandle.mgmtInfo = false ∨ pageNum < 0 ∨ pageNum ≥ fHandle.totalNumPages then
    (RC_WRITE_FAILED, fHandle)
  else
    (RC_OK, { fHandle with curPagePos := pageNum,
                           file := writeAt fHandle.file pageNum.toNat memPage })

/-- The function `appendEmptyBlock` of storage_mgr.c (lines 231-254). -/
def appendEmptyBlock (fHandle : SM_FileHandle) : RC × SM_FileHandle :=
  if fHandle.mgmtInfo = false then (RC_FILE_HANDLE_NOT_INIT, fHandle)
  else (RC_OK, { fHandle with file := fHandle.file ++ [zeroPage],
                              totalNumPages := fHandle.totalNumPages + 1 })

/-- The `while` loop of `ensureCapacity`; the first argument bounds the number of
iterations. -/
def ensureCapacityLoop : Nat → Int → SM_FileHandle → RC × SM_FileHandle
  | 0, _, fHandle => (RC_OK, fHandle)
  | k + 1, numberOfPages, fHandle =>
    if fHandle.totalNumPages < numberOfPages then
      match appendEmptyBlock fHandle with
      | (rc, fHandle1) =>
        if rc ≠ RC_OK then (rc, fHandle1) else ensureCapacityLoop k numberOfPages fHandle1
    else (RC_OK, fHandle)

/-- The function `ensureCapacity` of storage_mgr.c (lines 264-275). Every iteration of
its loop adds one page, so `numberOfPages - totalNumPages` iterations are all it can
make. -/
def ensureCapacity (numberOfPages : Int) (fHandle : SM_FileHandle) : RC × SM_FileHandle :=
  ensureCapacityLoop (numberOfPages - fHandle.totalNumPages).toNat numberOfPages fHandle

/-- The page count cached in the file handle agrees with the file on disk (what
`openPageFile` establishes and the functions above maintain). -/
def FileSync (fHandle : SM_FileHandle) : Prop :=
  fHandle.totalNumPages = (fHandle.file.length : Int)

instance (fHandle : SM_FileHandle) : Decidable (FileSync fHandle) := by
  unfold FileSync
  infer_instance

/-! ## buffer_mgr.h -/

/-- The enum `ReplacementStrategy` of buffer_mgr.h. -/
inductive ReplacementStrategy where
  | RS_FIFO
  | RS_LRU
  | RS_CLOCK
  | RS_LFU
  | RS_LRU_K
deriving DecidableEq, Repr

open ReplacementStrategy

/-- The type `PageNumber` of buffer_mgr.h is `int`. -/
abbrev PageNumber := Int

def NO_PAGE : Int := -1

/-- The struct `Frame`. `lastTwo0` and `lastTwo1` are `lastTwo[0]` and `lastTwo[1]`.
The fields `loadTime`, `lastUsed` and `kthAccess` are never read or written by
buffer_mgr.c and are left out. -/
structure Frame where
  pageNum : Int
  data : PageData
  dirty : Bool
  fixCount : Int
  lastTwo0 : Int
  lastTwo1 : Int
  accessCount : Int
  useBit : Int
deriving DecidableEq, Repr

/-- The struct `BM_MgmtData`; `numFrames` is the length of `frames`. The field `k` is
never read or written by buffer_mgr.c and is left out. -/
structure BM_MgmtData where
  fh : SM_FileHandle
  frames : List Frame
  loadTimeCounter : Int
  accessCounter : Int
  readIO : Int
  writeIO : Int
  clock_hand : Nat
deriving DecidableEq, Repr

/-- The struct `BM_BufferPool` of an open pool (`mgmtData` not NULL). -/
structure BM_BufferPool where
  numPages : Nat
  strategy : ReplacementStrategy
  mgmtData : BM_MgmtData
deriving DecidableEq, Repr

/-- The struct `BM_PageHandle`. `data` is the index of the frame whose buffer the
pointer refers to (`none` while the pointer has not been set). -/
structure BM_PageHandle where
  pageNum : Int
  data : Option Nat
deriving DecidableEq, Repr

/-- The count `mgmt->numFrames`. -/
def BM_MgmtData.numFrames (mgmt : BM_MgmtData) : Int := mgmt.frames.length

/-! ## buffer_mgr.c -/

/-- The assignment `frames[i] = g(frames[i])`; nothing happens outside the array. -/
def modFrame (frames : List Frame) (i : Nat) (g : Frame → Frame) : List Frame :=
  match frames[i]? with
  | some f => frames.set i (g f)
  | none => frames

/-- What `replacePage` (lines 38-46) does to the frame it is given. -/
def resetFrame (f : Frame) : Frame :=
  { f with pageNum := NO_PAGE, dirty := false, fixCount := 0 }

/-- The function `replacePage` of buffer_mgr.c (lines 38-46). -/
def replacePage (bm : BM_BufferPool) (frameIndex : Nat) : BM_BufferPool :=
  { bm with mgmtData :=
      { bm.mgmtData with frames := modFrame bm.mgmtData.frames frameIndex resetFrame } }

/-- Frame `g` has the page number, dirty flag, fix count and buffer of frame `f`. -/
def Frame.sameSlot (f g : Frame) : Prop :=
  g.pageNum = f.pageNum ∧ g.dirty = f.dirty ∧ g.fixCount = f.fixCount ∧ g.data = f.data

/-- The loop of `findFrame`, from index `i` on. -/
def findFrameFrom : List Frame → Nat → Int → Int
  | [], _, _ => -1
  | f :: fs, i, pageNum =>
    if f.pageNum = pageNum then (i : Int) else findFrameFrom fs (i + 1) pageNum

/-- The function `findFrame` of buffer_mgr.c (lines 56-64). -/
def findFrame (bm : BM_BufferPool) (pageNum : Int) : Int :=
  findFrameFrom bm.mgmtData.frames 0 pageNum

/-- The first loop of `selectVictim` (lines 78-83), from index `i` on: the first frame
with `pageNum == NO_PAGE && fixCount == 0`. -/
def findEmptyFrom : List Frame → Nat → Option Nat
  | [], _ => none
  | f :: fs, i =>
    if f.pageNum = NO_PAGE ∧ f.fixCount = 0 then some i else findEmptyFrom fs (i + 1)

/-- The minimum search that `selectVictim` runs for FIFO (lines 89-98, `key` is
`lastTwo[0]`), for LRU-K (lines 118-130, `lastTwo[1]`) and for LFU (lines 162-167,
`accessCount`) and that `selectLRUVictim` runs (lines 642-651, `lastTwo[1]`): from
index `i` on, with the current values `best` of the index variable and `least` of the
minimum variable. A frame takes over when its fix count is 0 and its key is
strictly less than `least`. -/
def scanMin (key : Frame → Int) : List Frame → Nat → Int → Int → Int
  | [], _, best, _ => best
  | f :: fs, i, best, least =>
    if f.fixCount = 0 ∧ key f < least then scanMin key fs (i + 1) i (key f)
    else scanMin key fs (i + 1) best least

/-- The function `selectLRUVictim` of buffer_mgr.c (lines 637-653): `victim` starts
at -1 and `oldestAccess` at `INT_MAX`. -/
def selectLRUVictim (bm : BM_BufferPool) : Int :=
  scanMin (fun f => f.lastTwo1) bm.mgmtData.frames 0 (-1) INT_MAX

/-- The `while (true)` loop of the `RS_CLOCK` case of `selectVictim` (lines 140-153),
at most `fuel` iterations of it. The result is the frame array, the clock hand and
`victimIndex` at the `break`; `none` when the loop has not reached it. -/
def clockSweep : Nat → Nat → List Frame → Nat → Option (List Frame × Nat × Nat)
  | 0, _, _, _ => none
  | fuel + 1, numPages, frames, hand =>
    match frames[hand]? with
    | none => none
    | some f =>
      if f.fixCount = 0 then
        if f.useBit = 0 then some (modFrame frames hand resetFrame, hand, hand)
        else clockSweep fuel numPages (frames.set hand { f with useBit := 0 })
               ((hand + 1) % numPages)
      else clockSweep fuel numPages frames ((hand + 1) % numPages)

/-- The function `selectVictim` of buffer_mgr.c (lines 72-179): the victim index and the
pool as the call leaves it (the CLOCK and LFU cases write to it). FIFO starts its
search with `oldestFrame = 0`, LRU-K and LFU start theirs with -1. The LFU loop runs
over the first `bm->numPages` frames (`initBufferPool` sets `numPages` and `numFrames`
to the same number; a read past the array is not modelled). The `default` case of the
`switch` is not reachable with one of the five strategies. -/
def selectVictim (fuel : Nat) (bm : BM_BufferPool) : Option (Int × BM_BufferPool) :=
  match findEmptyFrom bm.mgmtData.frames 0 with
  | some i => some ((i : Int), bm)
  | none =>
    match bm.strategy with
    | RS_FIFO => some (scanMin (fun f => f.lastTwo0) bm.mgmtData.frames 0 0 INT_MAX, bm)
    | RS_LRU => some (selectLRUVictim bm, bm)
    | RS_LRU_K => some (scanMin (fun f => f.lastTwo1) bm.mgmtData.frames 0 (-1) INT_MAX, bm)
    | RS_CLOCK =>
      match clockSweep fuel bm.numPages bm.mgmtData.frames bm.mgmtData.clock_hand with
      | none => none
      | some (frames, hand, victimIndex) =>
        some ((victimIndex : Int),
          { bm with mgmtData := { bm.mgmtData with frames := frames, clock_hand := hand } })
    | RS_LFU =>
      let minIndex :=
        scanMin (fun f => f.accessCount) (bm.mgmtData.frames.take bm.numPages) 0 (-1) INT_MAX
      if minIndex ≠ -1 then some (minIndex, replacePage bm minIndex.toNat)
      else some (-1, bm)

/-- The `switch` of `pinPage` on a hit (lines 319-336). -/
def hitUpdate (strategy : ReplacementStrategy) (accessCounter : Int) (f : Frame) : Frame :=
  match strategy with
  | RS_FIFO => f
  | RS_LRU => { f with lastTwo1 := accessCounter }
  | RS_LRU_K => { f with lastTwo0 := f.lastTwo1, lastTwo1 := accessCounter }
  | RS_CLOCK => { f with useBit := 1 }
  | RS_LFU => { f with accessCount := f.accessCount + 1 }

/-- The `switch` of `pinPage` after a load (lines 380-403). -/
def loadUpdate (strategy : ReplacementStrategy) (accessCounter : Int) (f : Frame) : Frame :=
  match strategy with
  | RS_FIFO => { f with lastTwo0 := accessCounter, lastTwo1 := 0 }
  | RS_LRU => { f with lastTwo0 := 0, lastTwo1 := accessCounter }
  | RS_LRU_K => { f with lastTwo0 := 0, lastTwo1 := accessCounter }
  | RS_CLOCK => { f with lastTwo0 := 0, lastTwo1 := 0 }
  | RS_LFU => { f with lastTwo0 := 0, lastTwo1 := 0 }

/-- The pool with its frame array replaced. -/
def BM_BufferPool.withFrames (bm : BM_BufferPool) (frames : List Frame) : BM_BufferPool :=
  { bm with mgmtData := { bm.mgmtData with frames := frames } }

/-- The pool with its file handle replaced. -/
def BM_BufferPool.withFh (bm : BM_BufferPool) (fh : SM_FileHandle) : BM_BufferPool :=
  { bm with mgmtData := { bm.mgmtData with fh := fh } }

/-- The statement `mgmt->accessCounter++` of `pinPage` (line 312). -/
def BM_BufferPool.countAccess (bm : BM_BufferPool) : BM_BufferPool :=
  { bm with mgmtData := { bm.mgmtData with accessCounter := bm.mgmtData.accessCounter + 1 } }

/-- Lines 372-408 of `pinPage`: count the read and install page `pageNum`, whose bytes
`buf` have been read into the buffer of frame `v` (which was `fr`); `fh` is the file
handle after the read. -/
def pinPageInstall (bm : BM_BufferPool) (pageNum : Int) (v : Nat) (fr : Frame)
    (fh : SM_FileHandle) (buf : PageData) : RC × BM_BufferPool × BM_PageHandle :=
  let fr1 := loadUpdate bm.strategy bm.mgmtData.accessCounter
    { fr with data := buf, pageNum := pageNum, fixCount := 1, dirty := false }
  (RC_OK,
    { bm with mgmtData :=
        { bm.mgmtData with fh := fh, readIO := bm.mgmtData.readIO + 1,
                           frames := bm.mgmtData.frames.set v fr1 } },
    { pageNum := pageNum, data := some v })

/-- Lines 362-408 of `pinPage`: read `pageNum` into the buffer of frame `v` (which is
`fr`), growing the file once when the read fails, and install the page. The sum
`pageNum + 1` of line 366 is unbounded here, which the `int` sum of the code is below
`INT_MAX` only; `Stdio.loadPage` is the same reads with the `int` sum and the `int`
offsets, and at `pageNum = INT_MAX` it fails where this function grows the file
(`Stdio.loadPage_int_max`). -/
def pinPageLoad (bm : BM_BufferPool) (page : BM_PageHandle) (pageNum : Int)
    (v : Nat) (fr : Frame) : RC × BM_BufferPool × BM_PageHandle :=
  match readBlock pageNum bm.mgmtData.fh fr.data with
  | (rc, fh1, buf1) =>
    if rc ≠ RC_OK then
      match ensureCapacity (pageNum + 1) fh1 with
      | (rc2, fh2) =>
        if rc2 ≠ RC_OK then (rc2, bm.withFh fh2, page)
        else
          match readBlock pageNum fh2 buf1 with
          | (rc3, fh3, buf3) =>
            if rc3 ≠ RC_OK then
              (rc3, (bm.withFh fh3).withFrames (bm.mgmtData.frames.set v { fr with data := buf3 }),
                page)
            else pinPageInstall bm pageNum v fr fh3 buf3
    else pinPageInstall bm pageNum v fr fh1 buf1

/-- The function `pinPage` of buffer_mgr.c (lines 306-409). The result is the return
code, the pool and the page handle after the call. -/
def pinPage (fuel : Nat) (bm : BM_BufferPool) (page : BM_PageHandle) (pageNum : Int) :
    Option (RC × BM_BufferPool × BM_PageHandle) :=
  let frameIndex := findFrame bm pageNum
  let bm0 : BM_BufferPool := bm.countAccess
  if frameIndex ≠ -1 then
    some (RC_OK,
      bm0.withFrames (modFrame bm0.mgmtData.frames frameIndex.toNat
        (fun f => hitUpdate bm0.strategy bm0.mgmtData.accessCounter
          { f with fixCount := f.fixCount + 1 })),
      { pageNum := pageNum, data := some frameIndex.toNat })
  else
    match selectVictim fuel bm0 with
    | none => none
    | some (victimIndex, bm1) =>
      if victimIndex < 0 ∨ victimIndex ≥ bm1.mgmtData.numFrames then
        some (RC_NO_FREE_BUFFER_ERROR, bm1, page)
      else
        match bm1.mgmtData.frames[victimIndex.toNat]? with
        | none => none
        | some fr =>
          if fr.dirty = true then
            match writeBlock fr.pageNum bm1.mgmtData.fh fr.data with
            | (rc, fh1) =>
              if rc ≠ RC_OK then some (rc, bm1.withFh fh1, page)
              else
                let fr1 := { fr with dirty := false }
                let bm2 : BM_BufferPool :=
                  { bm1 with mgmtData :=
                      { bm1.mgmtData with fh := fh1, writeIO := bm1.mgmtData.writeIO + 1,
                                          frames := bm1.mgmtData.frames.set victimIndex.toNat fr1 } }
                some (pinPageLoad bm2 page pageNum victimIndex.toNat fr1)
          else some (pinPageLoad bm1 page pageNum victimIndex.toNat fr)

/-- The function `markDirty` of buffer_mgr.c (lines 419-427). -/
def markDirty (bm : BM_BufferPool) (page : BM_PageHandle) : RC × BM_BufferPool :=
  let frameIndex := findFrame bm page.pageNum
  if frameIndex = -1 then (RC_PAGE_NOT_FOUND, bm)
  else (RC_OK, bm.withFrames (modFrame bm.mgmtData.frames frameIndex.toNat
          (fun f => { f with dirty := true })))

/-- The function `unpinPage` of buffer_mgr.c (lines 437-449). -/
def unpinPage (bm : BM_BufferPool) (page : BM_PageHandle) : RC × BM_BufferPool :=
  let frameIndex := findFrame bm page.pageNum
  if frameIndex = -1 then (RC_PAGE_NOT_FOUND, bm)
  else (RC_OK, bm.withFrames (modFrame bm.mgmtData.frames frameIndex.toNat
          (fun f => if f.fixCount > 0 then { f with fixCount := f.fixCount - 1 } else f)))

/-- The function `forcePage` of buffer_mgr.c (lines 460-478). `findFrame` returns -1 or
a frame index, so the frame it names exists. -/
def forcePage (bm : BM_BufferPool) (page : BM_PageHandle) : RC × BM_BufferPool :=
  let frameIndex := findFrame bm page.pageNum
  if frameIndex = -1 then (RC_PAGE_NOT_FOUND, bm)
  else
    match bm.mgmtData.frames[frameIndex.toNat]? with
    | none => (RC_OK, bm)
    | some frame =>
      if frame.dirty = true then
        match writeBlock frame.pageNum bm.mgmtData.fh frame.data with
        | (rc, fh1) =>
          if rc ≠ RC_OK then (RC_WRITE_FAILED, bm.withFh fh1)
          else
            (RC_OK,
              { bm with mgmtData :=
                  { bm.mgmtData with
                      fh := fh1, writeIO := bm.mgmtData.writeIO + 1,
                      frames := bm.mgmtData.frames.set frameIndex.toNat
                        { frame with dirty := false } } })
      else (RC_OK, bm)

/-- The loop of `forceFlushPool` (lines 286-293) over the frames from the current one
on, with the file handle and the write counter as they are then: the frames, the file
handle and the write counter after the loop. The code of `writeBlock` is not looked
at. -/
def forceFlushLoop : List Frame → SM_FileHandle → Int → List Frame × SM_FileHandle × Int
  | [], fh, writes => ([], fh, writes)
  | f :: fs, fh, writes =>
    if f.dirty = true ∧ f.fixCount = 0 then
      match forceFlushLoop fs (writeBlock f.pageNum fh f.data).2 (writes + 1) with
      | (fs1, fh1, writes1) => ({ f with dirty := false } :: fs1, fh1, writes1)
    else
      match forceFlushLoop fs fh writes with
      | (fs1, fh1, writes1) => (f :: fs1, fh1, writes1)

/-- The function `forceFlushPool` of buffer_mgr.c (lines 284-295). -/
def forceFlushPool (bm : BM_BufferPool) : RC × BM_BufferPool :=
  match forceFlushLoop bm.mgmtData.frames bm.mgmtData.fh bm.mgmtData.writeIO with
  | (frames, fh, writes) =>
    (RC_OK, { bm with mgmtData := { bm.mgmtData with frames := frames, fh := fh, writeIO := writes } })

/-- The files of the file system: the pages of the file of each name that exists. -/
abbrev Disk := String → Option (List PageData)

/-- The function `openPageFile` of storage_mgr.c (lines 48-64): the file handle it fills
in, or `none` when `fopen` fails and it returns `RC_FILE_NOT_FOUND`. The length of a
page file is a multiple of `PAGE_SIZE`, so `ftell / PAGE_SIZE` is its number of
pages. -/
def openPageFile (disk : Disk) (fileName : String) : Option SM_FileHandle :=
  match disk fileName with
  | none => none
  | some pages =>
    some { totalNumPages := pages.length, curPagePos := 0, mgmtInfo := true, file := pages }

/-- The function `closePageFile` of storage_mgr.c (lines 72-78). -/
def closePageFile (fHandle : SM_FileHandle) : RC × SM_FileHandle :=
  (RC_OK, fHandle)

/-- The struct `BM_BufferPool` as its owner holds it, with its two pointers: `pageFile`
and `mgmtData` are `none` when they are NULL. `BM_BufferPool` above is the view of it
that the functions of an open pool take. -/
structure PoolDescriptor where
  pageFile : Option String
  numPages : Nat
  strategy : ReplacementStrategy
  mgmtData : Option BM_MgmtData
deriving DecidableEq, Repr

/-- The descriptor of the open pool `bm` on the file `pageFile`. -/
def BM_BufferPool.descriptor (bm : BM_BufferPool) (pageFile : String) : PoolDescriptor :=
  { pageFile := some pageFile, numPages := bm.numPages, strategy := bm.strategy,
    mgmtData := some bm.mgmtData }

/-- The frame that `initBufferPool` sets up (lines 218-225). The bytes of the fresh
buffer are not specified by `malloc`; they are zero here. -/
def initFrame : Frame :=
  { pageNum := NO_PAGE, data := zeroPage, dirty := false, fixCount := 0,
    lastTwo0 := 0, lastTwo1 := 0, accessCount := 0, useBit := 0 }

/-- The pool that `initBufferPool` sets up (lines 203-232) once `openPageFile` has
returned the handle `fh`. -/
def initPool (strategy : ReplacementStrategy) (numPages : Nat) (fh : SM_FileHandle) :
    BM_BufferPool :=
  { numPages := numPages, strategy := strategy,
    mgmtData := { fh := fh, frames := List.replicate numPages initFrame,
                  loadTimeCounter := 0, accessCounter := 0, readIO := 0, writeIO := 0,
                  clock_hand := 0 } }

/-- The function `initBufferPool` of buffer_mgr.c (lines 191-235) on the descriptor
`bm`. `framesAllocated` says whether the `malloc` of the frame array returns memory;
the other allocations are taken to succeed. The parameter `stratData` is not used by
the function and is left out. -/
def initBufferPool (disk : Disk) (framesAllocated : Bool) (bm : PoolDescriptor)
    (pageFileName : String) (numPages : Nat) (strategy : ReplacementStrategy) :
    RC × PoolDescriptor :=
  match openPageFile disk pageFileName with
  | none => (RC_FILE_NOT_FOUND, bm)
  | some fh =>
    if framesAllocated = false then (RC_MALLOC_FAILED, bm)
    else
      (RC_OK,
        { pageFile := some pageFileName, numPages := numPages, strategy := strategy,
          mgmtData := some (initPool strategy numPages fh).mgmtData })

/-- The function `shutdownBufferPool` of buffer_mgr.c (lines 243-275): the return code,
the descriptor after the call and, when the file has been closed, the pages it was
closed with. The first loop runs over the first `bm->numPages` frames. -/
def shutdownBufferPool (bm : PoolDescriptor) : RC × PoolDescriptor × Option (List PageData) :=
  match bm.mgmtData with
  | none => (RC_BUFFER_POOL_NOT_INIT, bm, none)
  | some mgmt =>
    if (mgmt.frames.take bm.numPages).any (fun f => decide (f.fixCount > 0)) = true then
      (RC_PINNED_PAGES_IN_BUFFER, bm, none)
    else
      match forceFlushPool { numPages := bm.numPages, strategy := bm.strategy, mgmtData := mgmt } with
      | (rc, bm1) =>
        if rc ≠ RC_OK then (rc, { bm with mgmtData := some bm1.mgmtData }, none)
        else
          (RC_OK, { bm with mgmtData := none, pageFile := none },
            some (closePageFile bm1.mgmtData.fh).2.file)

/-! ## Properties and views of pools -/

/-- No page number other than `NO_PAGE` is held by two frames. -/
def DistinctPages (frames : List Frame) : Prop :=
  frames.Pairwise (fun f g => f.pageNum = g.pageNum → f.pageNum = NO_PAGE)

instance (frames : List Frame) : Decidable (DistinctPages frames) := by
  unfold DistinctPages
  infer_instance

/-- The frames that `forceFlushPool` writes: dirty with fix count 0. -/
def Frame.flushed (f : Frame) : Bool :=
  f.dirty && decide (f.fixCount = 0)

/-- What the CLOCK sweep does to a frame that it passes over (lines 141-152): the use
bit of a frame with fix count 0 is cleared, a pinned frame is left as it is. -/
def clockPass (f : Frame) : Frame :=
  if f.fixCount = 0 then { f with useBit := 0 } else f

/-- The open pool behind a descriptor, if there is one. -/
def PoolDescriptor.pool (d : PoolDescriptor) : Option BM_BufferPool :=
  d.mgmtData.map fun mgmt =>
    { numPages := d.numPages, strategy := d.strategy, mgmtData := mgmt }

/-- Frame `g` holds the page of frame `f` or no page, and its fix count is not negative
if that of `f` is not. -/
def Frame.Keeps (f g : Frame) : Prop :=
  (g.pageNum = f.pageNum ∨ g.pageNum = NO_PAGE) ∧ (0 ≤ f.fixCount → 0 ≤ g.fixCount)

/-- Every frame of `gs` keeps the page of the frame of `fs` in its place or is empty. -/
def KeepsAll (fs gs : List Frame) : Prop :=
  gs.length = fs.length ∧
  ∀ (i : Nat) (f g : Frame), fs[i]? = some f → gs[i]? = some g → f.Keeps g

/-- The frames `gs` are the frames `fs` after page `p`, which none of them held, has
been installed in one frame. -/
def Installs (p : Int) (fs gs : List Frame) : Prop :=
  gs.length = fs.length ∧ (∀ x ∈ fs, x.pageNum ≠ p) ∧
  ∃ v : Nat, ∀ (i : Nat) (f g : Frame), fs[i]? = some f → gs[i]? = some g →
    (i = v ∧ g.pageNum = p ∧ 0 ≤ g.fixCount) ∨ (i ≠ v ∧ f.Keeps g)

/-- No frame has a negative fix count. -/
def FixCountsNonneg (frames : List Frame) : Prop :=
  ∀ f ∈ frames, 0 ≤ f.fixCount

/-- A frame without the bytes of its buffer. -/
def Frame.shape (f : Frame) : Frame := { f with data := [] }

/-- The page table of a pool: the pool without the bytes of its buffers and of its
file, the file taken to be one of `n` pages. -/
def BM_BufferPool.shape (n : Int) (bm : BM_BufferPool) : BM_BufferPool :=
  { bm with mgmtData :=
      { bm.mgmtData with
          fh := { totalNumPages := n, curPagePos := 0,
                  mgmtInfo := bm.mgmtData.fh.mgmtInfo, file := [] },
          frames := bm.mgmtData.frames.map Frame.shape } }

/-- The pages of the frames are among the first `n` pages of the file. -/
def BM_BufferPool.Within (n : Int) (bm : BM_BufferPool) : Prop :=
  0 ≤ n ∧ n ≤ bm.mgmtData.fh.totalNumPages ∧ ∀ f ∈ bm.mgmtData.frames, f.pageNum < n

/-- A result of `pinPage` with the pool replaced by its page table. -/
def shapeResult (n : Int) (r : RC × BM_BufferPool × BM_PageHandle) :
    RC × BM_BufferPool × BM_PageHandle :=
  (r.1, r.2.1.shape n, r.2.2)

/-! ## Well-formed pools -/

/-- The state of a pool that `initBufferPool` has opened and that has been used with
page numbers of its file: the file is open and its handle in step with it,
`bm->numPages` is the number of frames, the clock hand is a frame index, every dirty
frame holds a page of the file, and no time stamp or access count has reached
`INT_MAX`. -/
def BM_BufferPool.WellFormed (bm : BM_BufferPool) : Prop :=
  bm.mgmtData.fh.mgmtInfo = true ∧ FileSync bm.mgmtData.fh ∧
  bm.numPages = bm.mgmtData.frames.length ∧
  bm.mgmtData.clock_hand < bm.mgmtData.frames.length ∧
  (∀ f ∈ bm.mgmtData.frames, f.dirty = true →
    0 ≤ f.pageNum ∧ f.pageNum < bm.mgmtData.fh.totalNumPages) ∧
  (∀ f ∈ bm.mgmtData.frames, f.lastTwo1 < INT_MAX ∧ f.accessCount < INT_MAX)

instance (bm : BM_BufferPool) : Decidable bm.WellFormed := by
  unfold BM_BufferPool.WellFormed
  infer_instance

/-! ## Example pools -/

/-- A page buffer filled with the byte `b`. -/
def pageOf (b : Nat) : PageData := List.replicate PAGE_SIZE b

/-- An open file of two pages, filled with the bytes 10 and 11. -/
def exFile : SM_FileHandle :=
  { totalNumPages := 2, curPagePos := 0, mgmtInfo := true, file := [pageOf 10, pageOf 11] }

/-- A page handle that no call has filled yet. -/
def exHandle : BM_PageHandle := { pageNum := 0, data := none }

/-- A page handle whose page number is `NO_PAGE`. -/
def noPageHandle : BM_PageHandle := { pageNum := NO_PAGE, data := none }

/-- A store of the client through `page->data` into the buffer the handle points at,
like the `sprintf(h->data, ...)` of `createDummyPages` (line 608). -/
def storeBytes (bm : BM_BufferPool) (page : BM_PageHandle) (bytes : PageData) : BM_BufferPool :=
  match page.data with
  | some i => bm.withFrames (modFrame bm.mgmtData.frames i (fun f => { f with data := bytes }))
  | none => bm

/-- One frame, page 0 pinned in it, then a pin of page 1. -/
def pinnedThenPin (strategy : ReplacementStrategy) : Option (RC × BM_BufferPool × BM_PageHandle) :=
  (pinPage 2 (initPool strategy 1 exFile) exHandle 0).bind fun r =>
    pinPage 2 r.2.1 r.2.2 1

/-- One frame: page 0 is pinned, overwritten with the byte 77, marked dirty and
unpinned; page 1 is pinned and unpinned, which evicts page 0; page 0 is pinned
again. -/
def dirtyEvictScenario (strategy : ReplacementStrategy) :
    Option (RC × BM_BufferPool × BM_PageHandle) :=
  (pinPage 2 (initPool strategy 1 exFile) exHandle 0).bind fun r1 =>
    let bm2 := storeBytes r1.2.1 r1.2.2 (pageOf 77)
    let bm3 := (markDirty bm2 r1.2.2).2
    let bm4 := (unpinPage bm3 r1.2.2).2
    (pinPage 2 bm4 r1.2.2 1).bind fun r2 =>
      let bm5 := (unpinPage r2.2.1 r2.2.2).2
      pinPage 2 bm5 r2.2.2 0

/-- One frame that holds page 0, dirty and unpinned, with the byte 77 in its buffer
(the state of `dirtyEvictScenario` before page 1 is pinned). -/
def dirtyPool (strategy : ReplacementStrategy) : BM_BufferPool :=
  { numPages := 1, strategy := strategy,
    mgmtData := { fh := exFile,
                  frames := [{ pageNum := 0, data := pageOf 77, dirty := true, fixCount := 0,
                               lastTwo0 := 1, lastTwo1 := 1, accessCount := 1, useBit := 1 }],
                  loadTimeCounter := 0, accessCounter := 1, readIO := 1, writeIO := 0,
                  clock_hand := 0 } }

/-- The result of `pinPage` of page 1 on `dirtyPool RS_FIFO`. -/
def afterPin1 : RC × BM_BufferPool × BM_PageHandle :=
  (pinPage 2 (dirtyPool RS_FIFO) exHandle 1).getD (RC_OK, dirtyPool RS_FIFO, exHandle)

/-- A file system with one page file, `testbuffer.bin`, of two pages filled with the
bytes 10 and 11. -/
def exDisk : Disk :=
  fun fileName => if fileName = "testbuffer.bin" then some [pageOf 10, pageOf 11] else none

/-- A descriptor on which no pool is open. -/
def closedDescriptor : PoolDescriptor :=
  { pageFile := none, numPages := 0, strategy := RS_FIFO, mgmtData := none }

/-- Three frames over `exFile`: page 0 dirty and unpinned with the byte 77, page 1
dirty and pinned once with the byte 78, and an empty frame. -/
def flushPool : BM_BufferPool :=
  { numPages := 3, strategy := RS_FIFO,
    mgmtData := { fh := exFile,
                  frames := [{ pageNum := 0, data := pageOf 77, dirty := true, fixCount := 0,
                               lastTwo0 := 1, lastTwo1 := 0, accessCount := 0, useBit := 0 },
                             { pageNum := 1, data := pageOf 78, dirty := true, fixCount := 1,
                               lastTwo0 := 2, lastTwo1 := 0, accessCount := 0, useBit := 0 },
                             initFrame],
                  loadTimeCounter := 0, accessCounter := 2, readIO := 2, writeIO := 0,
                  clock_hand := 0 } }

/-- Two frames over `exFile` after the calls `pinPage 0`, `unpinPage`, `pinPage 0`,
`unpinPage`, `pinPage 1`, `unpinPage` under LRU-K: page 0 with the access times
`lastTwo = [1, 2]` and page 1, pinned once only, with `lastTwo = [0, 3]`. -/
def twoAccessPool (strategy : ReplacementStrategy) : BM_BufferPool :=
  { numPages := 2, strategy := strategy,
    mgmtData := { fh := { exFile with curPagePos := 1 },
                  frames := [{ pageNum := 0, data := pageOf 10, dirty := false, fixCount := 0,
                               lastTwo0 := 1, lastTwo1 := 2, accessCount := 0, useBit := 0 },
                             { pageNum := 1, data := pageOf 11, dirty := false, fixCount := 0,
                               lastTwo0 := 0, lastTwo1 := 3, accessCount := 0, useBit := 0 }],
                  loadTimeCounter := 0, accessCounter := 3, readIO := 2, writeIO := 0,
                  clock_hand := 0 } }

/-- The calls that lead to `twoAccessPool`, from a fresh pool of two frames. -/
def twoAccessScenario (strategy : ReplacementStrategy) : Option BM_BufferPool :=
  (pinPage 4 (initPool strategy 2 exFile) exHandle 0).bind fun r1 =>
    (pinPage 4 (unpinPage r1.2.1 r1.2.2).2 r1.2.2 0).bind fun r2 =>
      (pinPage 4 (unpinPage r2.2.1 r2.2.2).2 r2.2.2 1).map fun r3 =>
        (unpinPage r3.2.1 r3.2.2).2

/-- The observable part of a result of `pinPage`: the return code, then for every
frame its page number, dirty flag and fix count, then the read and write counters. -/
def observe (r : RC × BM_BufferPool × BM_PageHandle) :
    RC × List (Int × Bool × Int) × Int × Int :=
  (r.1, r.2.1.mgmtData.frames.map (fun f => (f.pageNum, f.dirty, f.fixCount)),
    r.2.1.mgmtData.readIO, r.2.1.mgmtData.writeIO)

/-! ## Statistics functions -/

/-- The function `getFrameContents` of buffer_mgr.c (lines 488-498): the page number of
every frame. -/
def getFrameContents (bm : BM_BufferPool) : List Int :=
  bm.mgmtData.frames.map (fun f => f.pageNum)

/-- The function `getDirtyFlags` of buffer_mgr.c (lines 508-518). -/
def getDirtyFlags (bm : BM_BufferPool) : List Bool :=
  bm.mgmtData.frames.map (fun f => f.dirty)

/-- The function `getFixCounts` of buffer_mgr.c (lines 529-539). -/
def getFixCounts (bm : BM_BufferPool) : List Int :=
  bm.mgmtData.frames.map (fun f => f.fixCount)

/-- The function `getNumReadIO` of buffer_mgr.c (lines 548-551). -/
def getNumReadIO (bm : BM_BufferPool) : Int :=
  bm.mgmtData.readIO

/-- The function `getNumWriteIO` of buffer_mgr.c (lines 560-563). -/
def getNumWriteIO (bm : BM_BufferPool) : Int :=
  bm.mgmtData.writeIO

/-- What `sprintPoolContent` (Assigment_3/src/buffer_mgr_stat.c, lines 64-90) prints,
the text that the tests compare
with `ASSERT_EQUALS_POOL`: for each of the first `bm->numPages` frames its page number,
its dirty flag (printed as `x` or a blank) and its fix count. -/
def poolContent (bm : BM_BufferPool) : List (Int × Bool × Int) :=
  ((getFrameContents bm).zip ((getDirtyFlags bm).zip (getFixCounts bm))).take bm.numPages

/-! ## Clients and test programs -/

/-- A client of an open pool, as the test programs are: the pool and the one page
handle `h` that the client passes to the calls. -/
structure Client where
  bm : BM_BufferPool
  h : BM_PageHandle
deriving DecidableEq, Repr

/-- What a client does next: one of the calls `pinPage(bm, h, pageNum)` (with the step
budget of its CLOCK sweep), `unpinPage(bm, h)`, `markDirty(bm, h)`, `forcePage(bm, h)`
and `forceFlushPool(bm)`, the assignment `h->pageNum = pageNum` (test_assign2_1.c, line
209), by which any page number reaches the calls that take a handle, or a store of
bytes through `h->data`. -/
inductive Call where
  | pinPage (fuel : Nat) (pageNum : Int)
  | unpinPage
  | markDirty
  | forcePage
  | forceFlushPool
  | setPageNum (pageNum : Int)
  | store (bytes : PageData)
deriving DecidableEq, Repr

/-- One step of a client: the return code of the call and the client after it; `none`
when the call does not return. The two steps that are no calls count as `RC_OK`. -/
def Client.call (c : Client) : Call → Option (RC × Client)
  | Call.pinPage fuel pageNum =>
    (pinPage fuel c.bm c.h pageNum).map fun r => (r.1, { bm := r.2.1, h := r.2.2 })
  | Call.unpinPage => some ((unpinPage c.bm c.h).1, { c with bm := (unpinPage c.bm c.h).2 })
  | Call.markDirty => some ((markDirty c.bm c.h).1, { c with bm := (markDirty c.bm c.h).2 })
  | Call.forcePage => some ((forcePage c.bm c.h).1, { c with bm := (forcePage c.bm c.h).2 })
  | Call.forceFlushPool => some ((forceFlushPool c.bm).1, { c with bm := (forceFlushPool c.bm).2 })
  | Call.setPageNum pageNum => some (RC_OK, { c with h := { c.h with pageNum := pageNum } })
  | Call.store bytes => some (RC_OK, { c with bm := storeBytes c.bm c.h bytes })

/-- A sequence of steps, whatever the calls return (the tests do not look at the codes
of `pinPage`, `unpinPage` and `markDirty` either): the client after the last step. -/
def Client.run : Client → List Call → Option Client
  | c, [] => some c
  | c, x :: xs =>
    match c.call x with
    | none => none
    | some (_, c1) => c1.run xs

/-- A test program: blocks of steps, each followed by an `ASSERT_EQUALS_POOL`. The
result is what `sprintPoolContent` shows after each block. -/
def Client.runBlocks : Client → List (List Call) → Option (List (List (Int × Bool × Int)))
  | _, [] => some []
  | c, b :: bs =>
    match c.run b with
    | none => none
    | some c1 => (c1.runBlocks bs).map fun l => poolContent c1.bm :: l

/-- The steps `pinPage(bm, h, p); unpinPage(bm, h);` of the tests. -/
def pinUnpin (p : Int) : List Call := [Call.pinPage 0 p, Call.unpinPage]

/-- The steps `pinPage(bm, h, p); markDirty(bm, h); unpinPage(bm, h);` of the tests. -/
def pinDirtyUnpin (p : Int) : List Call := [Call.pinPage 0 p, Call.markDirty, Call.unpinPage]

/-- The program of `testFIFO` (test_assign2_1.c, lines 187-213) between `initBufferPool`
and the check of the I/O counts, one block for each `ASSERT_EQUALS_POOL`: the requests
0, 1, 2, 3, 4 pinned and unpinned, the request 4 pinned and kept, the requests 5, 6, 0
pinned, marked dirty and unpinned, page 4 unpinned through `h->pageNum = 4`, and
`forceFlushPool`. -/
def testFIFO : List (List Call) :=
  [pinUnpin 0, pinUnpin 1, pinUnpin 2, pinUnpin 3, pinUnpin 4, [Call.pinPage 0 4],
   pinDirtyUnpin 5, pinDirtyUnpin 6, pinDirtyUnpin 0,
   [Call.setPageNum 4, Call.unpinPage], [Call.forceFlushPool]]

/-- The array `poolContents` of `testFIFO` (lines 158-170). -/
def testFIFO_poolContents : List (List (Int × Bool × Int)) :=
  [[(0, false, 0), (-1, false, 0), (-1, false, 0)],
   [(0, false, 0), (1, false, 0), (-1, false, 0)],
   [(0, false, 0), (1, false, 0), (2, false, 0)],
   [(3, false, 0), (1, false, 0), (2, false, 0)],
   [(3, false, 0), (4, false, 0), (2, false, 0)],
   [(3, false, 0), (4, false, 1), (2, false, 0)],
   [(3, false, 0), (4, false, 1), (5, true, 0)],
   [(6, true, 0), (4, false, 1), (5, true, 0)],
   [(6, true, 0), (4, false, 1), (0, true, 0)],
   [(6, true, 0), (4, false, 0), (0, true, 0)],
   [(6, false, 0), (4, false, 0), (0, false, 0)]]

/-- The program of `testLRU` (test_assign2_1.c, lines 262-284): the pages 0 to 4 are
read, the pages 3, 4, 0, 2, 1 are used, the pages 5 to 9 replace them; each request is
a pin and an unpin, followed by an `ASSERT_EQUALS_POOL`. -/
def testLRU : List (List Call) :=
  ([0, 1, 2, 3, 4] ++ [3, 4, 0, 2, 1] ++ [5, 6, 7, 8, 9]).map pinUnpin

/-- The content of a pool whose frames hold the given pages, clean and unpinned. -/
def cleanContent (pages : List Int) : List (Int × Bool × Int) :=
  pages.map fun p => (p, false, 0)

/-- The array `poolContents` of `testLRU` (lines 233-252). -/
def testLRU_poolContents : List (List (Int × Bool × Int)) :=
  [cleanContent [0, -1, -1, -1, -1], cleanContent [0, 1, -1, -1, -1],
   cleanContent [0, 1, 2, -1, -1], cleanContent [0, 1, 2, 3, -1],
   cleanContent [0, 1, 2, 3, 4],
   cleanContent [0, 1, 2, 3, 4], cleanContent [0, 1, 2, 3, 4], cleanContent [0, 1, 2, 3, 4],
   cleanContent [0, 1, 2, 3, 4], cleanContent [0, 1, 2, 3, 4],
   cleanContent [0, 1, 2, 5, 4], cleanContent [0, 1, 2, 5, 6], cleanContent [7, 1, 2, 5, 6],
   cleanContent [7, 1, 8, 5, 6], cleanContent [7, 9, 8, 5, 6]]

/-- One CLOCK frame with page 0 pinned in it: the pool after `pinPage` of page 0 on a
fresh pool of one frame. -/
def clockPinnedPool : BM_BufferPool :=
  { numPages := 1, strategy := RS_CLOCK,
    mgmtData := { fh := exFile,
                  frames := [{ pageNum := 0, data := pageOf 10, dirty := false, fixCount := 1,
                               lastTwo0 := 0, lastTwo1 := 0, accessCount := 0, useBit := 0 }],
                  loadTimeCounter := 0, accessCounter := 1, readIO := 1, writeIO := 0,
                  clock_hand := 0 } }

example : pinPage 2 (initPool RS_CLOCK 1 exFile) exHandle 0 = some (RC_OK, clockPinnedPool, { pageNum := 0, data := some 0 }) := rfl

/-- Two CLOCK frames over `exFile` after the steps `pinPage 0`, `pinPage 0`, `pinPage 1`,
`unpinPage`: page 0 pinned twice with its use bit set, page 1 unpinned with use bit
0, the clock hand on frame 0. -/
def clockPool : BM_BufferPool :=
  { numPages := 2, strategy := RS_CLOCK,
    mgmtData := { fh := { exFile with curPagePos := 1 },
                  frames := [{ pageNum := 0, data := pageOf 10, dirty := false, fixCount := 2,
                               lastTwo0 := 0, lastTwo1 := 0, accessCount := 0, useBit := 1 },
                             { pageNum := 1, data := pageOf 11, dirty := false, fixCount := 0,
                               lastTwo0 := 0, lastTwo1 := 0, accessCount := 0, useBit := 0 }],
                  loadTimeCounter := 0, accessCounter := 3, readIO := 2, writeIO := 0,
                  clock_hand := 0 } }

/-- The fields of every frame that the strategies use, after the steps `calls` of a
client on a fresh pool over `exFile`: page number, `lastTwo[0]`, `lastTwo[1]`,
`accessCount` and `useBit`. -/
def metadataAfter (strategy : ReplacementStrategy) (numPages : Nat) (calls : List Call) :
    Option (List (Int × Int × Int × Int × Int)) :=
  ((Client.mk (initPool strategy numPages exFile) exHandle).run calls).map fun c =>
    c.bm.mgmtData.frames.map fun f => (f.pageNum, f.lastTwo0, f.lastTwo1, f.accessCount, f.useBit)

/-- The steps of a client that pins page 0 once, unpins it twice and pins page 1. -/
def overUnpin : List Call :=
  [Call.pinPage 0 0, Call.unpinPage, Call.unpinPage, Call.pinPage 0 1]

/-- The client after the steps `overUnpin` on a fresh FIFO pool of three frames over
`exFile`. -/
def overUnpinned : Client :=
  { bm := { numPages := 3, strategy := RS_FIFO,
            mgmtData := { fh := { exFile with curPagePos := 1 },
                          frames := [{ pageNum := 0, data := pageOf 10, dirty := false,
                                       fixCount := 0, lastTwo0 := 1, lastTwo1 := 0,
                                       accessCount := 0, useBit := 0 },
                                     { pageNum := 1, data := pageOf 11, dirty := false,
                                       fixCount := 1, lastTwo0 := 2, lastTwo1 := 0,
                                       accessCount := 0, useBit := 0 },
                                     initFrame],
                          loadTimeCounter := 0, accessCounter := 2, readIO := 2, writeIO := 0,
                          clock_hand := 0 } },
    h := { pageNum := 1, data := some 1 } }

/-- A step that pins no page from page `n` on. -/
def Call.Below (n : Int) : Call → Prop
  | Call.pinPage _ pageNum => pageNum < n
  | _ => True

instance (n : Int) (x : Call) : Decidable (x.Below n) := by
  cases x <;> unfold Call.Below <;> infer_instance

/-- The client with the pool replaced by its page table. -/
def Client.shape (n : Int) (c : Client) : Client :=
  { c with bm := c.bm.shape n }

/-- An open file of `num` pages, page `i` filled with the byte `i`, like the file of
`num` dummy pages of the tests. -/
def dummyFile (num : Nat) : SM_FileHandle :=
  { totalNumPages := num, curPagePos := 0, mgmtInfo := true,
    file := (List.range num).map pageOf }

/-- The steps of `testLRU` up to the first replacement: the pages 0 to 4 are read, the
pages 3, 4, 0, 2, 1 are used, then page 5 is pinned. -/
def testLRU_firstEviction : List (List Call) :=
  [(testLRU.take 10).flatten, [Call.pinPage 0 5]]

/-- The read and write counts that the tests check after a test program. -/
def ioCounts (c : Client) : Int × Int := ( getNumReadIO c.bm, getNumWriteIO c.bm)

/-- The program of `testLRU_K` (test_assign2_2.c, lines 102-125) between the second
`initBufferPool` and the check of the I/O counts, one block for each
`ASSERT_EQUALS_POOL`: the pages 0 to 4 are read; the requests 3, 3, 4, 4, 0, 0, 2, 1
(the first three pages of `orderRequests` are used twice), after which nothing is
asserted, run into the block of the first replacement; the pages 5 to 9 replace the
pages of the pool. Each request is a pin and an unpin. -/
def testLRU_K : List (List Call) :=
  [0, 1, 2, 3, 4].map pinUnpin ++
  [([3, 3, 4, 4, 0, 0, 2, 1].map pinUnpin).flatten ++ pinUnpin 5] ++
  [6, 7, 8, 9].map pinUnpin

/-- The array `poolContents` of `testLRU_K` (test_assign2_2.c, lines 60-71). -/
def testLRU_K_poolContents : List (List (Int × Bool × Int)) :=
  [cleanContent [0, -1, -1, -1, -1], cleanContent [0, 1, -1, -1, -1],
   cleanContent [0, 1, 2, -1, -1], cleanContent [0, 1, 2, 3, -1],
   cleanContent [0, 1, 2, 3, 4],
   cleanContent [0, 1, 2, 5, 4], cleanContent [0, 1, 2, 5, 6], cleanContent [7, 1, 2, 5, 6],
   cleanContent [7, 1, 8, 5, 6], cleanContent [7, 9, 8, 5, 6]]

/-- The return codes of a sequence of steps, in the order of the steps, and the client
after the last step; `none` when a call does not return. -/
def Client.trace : Client → List Call → Option (List RC × Client)
  | c, [] => some ([], c)
  | c, x :: xs =>
    match c.call x with
    | none => none
    | some (rc, c1) => (c1.trace xs).map fun r => (rc :: r.1, r.2)

/-- A file system without files. -/
def emptyDisk : Disk := fun _ => none

/-- The function `createPageFile` of storage_mgr.c (lines 26-39), with `fopen`
succeeding: afterwards the file `fileName` consists of one page of zero bytes. -/
def createPageFile (disk : Disk) (fileName : String) : Disk :=
  fun name => if name = fileName then some [zeroPage] else disk name

/-- The file handle that `openPageFile` fills in for a file that `createPageFile` has
just made. -/
def newFileHandle : SM_FileHandle :=
  { totalNumPages := 1, curPagePos := 0, mgmtInfo := true, file := [zeroPage] }

/-- The calls of `testError` (test_assign2_2.c, lines 175-186) between the first
`initBufferPool` and the first `shutdownBufferPool`: the pages 0, 1, 2 are pinned
through the handle `h`, then `unpinPage(bm, h)` is called three times. (The
`initBufferPool` on a missing file in between returns `RC_FILE_NOT_FOUND` and leaves
the pool as it is.) -/
def testError_pins : List Call :=
  [Call.pinPage 0 0, Call.pinPage 0 1, Call.pinPage 0 2,
   Call.unpinPage, Call.unpinPage, Call.unpinPage]

/-- The same pins, each page unpinned through a handle that names it. -/
def testError_pins_named : List Call :=
  [Call.pinPage 0 0, Call.pinPage 0 1, Call.pinPage 0 2,
   Call.unpinPage, Call.setPageNum 1, Call.unpinPage, Call.setPageNum 0, Call.unpinPage]

/-- The function `forceFlushPool` of buffer_mgr.c (lines 284-295) on a descriptor. The
function reads `mgmt->numFrames` through `bm->mgmtData` without a check (lines 285-286):
on a descriptor whose `mgmtData` is NULL this is a read through a null pointer, and the
call has no result (`none`). -/
def PoolDescriptor.forceFlushPool (d : PoolDescriptor) : Option (RC × PoolDescriptor) :=
  match d.mgmtData with
  | none => none
  | some mgmt =>
    match BufferMgr.forceFlushPool
        { numPages := d.numPages, strategy := d.strategy, mgmtData := mgmt } with
    | (rc, bm1) => some (rc, { d with mgmtData := some bm1.mgmtData })

/-- The function `pinPage` of buffer_mgr.c (lines 306-409) on a descriptor. The function
calls `findFrame`, which reads `mgmt->numFrames` through `bm->mgmtData` (lines 57-58),
and reads `mgmt->accessCounter` (lines 311-312), without a check: on a descriptor whose
`mgmtData` is NULL this is a read through a null pointer, and the call has no result
(`none`), as when the CLOCK sweep does not finish. -/
def PoolDescriptor.pinPage (fuel : Nat) (d : PoolDescriptor) (page : BM_PageHandle)
    (pageNum : Int) : Option (RC × PoolDescriptor × BM_PageHandle) :=
  match d.mgmtData with
  | none => none
  | some mgmt =>
    (BufferMgr.pinPage fuel
      { numPages := d.numPages, strategy := d.strategy, mgmtData := mgmt } page pageNum).map
        fun r => (r.1, { d with mgmtData := some r.2.1.mgmtData }, r.2.2)

/-- A property `PF` of file handles and a property `PR` of frames, relative to a file
handle, that the block I/O and the frame updates of the buffer manager maintain: `PF`
says that the file is open, both properties survive a seek, the growth of the file by
zero pages and the write of a frame that has the property `PR`; `PR` depends on the
page number and the buffer of a frame only, holds for a frame after `replacePage`, and
holds for a frame that holds a page of the file with the bytes that a read of that page
yields. -/
structure Maintained (PF : SM_FileHandle → Prop) (PR : SM_FileHandle → Frame → Prop) :
    Prop where
  isOpen : ∀ fh, PF fh → fh.mgmtInfo = true ∧ 0 ≤ fh.totalNumPages
  seekF : ∀ (fh : SM_FileHandle) (x : Int), PF fh → PF { fh with curPagePos := x }
  seekR : ∀ (fh : SM_FileHandle) (x : Int) (f : Frame),
    PR fh f → PR { fh with curPagePos := x } f
  growF : ∀ (fh : SM_FileHandle) (n : Int), PF fh → fh.totalNumPages ≤ n →
    PF { fh with totalNumPages := n,
                 file := fh.file ++ List.replicate (n - fh.totalNumPages).toNat zeroPage }
  growR : ∀ (fh : SM_FileHandle) (n : Int) (f : Frame), PF fh → fh.totalNumPages ≤ n →
    PR fh f →
    PR { fh with totalNumPages := n,
                 file := fh.file ++ List.replicate (n - fh.totalNumPages).toNat zeroPage } f
  writeF : ∀ (fh : SM_FileHandle) (f : Frame), PF fh → PR fh f → 0 ≤ f.pageNum →
    f.pageNum < fh.totalNumPages →
    PF { fh with file := writeAt fh.file f.pageNum.toNat f.data }
  writeR : ∀ (fh : SM_FileHandle) (f g : Frame), PF fh → PR fh f → 0 ≤ f.pageNum →
    f.pageNum < fh.totalNumPages → PR fh g →
    PR { fh with file := writeAt fh.file f.pageNum.toNat f.data } g
  same : ∀ (fh : SM_FileHandle) (f g : Frame), PR fh f → g.pageNum = f.pageNum →
    g.data = f.data → PR fh g
  reset : ∀ (fh : SM_FileHandle) (f : Frame), PF fh → PR fh f → PR fh (resetFrame f)
  load : ∀ (fh : SM_FileHandle) (q : Int) (d : PageData) (f : Frame), PF fh → 0 ≤ q →
    q < fh.totalNumPages → f.pageNum = q → f.data = (fh.file[q.toNat]?).getD d → PR fh f

/-- The file handle of the pool has the property `PF` and every frame the property
`PR` relative to it. -/
def BM_BufferPool.Satisfies (PF : SM_FileHandle → Prop) (PR : SM_FileHandle → Frame → Prop)
    (bm : BM_BufferPool) : Prop :=
  PF bm.mgmtData.fh ∧ ∀ f ∈ bm.mgmtData.frames, PR bm.mgmtData.fh f

/-- The file behind the handle is open and the page count of the handle is that of the
file. -/
def FileOpen (fh : SM_FileHandle) : Prop :=
  fh.mgmtInfo = true ∧ FileSync fh

/-- The page number of the frame is below the page count of the file (`NO_PAGE` is). -/
def Frame.InFile (fh : SM_FileHandle) (f : Frame) : Prop :=
  f.pageNum < fh.totalNumPages

/-- The file is open and its page `p` holds the bytes `b`. -/
def FileHolds (p : Int) (b : PageData) (fh : SM_FileHandle) : Prop :=
  FileOpen fh ∧ 0 ≤ p ∧ p < fh.totalNumPages ∧ fh.file[p.toNat]? = some b

/-- The page number of the frame is below the page count of the file, and if the frame
holds page `p`, its buffer holds the bytes `b`. -/
def Frame.Agrees (p : Int) (b : PageData) (fh : SM_FileHandle) (f : Frame) : Prop :=
  f.pageNum < fh.totalNumPages ∧ (f.pageNum = p → f.data = b)

/-- The client after the steps `calls` (the client as it is if a call does not
return). -/
def Client.after (c : Client) (calls : List Call) : Client :=
  (c.run calls).getD c

/-- A client of a fresh LFU pool of one frame over `exFile`. -/
def roundTripStart : Client :=
  { bm := initPool RS_LFU 1 exFile, h := exHandle }

/-- The steps of a client that has pinned a page: it stores the bytes `b` in the page
buffer, marks the page dirty, unpins it and flushes the pool. -/
def storeAndFlush (b : PageData) : List Call :=
  [Call.store b, Call.markDirty, Call.unpinPage, Call.forceFlushPool]

/-- The frame without its second-last access time `lastTwo[0]`. -/
def Frame.forgetSecond (f : Frame) : Frame := { f with lastTwo0 := 0 }

/-- The pool as an LRU pool: the strategy is `RS_LRU` and the frames are without their
second-last access times. -/
def BM_BufferPool.asLRU (bm : BM_BufferPool) : BM_BufferPool :=
  { bm with strategy := RS_LRU,
            mgmtData := { bm.mgmtData with
                            frames := bm.mgmtData.frames.map Frame.forgetSecond } }

/-- The client with its pool as an LRU pool. -/
def Client.asLRU (c : Client) : Client := { c with bm := c.bm.asLRU }

/-- A result of `pinPage` with the pool as an LRU pool. -/
def asLRUResult (r : RC × BM_BufferPool × BM_PageHandle) : RC × BM_BufferPool × BM_PageHandle :=
  (r.1, r.2.1.asLRU, r.2.2)

/-- What a client can see of a pool: the frame contents, dirty flags and fix counts,
the bytes of the page buffers, the pages of the file, and the read and write counts. -/
def poolView (bm : BM_BufferPool) :
    List Int × List Bool × List Int × List PageData × List PageData × Int × Int :=
  (getFrameContents bm, getDirtyFlags bm, getFixCounts bm,
    bm.mgmtData.frames.map (fun f => f.data), bm.mgmtData.fh.file,
    getNumReadIO bm, getNumWriteIO bm)

/-- What a client sees in a sequence of steps: the return code of every step, and the
view of the pool and the page handle after it; `none` when a call does not return. -/
def Client.views : Client → List Call →
    Option (List (RC × (List Int × List Bool × List Int × List PageData × List PageData ×
      Int × Int) × BM_PageHandle))
  | _, [] => some []
  | c, x :: xs =>
    match c.call x with
    | none => none
    | some (rc, c1) => (c1.views xs).map fun l => (rc, poolView c1.bm, c1.h) :: l

/-- The steps of a client that marks a page dirty through a handle whose page number is
`NO_PAGE` and flushes the pool. -/
def dirtyNoPageFlush : List Call :=
  [Call.setPageNum NO_PAGE, Call.markDirty, Call.forceFlushPool]

/-! ## storage_mgr.c with `int` offsets and the file position -/

/-- The least value of an `int` (`limits.h`). -/
def INT_MIN : Int := -2147483648

/-- The value that a machine with 32-bit two's-complement `int` computes for an `int`
expression whose mathematical value is `x`: `x` itself when it is an `int`, and `x`
modulo 2^32 otherwise. (The C standard leaves signed overflow undefined.) -/
def wrapInt (x : Int) : Int := (x - INT_MIN) % 4294967296 + INT_MIN

/-- The offset `pageNum * PAGE_SIZE` that `readBlock` (storage_mgr.c, line 107) and
`writeBlock` (line 205) pass to `fseek`: a product of two `int`s. -/
def seekOffset (pageNum : Int) : Int := wrapInt (pageNum * PAGE_SIZE)

/-- The stream behind the `FILE *` of a page file: the pages of the file and the file
position, counted in pages (every offset and every transfer of storage_mgr.c is a
multiple of `PAGE_SIZE`). -/
structure PageStream where
  pages : List PageData
  pos : Nat
deriving DecidableEq, Repr

/-- The call `fseek(file, offset, SEEK_SET)`; with a negative offset it fails and leaves
the position where it was. The result of `fseek` is not looked at by storage_mgr.c. -/
def PageStream.seekSet (s : PageStream) (offset : Int) : PageStream :=
  if offset < 0 then s else { s with pos := (offset / PAGE_SIZE).toNat }

/-- The call `fread(memPage, sizeof(char), PAGE_SIZE, file)`: the stream afterwards and
the buffer; at the end of the file nothing is transferred. -/
def PageStream.read (s : PageStream) (memPage : PageData) : PageStream × PageData :=
  match s.pages[s.pos]? with
  | some pg => ({ s with pos := s.pos + 1 }, pg)
  | none => (s, memPage)

/-- The call `fwrite(memPage, sizeof(char), PAGE_SIZE, file)`. -/
def PageStream.write (s : PageStream) (memPage : PageData) : PageStream :=
  { pages := writeAt s.pages s.pos memPage, pos := s.pos + 1 }

/-- The struct `SM_FileHandle` with the stream of its `mgmtInfo` (`none` when the
pointer is NULL). -/
structure StreamHandle where
  totalNumPages : Int
  curPagePos : Int
  mgmtInfo : Option PageStream
deriving DecidableEq, Repr

/-- The function `readBlock` of storage_mgr.c (lines 99-114), statement by statement,
with the `int` product of line 107 and the file position. -/
def Stdio.readBlock (pageNum : Int) (fHandle : StreamHandle) (memPage : PageData) :
    RC × StreamHandle × PageData :=
  match fHandle.mgmtInfo with
  | none => (RC_READ_NON_EXISTING_PAGE, fHandle, memPage)
  | some file =>
    if pageNum < 0 ∨ pageNum ≥ fHandle.totalNumPages then
      (RC_READ_NON_EXISTING_PAGE, fHandle, memPage)
    else
      match (file.seekSet (seekOffset pageNum)).read memPage with
      | (file1, buf) =>
        (RC_OK, { fHandle with curPagePos := pageNum, mgmtInfo := some file1 }, buf)

/-- The function `writeBlock` of storage_mgr.c (lines 200-210), statement by statement,
with the `int` product of line 205 and the file position. -/
def Stdio.writeBlock (pageNum : Int) (fHandle : StreamHandle) (memPage : PageData) :
    RC × StreamHandle :=
  match fHandle.mgmtInfo with
  | none => (RC_WRITE_FAILED, fHandle)
  | some file =>
    if pageNum < 0 ∨ pageNum ≥ fHandle.totalNumPages then (RC_WRITE_FAILED, fHandle)
    else
      (RC_OK, { fHandle with
                  curPagePos := pageNum,
                  mgmtInfo := some ((file.seekSet (seekOffset pageNum)).write memPage) })

/-- The file handle of the model for a handle with its stream: the pages of the stream
without the file position. -/
def StreamHandle.toHandle (h : StreamHandle) : SM_FileHandle :=
  { totalNumPages := h.totalNumPages, curPagePos := h.curPagePos,
    mgmtInfo := h.mgmtInfo.isSome,
    file := match h.mgmtInfo with
      | some s => s.pages
      | none => [] }

/-- A file of 524289 pages, its last page, page 524288, filled with the byte 7, as a
stream whose position is the end of the file (where `openPageFile` and
`appendEmptyBlock` leave it), behind a handle. -/
def bigFile : StreamHandle :=
  { totalNumPages := 524289, curPagePos := 0,
    mgmtInfo := some { pages := List.replicate 524288 zeroPage ++ [pageOf 7],
                       pos := 524289 } }

/-- The call `fseek(file, 0, SEEK_END)`. -/
def PageStream.seekEnd (s : PageStream) : PageStream := { s with pos := s.pages.length }

/-- The function `appendEmptyBlock` of storage_mgr.c (lines 231-254), statement by
statement, with the file position and the `int` increment of `totalNumPages`. -/
def Stdio.appendEmptyBlock (fHandle : StreamHandle) : RC × StreamHandle :=
  match fHandle.mgmtInfo with
  | none => (RC_FILE_HANDLE_NOT_INIT, fHandle)
  | some file =>
    (RC_OK, { fHandle with mgmtInfo := some (file.seekEnd.write zeroPage),
                           totalNumPages := wrapInt (fHandle.totalNumPages + 1) })

/-- The `while` loop of `ensureCapacity`; the first argument bounds the number of
iterations. -/
def Stdio.ensureCapacityLoop : Nat → Int → StreamHandle → RC × StreamHandle
  | 0, _, fHandle => (RC_OK, fHandle)
  | k + 1, numberOfPages, fHandle =>
    if fHandle.totalNumPages < numberOfPages then
      match Stdio.appendEmptyBlock fHandle with
      | (rc, fHandle1) =>
        if rc ≠ RC_OK then (rc, fHandle1)
        else Stdio.ensureCapacityLoop k numberOfPages fHandle1
    else (RC_OK, fHandle)

/-- The function `ensureCapacity` of storage_mgr.c (lines 264-275) for an `int`
argument: every iteration of its loop adds one page, so
`numberOfPages - totalNumPages` iterations are all it can make. -/
def Stdio.ensureCapacity (numberOfPages : Int) (fHandle : StreamHandle) :
    RC × StreamHandle :=
  Stdio.ensureCapacityLoop (numberOfPages - fHandle.totalNumPages).toNat numberOfPages fHandle

/-- Lines 362-370 of `pinPage` (buffer_mgr.c): the read of page `pageNum` into the buffer
`data` of the victim frame, with the file grown and the read retried once when the first
read fails. The argument `pageNum + 1` of `ensureCapacity` is an `int` sum. The result
is the code (with `RC_OK` the page is installed, with another code `pinPage` returns
it), the file handle and the buffer. -/
def Stdio.loadPage (pageNum : Int) (fHandle : StreamHandle) (data : PageData) :
    RC × StreamHandle × PageData :=
  match Stdio.readBlock pageNum fHandle data with
  | (rc, fh1, buf1) =>
    if rc ≠ RC_OK then
      match Stdio.ensureCapacity (wrapInt (pageNum + 1)) fh1 with
      | (rc2, fh2) =>
        if rc2 ≠ RC_OK then (rc2, fh2, buf1) else Stdio.readBlock pageNum fh2 buf1
    else (RC_OK, fh1, buf1)

/-- A file of two pages, filled with the bytes 10 and 11, as a stream whose position is
the end of the file, behind a handle. -/
def exStream : StreamHandle :=
  { totalNumPages := 2, curPagePos := 0,
    mgmtInfo := some { pages := [pageOf 10, pageOf 11], pos := 2 } }

/-- The loop of `forceFlushPool` (buffer_mgr.c, lines 286-293) over the file handle
with its stream, calling the `writeBlock` with the `int` offset: the frames, the file
handle and the write counter after the loop. -/
def Stdio.forceFlushLoop :
    List Frame → StreamHandle → Int → List Frame × StreamHandle × Int
  | [], fh, writes => ([], fh, writes)
  | f :: fs, fh, writes =>
    if f.dirty = true ∧ f.fixCount = 0 then
      match Stdio.forceFlushLoop fs (Stdio.writeBlock f.pageNum fh f.data).2 (writes + 1) with
      | (fs1, fh1, writes1) => ({ f with dirty := false } :: fs1, fh1, writes1)
    else
      match Stdio.forceFlushLoop fs fh writes with
      | (fs1, fh1, writes1) => (f :: fs1, fh1, writes1)

/-- Two CLOCK frames over `exFile` after the steps `pinPage 0`, `unpinPage`, `pinPage 0`,
`unpinPage`, `pinPage 1`, `unpinPage`, `pinPage 1`, `unpinPage`: both pages unpinned
with their use bits set, the clock hand on frame 0. -/
def clockBothUsed : BM_BufferPool :=
  { numPages := 2, strategy := RS_CLOCK,
    mgmtData := { fh := { exFile with curPagePos := 1 },
                  frames := [{ pageNum := 0, data := pageOf 10, dirty := false, fixCount := 0,
                               lastTwo0 := 0, lastTwo1 := 0, accessCount := 0, useBit := 1 },
                             { pageNum := 1, data := pageOf 11, dirty := false, fixCount := 0,
                               lastTwo0 := 0, lastTwo1 := 0, accessCount := 0, useBit := 1 }],
                  loadTimeCounter := 0, accessCounter := 4, readIO := 2, writeIO := 0,
                  clock_hand := 0 } }

/-- The calls to the storage manager that a pool of one frame makes in the round trip of
page `p` with the bytes `b`, where `q` is the other page: the read of the first
`pinPage` of `p` into the fresh buffer, the write of `forceFlushPool` after the client
has stored `b` in the buffer, the read of the `pinPage` of `q`, which replaces `p` in the
frame, and the read of the second `pinPage` of `p`. The frame is clean at both
replacements, so no other call is made. The result is the four return codes, the file
handle at the end and the buffer that the second `pinPage` of `p` returns. -/
def Stdio.roundTrip (p q : Int) (b : PageData) (fHandle : StreamHandle) :
    List RC × StreamHandle × PageData :=
  match Stdio.loadPage p fHandle zeroPage with
  | (rc1, fh1, _) =>
    match Stdio.writeBlock p fh1 b with
    | (rc2, fh2) =>
      match Stdio.loadPage q fh2 b with
      | (rc3, fh3, buf3) =>
        match Stdio.loadPage p fh3 buf3 with
        | (rc4, fh4, buf4) => ([rc1, rc2, rc3, rc4], fh4, buf4)

/-! ## Basic facts -/

theorem length_modFrame (frames : List Frame) (i : Nat) (g : Frame → Frame) :
    (modFrame frames i g).length = frames.length := by
  unfold modFrame
  split <;> simp

theorem getElem?_modFrame (frames : List Frame) (i j : Nat) (g : Frame → Frame) :
    (modFrame frames i g)[j]? = if i = j then (frames[j]?).map g else frames[j]? := by
  unfold modFrame
  split
  · rename_i f hf
    by_cases hij : i = j
    · subst hij
      have hlt : i < frames.length := by
        rcases List.getElem?_eq_some.mp hf with ⟨h, _⟩
        exact h
      simp [List.getElem?_set, hlt, hf]
    · simp [List.getElem?_set, hij]
  · rename_i hf
    by_cases hij : i = j
    · subst hij
      simp [hf]
    · simp [hij]

theorem findFrameFrom_spec (frames : List Frame) (i : Nat) (p : Int) :
    (findFrameFrom frames i p = -1 ∧ ∀ f ∈ frames, f.pageNum ≠ p) ∨
    (∃ k f, frames[k]? = some f ∧ f.pageNum = p ∧ findFrameFrom frames i p = ((i + k : Nat) : Int) ∧
      ∀ j g, j < k → frames[j]? = some g → g.pageNum ≠ p) := by
  induction frames generalizing i with
  | nil => left; simp [findFrameFrom]
  | cons f fs ih =>
    by_cases hf : f.pageNum = p
    · right
      refine ⟨0, f, by simp, hf, by simp [findFrameFrom, hf], ?_⟩
      intro j g hj
      omega
    · rcases ih (i + 1) with ⟨h1, h2⟩ | ⟨k, g, hk, hg, hres, hmin⟩
      · left
        refine ⟨by simp [findFrameFrom, hf, h1], ?_⟩
        intro x hx
        rcases List.mem_cons.mp hx with rfl | hx
        · exact hf
        · exact h2 x hx
      · right
        refine ⟨k + 1, g, by simpa using hk, hg, ?_, ?_⟩
        · simp only [findFrameFrom, hf, if_false, hres]
          push_cast
          omega
        · intro j g2 hj hg2
          cases j with
          | zero =>
            simp at hg2
            subst hg2
            exact hf
          | succ j =>
            simp at hg2
            exact hmin j g2 (by omega) hg2

theorem readBlock_fail (p : Int) (fh : SM_FileHandle) (buf : PageData)
    (h : fh.mgmtInfo = false ∨ p < 0 ∨ p ≥ fh.totalNumPages) :
    readBlock p fh buf = (RC_READ_NON_EXISTING_PAGE, fh, buf) := by
  unfold readBlock
  rw [if_pos h]

theorem readBlock_ok (p : Int) (fh : SM_FileHandle) (buf : PageData)
    (h1 : fh.mgmtInfo = true) (h2 : 0 ≤ p) (h3 : p < fh.totalNumPages) :
    readBlock p fh buf =
      (RC_OK, { fh with curPagePos := p }, (fh.file[p.toNat]?).getD buf) := by
  unfold readBlock
  rw [if_neg]
  simp only [h1, not_or]
  refine ⟨by simp, by omega, by omega⟩

theorem ensureCapacityLoop_noop (k : Nat) (n : Int) (fh : SM_FileHandle)
    (h : n ≤ fh.totalNumPages) : ensureCapacityLoop k n fh = (RC_OK, fh) := by
  cases k with
  | zero => rfl
  | succ k =>
    unfold ensureCapacityLoop
    rw [if_neg (by omega)]

theorem ensureCapacity_noop (n : Int) (fh : SM_FileHandle) (h : n ≤ fh.totalNumPages) :
    ensureCapacity n fh = (RC_OK, fh) :=
  ensureCapacityLoop_noop _ n fh h

theorem ensureCapacity_closed (n : Int) (fh : SM_FileHandle) (h1 : fh.mgmtInfo = false)
    (h : fh.totalNumPages < n) : ensureCapacity n fh = (RC_FILE_HANDLE_NOT_INIT, fh) := by
  unfold ensureCapacity
  obtain ⟨k, hk⟩ : ∃ k, (n - fh.totalNumPages).toNat = k + 1 := ⟨(n - fh.totalNumPages).toNat - 1, by omega⟩
  rw [hk]
  unfold ensureCapacityLoop
  rw [if_pos h]
  simp [appendEmptyBlock, h1, RC_FILE_HANDLE_NOT_INIT, RC_OK]

theorem ensureCapacityLoop_grow (k : Nat) (n : Int) (fh : SM_FileHandle)
    (h1 : fh.mgmtInfo = true) (hk : n - fh.totalNumPages = (k : Int)) :
    ensureCapacityLoop k n fh =
      (RC_OK, { fh with totalNumPages := n,
                        file := fh.file ++ List.replicate k zeroPage }) := by
  induction k generalizing fh with
  | zero =>
    have : fh.totalNumPages = n := by omega
    simp [ensureCapacityLoop, ← this]
  | succ k ih =>
    unfold ensureCapacityLoop
    rw [if_pos (by omega)]
    simp only [appendEmptyBlock, h1, Bool.true_eq_false, if_false, ne_eq, not_true_eq_false]
    rw [ih { totalNumPages := fh.totalNumPages + 1, curPagePos := fh.curPagePos,
             mgmtInfo := true, file := fh.file ++ [zeroPage] } rfl
          (by show n - (fh.totalNumPages + 1) = (k : Int); push_cast at hk; omega)]
    simp [List.replicate_succ]

theorem ensureCapacity_grow (n : Int) (fh : SM_FileHandle)
    (h1 : fh.mgmtInfo = true) (h : fh.totalNumPages ≤ n) :
    ensureCapacity n fh =
      (RC_OK, { fh with totalNumPages := n,
                        file := fh.file ++ List.replicate (n - fh.totalNumPages).toNat zeroPage }) := by
  unfold ensureCapacity
  exact ensureCapacityLoop_grow _ n fh h1 (by omega)

theorem rc_read_ne_ok : RC_READ_NON_EXISTING_PAGE ≠ RC_OK := by decide

theorem set_self_of_getElem? (frames : List Frame) (v : Nat) (fr : Frame)
    (h : frames[v]? = some fr) : frames.set v fr = frames := by
  apply List.ext_getElem?
  intro j
  by_cases hj : v = j
  · subst hj
    rcases List.getElem?_eq_some.mp h with ⟨hlt, _⟩
    simp [List.getElem?_set, hlt, h]
  · simp [List.getElem?_set, hj]

/-- A load whose page number is negative fails and leaves the pool as it was. -/
theorem pinPageLoad_neg (bm : BM_BufferPool) (page : BM_PageHandle) (p : Int)
    (v : Nat) (fr : Frame) (hp : p < 0) (htot : 0 ≤ bm.mgmtData.fh.totalNumPages)
    (hv : bm.mgmtData.frames[v]? = some fr) :
    pinPageLoad bm page p v fr = (RC_READ_NON_EXISTING_PAGE, bm, page) := by
  unfold pinPageLoad
  rw [readBlock_fail p _ _ (Or.inr (Or.inl hp))]
  simp only [rc_read_ne_ok, ne_eq, not_false_eq_true, if_true]
  have hp1 : p + 1 ≤ bm.mgmtData.fh.totalNumPages := by
    have hp2 : (p : Int) < 0 := hp
    omega
  rw [ensureCapacity_noop _ _ hp1]
  simp only [not_true_eq_false, if_false]
  rw [readBlock_fail p _ _ (Or.inr (Or.inl hp))]
  simp only [rc_read_ne_ok, ne_eq, not_false_eq_true, if_true]
  have : ({ fr with data := fr.data } : Frame) = fr := rfl
  rw [this, set_self_of_getElem? _ _ _ hv]
  rfl

/-- A load of a page of the file: one read, no growth. -/
theorem pinPageLoad_direct (bm : BM_BufferPool) (page : BM_PageHandle) (p : Int)
    (v : Nat) (fr : Frame) (hm : bm.mgmtData.fh.mgmtInfo = true) (h0 : 0 ≤ p)
    (hlt : p < bm.mgmtData.fh.totalNumPages) :
    pinPageLoad bm page p v fr =
      pinPageInstall bm p v fr { bm.mgmtData.fh with curPagePos := p }
        ((bm.mgmtData.fh.file[p.toNat]?).getD fr.data) := by
  unfold pinPageLoad
  rw [readBlock_ok p _ _ hm h0 hlt]
  simp

/-- A load of a page past the end of the file: the first read fails, the file grows to
`p + 1` pages and the second read succeeds. -/
theorem pinPageLoad_grow (bm : BM_BufferPool) (page : BM_PageHandle) (p : Int)
    (v : Nat) (fr : Frame) (hm : bm.mgmtData.fh.mgmtInfo = true) (h0 : 0 ≤ p)
    (hge : bm.mgmtData.fh.totalNumPages ≤ p) :
    pinPageLoad bm page p v fr =
      pinPageInstall bm p v fr
        { bm.mgmtData.fh with
            totalNumPages := p + 1, curPagePos := p,
            file := bm.mgmtData.fh.file ++
              List.replicate (p + 1 - bm.mgmtData.fh.totalNumPages).toNat zeroPage }
        (((bm.mgmtData.fh.file ++
              List.replicate (p + 1 - bm.mgmtData.fh.totalNumPages).toNat zeroPage)[p.toNat]?).getD
          fr.data) := by
  unfold pinPageLoad
  rw [readBlock_fail p _ _ (Or.inr (Or.inr hge))]
  simp only [rc_read_ne_ok, ne_eq, not_false_eq_true, if_true]
  rw [ensureCapacity_grow _ _ hm (by omega)]
  simp only [not_true_eq_false, if_false]
  have hr := readBlock_ok p
    { bm.mgmtData.fh with
        totalNumPages := p + 1,
        file := bm.mgmtData.fh.file ++
          List.replicate (p + 1 - bm.mgmtData.fh.totalNumPages).toNat zeroPage }
    fr.data hm h0 (by simp)
  rw [hr]
  simp

/-- A load cannot succeed through a closed file handle or for a negative page number. -/
theorem pinPageLoad_ok_cond (bm : BM_BufferPool) (page : BM_PageHandle) (p : Int)
    (v : Nat) (fr : Frame) (bm1 : BM_BufferPool) (h1 : BM_PageHandle)
    (h : pinPageLoad bm page p v fr = (RC_OK, bm1, h1)) :
    bm.mgmtData.fh.mgmtInfo = true ∧ 0 ≤ p := by
  by_contra hcon
  have hbad : bm.mgmtData.fh.mgmtInfo = false ∨ p < 0 := by
    by_cases hm : bm.mgmtData.fh.mgmtInfo = true
    · right
      by_contra h0
      exact hcon ⟨hm, by omega⟩
    · left
      simpa using hm
  have hfail : ∀ buf, readBlock p bm.mgmtData.fh buf = (RC_READ_NON_EXISTING_PAGE, bm.mgmtData.fh, buf) := by
    intro buf
    apply readBlock_fail
    rcases hbad with h | h
    · exact Or.inl h
    · exact Or.inr (Or.inl h)
  unfold pinPageLoad at h
  rw [hfail] at h
  simp only [rc_read_ne_ok, ne_eq, not_false_eq_true, if_true] at h
  by_cases hcap : p + 1 ≤ bm.mgmtData.fh.totalNumPages
  · rw [ensureCapacity_noop _ _ hcap] at h
    simp only [not_true_eq_false, if_false] at h
    rw [hfail] at h
    simp only [rc_read_ne_ok, ne_eq, not_false_eq_true, if_true] at h
    exact rc_read_ne_ok (Prod.mk.inj h).1
  · by_cases hm : bm.mgmtData.fh.mgmtInfo = true
    · have hp : p < 0 := by
        rcases hbad with h | h
        · rw [hm] at h; cases h
        · exact h
      rw [ensureCapacity_grow _ _ hm (by omega)] at h
      simp only [not_true_eq_false, if_false] at h
      rw [readBlock_fail p _ _ (Or.inr (Or.inl hp))] at h
      simp only [rc_read_ne_ok, ne_eq, not_false_eq_true, if_true] at h
      exact rc_read_ne_ok (Prod.mk.inj h).1
    · rw [ensureCapacity_closed _ _ (by simpa using hm) (by omega)] at h
      have hne : RC_FILE_HANDLE_NOT_INIT ≠ RC_OK := by decide
      simp only [hne, ne_eq, not_false_eq_true, if_true] at h
      exact hne (Prod.mk.inj h).1

theorem Frame.sameSlot_refl (f : Frame) : f.sameSlot f := ⟨rfl, rfl, rfl, rfl⟩

theorem Frame.sameSlot_trans {f g h : Frame} (h1 : f.sameSlot g) (h2 : g.sameSlot h) :
    f.sameSlot h :=
  ⟨h2.1.trans h1.1, h2.2.1.trans h1.2.1, h2.2.2.1.trans h1.2.2.1, h2.2.2.2.trans h1.2.2.2⟩

/-- What a finished CLOCK sweep has done: the victim is the frame under the hand, it
had fix count 0 and is now reset; every other frame keeps its slot. -/
theorem clockSweep_effect (fuel numPages : Nat) (frames : List Frame) (hand : Nat)
    (frames1 : List Frame) (hand1 v : Nat)
    (h : clockSweep fuel numPages frames hand = some (frames1, hand1, v)) :
    frames1.length = frames.length ∧ v < frames.length ∧ hand1 = v ∧
    (∃ f, frames[v]? = some f ∧ f.fixCount = 0 ∧
      frames1[v]? = some (resetFrame { f with useBit := 0 })) ∧
    ∀ j f, j ≠ v → frames[j]? = some f → ∃ g, frames1[j]? = some g ∧ f.sameSlot g := by
  induction fuel generalizing frames hand with
  | zero => simp [clockSweep] at h
  | succ fuel ih =>
    unfold clockSweep at h
    cases hf : frames[hand]? with
    | none => simp [hf] at h
    | some f =>
      have hlt : hand < frames.length := (List.getElem?_eq_some.mp hf).1
      simp only [hf] at h
      by_cases hfix : f.fixCount = 0
      · simp only [hfix, if_true] at h
        by_cases huse : f.useBit = 0
        · simp only [huse, if_true, Option.some.injEq, Prod.mk.injEq] at h
          obtain ⟨h1, h2, h3⟩ := h
          subst h1 h2 h3
          refine ⟨length_modFrame _ _ _, hlt, rfl, ⟨f, hf, hfix, ?_⟩, ?_⟩
          · rw [getElem?_modFrame]
            simp only [if_true, hf, Option.map_some']
            congr 1
            cases f
            simp_all [resetFrame]
          · intro j g hj hg
            refine ⟨g, ?_, Frame.sameSlot_refl g⟩
            rw [getElem?_modFrame, if_neg (Ne.symm hj)]
            exact hg
        · simp only [huse, if_false] at h
          obtain ⟨hl, hv, hh, ⟨f2, hf2, hfix2, hres⟩, hoth⟩ := ih _ _ h
          rw [List.length_set] at hl hv
          refine ⟨hl, hv, hh, ?_, ?_⟩
          · by_cases hvh : hand = v
            · subst hvh
              rw [List.getElem?_set_self hlt] at hf2
              simp only [Option.some.injEq] at hf2
              subst hf2
              exact ⟨f, hf, hfix, hres⟩
            · rw [List.getElem?_set_ne hvh] at hf2
              exact ⟨f2, hf2, hfix2, hres⟩
          · intro j g hj hg
            by_cases hjh : hand = j
            · subst hjh
              rw [hf] at hg
              simp only [Option.some.injEq] at hg
              subst hg
              obtain ⟨g2, hg2, hs⟩ := hoth hand _ hj (List.getElem?_set_self hlt)
              have hs0 : f.sameSlot { f with fixCount := 0, useBit := 0 } :=
                ⟨rfl, rfl, hfix.symm, rfl⟩
              exact ⟨g2, hg2, Frame.sameSlot_trans hs0 hs⟩
            · exact hoth j g hj (by rw [List.getElem?_set_ne hjh]; exact hg)
      · simp only [hfix, if_false] at h
        exact ih _ _ h

theorem findEmptyFrom_some (frames : List Frame) (i r : Nat)
    (h : findEmptyFrom frames i = some r) :
    ∃ k f, r = i + k ∧ frames[k]? = some f ∧ f.pageNum = NO_PAGE ∧ f.fixCount = 0 ∧
      ∀ j g, j < k → frames[j]? = some g → ¬ (g.pageNum = NO_PAGE ∧ g.fixCount = 0) := by
  induction frames generalizing i with
  | nil => simp [findEmptyFrom] at h
  | cons f fs ih =>
    unfold findEmptyFrom at h
    by_cases hf : f.pageNum = NO_PAGE ∧ f.fixCount = 0
    · rw [if_pos hf] at h
      simp only [Option.some.injEq] at h
      refine ⟨0, f, by omega, by simp, hf.1, hf.2, ?_⟩
      intro j g hj
      omega
    · rw [if_neg hf] at h
      obtain ⟨k, g, hr, hk, h1, h2, hmin⟩ := ih _ h
      refine ⟨k + 1, g, by omega, by simpa using hk, h1, h2, ?_⟩
      intro j g2 hj hg2
      cases j with
      | zero =>
        simp at hg2
        subst hg2
        exact hf
      | succ j =>
        simp at hg2
        exact hmin j g2 (by omega) hg2

theorem findEmptyFrom_none (frames : List Frame) (i : Nat)
    (h : findEmptyFrom frames i = none) :
    ∀ f ∈ frames, ¬ (f.pageNum = NO_PAGE ∧ f.fixCount = 0) := by
  induction frames generalizing i with
  | nil => simp
  | cons f fs ih =>
    unfold findEmptyFrom at h
    by_cases hf : f.pageNum = NO_PAGE ∧ f.fixCount = 0
    · rw [if_pos hf] at h
      cases h
    · rw [if_neg hf] at h
      intro x hx
      rcases List.mem_cons.mp hx with rfl | hx
      · exact hf
      · exact ih _ h x hx

/-- The search returns the start value of its index variable or the index of a frame
with fix count 0. -/
theorem scanMin_range (key : Frame → Int) (frames : List Frame) (i : Nat) (best least : Int) :
    scanMin key frames i best least = best ∨
    ∃ k f, frames[k]? = some f ∧ f.fixCount = 0 ∧
      scanMin key frames i best least = ((i + k : Nat) : Int) := by
  induction frames generalizing i best least with
  | nil => left; rfl
  | cons f fs ih =>
    unfold scanMin
    by_cases hf : f.fixCount = 0 ∧ key f < least
    · rw [if_pos hf]
      right
      rcases ih (i + 1) i (key f) with h | ⟨k, g, hk, hg, hres⟩
      · exact ⟨0, f, by simp, hf.1, by rw [h]; simp⟩
      · exact ⟨k + 1, g, by simpa using hk, hg, by rw [hres]; push_cast; omega⟩
    · rw [if_neg hf]
      rcases ih (i + 1) best least with h | ⟨k, g, hk, hg, hres⟩
      · left; exact h
      · right
        exact ⟨k + 1, g, by simpa using hk, hg, by rw [hres]; push_cast; omega⟩

/-- When some frame with fix count 0 has a key below the start value of the minimum
variable, the search returns the index of a frame with fix count 0. -/
theorem scanMin_found (key : Frame → Int) (frames : List Frame) (i : Nat) (best least : Int)
    (h : ∃ f ∈ frames, f.fixCount = 0 ∧ key f < least) :
    ∃ k f, frames[k]? = some f ∧ f.fixCount = 0 ∧
      scanMin key frames i best least = ((i + k : Nat) : Int) := by
  induction frames generalizing i best least with
  | nil => simp at h
  | cons f fs ih =>
    unfold scanMin
    by_cases hf : f.fixCount = 0 ∧ key f < least
    · rw [if_pos hf]
      rcases scanMin_range key fs (i + 1) i (key f) with h1 | ⟨k, g, hk, hg, hres⟩
      · exact ⟨0, f, by simp, hf.1, by rw [h1]; simp⟩
      · exact ⟨k + 1, g, by simpa using hk, hg, by rw [hres]; push_cast; omega⟩
    · rw [if_neg hf]
      obtain ⟨x, hx, hx1, hx2⟩ := h
      rcases List.mem_cons.mp hx with rfl | hx
      · exact absurd ⟨hx1, hx2⟩ hf
      · obtain ⟨k, g, hk, hg, hres⟩ := ih (i + 1) best least ⟨x, hx, hx1, hx2⟩
        exact ⟨k + 1, g, by simpa using hk, hg, by rw [hres]; push_cast; omega⟩

/-- What `selectVictim` leaves of the pool: the counters, the file handle and the
number of frames as they were, and every frame other than the victim with its page
number, dirty flag, fix count and buffer. -/
theorem selectVictim_effect (fuel : Nat) (bm bm1 : BM_BufferPool) (v : Int)
    (h : selectVictim fuel bm = some (v, bm1)) :
    bm1.numPages = bm.numPages ∧ bm1.strategy = bm.strategy ∧
    bm1.mgmtData.fh = bm.mgmtData.fh ∧
    bm1.mgmtData.accessCounter = bm.mgmtData.accessCounter ∧
    bm1.mgmtData.readIO = bm.mgmtData.readIO ∧
    bm1.mgmtData.writeIO = bm.mgmtData.writeIO ∧
    bm1.mgmtData.frames.length = bm.mgmtData.frames.length ∧
    ∀ (j : Nat) (f : Frame), (j : Int) ≠ v → bm.mgmtData.frames[j]? = some f →
      ∃ g, bm1.mgmtData.frames[j]? = some g ∧ f.sameSlot g := by
  unfold selectVictim at h
  cases he : findEmptyFrom bm.mgmtData.frames 0 with
  | some i =>
    simp only [he, Option.some.injEq, Prod.mk.injEq] at h
    obtain ⟨_, rfl⟩ := h
    exact ⟨rfl, rfl, rfl, rfl, rfl, rfl, rfl, fun j f _ hf => ⟨f, hf, Frame.sameSlot_refl f⟩⟩
  | none =>
    simp only [he] at h
    cases hs : bm.strategy with
    | RS_FIFO =>
      simp only [hs, Option.some.injEq, Prod.mk.injEq] at h
      obtain ⟨_, rfl⟩ := h
      exact ⟨rfl, hs, rfl, rfl, rfl, rfl, rfl, fun j f _ hf => ⟨f, hf, Frame.sameSlot_refl f⟩⟩
    | RS_LRU =>
      simp only [hs, Option.some.injEq, Prod.mk.injEq] at h
      obtain ⟨_, rfl⟩ := h
      exact ⟨rfl, hs, rfl, rfl, rfl, rfl, rfl, fun j f _ hf => ⟨f, hf, Frame.sameSlot_refl f⟩⟩
    | RS_LRU_K =>
      simp only [hs, Option.some.injEq, Prod.mk.injEq] at h
      obtain ⟨_, rfl⟩ := h
      exact ⟨rfl, hs, rfl, rfl, rfl, rfl, rfl, fun j f _ hf => ⟨f, hf, Frame.sameSlot_refl f⟩⟩
    | RS_CLOCK =>
      simp only [hs] at h
      cases hc : clockSweep fuel bm.numPages bm.mgmtData.frames bm.mgmtData.clock_hand with
      | none => simp [hc] at h
      | some r =>
        obtain ⟨frames1, hand1, w⟩ := r
        simp only [hc, Option.some.injEq, Prod.mk.injEq] at h
        obtain ⟨hv, rfl⟩ := h
        obtain ⟨hl, _, _, _, hoth⟩ := clockSweep_effect _ _ _ _ _ _ _ hc
        refine ⟨rfl, rfl, rfl, rfl, rfl, rfl, hl, ?_⟩
        intro j f hj hf
        exact hoth j f (by intro hjw; apply hj; rw [← hv, hjw]) hf
    | RS_LFU =>
      simp only [hs] at h
      rcases scanMin_range (fun f => f.accessCount) (bm.mgmtData.frames.take bm.numPages)
        0 (-1) INT_MAX with hm | ⟨k, g, _, _, hres⟩
      · rw [hm] at h
        simp only [ne_eq, not_true_eq_false, if_false, Option.some.injEq, Prod.mk.injEq] at h
        obtain ⟨_, rfl⟩ := h
        exact ⟨rfl, hs, rfl, rfl, rfl, rfl, rfl, fun j f _ hf => ⟨f, hf, Frame.sameSlot_refl f⟩⟩
      · rw [hres] at h
        rw [if_pos (by omega)] at h
        simp only [Option.some.injEq, Prod.mk.injEq] at h
        obtain ⟨hv, rfl⟩ := h
        refine ⟨rfl, hs, rfl, rfl, rfl, rfl, length_modFrame _ _ _, ?_⟩
        intro j f hj hf
        refine ⟨f, ?_, Frame.sameSlot_refl f⟩
        show (modFrame bm.mgmtData.frames _ resetFrame)[j]? = some f
        rw [getElem?_modFrame, if_neg]
        · exact hf
        · intro hjk
          apply hj
          rw [← hv, ← hjk]
          simp

theorem loadUpdate_keeps (s : ReplacementStrategy) (a : Int) (f : Frame) :
    (loadUpdate s a f).pageNum = f.pageNum ∧ (loadUpdate s a f).data = f.data ∧
    (loadUpdate s a f).dirty = f.dirty ∧ (loadUpdate s a f).fixCount = f.fixCount := by
  cases s <;> simp [loadUpdate]

theorem getElem?_getD_of_lt (l : List PageData) (n : Nat) (d : PageData) (h : n < l.length) :
    l[n]? = some ((l[n]?).getD d) := by
  rw [List.getElem?_eq_getElem h]
  rfl

/-- What an installation leaves: frame `v` holds the page with one pin, clean, the
read is counted, the other frames are as they were. -/
theorem pinPageInstall_effect (bm : BM_BufferPool) (p : Int) (v : Nat) (fr : Frame)
    (fh : SM_FileHandle) (buf : PageData) (bm1 : BM_BufferPool) (page1 : BM_PageHandle)
    (hv : v < bm.mgmtData.frames.length)
    (h : pinPageInstall bm p v fr fh buf = (RC_OK, bm1, page1)) :
    page1 = { pageNum := p, data := some v } ∧
    bm1.mgmtData.fh = fh ∧
    bm1.mgmtData.readIO = bm.mgmtData.readIO + 1 ∧
    bm1.mgmtData.writeIO = bm.mgmtData.writeIO ∧
    bm1.mgmtData.frames.length = bm.mgmtData.frames.length ∧
    (∃ f1, bm1.mgmtData.frames[v]? = some f1 ∧ f1.pageNum = p ∧ f1.fixCount = 1 ∧
      f1.dirty = false ∧ f1.data = buf) ∧
    ∀ j, j ≠ v → bm1.mgmtData.frames[j]? = bm.mgmtData.frames[j]? := by
  unfold pinPageInstall at h
  simp only [Prod.mk.injEq, true_and] at h
  obtain ⟨rfl, rfl⟩ := h
  have hk := loadUpdate_keeps bm.strategy bm.mgmtData.accessCounter
    { fr with data := buf, pageNum := p, fixCount := 1, dirty := false }
  refine ⟨rfl, rfl, rfl, rfl, by simp, ⟨_, List.getElem?_set_self hv, hk.1, hk.2.2.2, hk.2.2.1, hk.2.1⟩, ?_⟩
  intro j hj
  exact List.getElem?_set_ne (Ne.symm hj)

/-- What a successful load leaves. -/
theorem pinPageLoad_ok_effect (bm : BM_BufferPool) (page : BM_PageHandle) (p : Int)
    (v : Nat) (fr : Frame) (bm1 : BM_BufferPool) (page1 : BM_PageHandle)
    (hsync : FileSync bm.mgmtData.fh) (hv : v < bm.mgmtData.frames.length)
    (h : pinPageLoad bm page p v fr = (RC_OK, bm1, page1)) :
    0 ≤ p ∧ page1 = { pageNum := p, data := some v } ∧
    bm1.mgmtData.readIO = bm.mgmtData.readIO + 1 ∧
    bm1.mgmtData.writeIO = bm.mgmtData.writeIO ∧
    bm1.mgmtData.frames.length = bm.mgmtData.frames.length ∧
    (∃ f1, bm1.mgmtData.frames[v]? = some f1 ∧ f1.pageNum = p ∧ f1.fixCount = 1 ∧
      f1.dirty = false ∧ bm1.mgmtData.fh.file[p.toNat]? = some f1.data) ∧
    ∀ j, j ≠ v → bm1.mgmtData.frames[j]? = bm.mgmtData.frames[j]? := by
  obtain ⟨hm, h0⟩ := pinPageLoad_ok_cond _ _ _ _ _ _ _ h
  unfold FileSync at hsync
  by_cases hlt : p < bm.mgmtData.fh.totalNumPages
  · rw [pinPageLoad_direct _ _ _ _ _ hm h0 hlt] at h
    obtain ⟨h1, h2, h3, h4, h5, ⟨f1, hf1, ha, hb, hc, hd⟩, h6⟩ :=
      pinPageInstall_effect _ _ _ _ _ _ _ _ hv h
    refine ⟨h0, h1, h3, h4, h5, ⟨f1, hf1, ha, hb, hc, ?_⟩, h6⟩
    rw [h2, hd]
    have hlen : p.toNat < bm.mgmtData.fh.file.length := by omega
    exact getElem?_getD_of_lt _ _ _ hlen
  · rw [pinPageLoad_grow _ _ _ _ _ hm h0 (by omega)] at h
    obtain ⟨h1, h2, h3, h4, h5, ⟨f1, hf1, ha, hb, hc, hd⟩, h6⟩ :=
      pinPageInstall_effect _ _ _ _ _ _ _ _ hv h
    refine ⟨h0, h1, h3, h4, h5, ⟨f1, hf1, ha, hb, hc, ?_⟩, h6⟩
    rw [h2, hd]
    have hlen : p.toNat < (bm.mgmtData.fh.file ++
        List.replicate (p + 1 - bm.mgmtData.fh.totalNumPages).toNat zeroPage).length := by
      rw [List.length_append, List.length_replicate]
      omega
    exact getElem?_getD_of_lt _ _ _ hlen

theorem findFrame_eq_neg_one (bm : BM_BufferPool) (p : Int)
    (hmiss : ∀ f ∈ bm.mgmtData.frames, f.pageNum ≠ p) : findFrame bm p = -1 := by
  rcases findFrameFrom_spec bm.mgmtData.frames 0 p with ⟨h, _⟩ | ⟨k, f, hk, hf, _, _⟩
  · exact h
  · exact absurd hf (hmiss f (List.getElem?_mem hk))

theorem length_writeAt (file : List PageData) (n : Nat) (pg : PageData) (h : n < file.length) :
    (writeAt file n pg).length = file.length := by
  unfold writeAt
  rw [if_pos h, List.length_set]

theorem clock_next (hand n : Nat) (h : hand < n) :
    (hand + 1) % n = if hand + 1 = n then 0 else hand + 1 := by
  by_cases hn : hand + 1 = n
  · rw [if_pos hn, hn, Nat.mod_self]
  · rw [if_neg hn, Nat.mod_eq_of_lt (by omega)]

/-- The CLOCK sweep finds a victim when the hand is a frame index and some frame `j`
has fix count 0: the number of steps is bounded by the distance from the hand to `j`,
plus one revolution when the use bit of `j` is still set. -/
theorem clockSweep_terminates (fuel : Nat) (frames : List Frame) (hand j : Nat) (fj : Frame)
    (hhand : hand < frames.length) (hj : frames[j]? = some fj) (hfix : fj.fixCount = 0)
    (hfuel : (if hand ≤ j then j - hand else j + frames.length - hand) +
      (if fj.useBit = 0 then 0 else frames.length) < fuel) :
    ∃ r, clockSweep fuel frames.length frames hand = some r := by
  induction fuel generalizing frames hand fj with
  | zero => omega
  | succ fuel ih =>
    have hjlt : j < frames.length := (List.getElem?_eq_some.mp hj).1
    unfold clockSweep
    rw [List.getElem?_eq_getElem hhand]
    simp only []
    generalize hf : frames[hand] = f
    have hf0 : frames[hand]? = some f := by rw [List.getElem?_eq_getElem hhand, hf]
    by_cases hfx : f.fixCount = 0
    · rw [if_pos hfx]
      by_cases hu : f.useBit = 0
      · rw [if_pos hu]
        exact ⟨_, rfl⟩
      · rw [if_neg hu]
        have hlen : (frames.set hand { f with useBit := 0 }).length = frames.length :=
          List.length_set _ _ _
        rw [← hlen]
        by_cases hhj : hand = j
        · subst hhj
          have hfj : fj = f := by
            rw [hf0] at hj
            exact (Option.some.inj hj).symm
          subst hfj
          apply ih _ _ { fj with useBit := 0 }
          · rw [hlen, clock_next _ _ hhand]
            split <;> omega
          · exact List.getElem?_set_self hhand
          · exact hfix
          · rw [hlen, clock_next _ _ hhand]
            simp only [if_true]
            rw [if_neg hu] at hfuel
            split <;> split <;> omega
        · apply ih _ _ fj
          · rw [hlen, clock_next _ _ hhand]
            split <;> omega
          · rw [List.getElem?_set_ne hhj]
            exact hj
          · exact hfix
          · rw [hlen, clock_next _ _ hhand]
            split at hfuel <;> split <;> split <;> omega
    · rw [if_neg hfx]
      have hhj : hand ≠ j := by
        intro hhj
        subst hhj
        rw [hf0] at hj
        have : f = fj := Option.some.inj hj
        subst this
        exact hfx hfix
      apply ih _ _ fj
      · rw [clock_next _ _ hhand]
        split <;> omega
      · exact hj
      · exact hfix
      · rw [clock_next _ _ hhand]
        split at hfuel <;> split <;> split <;> omega

/-- Two revolutions are enough. -/
theorem clockSweep_terminates_two_rev (fuel : Nat) (frames : List Frame) (hand : Nat)
    (hhand : hand < frames.length) (hev : ∃ f ∈ frames, f.fixCount = 0)
    (hfuel : 2 * frames.length ≤ fuel) :
    ∃ r, clockSweep fuel frames.length frames hand = some r := by
  obtain ⟨fj, hmem, hfix⟩ := hev
  obtain ⟨j, hj⟩ := List.mem_iff_getElem?.mp hmem
  have hjlt : j < frames.length := (List.getElem?_eq_some.mp hj).1
  apply clockSweep_terminates fuel frames hand j fj hhand hj hfix
  split <;> split <;> omega

/-- In a well-formed pool with a frame of fix count 0, `selectVictim` returns the
index of a frame, and that frame is then as it was before the call or clean. -/
theorem selectVictim_inRange (fuel : Nat) (bm : BM_BufferPool)
    (hnum : bm.numPages = bm.mgmtData.frames.length)
    (hhand : bm.mgmtData.clock_hand < bm.mgmtData.frames.length)
    (hkeys : ∀ f ∈ bm.mgmtData.frames, f.lastTwo1 < INT_MAX ∧ f.accessCount < INT_MAX)
    (hev : ∃ f ∈ bm.mgmtData.frames, f.fixCount = 0)
    (hfuel : 2 * bm.mgmtData.frames.length ≤ fuel) :
    ∃ (v : Nat) (bmv : BM_BufferPool) (f g : Frame),
      selectVictim fuel bm = some ((v : Int), bmv) ∧
      bm.mgmtData.frames[v]? = some f ∧ bmv.mgmtData.frames[v]? = some g ∧
      (g = f ∨ g.dirty = false) := by
  have hpos : 0 < bm.mgmtData.frames.length := by omega
  unfold selectVictim
  cases he : findEmptyFrom bm.mgmtData.frames 0 with
  | some i =>
    obtain ⟨k, f, hik, hk, _⟩ := findEmptyFrom_some _ _ _ he
    have : i = k := by omega
    subst this
    exact ⟨i, bm, f, f, rfl, hk, hk, Or.inl rfl⟩
  | none =>
    simp only []
    cases hs : bm.strategy with
    | RS_FIFO =>
      simp only []
      rcases scanMin_range (fun f => f.lastTwo0) bm.mgmtData.frames 0 0 INT_MAX with
        h | ⟨k, f, hk, _, hres⟩
      · rw [h]
        exact ⟨0, bm, _, _, rfl, List.getElem?_eq_getElem hpos, List.getElem?_eq_getElem hpos,
          Or.inl rfl⟩
      · rw [hres]
        exact ⟨0 + k, bm, f, f, rfl, by simpa using hk, by simpa using hk, Or.inl rfl⟩
    | RS_LRU =>
      simp only [selectLRUVictim]
      obtain ⟨x, hx, hx0⟩ := hev
      obtain ⟨k, f, hk, _, hres⟩ := scanMin_found (fun f => f.lastTwo1) bm.mgmtData.frames 0
        (-1) INT_MAX ⟨x, hx, hx0, (hkeys x hx).1⟩
      rw [hres]
      exact ⟨0 + k, bm, f, f, rfl, by simpa using hk, by simpa using hk, Or.inl rfl⟩
    | RS_LRU_K =>
      simp only []
      obtain ⟨x, hx, hx0⟩ := hev
      obtain ⟨k, f, hk, _, hres⟩ := scanMin_found (fun f => f.lastTwo1) bm.mgmtData.frames 0
        (-1) INT_MAX ⟨x, hx, hx0, (hkeys x hx).1⟩
      rw [hres]
      exact ⟨0 + k, bm, f, f, rfl, by simpa using hk, by simpa using hk, Or.inl rfl⟩
    | RS_CLOCK =>
      simp only []
      rw [hnum]
      obtain ⟨r, hr⟩ := clockSweep_terminates_two_rev fuel bm.mgmtData.frames
        bm.mgmtData.clock_hand hhand hev hfuel
      obtain ⟨frames1, hand1, w⟩ := r
      obtain ⟨_, _, _, ⟨f, hf, _, hres⟩, _⟩ := clockSweep_effect _ _ _ _ _ _ _ hr
      rw [hr]
      exact ⟨w, _, f, _, rfl, hf, hres, Or.inr rfl⟩
    | RS_LFU =>
      simp only []
      rw [hnum, List.take_length]
      obtain ⟨x, hx, hx0⟩ := hev
      obtain ⟨k, f, hk, _, hres⟩ := scanMin_found (fun f => f.accessCount) bm.mgmtData.frames 0
        (-1) INT_MAX ⟨x, hx, hx0, (hkeys x hx).2⟩
      rw [hres, if_pos (by omega)]
      have hk0 : bm.mgmtData.frames[0 + k]? = some f := by simpa using hk
      refine ⟨0 + k, _, f, resetFrame f, rfl, hk0, ?_, Or.inr rfl⟩
      show (modFrame bm.mgmtData.frames _ resetFrame)[0 + k]? = _
      rw [getElem?_modFrame]
      simp [hk]

theorem hitUpdate_keeps (s : ReplacementStrategy) (a : Int) (f : Frame) :
    (hitUpdate s a f).pageNum = f.pageNum ∧ (hitUpdate s a f).data = f.data ∧
    (hitUpdate s a f).dirty = f.dirty ∧ (hitUpdate s a f).fixCount = f.fixCount := by
  cases s <;> simp [hitUpdate]

theorem rc_write_ne_ok : RC_WRITE_FAILED ≠ RC_OK := by decide

theorem rc_nofree_ne_ok : RC_NO_FREE_BUFFER_ERROR ≠ RC_OK := by decide

theorem grow_read_zero (file : List PageData) (total p : Int) (d : PageData)
    (hsync : total = (file.length : Int)) (hp : total ≤ p) :
    ((file ++ List.replicate (p + 1 - total).toNat zeroPage)[p.toNat]?).getD d = zeroPage := by
  rw [List.getElem?_append_right (by omega), List.getElem?_replicate, if_pos (by omega)]
  rfl

/-- What a load past the end of the file leaves. -/
theorem pinPageLoad_grow_effect (bm : BM_BufferPool) (page : BM_PageHandle) (p : Int)
    (v : Nat) (fr : Frame) (hm : bm.mgmtData.fh.mgmtInfo = true)
    (hsync : FileSync bm.mgmtData.fh) (hge : bm.mgmtData.fh.totalNumPages ≤ p)
    (hv : v < bm.mgmtData.frames.length) :
    ∃ bm1, pinPageLoad bm page p v fr = (RC_OK, bm1, { pageNum := p, data := some v }) ∧
      bm1.mgmtData.fh.file = bm.mgmtData.fh.file ++
        List.replicate (p + 1 - bm.mgmtData.fh.totalNumPages).toNat zeroPage ∧
      bm1.mgmtData.fh.totalNumPages = p + 1 ∧
      bm1.mgmtData.readIO = bm.mgmtData.readIO + 1 ∧
      bm1.mgmtData.writeIO = bm.mgmtData.writeIO ∧
      ∃ f1, bm1.mgmtData.frames[v]? = some f1 ∧ f1.pageNum = p ∧ f1.data = zeroPage ∧
        f1.fixCount = 1 ∧ f1.dirty = false := by
  unfold FileSync at hsync
  have h0 : 0 ≤ p := by omega
  rw [pinPageLoad_grow _ _ _ _ _ hm h0 hge, grow_read_zero _ _ _ _ hsync hge]
  unfold pinPageInstall
  have hk := loadUpdate_keeps bm.strategy bm.mgmtData.accessCounter
    { fr with data := zeroPage, pageNum := p, fixCount := 1, dirty := false }
  exact ⟨_, rfl, rfl, rfl, rfl, rfl, _, List.getElem?_set_self hv, hk.1, hk.2.1, hk.2.2.2,
    hk.2.2.1⟩

/-- With every frame pinned the search keeps the start value of its index variable. -/
theorem scanMin_all_pinned (key : Frame → Int) (frames : List Frame) (i : Nat)
    (best least : Int) (h : ∀ f ∈ frames, f.fixCount ≠ 0) :
    scanMin key frames i best least = best := by
  induction frames generalizing i with
  | nil => rfl
  | cons f fs ih =>
    unfold scanMin
    rw [if_neg (fun hc => h f (List.mem_cons_self f fs) hc.1)]
    exact ih _ (fun g hg => h g (List.mem_cons_of_mem f hg))

/-- Under every strategy but FIFO, a frame index that `selectVictim` returns names a
frame whose fix count was 0. -/
theorem selectVictim_unpinned_of_ne_fifo (fuel : Nat) (bm bmv : BM_BufferPool) (v : Nat)
    (hs : bm.strategy ≠ RS_FIFO)
    (h : selectVictim fuel bm = some ((v : Int), bmv)) :
    ∃ f, bm.mgmtData.frames[v]? = some f ∧ f.fixCount = 0 := by
  unfold selectVictim at h
  cases he : findEmptyFrom bm.mgmtData.frames 0 with
  | some i =>
    obtain ⟨k, f, hik, hk, _, hfix, _⟩ := findEmptyFrom_some _ _ _ he
    simp only [he, Option.some.injEq, Prod.mk.injEq] at h
    have : v = k := by omega
    subst this
    exact ⟨f, hk, hfix⟩
  | none =>
    simp only [he] at h
    cases hst : bm.strategy with
    | RS_FIFO => exact absurd hst hs
    | RS_LRU =>
      simp only [hst, selectLRUVictim, Option.some.injEq, Prod.mk.injEq] at h
      rcases scanMin_range (fun f => f.lastTwo1) bm.mgmtData.frames 0 (-1) INT_MAX with
        hm | ⟨k, f, hk, hfix, hres⟩
      · omega
      · have : v = k := by omega
        subst this
        exact ⟨f, hk, hfix⟩
    | RS_LRU_K =>
      simp only [hst, Option.some.injEq, Prod.mk.injEq] at h
      rcases scanMin_range (fun f => f.lastTwo1) bm.mgmtData.frames 0 (-1) INT_MAX with
        hm | ⟨k, f, hk, hfix, hres⟩
      · omega
      · have : v = k := by omega
        subst this
        exact ⟨f, hk, hfix⟩
    | RS_CLOCK =>
      simp only [hst] at h
      cases hc : clockSweep fuel bm.numPages bm.mgmtData.frames bm.mgmtData.clock_hand with
      | none => simp [hc] at h
      | some r =>
        obtain ⟨frames1, hand1, w⟩ := r
        simp only [hc, Option.some.injEq, Prod.mk.injEq] at h
        obtain ⟨_, _, _, ⟨f, hf, hfix, _⟩, _⟩ := clockSweep_effect _ _ _ _ _ _ _ hc
        have : w = v := by omega
        subst this
        exact ⟨f, hf, hfix⟩
    | RS_LFU =>
      simp only [hst] at h
      rcases scanMin_range (fun f => f.accessCount) (bm.mgmtData.frames.take bm.numPages)
        0 (-1) INT_MAX with hm | ⟨k, f, hk, hfix, hres⟩
      · rw [hm] at h
        simp only [ne_eq, not_true_eq_false, if_false, Option.some.injEq, Prod.mk.injEq] at h
        omega
      · rw [hres, if_pos (by omega)] at h
        simp only [Option.some.injEq, Prod.mk.injEq] at h
        have : v = k := by omega
        subst this
        rw [List.getElem?_take] at hk
        split at hk
        · exact ⟨f, hk, hfix⟩
        · cases hk

/-- Under LRU, LRU-K and LFU, a `pinPage` of a page that no frame holds returns
`RC_NO_FREE_BUFFER_ERROR` when every frame is pinned. -/
theorem pinPage_all_pinned_no_free_buffer (fuel : Nat) (bm : BM_BufferPool)
    (page : BM_PageHandle) (p : Int)
    (hs : bm.strategy = RS_LRU ∨ bm.strategy = RS_LRU_K ∨ bm.strategy = RS_LFU)
    (hmiss : ∀ f ∈ bm.mgmtData.frames, f.pageNum ≠ p)
    (hpinned : ∀ f ∈ bm.mgmtData.frames, f.fixCount > 0) :
    pinPage fuel bm page p = some (RC_NO_FREE_BUFFER_ERROR, bm.countAccess, page) := by
  have hfind : findFrame bm p = -1 := findFrame_eq_neg_one bm p hmiss
  have hne : ∀ f ∈ bm.countAccess.mgmtData.frames, f.fixCount ≠ 0 := by
    intro f hf
    have := hpinned f hf
    omega
  have hempty : findEmptyFrom bm.countAccess.mgmtData.frames 0 = none := by
    cases he : findEmptyFrom bm.countAccess.mgmtData.frames 0 with
    | none => rfl
    | some i =>
      obtain ⟨k, f, _, hk, _, hfix, _⟩ := findEmptyFrom_some _ _ _ he
      exact absurd hfix (hne f (List.getElem?_mem hk))
  have hsv : selectVictim fuel bm.countAccess = some (-1, bm.countAccess) := by
    unfold selectVictim
    rw [hempty]
    have hst : bm.countAccess.strategy = bm.strategy := rfl
    rcases hs with h | h | h
    · simp only [hst, h, selectLRUVictim]
      rw [scanMin_all_pinned _ _ _ _ _ hne]
    · simp only [hst, h]
      rw [scanMin_all_pinned _ _ _ _ _ hne]
    · simp only [hst, h]
      rw [scanMin_all_pinned _ _ _ _ _
        (fun f hf => hne f (List.mem_of_mem_take hf))]
      simp
  unfold pinPage
  simp only [hfind, ne_eq, not_true_eq_false, if_false, hsv]
  rw [if_pos (Or.inl (by decide))]

/-- The code of `unpinPage` when no frame holds the page number of the handle. -/
theorem unpinPage_not_held (bm : BM_BufferPool) (page : BM_PageHandle)
    (hmiss : ∀ f ∈ bm.mgmtData.frames, f.pageNum ≠ page.pageNum) :
    unpinPage bm page = (RC_PAGE_NOT_FOUND, bm) := by
  unfold unpinPage
  simp only [findFrame_eq_neg_one bm page.pageNum hmiss, if_true]

/-- The effect of `unpinPage` when some frame holds the page number of the handle: the
first such frame loses one pin if it has one, nothing else changes. -/
theorem unpinPage_held (bm : BM_BufferPool) (page : BM_PageHandle)
    (hres : ∃ f ∈ bm.mgmtData.frames, f.pageNum = page.pageNum) :
    ∃ (i : Nat) (f : Frame), bm.mgmtData.frames[i]? = some f ∧ f.pageNum = page.pageNum ∧
      unpinPage bm page = (RC_OK, bm.withFrames (bm.mgmtData.frames.set i
        (if f.fixCount > 0 then { f with fixCount := f.fixCount - 1 } else f))) := by
  rcases findFrameFrom_spec bm.mgmtData.frames 0 page.pageNum with
    ⟨_, hno⟩ | ⟨k, f, hk, hf, hfind, _⟩
  · obtain ⟨f, hmem, hf⟩ := hres
    exact absurd hf (hno f hmem)
  · have hfind2 : findFrame bm page.pageNum = (k : Int) := by
      unfold findFrame
      rw [hfind]
      simp
    refine ⟨k, f, hk, hf, ?_⟩
    unfold unpinPage
    simp only [hfind2, Int.toNat_ofNat]
    rw [if_neg (by omega)]
    unfold modFrame
    simp only [hk]

/-- The code of `markDirty` when no frame holds the page number of the handle. -/
theorem markDirty_not_held (bm : BM_BufferPool) (page : BM_PageHandle)
    (hmiss : ∀ f ∈ bm.mgmtData.frames, f.pageNum ≠ page.pageNum) :
    markDirty bm page = (RC_PAGE_NOT_FOUND, bm) := by
  unfold markDirty
  simp only [findFrame_eq_neg_one bm page.pageNum hmiss, if_true]

/-- The effect of `markDirty` when some frame holds the page number of the handle: the
first such frame becomes dirty, nothing else changes. -/
theorem markDirty_held (bm : BM_BufferPool) (page : BM_PageHandle)
    (hres : ∃ f ∈ bm.mgmtData.frames, f.pageNum = page.pageNum) :
    ∃ (i : Nat) (f : Frame), bm.mgmtData.frames[i]? = some f ∧ f.pageNum = page.pageNum ∧
      markDirty bm page = (RC_OK, bm.withFrames (bm.mgmtData.frames.set i
        { f with dirty := true })) := by
  rcases findFrameFrom_spec bm.mgmtData.frames 0 page.pageNum with
    ⟨_, hno⟩ | ⟨k, f, hk, hf, hfind, _⟩
  · obtain ⟨f, hmem, hf⟩ := hres
    exact absurd hf (hno f hmem)
  · have hfind2 : findFrame bm page.pageNum = (k : Int) := by
      unfold findFrame
      rw [hfind]
      simp
    refine ⟨k, f, hk, hf, ?_⟩
    unfold markDirty
    simp only [hfind2, Int.toNat_ofNat]
    rw [if_neg (by omega)]
    unfold modFrame
    simp only [hk]

/-- With every frame pinned the CLOCK sweep never reaches its `break`, whatever the
step budget. -/
theorem clockSweep_all_pinned (fuel numPages : Nat) (frames : List Frame) (hand : Nat)
    (hpinned : ∀ f ∈ frames, f.fixCount ≠ 0) :
    clockSweep fuel numPages frames hand = none := by
  induction fuel generalizing hand with
  | zero => rfl
  | succ fuel ih =>
    unfold clockSweep
    cases hf : frames[hand]? with
    | none => rfl
    | some f =>
      simp only []
      rw [if_neg (hpinned f (List.getElem?_mem hf))]
      exact ih _

/-- The result of the minimum search: either no frame with fix count 0 has a key below
the start value and the index variable keeps its start value, or the result is the
first frame that has the least key among the frames with fix count 0. -/
theorem scanMin_min (key : Frame → Int) (frames : List Frame) (i : Nat) (best least : Int) :
    (scanMin key frames i best least = best ∧
      ∀ f ∈ frames, f.fixCount = 0 → least ≤ key f) ∨
    (∃ k f, frames[k]? = some f ∧ f.fixCount = 0 ∧ key f < least ∧
      scanMin key frames i best least = ((i + k : Nat) : Int) ∧
      (∀ (j : Nat) (g : Frame), frames[j]? = some g → g.fixCount = 0 → key f ≤ key g) ∧
      (∀ j g, j < k → frames[j]? = some g → g.fixCount = 0 → key f < key g)) := by
  induction frames generalizing i best least with
  | nil => left; exact ⟨rfl, by simp⟩
  | cons f fs ih =>
    unfold scanMin
    by_cases hf : f.fixCount = 0 ∧ key f < least
    · rw [if_pos hf]
      right
      rcases ih (i + 1) i (key f) with ⟨h1, h2⟩ | ⟨k, g, hk, hg, hlt, hres, hmin, hfirst⟩
      · refine ⟨0, f, by simp, hf.1, hf.2, by rw [h1]; simp, ?_, ?_⟩
        · intro j g hj hg
          cases j with
          | zero =>
            simp at hj
            subst hj
            exact le_refl _
          | succ j =>
            simp at hj
            exact h2 g (List.getElem?_mem hj) hg
        · intro j g hj
          omega
      · refine ⟨k + 1, g, by simpa using hk, hg, by omega, by rw [hres]; push_cast; omega,
          ?_, ?_⟩
        · intro j g2 hj hg2
          cases j with
          | zero =>
            simp at hj
            subst hj
            omega
          | succ j =>
            simp at hj
            exact hmin j g2 hj hg2
        · intro j g2 hjk hj hg2
          cases j with
          | zero =>
            simp at hj
            subst hj
            exact hlt
          | succ j =>
            simp at hj
            exact hfirst j g2 (by omega) hj hg2
    · rw [if_neg hf]
      have hf2 : f.fixCount = 0 → least ≤ key f := by
        intro h0
        by_contra hc
        exact hf ⟨h0, by omega⟩
      rcases ih (i + 1) best least with ⟨h1, h2⟩ | ⟨k, g, hk, hg, hlt, hres, hmin, hfirst⟩
      · left
        refine ⟨h1, ?_⟩
        intro x hx hx0
        rcases List.mem_cons.mp hx with rfl | hx
        · exact hf2 hx0
        · exact h2 x hx hx0
      · right
        refine ⟨k + 1, g, by simpa using hk, hg, hlt, by rw [hres]; push_cast; omega, ?_, ?_⟩
        · intro j g2 hj hg2
          cases j with
          | zero =>
            simp at hj
            subst hj
            have := hf2 hg2
            omega
          | succ j =>
            simp at hj
            exact hmin j g2 hj hg2
        · intro j g2 hjk hj hg2
          cases j with
          | zero =>
            simp at hj
            subst hj
            have := hf2 hg2
            omega
          | succ j =>
            simp at hj
            exact hfirst j g2 (by omega) hj hg2

/-- The minimum search over frames of which one has fix count 0 and a key below
`INT_MAX`: the first frame with the least key among the frames with fix count 0. -/
theorem scanMin_victim (key : Frame → Int) (frames : List Frame) (best : Int)
    (hev : ∃ f ∈ frames, f.fixCount = 0 ∧ key f < INT_MAX) :
    ∃ (v : Nat) (f : Frame), frames[v]? = some f ∧ f.fixCount = 0 ∧
      scanMin key frames 0 best INT_MAX = (v : Int) ∧
      (∀ (j : Nat) (g : Frame), frames[j]? = some g → g.fixCount = 0 → key f ≤ key g) ∧
      (∀ j g, j < v → frames[j]? = some g → g.fixCount = 0 → key f < key g) := by
  rcases scanMin_min key frames 0 best INT_MAX with ⟨_, h2⟩ | ⟨k, f, hk, hf, _, hres, hmin, hfirst⟩
  · obtain ⟨x, hx, hx0, hxk⟩ := hev
    have := h2 x hx hx0
    omega
  · exact ⟨k, f, hk, hf, by rw [hres]; simp, hmin, hfirst⟩

theorem findEmptyFrom_eq_none (frames : List Frame) (i : Nat)
    (h : ∀ f ∈ frames, ¬ (f.pageNum = NO_PAGE ∧ f.fixCount = 0)) :
    findEmptyFrom frames i = none := by
  cases he : findEmptyFrom frames i with
  | none => rfl
  | some r =>
    obtain ⟨k, f, _, hk, h1, h2, _⟩ := findEmptyFrom_some _ _ _ he
    exact absurd ⟨h1, h2⟩ (h f (List.getElem?_mem hk))

/-- The index that `findFrame` returns is that of the first frame with the page
number. -/
theorem findFrame_eq_of_first (bm : BM_BufferPool) (p : Int) (i : Nat) (f : Frame)
    (hi : bm.mgmtData.frames[i]? = some f) (hp : f.pageNum = p)
    (hfirst : ∀ (j : Nat) (g : Frame), j < i → bm.mgmtData.frames[j]? = some g →
      g.pageNum ≠ p) :
    findFrame bm p = (i : Int) := by
  rcases findFrameFrom_spec bm.mgmtData.frames 0 p with ⟨_, hno⟩ | ⟨k, g, hk, hg, hfind, hmin⟩
  · exact absurd hp (hno f (List.getElem?_mem hi))
  · have hki : k = i := by
      rcases Nat.lt_trichotomy k i with h | h | h
      · exact absurd hg (hfirst k g h hk)
      · exact h
      · exact absurd hp (hmin i f h hi)
    subst hki
    unfold findFrame
    rw [hfind]
    simp

theorem getElem?_writeAt_self (file : List PageData) (n : Nat) (pg : PageData) :
    (writeAt file n pg)[n]? = some pg := by
  unfold writeAt
  split
  · rename_i h
    exact List.getElem?_set_self h
  · rename_i h
    have hlen : (file ++ List.replicate (n - file.length) zeroPage).length = n := by
      rw [List.length_append, List.length_replicate]
      omega
    rw [List.getElem?_append_right (by omega), hlen]
    simp

theorem getElem?_writeAt_ne (file : List PageData) (n m : Nat) (pg : PageData)
    (hn : n < file.length) (hm : n ≠ m) : (writeAt file n pg)[m]? = file[m]? := by
  unfold writeAt
  rw [if_pos hn, List.getElem?_set_ne hm]

theorem writeBlock_ok (q : Int) (fh : SM_FileHandle) (d : PageData)
    (hm : fh.mgmtInfo = true) (h0 : 0 ≤ q) (h1 : q < fh.totalNumPages) :
    writeBlock q fh d =
      (RC_OK, { fh with curPagePos := q, file := writeAt fh.file q.toNat d }) := by
  unfold writeBlock
  rw [if_neg]
  simp only [hm, not_or]
  exact ⟨by simp, by omega, by omega⟩

theorem writeBlock_cases (q : Int) (fh : SM_FileHandle) (d : PageData) :
    writeBlock q fh d = (RC_WRITE_FAILED, fh) ∨
    writeBlock q fh d =
      (RC_OK, { fh with curPagePos := q, file := writeAt fh.file q.toNat d }) := by
  unfold writeBlock
  split
  · left; rfl
  · right; rfl

/-- The effect of `forcePage` in terms of the frame that `findFrame` names. -/
theorem forcePage_first (bm : BM_BufferPool) (page : BM_PageHandle) (i : Nat) (f : Frame)
    (hi : bm.mgmtData.frames[i]? = some f) (hp : f.pageNum = page.pageNum)
    (hfirst : ∀ (j : Nat) (g : Frame), j < i → bm.mgmtData.frames[j]? = some g →
      g.pageNum ≠ page.pageNum) :
    forcePage bm page =
      if f.dirty = true then
        if (writeBlock f.pageNum bm.mgmtData.fh f.data).1 ≠ RC_OK then
          (RC_WRITE_FAILED, bm.withFh (writeBlock f.pageNum bm.mgmtData.fh f.data).2)
        else
          (RC_OK,
            { bm with mgmtData :=
                { bm.mgmtData with
                    fh := (writeBlock f.pageNum bm.mgmtData.fh f.data).2,
                    writeIO := bm.mgmtData.writeIO + 1,
                    frames := bm.mgmtData.frames.set i { f with dirty := false } } })
      else (RC_OK, bm) := by
  unfold forcePage
  simp only [findFrame_eq_of_first bm page.pageNum i f hi hp hfirst, Int.toNat_ofNat, hi]
  rw [if_neg (by omega)]

theorem forceFlushLoop_cons_flushed (f : Frame) (fs : List Frame) (fh : SM_FileHandle)
    (w : Int) (h : f.dirty = true ∧ f.fixCount = 0) :
    forceFlushLoop (f :: fs) fh w =
      ({ f with dirty := false } ::
          (forceFlushLoop fs (writeBlock f.pageNum fh f.data).2 (w + 1)).1,
        (forceFlushLoop fs (writeBlock f.pageNum fh f.data).2 (w + 1)).2.1,
        (forceFlushLoop fs (writeBlock f.pageNum fh f.data).2 (w + 1)).2.2) := by
  rw [forceFlushLoop, if_pos h]

theorem forceFlushLoop_cons_kept (f : Frame) (fs : List Frame) (fh : SM_FileHandle)
    (w : Int) (h : ¬ (f.dirty = true ∧ f.fixCount = 0)) :
    forceFlushLoop (f :: fs) fh w =
      (f :: (forceFlushLoop fs fh w).1, (forceFlushLoop fs fh w).2.1,
        (forceFlushLoop fs fh w).2.2) := by
  rw [forceFlushLoop, if_neg h]

theorem Frame.flushed_iff (f : Frame) :
    f.flushed = true ↔ f.dirty = true ∧ f.fixCount = 0 := by
  unfold Frame.flushed
  simp

/-- The frames and the write counter after the loop of `forceFlushPool`, whatever
`writeBlock` returns: the frames that were dirty with fix count 0 are clean, each of
them is counted as one write, and no other frame has changed. -/
theorem forceFlushLoop_frames (fs : List Frame) (fh : SM_FileHandle) (w : Int) :
    (forceFlushLoop fs fh w).1 =
      fs.map (fun f => if f.flushed = true then { f with dirty := false } else f) ∧
    (forceFlushLoop fs fh w).2.2 = w + (fs.countP (fun f => f.flushed) : Nat) := by
  induction fs generalizing fh w with
  | nil => simp [forceFlushLoop]
  | cons f fs ih =>
    by_cases h : f.dirty = true ∧ f.fixCount = 0
    · have hfl : f.flushed = true := (Frame.flushed_iff f).mpr h
      rw [forceFlushLoop_cons_flushed f fs fh w h]
      obtain ⟨h1, h2⟩ := ih (writeBlock f.pageNum fh f.data).2 (w + 1)
      refine ⟨?_, ?_⟩
      · simp only [List.map_cons, hfl, if_true, h1]
      · simp only [h2, List.countP_cons, hfl, if_true]
        push_cast
        omega
    · have hfl : ¬ f.flushed = true := fun hc => h ((Frame.flushed_iff f).mp hc)
      rw [forceFlushLoop_cons_kept f fs fh w h]
      obtain ⟨h1, h2⟩ := ih fh w
      refine ⟨?_, ?_⟩
      · simp [hfl, h1]
      · simp [h2, List.countP_cons, hfl]

/-- The file after the loop of `forceFlushPool`, when the frames it writes hold pages
of the open file and no two of them the same page: the page of each written frame
holds the bytes of that frame, and every other page is as it was. -/
theorem forceFlushLoop_file (fs : List Frame) (fh : SM_FileHandle) (w : Int)
    (hm : fh.mgmtInfo = true) (hsync : FileSync fh)
    (hvalid : ∀ f ∈ fs, f.dirty = true → f.fixCount = 0 →
      0 ≤ f.pageNum ∧ f.pageNum < fh.totalNumPages)
    (hdist : DistinctPages fs) :
    (forceFlushLoop fs fh w).2.1.mgmtInfo = true ∧
    (forceFlushLoop fs fh w).2.1.totalNumPages = fh.totalNumPages ∧
    FileSync (forceFlushLoop fs fh w).2.1 ∧
    (∀ f ∈ fs, f.dirty = true → f.fixCount = 0 →
      (forceFlushLoop fs fh w).2.1.file[f.pageNum.toNat]? = some f.data) ∧
    (∀ q : Nat, (∀ f ∈ fs, f.dirty = true → f.fixCount = 0 → f.pageNum ≠ (q : Int)) →
      (forceFlushLoop fs fh w).2.1.file[q]? = fh.file[q]?) := by
  induction fs generalizing fh w with
  | nil => exact ⟨hm, rfl, hsync, by simp, fun q _ => rfl⟩
  | cons f fs ih =>
    unfold DistinctPages at hdist
    obtain ⟨hR, hP⟩ := List.pairwise_cons.mp hdist
    by_cases h : f.dirty = true ∧ f.fixCount = 0
    · rw [forceFlushLoop_cons_flushed f fs fh w h]
      obtain ⟨h0, h1⟩ := hvalid f (List.mem_cons_self f fs) h.1 h.2
      rw [writeBlock_ok _ _ _ hm h0 h1]
      have hlen : f.pageNum.toNat < fh.file.length := by
        unfold FileSync at hsync
        omega
      have hsync1 : FileSync
          { fh with curPagePos := f.pageNum,
                    file := writeAt fh.file f.pageNum.toNat f.data } := by
        unfold FileSync at hsync ⊢
        show fh.totalNumPages = _
        rw [length_writeAt _ _ _ hlen]
        exact hsync
      obtain ⟨i1, i2, i3, i4, i5⟩ := ih
        { fh with curPagePos := f.pageNum,
                  file := writeAt fh.file f.pageNum.toNat f.data } (w + 1) hm hsync1
        (fun g hg hd hf => hvalid g (List.mem_cons_of_mem f hg) hd hf) hP
      refine ⟨i1, i2, i3, ?_, ?_⟩
      · intro g hg hd hfx
        rcases List.mem_cons.mp hg with rfl | hg
        · rw [i5 g.pageNum.toNat ?_]
          · exact getElem?_writeAt_self _ _ _
          · intro x hx hxd hxf hxe
            have hx0 := (hvalid x (List.mem_cons_of_mem g hx) hxd hxf).1
            have hno := hR x hx (by omega)
            unfold NO_PAGE at hno
            omega
        · exact i4 g hg hd hfx
      · intro q hq
        rw [i5 q (fun g hg hd hf => hq g (List.mem_cons_of_mem f hg) hd hf)]
        have hfq := hq f (List.mem_cons_self f fs) h.1 h.2
        exact getElem?_writeAt_ne _ _ _ _ hlen (by omega)
    · rw [forceFlushLoop_cons_kept f fs fh w h]
      obtain ⟨i1, i2, i3, i4, i5⟩ := ih fh w hm hsync
        (fun g hg hd hf => hvalid g (List.mem_cons_of_mem f hg) hd hf) hP
      refine ⟨i1, i2, i3, ?_, ?_⟩
      · intro g hg hd hfx
        rcases List.mem_cons.mp hg with rfl | hg
        · exact absurd ⟨hd, hfx⟩ h
        · exact i4 g hg hd hfx
      · intro q hq
        exact i5 q (fun g hg hd hf => hq g (List.mem_cons_of_mem f hg) hd hf)

theorem any_pinned_iff (frames : List Frame) :
    frames.any (fun f => decide (f.fixCount > 0)) = true ↔ ∃ f ∈ frames, f.fixCount > 0 := by
  simp [List.any_eq_true]

theorem forceFlushPool_rc (bm : BM_BufferPool) : (forceFlushPool bm).1 = RC_OK := rfl

/-- Under CLOCK a `pinPage` of a page that no frame holds never returns while every
frame is pinned, whatever the step budget of the sweep. -/
theorem pinPage_clock_all_pinned (fuel : Nat) (bm : BM_BufferPool) (page : BM_PageHandle)
    (p : Int) (hs : bm.strategy = RS_CLOCK)
    (hmiss : ∀ f ∈ bm.mgmtData.frames, f.pageNum ≠ p)
    (hpinned : ∀ f ∈ bm.mgmtData.frames, f.fixCount ≠ 0) :
    pinPage fuel bm page p = none := by
  have hsel : selectVictim fuel bm.countAccess = none := by
    unfold selectVictim
    have he : findEmptyFrom bm.countAccess.mgmtData.frames 0 = none :=
      findEmptyFrom_eq_none _ _ (fun f hf h => hpinned f hf h.2)
    rw [he]
    have hs2 : bm.countAccess.strategy = RS_CLOCK := hs
    simp only [hs2]
    have hc : clockSweep fuel bm.countAccess.numPages bm.countAccess.mgmtData.frames
        bm.countAccess.mgmtData.clock_hand = none :=
      clockSweep_all_pinned _ _ _ _ (fun f hf => hpinned f hf)
    rw [hc]
  unfold pinPage
  simp only [findFrame_eq_neg_one bm p hmiss, ne_eq, not_true_eq_false, if_false, hsel]

theorem clockPass_idem (f : Frame) : clockPass (clockPass f) = clockPass f := by
  unfold clockPass
  by_cases h : f.fixCount = 0 <;> simp [h]

theorem clockSweep_trace (n fuel : Nat) : ∀ (frames : List Frame) (hand : Nat)
    (frames1 : List Frame) (hand1 v : Nat),
    frames.length = n → hand < n →
    clockSweep fuel n frames hand = some (frames1, hand1, v) →
    ∃ k, k < fuel ∧ v = (hand + k) % n ∧
      (∀ j, j < k → ∀ f, frames[(hand + j) % n]? = some f →
        f.fixCount ≠ 0 ∨ f.useBit ≠ 0) ∧
      (∃ fv, frames[v]? = some fv ∧ fv.fixCount = 0 ∧
        (fv.useBit = 0 ∨ ∃ j, j < k ∧ (hand + j) % n = v)) ∧
      (∀ (i : Nat) (f : Frame), i ≠ v → frames[i]? = some f →
        ((∃ j, j < k ∧ (hand + j) % n = i) → frames1[i]? = some (clockPass f)) ∧
        ((¬ ∃ j, j < k ∧ (hand + j) % n = i) → frames1[i]? = some f)) := by
  induction fuel with
  | zero =>
    intro frames hand frames1 hand1 v _ _ h
    simp [clockSweep] at h
  | succ fuel ih =>
    intro frames hand frames1 hand1 v hn hhand h
    have hmod0 : (hand + 0) % n = hand := by simp [Nat.mod_eq_of_lt hhand]
    have hnext : (hand + 1) % n < n := Nat.mod_lt _ (by omega)
    have hshift : ∀ j, ((hand + 1) % n + j) % n = (hand + (j + 1)) % n := by
      intro j
      rw [Nat.mod_add_mod]
      congr 1
      omega
    obtain ⟨f, hf⟩ : ∃ f, frames[hand]? = some f := by
      have : hand < frames.length := by omega
      exact ⟨frames[hand], List.getElem?_eq_getElem this⟩
    unfold clockSweep at h
    simp only [hf] at h
    by_cases hfix : f.fixCount = 0
    · rw [if_pos hfix] at h
      by_cases hbit : f.useBit = 0
      · rw [if_pos hbit] at h
        simp only [Option.some.injEq, Prod.mk.injEq] at h
        obtain ⟨h1, h2, h3⟩ := h
        subst h3
        refine ⟨0, by omega, hmod0.symm, ?_, ⟨f, hf, hfix, Or.inl hbit⟩, ?_⟩
        · intro j hj
          omega
        · intro i g hi hg
          refine ⟨?_, ?_⟩
          · rintro ⟨j, hj, _⟩
            omega
          · intro _
            rw [← h1, getElem?_modFrame, if_neg (Ne.symm hi)]
            exact hg
      · rw [if_neg hbit] at h
        obtain ⟨k, hk, hv, hpass, ⟨fv, hfv, hfv0, hfvbit⟩, hrest⟩ :=
          ih (frames.set hand { f with useBit := 0 }) ((hand + 1) % n) frames1 hand1 v
            (by simp [hn]) hnext h
        have hset : ∀ i, i ≠ hand →
            (frames.set hand { f with useBit := 0 })[i]? = frames[i]? := by
          intro i hi
          rw [List.getElem?_set_ne (Ne.symm hi)]
        have hself : (frames.set hand { f with useBit := 0 })[hand]? =
            some { f with useBit := 0 } := by
          rw [List.getElem?_set_self (by omega)]
        refine ⟨k + 1, by omega, by rw [hv, hshift], ?_, ?_, ?_⟩
        · intro j hj g hg
          cases j with
          | zero =>
            rw [hmod0, hf] at hg
            cases hg
            exact Or.inr hbit
          | succ j =>
            by_cases hi : (hand + (j + 1)) % n = hand
            · rw [hi, hf] at hg
              cases hg
              exact Or.inr hbit
            · refine hpass j (by omega) g ?_
              rw [hshift, hset _ hi]
              exact hg
        · by_cases hvh : v = hand
          · subst hvh
            refine ⟨f, hf, hfix, Or.inr ⟨0, by omega, hmod0⟩⟩
          · refine ⟨fv, by rw [← hset v hvh]; exact hfv, hfv0, ?_⟩
            rcases hfvbit with hb | ⟨j, hj, hjv⟩
            · exact Or.inl hb
            · exact Or.inr ⟨j + 1, by omega, by rw [← hshift]; exact hjv⟩
        · intro i g hi hg
          by_cases hih : i = hand
          · have hih2 := hih.symm
            subst hih2
            rw [hf] at hg
            cases hg
            have hpf : clockPass f = { f with useBit := 0 } := by
              simp [clockPass, hfix]
            have hpf0 : clockPass { f with useBit := 0 } = { f with useBit := 0 } := by
              rw [← hpf, clockPass_idem]
            have hr := hrest hand { f with useBit := 0 } hi hself
            refine ⟨?_, ?_⟩
            · intro _
              by_cases hvis : ∃ j, j < k ∧ ((hand + 1) % n + j) % n = hand
              · rw [hr.1 hvis, hpf0, hpf]
              · rw [hr.2 hvis, hpf]
            · intro hno
              exact absurd ⟨0, by omega, hmod0⟩ hno
          · have hg2 : (frames.set hand { f with useBit := 0 })[i]? = some g := by
              rw [hset i hih]
              exact hg
            have hr := hrest i g hi hg2
            refine ⟨?_, ?_⟩
            · rintro ⟨j, hj, hji⟩
              cases j with
              | zero =>
                rw [hmod0] at hji
                exact absurd hji.symm hih
              | succ j =>
                exact hr.1 ⟨j, by omega, by rw [hshift]; exact hji⟩
            · intro hno
              refine hr.2 ?_
              rintro ⟨j, hj, hji⟩
              exact hno ⟨j + 1, by omega, by rw [← hshift]; exact hji⟩
    · rw [if_neg hfix] at h
      obtain ⟨k, hk, hv, hpass, ⟨fv, hfv, hfv0, hfvbit⟩, hrest⟩ :=
        ih frames ((hand + 1) % n) frames1 hand1 v hn hnext h
      refine ⟨k + 1, by omega, by rw [hv, hshift], ?_, ?_, ?_⟩
      · intro j hj g hg
        cases j with
        | zero =>
          rw [hmod0, hf] at hg
          cases hg
          exact Or.inl hfix
        | succ j =>
          refine hpass j (by omega) g ?_
          rw [hshift]
          exact hg
      · refine ⟨fv, hfv, hfv0, ?_⟩
        rcases hfvbit with hb | ⟨j, hj, hjv⟩
        · exact Or.inl hb
        · exact Or.inr ⟨j + 1, by omega, by rw [← hshift]; exact hjv⟩
      · intro i g hi hg
        have hr := hrest i g hi hg
        refine ⟨?_, ?_⟩
        · rintro ⟨j, hj, hji⟩
          cases j with
          | zero =>
            rw [hmod0] at hji
            subst hji
            rw [hf] at hg
            cases hg
            have hpf : clockPass f = f := by simp [clockPass, hfix]
            by_cases hvis : ∃ j, j < k ∧ ((hand + 1) % n + j) % n = hand
            · rw [hr.1 hvis]
            · rw [hr.2 hvis, hpf]
          | succ j =>
            exact hr.1 ⟨j, by omega, by rw [hshift]; exact hji⟩
        · intro hno
          refine hr.2 ?_
          rintro ⟨j, hj, hji⟩
          exact hno ⟨j + 1, by omega, by rw [← hshift]; exact hji⟩

theorem Frame.keeps_refl (f : Frame) : f.Keeps f := ⟨Or.inl rfl, fun h => h⟩

theorem Frame.keeps_of_eq (f g : Frame) (h1 : g.pageNum = f.pageNum)
    (h2 : g.fixCount = f.fixCount) : f.Keeps g :=
  ⟨Or.inl h1, fun h => by omega⟩

theorem Frame.keeps_trans {f g h : Frame} (h1 : f.Keeps g) (h2 : g.Keeps h) : f.Keeps h := by
  refine ⟨?_, fun h0 => h2.2 (h1.2 h0)⟩
  rcases h2.1 with e | e
  · rcases h1.1 with e1 | e1
    · exact Or.inl (e.trans e1)
    · exact Or.inr (e.trans e1)
  · exact Or.inr e

theorem Frame.keeps_resetFrame (f : Frame) : f.Keeps (resetFrame f) :=
  ⟨Or.inr rfl, fun _ => by simp [resetFrame]⟩

theorem keepsAll_refl (fs : List Frame) : KeepsAll fs fs := by
  refine ⟨rfl, ?_⟩
  intro i f g hf hg
  rw [hf] at hg
  cases hg
  exact f.keeps_refl

theorem keepsAll_trans {fs gs hs : List Frame} (h1 : KeepsAll fs gs) (h2 : KeepsAll gs hs) :
    KeepsAll fs hs := by
  refine ⟨h2.1.trans h1.1, ?_⟩
  intro i f h hf hh
  have hi : i < gs.length := by
    rw [h1.1]
    exact (List.getElem?_eq_some.mp hf).1
  have hg : gs[i]? = some gs[i] := List.getElem?_eq_getElem hi
  exact Frame.keeps_trans (h1.2 i f _ hf hg) (h2.2 i _ h hg hh)

theorem keepsAll_set (fs gs : List Frame) (v : Nat) (g : Frame) (h : KeepsAll fs gs)
    (hg : ∀ f : Frame, gs[v]? = some f → f.Keeps g) : KeepsAll fs (gs.set v g) := by
  refine keepsAll_trans h ⟨by simp, ?_⟩
  intro i f g2 hf hg2
  by_cases hi : v = i
  · subst hi
    have hlt : v < gs.length := (List.getElem?_eq_some.mp hf).1
    rw [List.getElem?_set_self hlt] at hg2
    cases hg2
    exact hg f hf
  · rw [List.getElem?_set_ne hi, hf] at hg2
    cases hg2
    exact f.keeps_refl

theorem keepsAll_modFrame (fs : List Frame) (i : Nat) (g : Frame → Frame)
    (hg : ∀ f : Frame, f.Keeps (g f)) : KeepsAll fs (modFrame fs i g) := by
  refine ⟨length_modFrame _ _ _, ?_⟩
  intro j f g2 hf hg2
  rw [getElem?_modFrame] at hg2
  by_cases hij : i = j
  · rw [if_pos hij, hf] at hg2
    cases hg2
    exact hg f
  · rw [if_neg hij, hf] at hg2
    cases hg2
    exact f.keeps_refl

theorem keepsAll_map (fs : List Frame) (g : Frame → Frame) (hg : ∀ f : Frame, f.Keeps (g f)) :
    KeepsAll fs (fs.map g) := by
  refine ⟨by simp, ?_⟩
  intro i f g2 hf hg2
  rw [List.getElem?_map, hf] at hg2
  cases hg2
  exact hg f

theorem installs_set (p : Int) (fs gs : List Frame) (v : Nat) (g : Frame)
    (h : KeepsAll fs gs) (hmiss : ∀ x ∈ fs, x.pageNum ≠ p) (hp : g.pageNum = p)
    (hfix : 0 ≤ g.fixCount) : Installs p fs (gs.set v g) := by
  refine ⟨by simp [h.1], hmiss, v, ?_⟩
  intro i f g2 hf hg2
  by_cases hi : v = i
  · subst hi
    have hlt : v < gs.length := by
      rw [h.1]
      exact (List.getElem?_eq_some.mp hf).1
    rw [List.getElem?_set_self hlt] at hg2
    cases hg2
    exact Or.inl ⟨rfl, hp, hfix⟩
  · rw [List.getElem?_set_ne hi] at hg2
    exact Or.inr ⟨fun e => hi e.symm, h.2 i f g2 hf hg2⟩

/-- The frames after a CLOCK sweep. -/
theorem clockSweep_keeps (fuel numPages : Nat) (frames : List Frame) (hand : Nat)
    (frames1 : List Frame) (hand1 v : Nat)
    (h : clockSweep fuel numPages frames hand = some (frames1, hand1, v)) :
    KeepsAll frames frames1 := by
  obtain ⟨hlen, _, _, ⟨fv, hfv, hfv0, hfv1⟩, hrest⟩ :=
    clockSweep_effect fuel numPages frames hand frames1 hand1 v h
  refine ⟨hlen, ?_⟩
  intro i f g hf hg
  by_cases hi : i = v
  · subst hi
    rw [hfv1] at hg
    cases hg
    exact ⟨Or.inr rfl, fun _ => by simp [resetFrame]⟩
  · obtain ⟨g2, hg2, hs⟩ := hrest i f hi hf
    rw [hg2] at hg
    cases hg
    exact Frame.keeps_of_eq _ _ hs.1 hs.2.2.1

/-- The frames after `selectVictim`. -/
theorem selectVictim_keeps (fuel : Nat) (bm bm1 : BM_BufferPool) (v : Int)
    (h : selectVictim fuel bm = some (v, bm1)) :
    KeepsAll bm.mgmtData.frames bm1.mgmtData.frames := by
  unfold selectVictim at h
  split at h
  · simp only [Option.some.injEq, Prod.mk.injEq] at h
    rw [← h.2]
    exact keepsAll_refl _
  · split at h
    · simp only [Option.some.injEq, Prod.mk.injEq] at h
      rw [← h.2]
      exact keepsAll_refl _
    · simp only [Option.some.injEq, Prod.mk.injEq] at h
      rw [← h.2]
      exact keepsAll_refl _
    · simp only [Option.some.injEq, Prod.mk.injEq] at h
      rw [← h.2]
      exact keepsAll_refl _
    · split at h
      · simp at h
      · rename_i frames1 hand1 v1 hsweep
        simp only [Option.some.injEq, Prod.mk.injEq] at h
        rw [← h.2]
        exact clockSweep_keeps _ _ _ _ _ _ _ hsweep
    · simp only at h
      split at h
      · simp only [Option.some.injEq, Prod.mk.injEq] at h
        rw [← h.2]
        exact keepsAll_modFrame _ _ _ Frame.keeps_resetFrame
      · simp only [Option.some.injEq, Prod.mk.injEq] at h
        rw [← h.2]
        exact keepsAll_refl _

/-- The frames after a load into frame `v`: as they were, or with frame `v` replaced by
a frame that holds its old page or the new page with one pin. -/
theorem pinPageLoad_step (bm : BM_BufferPool) (page : BM_PageHandle) (p : Int) (v : Nat)
    (fr : Frame) (rc : RC) (bm1 : BM_BufferPool) (h1 : BM_PageHandle)
    (h : pinPageLoad bm page p v fr = (rc, bm1, h1)) :
    bm1.mgmtData.frames = bm.mgmtData.frames ∨
    ∃ g : Frame, bm1.mgmtData.frames = bm.mgmtData.frames.set v g ∧
      (fr.Keeps g ∨ (g.pageNum = p ∧ g.fixCount = 1)) := by
  have hinst : ∀ (fh : SM_FileHandle) (buf : PageData),
      pinPageInstall bm p v fr fh buf = (rc, bm1, h1) →
      ∃ g : Frame, bm1.mgmtData.frames = bm.mgmtData.frames.set v g ∧
        (fr.Keeps g ∨ (g.pageNum = p ∧ g.fixCount = 1)) := by
    intro fh buf hi
    unfold pinPageInstall at hi
    simp only [Prod.mk.injEq] at hi
    refine ⟨_, by rw [← hi.2.1], Or.inr ⟨?_, ?_⟩⟩
    · rw [(loadUpdate_keeps _ _ _).1]
    · rw [(loadUpdate_keeps _ _ _).2.2.2]
  unfold pinPageLoad at h
  rcases hr : readBlock p bm.mgmtData.fh fr.data with ⟨rc1, fh1, buf1⟩
  simp only [hr] at h
  split at h
  · rcases he : ensureCapacity (p + 1) fh1 with ⟨rc2, fh2⟩
    simp only [he] at h
    split at h
    · simp only [Prod.mk.injEq] at h
      left
      rw [← h.2.1]
      rfl
    · rcases hr2 : readBlock p fh2 buf1 with ⟨rc3, fh3, buf3⟩
      simp only [hr2] at h
      split at h
      · simp only [Prod.mk.injEq] at h
        right
        refine ⟨{ fr with data := buf3 }, by rw [← h.2.1]; rfl, Or.inl ?_⟩
        exact Frame.keeps_of_eq _ _ rfl rfl
      · right
        exact hinst _ _ h
  · right
    exact hinst _ _ h

/-- The frames after `pinPage`: every frame keeps its page or is empty, except that a
page which no frame held may have been installed in one frame. -/
theorem pinPage_step (fuel : Nat) (bm : BM_BufferPool) (page : BM_PageHandle) (p : Int)
    (rc : RC) (bm1 : BM_BufferPool) (h1 : BM_PageHandle)
    (h : pinPage fuel bm page p = some (rc, bm1, h1)) :
    KeepsAll bm.mgmtData.frames bm1.mgmtData.frames ∨
    Installs p bm.mgmtData.frames bm1.mgmtData.frames := by
  unfold pinPage at h
  by_cases hfind : findFrame bm p = -1
  · have hmiss : ∀ f ∈ bm.mgmtData.frames, f.pageNum ≠ p := by
      rcases findFrameFrom_spec bm.mgmtData.frames 0 p with ⟨_, hno⟩ | ⟨k, f, _, _, hres, _⟩
      · exact hno
      · unfold findFrame at hfind
        rw [hres] at hfind
        omega
    simp only [hfind, ne_eq, not_true_eq_false, if_false] at h
    rcases hsel : selectVictim fuel bm.countAccess with _ | ⟨vi, bmv⟩
    · simp [hsel] at h
    · have hk : KeepsAll bm.mgmtData.frames bmv.mgmtData.frames :=
        selectVictim_keeps fuel bm.countAccess bmv vi hsel
      simp only [hsel] at h
      split at h
      · simp only [Option.some.injEq, Prod.mk.injEq] at h
        left
        rw [← h.2.1]
        exact hk
      · rcases hfr : bmv.mgmtData.frames[vi.toNat]? with _ | fr
        · simp [hfr] at h
        · simp only [hfr] at h
          have hload : ∀ (bm2 : BM_BufferPool) (fr1 : Frame),
              KeepsAll bm.mgmtData.frames bm2.mgmtData.frames →
              bm2.mgmtData.frames[vi.toNat]? = some fr1 →
              pinPageLoad bm2 page p vi.toNat fr1 = (rc, bm1, h1) →
              KeepsAll bm.mgmtData.frames bm1.mgmtData.frames ∨
              Installs p bm.mgmtData.frames bm1.mgmtData.frames := by
            intro bm2 fr1 hk2 hfr1 hl
            rcases pinPageLoad_step bm2 page p vi.toNat fr1 rc bm1 h1 hl with
              he | ⟨g, hg, hkeep | ⟨hgp, hgf⟩⟩
            · left
              rw [he]
              exact hk2
            · left
              rw [hg]
              refine keepsAll_set _ _ _ _ hk2 ?_
              intro f hf
              rw [hfr1] at hf
              cases hf
              exact hkeep
            · right
              rw [hg]
              exact installs_set p _ _ _ _ hk2 hmiss hgp (by omega)
          split at h
          · rcases hw : writeBlock fr.pageNum bmv.mgmtData.fh fr.data with ⟨rcw, fhw⟩
            simp only [hw] at h
            split at h
            · simp only [Option.some.injEq, Prod.mk.injEq] at h
              left
              rw [← h.2.1]
              exact hk
            · simp only [Option.some.injEq] at h
              refine hload _ _ ?_ ?_ h
              · refine keepsAll_set _ _ _ _ hk ?_
                intro f hf
                rw [hfr] at hf
                cases hf
                exact Frame.keeps_of_eq _ _ rfl rfl
              · have hlt : vi.toNat < bmv.mgmtData.frames.length :=
                  (List.getElem?_eq_some.mp hfr).1
                exact List.getElem?_set_self hlt
          · simp only [Option.some.injEq] at h
            exact hload _ _ hk hfr h
  · simp only [ne_eq, hfind, not_false_eq_true, if_true, Option.some.injEq,
      Prod.mk.injEq] at h
    left
    rw [← h.2.1]
    refine keepsAll_modFrame _ _ _ ?_
    intro f
    refine ⟨Or.inl ?_, fun h0 => ?_⟩
    · rw [(hitUpdate_keeps _ _ _).1]
    · rw [(hitUpdate_keeps _ _ _).2.2.2]
      show 0 ≤ f.fixCount + 1
      omega

theorem distinctPages_iff (fs : List Frame) :
    DistinctPages fs ↔
      ∀ (i j : Nat) (f g : Frame), i ≠ j → fs[i]? = some f → fs[j]? = some g →
        f.pageNum = g.pageNum → f.pageNum = NO_PAGE := by
  unfold DistinctPages
  rw [List.pairwise_iff_getElem]
  constructor
  · intro h i j f g hij hf hg he
    obtain ⟨hi, hfi⟩ := List.getElem?_eq_some.mp hf
    obtain ⟨hj, hgj⟩ := List.getElem?_eq_some.mp hg
    rcases Nat.lt_or_gt_of_ne hij with hlt | hgt
    · have := h i j hi hj hlt
      rw [hfi, hgj] at this
      exact this he
    · have := h j i hj hi hgt
      rw [hfi, hgj] at this
      rw [he]
      exact this he.symm
  · intro h i j hi hj hlt
    exact h i j _ _ (by omega) (List.getElem?_eq_getElem hi) (List.getElem?_eq_getElem hj)

theorem distinctPages_of_keepsAll (fs gs : List Frame) (h : DistinctPages fs)
    (hk : KeepsAll fs gs) : DistinctPages gs := by
  rw [distinctPages_iff] at h ⊢
  intro i j f g hij hf hg he
  have hi : i < fs.length := by
    rw [← hk.1]
    exact (List.getElem?_eq_some.mp hf).1
  have hj : j < fs.length := by
    rw [← hk.1]
    exact (List.getElem?_eq_some.mp hg).1
  have h1 := (hk.2 i _ f (List.getElem?_eq_getElem hi) hf).1
  have h2 := (hk.2 j _ g (List.getElem?_eq_getElem hj) hg).1
  rcases h1 with h1 | h1
  · rcases h2 with h2 | h2
    · rw [h1]
      exact h i j _ _ hij (List.getElem?_eq_getElem hi) (List.getElem?_eq_getElem hj)
        (by rw [← h1, ← h2, he])
    · rw [he, h2]
  · exact h1

theorem distinctPages_of_installs (p : Int) (fs gs : List Frame) (h : DistinctPages fs)
    (hk : Installs p fs gs) : DistinctPages gs := by
  obtain ⟨hlen, hmiss, v, hstep⟩ := hk
  rw [distinctPages_iff] at h ⊢
  intro i j f g hij hf hg he
  have hi : i < fs.length := by
    rw [← hlen]
    exact (List.getElem?_eq_some.mp hf).1
  have hj : j < fs.length := by
    rw [← hlen]
    exact (List.getElem?_eq_some.mp hg).1
  have hfi := List.getElem?_eq_getElem hi
  have hgj := List.getElem?_eq_getElem hj
  have hmi := hmiss _ (List.getElem?_mem hfi)
  have hmj := hmiss _ (List.getElem?_mem hgj)
  rcases hstep i _ f hfi hf with ⟨hiv, hfp, _⟩ | ⟨hiv, hkf⟩
  · rcases hstep j _ g hgj hg with ⟨hjv, _, _⟩ | ⟨_, hkg⟩
    · omega
    · rcases hkg.1 with e | e
      · exact absurd (by rw [← e, ← he, hfp]) hmj
      · rw [he, e]
  · rcases hstep j _ g hgj hg with ⟨_, hgp, _⟩ | ⟨_, hkg⟩
    · rcases hkf.1 with e | e
      · exact absurd (by rw [← e, he, hgp]) hmi
      · exact e
    · rcases hkf.1 with e1 | e1
      · rcases hkg.1 with e2 | e2
        · rw [e1]
          exact h i j _ _ hij hfi hgj (by rw [← e1, ← e2, he])
        · rw [he, e2]
      · exact e1

theorem fixCountsNonneg_of_keepsAll (fs gs : List Frame) (h : FixCountsNonneg fs)
    (hk : KeepsAll fs gs) : FixCountsNonneg gs := by
  intro g hg
  obtain ⟨i, hi, hgi⟩ := List.getElem_of_mem hg
  have hi2 : i < fs.length := by
    rw [← hk.1]
    exact hi
  have hfi := List.getElem?_eq_getElem hi2
  have hgi2 : gs[i]? = some g := by
    rw [List.getElem?_eq_getElem hi, hgi]
  exact (hk.2 i _ g hfi hgi2).2 (h _ (List.getElem?_mem hfi))

theorem fixCountsNonneg_of_installs (p : Int) (fs gs : List Frame) (h : FixCountsNonneg fs)
    (hk : Installs p fs gs) : FixCountsNonneg gs := by
  obtain ⟨hlen, _, v, hstep⟩ := hk
  intro g hg
  obtain ⟨i, hi, hgi⟩ := List.getElem_of_mem hg
  have hi2 : i < fs.length := by
    rw [← hlen]
    exact hi
  have hfi := List.getElem?_eq_getElem hi2
  have hgi2 : gs[i]? = some g := by
    rw [List.getElem?_eq_getElem hi, hgi]
  rcases hstep i _ g hfi hgi2 with ⟨_, _, h0⟩ | ⟨_, hkg⟩
  · exact h0
  · exact hkg.2 (h _ (List.getElem?_mem hfi))

theorem unpinPage_keeps (bm : BM_BufferPool) (page : BM_PageHandle) :
    KeepsAll bm.mgmtData.frames (unpinPage bm page).2.mgmtData.frames := by
  unfold unpinPage
  simp only
  split
  · exact keepsAll_refl _
  · refine keepsAll_modFrame _ _ _ ?_
    intro f
    by_cases hf : f.fixCount > 0
    · rw [if_pos hf]
      exact ⟨Or.inl rfl, fun _ => by show 0 ≤ f.fixCount - 1; omega⟩
    · rw [if_neg hf]
      exact f.keeps_refl

theorem markDirty_keeps (bm : BM_BufferPool) (page : BM_PageHandle) :
    KeepsAll bm.mgmtData.frames (markDirty bm page).2.mgmtData.frames := by
  unfold markDirty
  simp only
  split
  · exact keepsAll_refl _
  · exact keepsAll_modFrame _ _ _ (fun f => Frame.keeps_of_eq _ _ rfl rfl)

theorem forcePage_keeps (bm : BM_BufferPool) (page : BM_PageHandle) :
    KeepsAll bm.mgmtData.frames (forcePage bm page).2.mgmtData.frames := by
  unfold forcePage
  simp only
  split
  · exact keepsAll_refl _
  · split
    · exact keepsAll_refl _
    · rename_i frame hfr
      split
      · split
        · exact keepsAll_refl _
        · refine keepsAll_set _ _ _ _ (keepsAll_refl _) ?_
          intro f hf
          rw [hfr] at hf
          cases hf
          exact Frame.keeps_of_eq _ _ rfl rfl
      · exact keepsAll_refl _

theorem forceFlushPool_keeps (bm : BM_BufferPool) :
    KeepsAll bm.mgmtData.frames (forceFlushPool bm).2.mgmtData.frames := by
  have h : (forceFlushPool bm).2.mgmtData.frames =
      (forceFlushLoop bm.mgmtData.frames bm.mgmtData.fh bm.mgmtData.writeIO).1 := rfl
  rw [h, (forceFlushLoop_frames _ _ _).1]
  refine keepsAll_map _ _ ?_
  intro f
  split
  · exact Frame.keeps_of_eq _ _ rfl rfl
  · exact f.keeps_refl

theorem storeBytes_keeps (bm : BM_BufferPool) (page : BM_PageHandle) (bytes : PageData) :
    KeepsAll bm.mgmtData.frames (storeBytes bm page bytes).mgmtData.frames := by
  unfold storeBytes
  split
  · exact keepsAll_modFrame _ _ _ (fun f => Frame.keeps_of_eq _ _ rfl rfl)
  · exact keepsAll_refl _

/-- One step of a client leaves every frame with its page or empty, except that a
`pinPage` may install its page, which no frame held, in one frame. -/
theorem Client.call_step (c : Client) (x : Call) (rc : RC) (c1 : Client)
    (h : c.call x = some (rc, c1)) :
    KeepsAll c.bm.mgmtData.frames c1.bm.mgmtData.frames ∨
    ∃ p, Installs p c.bm.mgmtData.frames c1.bm.mgmtData.frames := by
  cases x with
  | pinPage fuel p =>
    simp only [Client.call, Option.map_eq_some'] at h
    obtain ⟨⟨rc0, bm0, h0⟩, hp, he⟩ := h
    simp only [Prod.mk.injEq] at he
    rw [← he.2]
    rcases pinPage_step fuel c.bm c.h p rc0 bm0 h0 hp with hk | hk
    · exact Or.inl hk
    · exact Or.inr ⟨p, hk⟩
  | unpinPage =>
    simp only [Client.call, Option.some.injEq, Prod.mk.injEq] at h
    rw [← h.2]
    exact Or.inl (unpinPage_keeps _ _)
  | markDirty =>
    simp only [Client.call, Option.some.injEq, Prod.mk.injEq] at h
    rw [← h.2]
    exact Or.inl (markDirty_keeps _ _)
  | forcePage =>
    simp only [Client.call, Option.some.injEq, Prod.mk.injEq] at h
    rw [← h.2]
    exact Or.inl (forcePage_keeps _ _)
  | forceFlushPool =>
    simp only [Client.call, Option.some.injEq, Prod.mk.injEq] at h
    rw [← h.2]
    exact Or.inl (forceFlushPool_keeps _)
  | setPageNum p =>
    simp only [Client.call, Option.some.injEq, Prod.mk.injEq] at h
    rw [← h.2]
    exact Or.inl (keepsAll_refl _)
  | store bytes =>
    simp only [Client.call, Option.some.injEq, Prod.mk.injEq] at h
    rw [← h.2]
    exact Or.inl (storeBytes_keeps _ _ _)

/-- A property of the frame array that the steps of a client preserve holds after a
run of the client. -/
theorem Client.run_invariant (P : List Frame → Prop)
    (hk : ∀ fs gs, P fs → KeepsAll fs gs → P gs)
    (hi : ∀ p fs gs, P fs → Installs p fs gs → P gs) :
    ∀ (calls : List Call) (c c1 : Client), P c.bm.mgmtData.frames →
      c.run calls = some c1 → P c1.bm.mgmtData.frames := by
  intro calls
  induction calls with
  | nil =>
    intro c c1 h0 hrun
    simp only [Client.run, Option.some.injEq] at hrun
    rw [← hrun]
    exact h0
  | cons x xs ih =>
    intro c c1 h0 hrun
    unfold Client.run at hrun
    rcases hc : c.call x with _ | ⟨rc, c2⟩
    · simp [hc] at hrun
    · simp only [hc] at hrun
      refine ih c2 c1 ?_ hrun
      rcases Client.call_step c x rc c2 hc with h1 | ⟨p, h1⟩
      · exact hk _ _ h0 h1
      · exact hi p _ _ h0 h1

/-- The pool of a descriptor that `initBufferPool` has filled in. -/
theorem initBufferPool_pool (disk : Disk) (framesAllocated : Bool) (d : PoolDescriptor)
    (pageFileName : String) (n : Nat) (strategy : ReplacementStrategy) (d1 : PoolDescriptor)
    (bm : BM_BufferPool)
    (h : initBufferPool disk framesAllocated d pageFileName n strategy = (RC_OK, d1))
    (hopen : d1.pool = some bm) :
    ∃ fh, openPageFile disk pageFileName = some fh ∧ bm = initPool strategy n fh := by
  unfold initBufferPool at h
  rcases ho : openPageFile disk pageFileName with _ | fh
  · simp only [ho, Prod.mk.injEq] at h
    exact absurd h.1 (by decide)
  · simp only [ho] at h
    split at h
    · simp only [Prod.mk.injEq] at h
      exact absurd h.1 (by decide)
    · simp only [Prod.mk.injEq, true_and] at h
      subst h
      simp only [PoolDescriptor.pool, Option.map_some', Option.some.injEq] at hopen
      exact ⟨fh, rfl, hopen.symm⟩

theorem fixCountsNonneg_initPool (strategy : ReplacementStrategy) (n : Nat)
    (fh : SM_FileHandle) : FixCountsNonneg (initPool strategy n fh).mgmtData.frames := by
  intro f hf
  have : f = initFrame := List.eq_of_mem_replicate hf
  subst this
  decide

theorem distinctPages_initPool (strategy : ReplacementStrategy) (n : Nat)
    (fh : SM_FileHandle) : DistinctPages (initPool strategy n fh).mgmtData.frames := by
  rw [distinctPages_iff]
  intro i j f g _ hf _ _
  have : f = initFrame := List.eq_of_mem_replicate (List.getElem?_mem hf)
  subst this
  rfl

theorem Frame.shape_idem (f : Frame) : f.shape.shape = f.shape := rfl

theorem map_shape_shape (fs : List Frame) :
    (fs.map Frame.shape).map Frame.shape = fs.map Frame.shape := by
  simp [Frame.shape]

theorem BM_BufferPool.shape_shape (n : Int) (bm : BM_BufferPool) :
    (bm.shape n).shape n = bm.shape n := by
  simp [BM_BufferPool.shape, Frame.shape]

theorem findFrameFrom_shape (fs : List Frame) (i : Nat) (p : Int) :
    findFrameFrom (fs.map Frame.shape) i p = findFrameFrom fs i p := by
  induction fs generalizing i with
  | nil => rfl
  | cons f fs ih =>
    simp only [List.map_cons, findFrameFrom, ih]
    rfl

theorem findFrame_shape (n : Int) (bm : BM_BufferPool) (p : Int) :
    findFrame (bm.shape n) p = findFrame bm p :=
  findFrameFrom_shape _ _ _

theorem findEmptyFrom_shape (fs : List Frame) (i : Nat) :
    findEmptyFrom (fs.map Frame.shape) i = findEmptyFrom fs i := by
  induction fs generalizing i with
  | nil => rfl
  | cons f fs ih =>
    simp only [List.map_cons, findEmptyFrom, ih]
    rfl

theorem scanMin_shape (key : Frame → Int) (hkey : ∀ f : Frame, key f.shape = key f)
    (fs : List Frame) (i : Nat) (best least : Int) :
    scanMin key (fs.map Frame.shape) i best least = scanMin key fs i best least := by
  induction fs generalizing i best least with
  | nil => rfl
  | cons f fs ih =>
    simp only [List.map_cons, scanMin, ih, hkey]
    rfl

theorem modFrame_shape (fs : List Frame) (i : Nat) (g : Frame → Frame)
    (hg : ∀ f : Frame, (g f).shape = g f.shape) :
    (modFrame fs i g).map Frame.shape = modFrame (fs.map Frame.shape) i g := by
  unfold modFrame
  rw [List.getElem?_map]
  cases hf : fs[i]? with
  | none => rfl
  | some f =>
    simp only [Option.map_some', List.map_set, hg]

theorem clockSweep_shape (fuel numPages : Nat) (fs : List Frame) (hand : Nat) :
    clockSweep fuel numPages (fs.map Frame.shape) hand =
      (clockSweep fuel numPages fs hand).map fun r => (r.1.map Frame.shape, r.2) := by
  induction fuel generalizing fs hand with
  | zero => rfl
  | succ fuel ih =>
    unfold clockSweep
    rw [List.getElem?_map]
    cases hf : fs[hand]? with
    | none => rfl
    | some f =>
      simp only [Option.map_some']
      have h1 : f.shape.fixCount = f.fixCount := rfl
      have h2 : f.shape.useBit = f.useBit := rfl
      rw [h1, h2]
      split
      · split
        · simp only [Option.map_some', Option.some.injEq, Prod.mk.injEq, and_true]
          exact (modFrame_shape fs hand resetFrame (fun _ => rfl)).symm
        · rw [← ih]
          simp only [List.map_set]
          rfl
      · rw [← ih]

theorem selectVictim_shape (n : Int) (fuel : Nat) (bm : BM_BufferPool) :
    selectVictim fuel (bm.shape n) =
      (selectVictim fuel bm).map fun r => (r.1, r.2.shape n) := by
  unfold selectVictim
  have he : findEmptyFrom (bm.shape n).mgmtData.frames 0 =
      findEmptyFrom bm.mgmtData.frames 0 := findEmptyFrom_shape _ _
  rw [he]
  cases findEmptyFrom bm.mgmtData.frames 0 with
  | some i => rfl
  | none =>
    simp only
    have hs : (bm.shape n).strategy = bm.strategy := rfl
    rw [hs]
    cases bm.strategy with
    | RS_FIFO =>
      simp only [Option.map_some', Option.some.injEq, Prod.mk.injEq, and_true]
      exact scanMin_shape (fun f => f.lastTwo0) (fun _ => rfl) _ _ _ _
    | RS_LRU =>
      simp only [Option.map_some', Option.some.injEq, Prod.mk.injEq, and_true]
      exact scanMin_shape (fun f => f.lastTwo1) (fun _ => rfl) _ _ _ _
    | RS_LRU_K =>
      simp only [Option.map_some', Option.some.injEq, Prod.mk.injEq, and_true]
      exact scanMin_shape (fun f => f.lastTwo1) (fun _ => rfl) _ _ _ _
    | RS_CLOCK =>
      simp only
      have hc : clockSweep fuel (bm.shape n).numPages (bm.shape n).mgmtData.frames
          (bm.shape n).mgmtData.clock_hand =
          (clockSweep fuel bm.numPages bm.mgmtData.frames bm.mgmtData.clock_hand).map
            fun r => (r.1.map Frame.shape, r.2) := clockSweep_shape _ _ _ _
      rw [hc]
      cases clockSweep fuel bm.numPages bm.mgmtData.frames bm.mgmtData.clock_hand with
      | none => rfl
      | some r => rfl
    | RS_LFU =>
      simp only
      have hm : scanMin (fun f => f.accessCount)
          (List.take (bm.shape n).numPages (bm.shape n).mgmtData.frames) 0 (-1) INT_MAX =
          scanMin (fun f => f.accessCount) (List.take bm.numPages bm.mgmtData.frames) 0 (-1)
            INT_MAX := by
        have : List.take (bm.shape n).numPages (bm.shape n).mgmtData.frames =
            (List.take bm.numPages bm.mgmtData.frames).map Frame.shape := by
          simp [BM_BufferPool.shape, List.map_take]
        rw [this]
        exact scanMin_shape (fun f => f.accessCount) (fun _ => rfl) _ _ _ _
      rw [hm]
      split
      · simp only [Option.map_some', Option.some.injEq, Prod.mk.injEq, true_and]
        simp only [replacePage, BM_BufferPool.shape]
        rw [modFrame_shape _ _ resetFrame (fun _ => rfl)]
      · rfl

/-- A load through a closed file handle or of a negative page number fails and leaves
the pool as it was, when the file needs no growth. -/
theorem pinPageLoad_fail (bm : BM_BufferPool) (page : BM_PageHandle) (p : Int)
    (v : Nat) (fr : Frame) (hf : bm.mgmtData.fh.mgmtInfo = false ∨ p < 0)
    (hp1 : p + 1 ≤ bm.mgmtData.fh.totalNumPages)
    (hv : bm.mgmtData.frames[v]? = some fr) :
    pinPageLoad bm page p v fr = (RC_READ_NON_EXISTING_PAGE, bm, page) := by
  have hf2 : bm.mgmtData.fh.mgmtInfo = false ∨ p < 0 ∨ p ≥ bm.mgmtData.fh.totalNumPages := by
    rcases hf with h | h
    · exact Or.inl h
    · exact Or.inr (Or.inl h)
  unfold pinPageLoad
  rw [readBlock_fail p _ _ hf2]
  simp only [rc_read_ne_ok, ne_eq, not_false_eq_true, if_true]
  rw [ensureCapacity_noop _ _ hp1]
  simp only [not_true_eq_false, if_false]
  rw [readBlock_fail p _ _ hf2]
  simp only [rc_read_ne_ok, ne_eq, not_false_eq_true, if_true]
  have : ({ fr with data := fr.data } : Frame) = fr := rfl
  rw [this, set_self_of_getElem? _ _ _ hv]
  rfl

theorem loadUpdate_shape (s : ReplacementStrategy) (a : Int) (f : Frame) :
    (loadUpdate s a f).shape = loadUpdate s a f.shape := by
  cases s <;> rfl

theorem hitUpdate_shape (s : ReplacementStrategy) (a : Int) (f : Frame) :
    (hitUpdate s a f).shape = hitUpdate s a f.shape := by
  cases s <;> rfl

/-- The page table after an installation, in terms of the page table before it. -/
theorem pinPageInstall_shape (n : Int) (bm : BM_BufferPool) (p : Int) (v : Nat) (fr : Frame)
    (fh : SM_FileHandle) (buf : PageData) :
    shapeResult n (pinPageInstall bm p v fr fh buf) =
      (RC_OK,
        { bm.shape n with mgmtData :=
            { (bm.shape n).mgmtData with
                fh := { totalNumPages := n, curPagePos := 0, mgmtInfo := fh.mgmtInfo,
                        file := [] },
                readIO := bm.mgmtData.readIO + 1,
                frames := (bm.shape n).mgmtData.frames.set v
                  (loadUpdate bm.strategy bm.mgmtData.accessCounter
                    { fr.shape with pageNum := p, fixCount := 1, dirty := false }) } },
        { pageNum := p, data := some v }) := by
  simp only [shapeResult, pinPageInstall, BM_BufferPool.shape, List.map_set, loadUpdate_shape]
  rfl

/-- The page table after a load depends on the page table before it only, as long as
the page is among the first `n` pages. -/
theorem pinPageLoad_shape (n : Int) (bm : BM_BufferPool) (page : BM_PageHandle) (p : Int)
    (v : Nat) (fr : Frame) (ht : n ≤ bm.mgmtData.fh.totalNumPages) (hp : p < n)
    (hv : bm.mgmtData.frames[v]? = some fr) :
    shapeResult n (pinPageLoad bm page p v fr) =
      shapeResult n (pinPageLoad (bm.shape n) page p v fr.shape) := by
  have hv2 : (bm.shape n).mgmtData.frames[v]? = some fr.shape := by
    show (bm.mgmtData.frames.map Frame.shape)[v]? = some fr.shape
    rw [List.getElem?_map, hv]
    rfl
  by_cases hok : bm.mgmtData.fh.mgmtInfo = true ∧ 0 ≤ p
  · rw [pinPageLoad_direct bm page p v fr hok.1 hok.2 (by omega),
      pinPageLoad_direct (bm.shape n) page p v fr.shape hok.1 hok.2 hp,
      pinPageInstall_shape, pinPageInstall_shape]
    simp only [BM_BufferPool.shape_shape, Frame.shape_idem]
    rfl
  · have hf : bm.mgmtData.fh.mgmtInfo = false ∨ p < 0 := by
      by_cases hm : bm.mgmtData.fh.mgmtInfo = true
      · right
        by_contra hc
        exact hok ⟨hm, by omega⟩
      · left
        simpa using hm
    rw [pinPageLoad_fail bm page p v fr hf (by omega) hv,
      pinPageLoad_fail (bm.shape n) page p v fr.shape hf
        (by show p + 1 ≤ n; omega) hv2]
    simp only [shapeResult, BM_BufferPool.shape_shape]

/-- A load of one of the pages of the file leaves the file with its number of pages. -/
theorem pinPageLoad_total (bm : BM_BufferPool) (page : BM_PageHandle) (p : Int)
    (v : Nat) (fr : Frame) (hp : p < bm.mgmtData.fh.totalNumPages)
    (hv : bm.mgmtData.frames[v]? = some fr) :
    (pinPageLoad bm page p v fr).2.1.mgmtData.fh.totalNumPages =
      bm.mgmtData.fh.totalNumPages := by
  by_cases hok : bm.mgmtData.fh.mgmtInfo = true ∧ 0 ≤ p
  · rw [pinPageLoad_direct bm page p v fr hok.1 hok.2 hp]
    rfl
  · have hf : bm.mgmtData.fh.mgmtInfo = false ∨ p < 0 := by
      by_cases hm : bm.mgmtData.fh.mgmtInfo = true
      · right
        by_contra hc
        exact hok ⟨hm, by omega⟩
      · left
        simpa using hm
    rw [pinPageLoad_fail bm page p v fr hf (by omega) hv]

theorem writeBlock_total (q : Int) (fh : SM_FileHandle) (d : PageData) :
    (writeBlock q fh d).2.totalNumPages = fh.totalNumPages ∧
    (writeBlock q fh d).2.mgmtInfo = fh.mgmtInfo := by
  rcases writeBlock_cases q fh d with h | h <;> rw [h] <;> exact ⟨rfl, rfl⟩

theorem writeBlock_fail (q : Int) (fh : SM_FileHandle) (d : PageData)
    (h : fh.mgmtInfo = false ∨ q < 0 ∨ q ≥ fh.totalNumPages) :
    writeBlock q fh d = (RC_WRITE_FAILED, fh) := by
  unfold writeBlock
  rw [if_pos h]

theorem keepsAll_within (n : Int) (fs gs : List Frame) (h0 : 0 ≤ n)
    (h : ∀ f ∈ fs, f.pageNum < n) (hk : KeepsAll fs gs) : ∀ g ∈ gs, g.pageNum < n := by
  intro g hg
  obtain ⟨i, hi, hgi⟩ := List.getElem_of_mem hg
  have hi2 : i < fs.length := by
    rw [← hk.1]
    exact hi
  have hfi := List.getElem?_eq_getElem hi2
  have hgi2 : gs[i]? = some g := by
    rw [List.getElem?_eq_getElem hi, hgi]
  rcases (hk.2 i _ g hfi hgi2).1 with e | e
  · rw [e]
    exact h _ (List.getElem?_mem hfi)
  · rw [e]
    unfold NO_PAGE
    omega

theorem installs_within (n p : Int) (fs gs : List Frame) (h0 : 0 ≤ n) (hp : p < n)
    (h : ∀ f ∈ fs, f.pageNum < n) (hk : Installs p fs gs) : ∀ g ∈ gs, g.pageNum < n := by
  obtain ⟨hlen, _, v, hstep⟩ := hk
  intro g hg
  obtain ⟨i, hi, hgi⟩ := List.getElem_of_mem hg
  have hi2 : i < fs.length := by
    rw [← hlen]
    exact hi
  have hfi := List.getElem?_eq_getElem hi2
  have hgi2 : gs[i]? = some g := by
    rw [List.getElem?_eq_getElem hi, hgi]
  rcases hstep i _ g hfi hgi2 with ⟨_, e, _⟩ | ⟨_, hkg⟩
  · rw [e]
    exact hp
  · rcases hkg.1 with e | e
    · rw [e]
      exact h _ (List.getElem?_mem hfi)
    · rw [e]
      unfold NO_PAGE
      omega

theorem pinPageLoad_shape_congr (n : Int) (bm bm2 : BM_BufferPool) (page : BM_PageHandle)
    (p : Int) (v : Nat) (fr fr2 : Frame) (hs : bm.shape n = bm2.shape n)
    (hfr : fr.shape = fr2.shape) (ht : n ≤ bm.mgmtData.fh.totalNumPages)
    (ht2 : n ≤ bm2.mgmtData.fh.totalNumPages) (hp : p < n)
    (hv : bm.mgmtData.frames[v]? = some fr) (hv2 : bm2.mgmtData.frames[v]? = some fr2) :
    shapeResult n (pinPageLoad bm page p v fr) =
      shapeResult n (pinPageLoad bm2 page p v fr2) := by
  rw [pinPageLoad_shape n bm page p v fr ht hp hv,
    pinPageLoad_shape n bm2 page p v fr2 ht2 hp hv2, hs, hfr]

/-- The page table after `pinPage` depends on the page table before it only, as long as
the pages involved are among the first `n` pages of the file. -/
theorem pinPage_shape (n : Int) (fuel : Nat) (bm : BM_BufferPool) (page : BM_PageHandle)
    (p : Int) (hw : bm.Within n) (hp : p < n) :
    (pinPage fuel bm page p).map (shapeResult n) =
      (pinPage fuel (bm.shape n) page p).map (shapeResult n) := by
  obtain ⟨h0, ht, hpages⟩ := hw
  unfold pinPage
  simp only [findFrame_shape]
  by_cases hfind : findFrame bm p = -1
  · simp only [hfind, ne_eq, not_true_eq_false, if_false]
    have hsv : selectVictim fuel (bm.shape n).countAccess =
        (selectVictim fuel bm.countAccess).map fun r => (r.1, r.2.shape n) :=
      selectVictim_shape n fuel bm.countAccess
    rw [hsv]
    rcases hsel : selectVictim fuel bm.countAccess with _ | ⟨vi, bmv⟩
    · rfl
    · simp only [Option.map_some']
      obtain ⟨_, _, hfh, _, _, _, _, _⟩ :=
        selectVictim_effect fuel bm.countAccess bmv vi hsel
      have hk : KeepsAll bm.mgmtData.frames bmv.mgmtData.frames :=
        selectVictim_keeps fuel bm.countAccess bmv vi hsel
      have htv : n ≤ bmv.mgmtData.fh.totalNumPages := by
        rw [hfh]
        exact ht
      have hnum : (bmv.shape n).mgmtData.numFrames = bmv.mgmtData.numFrames := by
        simp [BM_MgmtData.numFrames, BM_BufferPool.shape]
      rw [hnum]
      by_cases hr : vi < 0 ∨ vi ≥ bmv.mgmtData.numFrames
      · rw [if_pos hr, if_pos hr]
        simp [shapeResult, BM_BufferPool.shape_shape]
      · rw [if_neg hr, if_neg hr]
        have hget : (bmv.shape n).mgmtData.frames[vi.toNat]? =
            (bmv.mgmtData.frames[vi.toNat]?).map Frame.shape := List.getElem?_map _ _ _
        rw [hget]
        rcases hfr : bmv.mgmtData.frames[vi.toNat]? with _ | fr
        · rfl
        · simp only [Option.map_some']
          have hfrn : fr.pageNum < n :=
            keepsAll_within n _ _ h0 hpages hk fr (List.getElem?_mem hfr)
          have hd : fr.shape.dirty = fr.dirty := rfl
          have hpn : fr.shape.pageNum = fr.pageNum := rfl
          rw [hd, hpn]
          by_cases hdirty : fr.dirty = true
          · rw [if_pos hdirty, if_pos hdirty]
            by_cases hfail : bmv.mgmtData.fh.mgmtInfo = false ∨ fr.pageNum < 0
            · have hf1 : bmv.mgmtData.fh.mgmtInfo = false ∨ fr.pageNum < 0 ∨
                  fr.pageNum ≥ bmv.mgmtData.fh.totalNumPages := by
                rcases hfail with h | h
                · exact Or.inl h
                · exact Or.inr (Or.inl h)
              have hf2 : (bmv.shape n).mgmtData.fh.mgmtInfo = false ∨ fr.pageNum < 0 ∨
                  fr.pageNum ≥ (bmv.shape n).mgmtData.fh.totalNumPages := hf1.imp id
                    (fun h => h.imp id (fun h2 => by
                      show fr.pageNum ≥ n
                      omega))
              rw [writeBlock_fail _ _ _ hf1, writeBlock_fail _ _ _ hf2]
              simp [shapeResult, BM_BufferPool.shape, BM_BufferPool.withFh, rc_write_ne_ok,
                Frame.shape_idem]
            · have hm : bmv.mgmtData.fh.mgmtInfo = true := by
                by_contra hc
                exact hfail (Or.inl (by simpa using hc))
              have hq0 : 0 ≤ fr.pageNum := by
                by_contra hc
                exact hfail (Or.inr (by omega))
              rw [writeBlock_ok _ _ _ hm hq0 (by omega),
                writeBlock_ok _ (bmv.shape n).mgmtData.fh _ hm hq0 hfrn]
              simp only [ne_eq, not_true_eq_false, if_false, Option.map_some',
                Option.some.injEq]
              have hlt : vi.toNat < bmv.mgmtData.frames.length :=
                (List.getElem?_eq_some.mp hfr).1
              refine pinPageLoad_shape_congr n _ _ page p vi.toNat _ _ ?_ rfl htv (le_refl n) hp
                (List.getElem?_set_self hlt) (List.getElem?_set_self ?_)
              · simp only [BM_BufferPool.shape, List.map_set, map_shape_shape]
                rfl
              · show vi.toNat < (bmv.mgmtData.frames.map Frame.shape).length
                simpa using hlt
          · rw [if_neg hdirty, if_neg hdirty]
            simp only [Option.map_some', Option.some.injEq]
            exact pinPageLoad_shape n bmv page p vi.toNat fr htv hp hfr
  · simp only [ne_eq, hfind, not_false_eq_true, if_true, Option.map_some', Option.some.injEq]
    simp only [shapeResult, BM_BufferPool.shape, BM_BufferPool.withFrames,
      BM_BufferPool.countAccess, Prod.mk.injEq, true_and, and_true]
    rw [modFrame_shape, modFrame_shape, map_shape_shape]
    · intro f
      rw [hitUpdate_shape]
      rfl
    · intro f
      rw [hitUpdate_shape]
      rfl

/-- A `pinPage` of one of the pages of the file leaves the file with its number of
pages. -/
theorem pinPage_total (fuel : Nat) (bm : BM_BufferPool) (page : BM_PageHandle) (p : Int)
    (rc : RC) (bm1 : BM_BufferPool) (h1 : BM_PageHandle)
    (hp : p < bm.mgmtData.fh.totalNumPages)
    (h : pinPage fuel bm page p = some (rc, bm1, h1)) :
    bm1.mgmtData.fh.totalNumPages = bm.mgmtData.fh.totalNumPages := by
  unfold pinPage at h
  by_cases hfind : findFrame bm p = -1
  · simp only [hfind, ne_eq, not_true_eq_false, if_false] at h
    rcases hsel : selectVictim fuel bm.countAccess with _ | ⟨vi, bmv⟩
    · simp [hsel] at h
    · obtain ⟨_, _, hfh, _⟩ := selectVictim_effect fuel bm.countAccess bmv vi hsel
      have hfh2 : bmv.mgmtData.fh = bm.mgmtData.fh := hfh
      simp only [hsel] at h
      split at h
      · simp only [Option.some.injEq, Prod.mk.injEq] at h
        rw [← h.2.1, hfh2]
      · rcases hfr : bmv.mgmtData.frames[vi.toNat]? with _ | fr
        · simp [hfr] at h
        · simp only [hfr] at h
          have hlt : vi.toNat < bmv.mgmtData.frames.length :=
            (List.getElem?_eq_some.mp hfr).1
          have key : ∀ (bm2 : BM_BufferPool) (fr1 : Frame),
              pinPageLoad bm2 page p vi.toNat fr1 = (rc, bm1, h1) →
              bm2.mgmtData.fh.totalNumPages = bm.mgmtData.fh.totalNumPages →
              bm2.mgmtData.frames[vi.toNat]? = some fr1 →
              bm1.mgmtData.fh.totalNumPages = bm.mgmtData.fh.totalNumPages := by
            intro bm2 fr1 hl ht2 hv2
            have ht := pinPageLoad_total bm2 page p vi.toNat fr1 (by rw [ht2]; exact hp) hv2
            rw [hl] at ht
            rw [ht, ht2]
          split at h
          · rcases hw : writeBlock fr.pageNum bmv.mgmtData.fh fr.data with ⟨rcw, fhw⟩
            have hwt := (writeBlock_total fr.pageNum bmv.mgmtData.fh fr.data).1
            rw [hw] at hwt
            have hwt2 : fhw.totalNumPages = bm.mgmtData.fh.totalNumPages := by
              rw [← hfh2]
              exact hwt
            simp only [hw] at h
            split at h
            · simp only [Option.some.injEq, Prod.mk.injEq] at h
              rw [← h.2.1]
              exact hwt2
            · simp only [Option.some.injEq] at h
              refine key _ _ h ?_ ?_
              · exact hwt2
              · exact List.getElem?_set_self hlt
          · simp only [Option.some.injEq] at h
            exact key bmv fr h (by rw [hfh2]) hfr
  · simp only [ne_eq, hfind, not_false_eq_true, if_true, Option.some.injEq,
      Prod.mk.injEq] at h
    rw [← h.2.1]
    rfl

theorem pinPage_within (n : Int) (fuel : Nat) (bm : BM_BufferPool) (page : BM_PageHandle)
    (p : Int) (rc : RC) (bm1 : BM_BufferPool) (h1 : BM_PageHandle)
    (hw : bm.Within n) (hp : p < n)
    (h : pinPage fuel bm page p = some (rc, bm1, h1)) : bm1.Within n := by
  obtain ⟨h0, ht, hpages⟩ := hw
  refine ⟨h0, ?_, ?_⟩
  · rw [pinPage_total fuel bm page p rc bm1 h1 (by omega) h]
    exact ht
  · rcases pinPage_step fuel bm page p rc bm1 h1 h with hk | hk
    · exact keepsAll_within n _ _ h0 hpages hk
    · exact installs_within n p _ _ h0 hp hpages hk

theorem unpinPage_shape (n : Int) (bm : BM_BufferPool) (page : BM_PageHandle) :
    unpinPage (bm.shape n) page = ((unpinPage bm page).1, (unpinPage bm page).2.shape n) := by
  unfold unpinPage
  simp only [findFrame_shape]
  split
  · rfl
  · simp only [BM_BufferPool.withFrames, BM_BufferPool.shape, Prod.mk.injEq, true_and]
    rw [modFrame_shape]
    intro f
    have hfc : f.shape.fixCount = f.fixCount := rfl
    by_cases h : f.fixCount > 0
    · rw [if_pos h, if_pos (by rw [hfc]; exact h)]
      rfl
    · rw [if_neg h, if_neg (by rw [hfc]; exact h)]

theorem markDirty_shape (n : Int) (bm : BM_BufferPool) (page : BM_PageHandle) :
    markDirty (bm.shape n) page = ((markDirty bm page).1, (markDirty bm page).2.shape n) := by
  unfold markDirty
  simp only [findFrame_shape]
  split
  · rfl
  · simp only [BM_BufferPool.withFrames, BM_BufferPool.shape, Prod.mk.injEq, true_and]
    rw [modFrame_shape]
    intro f
    rfl

theorem modFrame_shape_data (fs : List Frame) (i : Nat) (g : Frame → Frame)
    (hg : ∀ f : Frame, (g f).shape = f.shape) :
    (modFrame fs i g).map Frame.shape = fs.map Frame.shape := by
  apply List.ext_getElem?
  intro j
  rw [List.getElem?_map, getElem?_modFrame, List.getElem?_map]
  split
  · cases fs[j]? with
    | none => rfl
    | some f => simp [hg]
  · rfl

theorem storeBytes_shape (n : Int) (bm : BM_BufferPool) (page : BM_PageHandle)
    (bytes : PageData) : (storeBytes bm page bytes).shape n = bm.shape n := by
  unfold storeBytes
  split
  · simp only [BM_BufferPool.withFrames, BM_BufferPool.shape]
    rw [modFrame_shape_data bm.mgmtData.frames _ (fun f => { f with data := bytes })
      (fun _ => rfl)]
  · rfl

theorem forcePage_shape (n : Int) (bm : BM_BufferPool) (page : BM_PageHandle)
    (hw : bm.Within n) :
    (forcePage (bm.shape n) page).1 = (forcePage bm page).1 ∧
    (forcePage (bm.shape n) page).2.shape n = (forcePage bm page).2.shape n := by
  obtain ⟨h0, ht, hpages⟩ := hw
  unfold forcePage
  simp only [findFrame_shape]
  split
  · exact ⟨rfl, BM_BufferPool.shape_shape n bm⟩
  · have hget : (bm.shape n).mgmtData.frames[(findFrame bm page.pageNum).toNat]? =
        (bm.mgmtData.frames[(findFrame bm page.pageNum).toNat]?).map Frame.shape :=
      List.getElem?_map _ _ _
    rw [hget]
    rcases hfr : bm.mgmtData.frames[(findFrame bm page.pageNum).toNat]? with _ | fr
    · exact ⟨rfl, BM_BufferPool.shape_shape n bm⟩
    · simp only [Option.map_some']
      have hfrn : fr.pageNum < n := hpages fr (List.getElem?_mem hfr)
      have hd : fr.shape.dirty = fr.dirty := rfl
      have hpn : fr.shape.pageNum = fr.pageNum := rfl
      rw [hd, hpn]
      by_cases hdirty : fr.dirty = true
      · rw [if_pos hdirty, if_pos hdirty]
        by_cases hfail : bm.mgmtData.fh.mgmtInfo = false ∨ fr.pageNum < 0
        · have hf1 : bm.mgmtData.fh.mgmtInfo = false ∨ fr.pageNum < 0 ∨
              fr.pageNum ≥ bm.mgmtData.fh.totalNumPages := by
            rcases hfail with h | h
            · exact Or.inl h
            · exact Or.inr (Or.inl h)
          have hf2 : (bm.shape n).mgmtData.fh.mgmtInfo = false ∨ fr.pageNum < 0 ∨
              fr.pageNum ≥ (bm.shape n).mgmtData.fh.totalNumPages := by
            rcases hfail with h | h
            · exact Or.inl h
            · exact Or.inr (Or.inl h)
          rw [writeBlock_fail _ _ _ hf1, writeBlock_fail _ _ _ hf2]
          simp [BM_BufferPool.shape, BM_BufferPool.withFh, rc_write_ne_ok, Frame.shape_idem]
        · have hm : bm.mgmtData.fh.mgmtInfo = true := by
            by_contra hc
            exact hfail (Or.inl (by simpa using hc))
          have hq0 : 0 ≤ fr.pageNum := by
            by_contra hc
            exact hfail (Or.inr (by omega))
          rw [writeBlock_ok _ _ _ hm hq0 (by omega),
            writeBlock_ok _ (bm.shape n).mgmtData.fh _ hm hq0 hfrn]
          simp only [ne_eq, not_true_eq_false, if_false, true_and]
          simp only [BM_BufferPool.shape, List.map_set, map_shape_shape]
          rfl
      · rw [if_neg hdirty, if_neg hdirty]
        exact ⟨rfl, BM_BufferPool.shape_shape n bm⟩

theorem forceFlushLoop_handle (fs : List Frame) (fh : SM_FileHandle) (w : Int) :
    (forceFlushLoop fs fh w).2.1.totalNumPages = fh.totalNumPages ∧
    (forceFlushLoop fs fh w).2.1.mgmtInfo = fh.mgmtInfo := by
  induction fs generalizing fh w with
  | nil => exact ⟨rfl, rfl⟩
  | cons f fs ih =>
    by_cases h : f.dirty = true ∧ f.fixCount = 0
    · rw [forceFlushLoop_cons_flushed f fs fh w h]
      obtain ⟨h1, h2⟩ := ih (writeBlock f.pageNum fh f.data).2 (w + 1)
      obtain ⟨h3, h4⟩ := writeBlock_total f.pageNum fh f.data
      exact ⟨h1.trans h3, h2.trans h4⟩
    · rw [forceFlushLoop_cons_kept f fs fh w h]
      exact ih fh w

theorem forceFlushPool_shape (n : Int) (bm : BM_BufferPool) :
    (forceFlushPool (bm.shape n)).2.shape n = (forceFlushPool bm).2.shape n := by
  have hg : ∀ f : Frame,
      (if f.shape.flushed = true then { f.shape with dirty := false } else f.shape) =
        (if f.flushed = true then { f with dirty := false } else f).shape := by
    intro f
    have hfl : f.shape.flushed = f.flushed := rfl
    rw [hfl]
    split <;> rfl
  have e1 : ∀ b : BM_BufferPool, (forceFlushPool b).2.shape n =
      { b with mgmtData :=
          { b.mgmtData with
              fh := { totalNumPages := n, curPagePos := 0,
                      mgmtInfo := b.mgmtData.fh.mgmtInfo, file := [] },
              frames := (b.mgmtData.frames.map
                (fun f => if f.flushed = true then { f with dirty := false } else f)).map
                  Frame.shape,
              writeIO := b.mgmtData.writeIO +
                (b.mgmtData.frames.countP (fun f => f.flushed) : Nat) } } := by
    intro b
    obtain ⟨h1, h2⟩ := forceFlushLoop_frames b.mgmtData.frames b.mgmtData.fh b.mgmtData.writeIO
    obtain ⟨_, h4⟩ := forceFlushLoop_handle b.mgmtData.frames b.mgmtData.fh b.mgmtData.writeIO
    simp only [forceFlushPool, BM_BufferPool.shape, h1, h2, h4]
  rw [e1, e1]
  have hc : (bm.shape n).mgmtData.frames.countP (fun f => f.flushed) =
      bm.mgmtData.frames.countP (fun f => f.flushed) := by
    show (bm.mgmtData.frames.map Frame.shape).countP (fun f => f.flushed) = _
    rw [List.countP_map]
    rfl
  rw [hc]
  simp only [BM_BufferPool.shape, List.map_map]
  congr 3
  funext f
  exact (congrArg Frame.shape (hg f)).trans (Frame.shape_idem _)

theorem poolContent_shape (n : Int) (bm : BM_BufferPool) :
    poolContent (bm.shape n) = poolContent bm := by
  simp only [poolContent, getFrameContents, getDirtyFlags, getFixCounts, BM_BufferPool.shape,
    List.map_map]
  rfl

/-- The page table after a step of a client depends on the page table before it only,
as long as the pages involved are among the first `n` pages of the file. -/
theorem Client.call_shape (n : Int) (c : Client) (x : Call) (hw : c.bm.Within n)
    (hx : x.Below n) :
    (c.call x).map (fun r => (r.1, r.2.shape n)) =
      ((c.shape n).call x).map (fun r => (r.1, r.2.shape n)) := by
  cases x with
  | pinPage fuel p =>
    have h := pinPage_shape n fuel c.bm c.h p hw hx
    simp only [Client.call, Client.shape, Option.map_map]
    have e : ∀ o : Option (RC × BM_BufferPool × BM_PageHandle),
        o.map ((fun r : RC × Client => (r.1, { bm := r.2.bm.shape n, h := r.2.h })) ∘
          fun r => (r.1, ({ bm := r.2.1, h := r.2.2 } : Client))) =
        (o.map (shapeResult n)).map fun r => (r.1, ({ bm := r.2.1, h := r.2.2 } : Client)) := by
      intro o
      cases o <;> rfl
    rw [e, e, h]
  | unpinPage =>
    simp only [Client.call, Client.shape, Option.map_some', unpinPage_shape,
      BM_BufferPool.shape_shape]
  | markDirty =>
    simp only [Client.call, Client.shape, Option.map_some', markDirty_shape,
      BM_BufferPool.shape_shape]
  | forcePage =>
    obtain ⟨h1, h2⟩ := forcePage_shape n c.bm c.h hw
    simp only [Client.call, Client.shape, Option.map_some', h1, h2]
  | forceFlushPool =>
    have h2 := forceFlushPool_shape n c.bm
    simp only [Client.call, Client.shape, Option.map_some', h2, forceFlushPool_rc]
  | setPageNum p =>
    simp only [Client.call, Client.shape, Option.map_some', BM_BufferPool.shape_shape]
  | store bytes =>
    simp only [Client.call, Client.shape, Option.map_some', storeBytes_shape,
      BM_BufferPool.shape_shape]

theorem unpinPage_handle (bm : BM_BufferPool) (page : BM_PageHandle) :
    (unpinPage bm page).2.mgmtData.fh = bm.mgmtData.fh := by
  unfold unpinPage
  simp only
  split <;> rfl

theorem markDirty_handle (bm : BM_BufferPool) (page : BM_PageHandle) :
    (markDirty bm page).2.mgmtData.fh = bm.mgmtData.fh := by
  unfold markDirty
  simp only
  split <;> rfl

theorem storeBytes_handle (bm : BM_BufferPool) (page : BM_PageHandle) (bytes : PageData) :
    (storeBytes bm page bytes).mgmtData.fh = bm.mgmtData.fh := by
  unfold storeBytes
  split <;> rfl

theorem forcePage_total (bm : BM_BufferPool) (page : BM_PageHandle) :
    (forcePage bm page).2.mgmtData.fh.totalNumPages = bm.mgmtData.fh.totalNumPages := by
  unfold forcePage
  simp only
  split
  · rfl
  · split
    · rfl
    · rename_i frame _
      split
      · have ht := (writeBlock_total frame.pageNum bm.mgmtData.fh frame.data).1
        split
        · exact ht
        · exact ht
      · rfl

/-- A step of a client leaves the pages of the frames among the first `n` pages of the
file. -/
theorem Client.call_within (n : Int) (c : Client) (x : Call) (rc : RC) (c1 : Client)
    (hw : c.bm.Within n) (hx : x.Below n) (h : c.call x = some (rc, c1)) :
    c1.bm.Within n := by
  have hkeep : ∀ bm1 : BM_BufferPool,
      bm1.mgmtData.fh.totalNumPages = c.bm.mgmtData.fh.totalNumPages →
      KeepsAll c.bm.mgmtData.frames bm1.mgmtData.frames → bm1.Within n := by
    intro bm1 ht hk
    exact ⟨hw.1, by rw [ht]; exact hw.2.1, keepsAll_within n _ _ hw.1 hw.2.2 hk⟩
  cases x with
  | pinPage fuel p =>
    simp only [Client.call, Option.map_eq_some'] at h
    obtain ⟨⟨rc0, bm0, h0⟩, hp, he⟩ := h
    simp only [Prod.mk.injEq] at he
    rw [← he.2]
    exact pinPage_within n fuel c.bm c.h p rc0 bm0 h0 hw hx hp
  | unpinPage =>
    simp only [Client.call, Option.some.injEq, Prod.mk.injEq] at h
    rw [← h.2]
    exact hkeep _ (by rw [unpinPage_handle]) (unpinPage_keeps _ _)
  | markDirty =>
    simp only [Client.call, Option.some.injEq, Prod.mk.injEq] at h
    rw [← h.2]
    exact hkeep _ (by rw [markDirty_handle]) (markDirty_keeps _ _)
  | forcePage =>
    simp only [Client.call, Option.some.injEq, Prod.mk.injEq] at h
    rw [← h.2]
    exact hkeep _ (forcePage_total _ _) (forcePage_keeps _ _)
  | forceFlushPool =>
    simp only [Client.call, Option.some.injEq, Prod.mk.injEq] at h
    rw [← h.2]
    exact hkeep _ (forceFlushLoop_handle _ _ _).1 (forceFlushPool_keeps _)
  | setPageNum p =>
    simp only [Client.call, Option.some.injEq, Prod.mk.injEq] at h
    rw [← h.2]
    exact hw
  | store bytes =>
    simp only [Client.call, Option.some.injEq, Prod.mk.injEq] at h
    rw [← h.2]
    exact hkeep _ (by rw [storeBytes_handle]) (storeBytes_keeps _ _ _)

theorem Client.shape_of_shape (n : Int) (c : Client) : (c.shape n).shape n = c.shape n := by
  simp only [Client.shape, BM_BufferPool.shape_shape]

theorem BM_BufferPool.shape_within (n : Int) (bm : BM_BufferPool) (hw : bm.Within n) :
    (bm.shape n).Within n := by
  refine ⟨hw.1, le_refl n, ?_⟩
  intro f hf
  obtain ⟨g, hg, rfl⟩ := List.mem_map.mp hf
  exact hw.2.2 g hg

/-- The page table after a run of a client depends on the page table before it only,
as long as the pages involved are among the first `n` pages of the file. -/
theorem Client.run_shape (n : Int) : ∀ (calls : List Call) (c : Client),
    c.bm.Within n → (∀ x ∈ calls, x.Below n) →
    (c.run calls).map (Client.shape n) = ((c.shape n).run calls).map (Client.shape n) := by
  intro calls
  induction calls with
  | nil =>
    intro c _ _
    simp only [Client.run, Option.map_some', Client.shape_of_shape]
  | cons x xs ih =>
    intro c hw hx
    have hx1 : x.Below n := hx x (List.mem_cons_self _ _)
    have hxs : ∀ y ∈ xs, y.Below n := fun y hy => hx y (List.mem_cons_of_mem _ hy)
    have hcs := Client.call_shape n c x hw hx1
    unfold Client.run
    rcases hc : c.call x with _ | ⟨rc, c1⟩
    · rw [hc] at hcs
      rcases hc2 : (c.shape n).call x with _ | ⟨rc2, c2⟩
      · rfl
      · rw [hc2] at hcs
        simp at hcs
    · rcases hc2 : (c.shape n).call x with _ | ⟨rc2, c2⟩
      · rw [hc, hc2] at hcs
        simp at hcs
      · rw [hc, hc2] at hcs
        simp only [Option.map_some', Option.some.injEq, Prod.mk.injEq] at hcs
        have hw1 := Client.call_within n c x rc c1 hw hx1 hc
        have hw2 := Client.call_within n (c.shape n) x rc2 c2
          (BM_BufferPool.shape_within n c.bm hw) hx1 hc2
        simp only
        rw [ih c1 hw1 hxs, ih c2 hw2 hxs, hcs.2]

theorem Client.run_within (n : Int) : ∀ (calls : List Call) (c c1 : Client),
    c.bm.Within n → (∀ x ∈ calls, x.Below n) → c.run calls = some c1 → c1.bm.Within n := by
  intro calls
  induction calls with
  | nil =>
    intro c c1 hw _ hrun
    simp only [Client.run, Option.some.injEq] at hrun
    rw [← hrun]
    exact hw
  | cons x xs ih =>
    intro c c1 hw hx hrun
    unfold Client.run at hrun
    rcases hc : c.call x with _ | ⟨rc, c2⟩
    · simp [hc] at hrun
    · simp only [hc] at hrun
      exact ih c2 c1 (Client.call_within n c x rc c2 hw (hx x (List.mem_cons_self _ _)) hc)
        (fun y hy => hx y (List.mem_cons_of_mem _ hy)) hrun

/-- What the tests see of a pool after each block of a test program depends on the
page table only. -/
theorem Client.runBlocks_shape (n : Int) : ∀ (blocks : List (List Call)) (c : Client),
    c.bm.Within n → (∀ b ∈ blocks, ∀ x ∈ b, x.Below n) →
    c.runBlocks blocks = (c.shape n).runBlocks blocks := by
  intro blocks
  induction blocks with
  | nil =>
    intro c _ _
    rfl
  | cons b bs ih =>
    intro c hw hx
    have hb : ∀ x ∈ b, x.Below n := hx b (List.mem_cons_self _ _)
    have hbs : ∀ b2 ∈ bs, ∀ x ∈ b2, x.Below n := fun b2 h2 => hx b2 (List.mem_cons_of_mem _ h2)
    have hrs := Client.run_shape n b c hw hb
    unfold Client.runBlocks
    rcases hc : c.run b with _ | c1
    · rw [hc] at hrs
      rcases hc2 : (c.shape n).run b with _ | c2
      · rfl
      · rw [hc2] at hrs
        simp at hrs
    · rcases hc2 : (c.shape n).run b with _ | c2
      · rw [hc, hc2] at hrs
        simp at hrs
      · rw [hc, hc2] at hrs
        simp only [Option.map_some', Option.some.injEq] at hrs
        have hw1 := Client.run_within n b c c1 hw hb hc
        have hw2 := Client.run_within n b (c.shape n) c2
          (BM_BufferPool.shape_within n c.bm hw) hb hc2
        have hp : poolContent c1.bm = poolContent c2.bm := by
          rw [← poolContent_shape n c1.bm, ← poolContent_shape n c2.bm]
          exact congrArg (fun c : Client => poolContent c.bm) hrs
        simp only
        rw [ih c1 hw1 hbs, ih c2 hw2 hbs, hrs, hp]

/-- A fresh pool over an open file of at least `n` pages has the page table of a fresh
pool over the empty file taken to have `n` pages. -/
theorem initPool_shape (n : Int) (strategy : ReplacementStrategy) (numPages : Nat)
    (fh : SM_FileHandle) (hopen : fh.mgmtInfo = true) :
    (initPool strategy numPages fh).shape n =
      (initPool strategy numPages
        { totalNumPages := n, curPagePos := 0, mgmtInfo := true, file := [] }).shape n := by
  simp only [BM_BufferPool.shape, initPool, hopen]

theorem initPool_within (n : Int) (strategy : ReplacementStrategy) (numPages : Nat)
    (fh : SM_FileHandle) (h0 : 0 ≤ n) (hn : n ≤ fh.totalNumPages) :
    (initPool strategy numPages fh).Within n := by
  refine ⟨h0, hn, ?_⟩
  intro f hf
  have : f = initFrame := List.eq_of_mem_replicate hf
  subst this
  show NO_PAGE < n
  unfold NO_PAGE
  omega

/-- A test program whose first step does the same for two clients does the same for
them. -/
theorem Client.runBlocks_first (c c2 : Client) (x : Call) (b : List Call)
    (bs : List (List Call)) (h : c.call x = c2.call x) :
    c.runBlocks ((x :: b) :: bs) = c2.runBlocks ((x :: b) :: bs) := by
  simp only [Client.runBlocks, Client.run, h]

theorem Client.run_first (c c2 : Client) (x : Call) (xs : List Call)
    (h : c.call x = c2.call x) : c.run (x :: xs) = c2.run (x :: xs) := by
  simp only [Client.run, h]

theorem clockSweep_mono (numPages : Nat) (fuel : Nat) : ∀ (m : Nat) (frames : List Frame)
    (hand : Nat) (r : List Frame × Nat × Nat),
    clockSweep fuel numPages frames hand = some r →
    clockSweep (fuel + m) numPages frames hand = some r := by
  induction fuel with
  | zero =>
    intro m frames hand r h
    simp [clockSweep] at h
  | succ fuel ih =>
    intro m frames hand r h
    rw [show fuel + 1 + m = (fuel + m) + 1 by omega]
    unfold clockSweep at h ⊢
    cases hf : frames[hand]? with
    | none => simp [hf] at h
    | some f =>
      simp only [hf] at h ⊢
      by_cases h0 : f.fixCount = 0
      · by_cases hb : f.useBit = 0
        · simpa [h0, hb] using h
        · simp only [h0, hb, if_true, if_false] at h ⊢
          exact ih m _ _ r h
      · simp only [h0, if_false] at h ⊢
        exact ih m _ _ r h

theorem forall_mem_modFrame (P : Frame → Prop) (frames : List Frame) (i : Nat)
    (g : Frame → Frame) (hg : ∀ f, P f → P (g f)) (h : ∀ f ∈ frames, P f) :
    ∀ f ∈ modFrame frames i g, P f := by
  intro f hf
  unfold modFrame at hf
  split at hf
  · rename_i f0 hf0
    rcases List.mem_or_eq_of_mem_set hf with h1 | h1
    · exact h f h1
    · rw [h1]
      exact hg f0 (h f0 (List.getElem?_mem hf0))
  · exact h f hf

theorem forall_mem_set (P : Frame → Prop) (frames : List Frame) (i : Nat) (x : Frame)
    (hx : P x) (h : ∀ f ∈ frames, P f) : ∀ f ∈ frames.set i x, P f := by
  intro f hf
  rcases List.mem_or_eq_of_mem_set hf with h1 | h1
  · exact h f h1
  · rw [h1]
    exact hx

theorem clockSweep_forall (P : Frame → Prop) (hbit : ∀ f : Frame, P f → P { f with useBit := 0 })
    (hreset : ∀ f, P f → P (resetFrame f)) (numPages fuel : Nat) :
    ∀ (frames : List Frame) (hand : Nat) (r : List Frame × Nat × Nat),
    (∀ f ∈ frames, P f) → clockSweep fuel numPages frames hand = some r →
    ∀ f ∈ r.1, P f := by
  induction fuel with
  | zero =>
    intro frames hand r _ h
    simp [clockSweep] at h
  | succ fuel ih =>
    intro frames hand r hP h
    unfold clockSweep at h
    cases hf : frames[hand]? with
    | none => simp [hf] at h
    | some f =>
      simp only [hf] at h
      by_cases h0 : f.fixCount = 0
      · by_cases hb : f.useBit = 0
        · rw [if_pos h0, if_pos hb] at h
          simp only [Option.some.injEq] at h
          subst h
          exact forall_mem_modFrame P frames hand resetFrame hreset hP
        · rw [if_pos h0, if_neg hb] at h
          exact ih _ _ r
            (forall_mem_set P frames hand _ (hbit f (hP f (List.getElem?_mem hf))) hP) h
      · rw [if_neg h0] at h
        exact ih _ _ r hP h

theorem selectVictim_forall (P : Frame → Prop)
    (hbit : ∀ f : Frame, P f → P { f with useBit := 0 })
    (hreset : ∀ f, P f → P (resetFrame f)) (fuel : Nat) (bm bm1 : BM_BufferPool) (v : Int)
    (hP : ∀ f ∈ bm.mgmtData.frames, P f) (h : selectVictim fuel bm = some (v, bm1)) :
    ∀ f ∈ bm1.mgmtData.frames, P f := by
  unfold selectVictim at h
  split at h
  · simp only [Option.some.injEq, Prod.mk.injEq] at h
    rw [← h.2]
    exact hP
  · split at h
    · simp only [Option.some.injEq, Prod.mk.injEq] at h
      rw [← h.2]
      exact hP
    · simp only [Option.some.injEq, Prod.mk.injEq] at h
      rw [← h.2]
      exact hP
    · simp only [Option.some.injEq, Prod.mk.injEq] at h
      rw [← h.2]
      exact hP
    · split at h
      · cases h
      · rename_i frames hand victimIndex hsweep
        simp only [Option.some.injEq, Prod.mk.injEq] at h
        rw [← h.2]
        exact clockSweep_forall P hbit hreset _ _ _ _ _ hP hsweep
    · simp only at h
      split at h
      · simp only [Option.some.injEq, Prod.mk.injEq] at h
        rw [← h.2]
        exact forall_mem_modFrame P _ _ resetFrame hreset hP
      · simp only [Option.some.injEq, Prod.mk.injEq] at h
        rw [← h.2]
        exact hP

theorem loadUpdate_same (strategy : ReplacementStrategy) (a : Int) (f : Frame) :
    (loadUpdate strategy a f).pageNum = f.pageNum ∧ (loadUpdate strategy a f).data = f.data := by
  cases strategy <;> exact ⟨rfl, rfl⟩

theorem hitUpdate_same (strategy : ReplacementStrategy) (a : Int) (f : Frame) :
    (hitUpdate strategy a f).pageNum = f.pageNum ∧ (hitUpdate strategy a f).data = f.data := by
  cases strategy <;> exact ⟨rfl, rfl⟩

theorem selectVictim_satisfies {PF : SM_FileHandle → Prop} {PR : SM_FileHandle → Frame → Prop}
    (hM : Maintained PF PR) (fuel : Nat) (bm bm1 : BM_BufferPool) (v : Int)
    (hS : bm.Satisfies PF PR) (h : selectVictim fuel bm = some (v, bm1)) :
    bm1.Satisfies PF PR := by
  obtain ⟨_, _, hfh, _⟩ := selectVictim_effect fuel bm bm1 v h
  unfold BM_BufferPool.Satisfies
  rw [hfh]
  refine ⟨hS.1, ?_⟩
  exact selectVictim_forall (PR bm.mgmtData.fh)
    (fun f hf => hM.same _ f _ hf rfl rfl) (fun f => hM.reset _ f hS.1) fuel bm bm1 v hS.2 h

theorem writeBlock_satisfies {PF : SM_FileHandle → Prop} {PR : SM_FileHandle → Frame → Prop}
    (hM : Maintained PF PR) (fh : SM_FileHandle) (frames : List Frame) (f : Frame)
    (hF : PF fh) (hR : ∀ g ∈ frames, PR fh g) (hf : PR fh f) :
    PF (writeBlock f.pageNum fh f.data).2 ∧
    ∀ g ∈ frames, PR (writeBlock f.pageNum fh f.data).2 g := by
  obtain ⟨hm, _⟩ := hM.isOpen _ hF
  by_cases hbad : fh.mgmtInfo = false ∨ f.pageNum < 0 ∨ f.pageNum ≥ fh.totalNumPages
  · rw [writeBlock_fail _ _ _ hbad]
    exact ⟨hF, hR⟩
  · have h0 : 0 ≤ f.pageNum := by
      by_contra hc
      exact hbad (Or.inr (Or.inl (by omega)))
    have h1 : f.pageNum < fh.totalNumPages := by
      by_contra hc
      exact hbad (Or.inr (Or.inr (by omega)))
    rw [writeBlock_ok _ _ _ hm h0 h1]
    refine ⟨hM.seekF _ _ (hM.writeF fh f hF hf h0 h1), ?_⟩
    intro g hg
    exact hM.seekR _ _ _ (hM.writeR fh f g hF hf h0 h1 (hR g hg))

theorem pinPageInstall_satisfies {PF : SM_FileHandle → Prop}
    {PR : SM_FileHandle → Frame → Prop} (bm : BM_BufferPool)
    (q : Int) (v : Nat) (fr : Frame) (fh1 : SM_FileHandle) (buf : PageData)
    (hF : PF fh1) (hR : ∀ f ∈ bm.mgmtData.frames, PR fh1 f)
    (hload : ∀ f : Frame, f.pageNum = q → f.data = buf → PR fh1 f) :
    (pinPageInstall bm q v fr fh1 buf).2.1.Satisfies PF PR := by
  unfold pinPageInstall BM_BufferPool.Satisfies
  refine ⟨hF, ?_⟩
  refine forall_mem_set (PR fh1) _ _ _ ?_ hR
  apply hload
  · rw [(loadUpdate_same _ _ _).1]
  · rw [(loadUpdate_same _ _ _).2]

theorem pinPageLoad_satisfies {PF : SM_FileHandle → Prop} {PR : SM_FileHandle → Frame → Prop}
    (hM : Maintained PF PR) (bm : BM_BufferPool) (page : BM_PageHandle) (q : Int) (v : Nat)
    (fr : Frame) (hS : bm.Satisfies PF PR) (hv : bm.mgmtData.frames[v]? = some fr) :
    (pinPageLoad bm page q v fr).2.1.Satisfies PF PR := by
  obtain ⟨hF, hR⟩ := hS
  obtain ⟨hm, htot⟩ := hM.isOpen _ hF
  by_cases hq : q < 0
  · rw [pinPageLoad_neg bm page q v fr hq htot hv]
    exact ⟨hF, hR⟩
  · by_cases hlt : q < bm.mgmtData.fh.totalNumPages
    · rw [pinPageLoad_direct bm page q v fr hm (by omega) hlt]
      refine pinPageInstall_satisfies bm q v fr _ _ (hM.seekF _ _ hF)
        (fun f hf => hM.seekR _ _ _ (hR f hf)) ?_
      intro f hf hd
      exact hM.seekR _ _ _ (hM.load _ q fr.data f hF (by omega) hlt hf hd)
    · rw [pinPageLoad_grow bm page q v fr hm (by omega) (by omega)]
      have hG := hM.growF _ (q + 1) hF (by omega)
      refine pinPageInstall_satisfies bm q v fr _ _ (hM.seekF _ q hG)
        (fun f hf => hM.seekR _ q _ (hM.growR _ (q + 1) f hF (by omega) (hR f hf))) ?_
      intro f hf hd
      exact hM.seekR _ q _ (hM.load _ q fr.data f hG (by omega) (by simp) hf hd)

theorem pinPage_satisfies {PF : SM_FileHandle → Prop} {PR : SM_FileHandle → Frame → Prop}
    (hM : Maintained PF PR) (fuel : Nat) (bm : BM_BufferPool) (page : BM_PageHandle) (q : Int)
    (r : RC × BM_BufferPool × BM_PageHandle)
    (hS : bm.Satisfies PF PR) (h : pinPage fuel bm page q = some r) :
    r.2.1.Satisfies PF PR := by
  unfold pinPage at h
  simp only at h
  split at h
  · simp only [Option.some.injEq] at h
    rw [← h]
    refine ⟨hS.1, ?_⟩
    refine forall_mem_modFrame (PR bm.mgmtData.fh) _ _ _ ?_ hS.2
    intro f hf
    exact hM.same _ f _ hf (hitUpdate_same _ _ _).1 (hitUpdate_same _ _ _).2
  · cases hsel : selectVictim fuel bm.countAccess with
    | none => simp [hsel] at h
    | some w =>
      obtain ⟨victimIndex, bm1⟩ := w
      have hS1 : bm1.Satisfies PF PR :=
        selectVictim_satisfies hM fuel bm.countAccess bm1 victimIndex hS hsel
      simp only [hsel] at h
      split at h
      · simp only [Option.some.injEq] at h
        rw [← h]
        exact hS1
      · cases hfr : bm1.mgmtData.frames[victimIndex.toNat]? with
        | none => simp [hfr] at h
        | some fr =>
          simp only [hfr] at h
          have hfrR := hS1.2 fr (List.getElem?_mem hfr)
          have hW := writeBlock_satisfies hM bm1.mgmtData.fh bm1.mgmtData.frames fr
            hS1.1 hS1.2 hfrR
          split at h
          · split at h
            · simp only [Option.some.injEq] at h
              rw [← h]
              exact hW
            · simp only [Option.some.injEq] at h
              rw [← h]
              refine pinPageLoad_satisfies hM _ page q _ _ ⟨hW.1, ?_⟩ ?_
              · refine forall_mem_set _ _ _ _ ?_ hW.2
                exact hM.same _ fr _ (hW.2 fr (List.getElem?_mem hfr)) rfl rfl
              · have hlt := (List.getElem?_eq_some.mp hfr).1
                simp [List.getElem?_set, hlt]
          · simp only [Option.some.injEq] at h
            rw [← h]
            exact pinPageLoad_satisfies hM _ page q _ _ hS1 hfr

theorem unpinPage_satisfies {PF : SM_FileHandle → Prop} {PR : SM_FileHandle → Frame → Prop}
    (hM : Maintained PF PR) (bm : BM_BufferPool) (page : BM_PageHandle)
    (hS : bm.Satisfies PF PR) : (unpinPage bm page).2.Satisfies PF PR := by
  unfold unpinPage
  simp only
  split
  · exact hS
  · refine ⟨hS.1, ?_⟩
    refine forall_mem_modFrame (PR bm.mgmtData.fh) _ _ _ ?_ hS.2
    intro f hf
    split
    · exact hM.same _ f _ hf rfl rfl
    · exact hf

theorem markDirty_satisfies {PF : SM_FileHandle → Prop} {PR : SM_FileHandle → Frame → Prop}
    (hM : Maintained PF PR) (bm : BM_BufferPool) (page : BM_PageHandle)
    (hS : bm.Satisfies PF PR) : (markDirty bm page).2.Satisfies PF PR := by
  unfold markDirty
  simp only
  split
  · exact hS
  · refine ⟨hS.1, ?_⟩
    refine forall_mem_modFrame (PR bm.mgmtData.fh) _ _ _ ?_ hS.2
    intro f hf
    exact hM.same _ f _ hf rfl rfl

theorem forcePage_satisfies {PF : SM_FileHandle → Prop} {PR : SM_FileHandle → Frame → Prop}
    (hM : Maintained PF PR) (bm : BM_BufferPool) (page : BM_PageHandle)
    (hS : bm.Satisfies PF PR) : (forcePage bm page).2.Satisfies PF PR := by
  unfold forcePage
  simp only
  split
  · exact hS
  · split
    · exact hS
    · rename_i frame hfr
      have hW := writeBlock_satisfies hM bm.mgmtData.fh bm.mgmtData.frames frame
        hS.1 hS.2 (hS.2 frame (List.getElem?_mem hfr))
      split
      · split
        · exact hW
        · refine ⟨hW.1, ?_⟩
          refine forall_mem_set _ _ _ _ ?_ hW.2
          exact hM.same _ frame _ (hW.2 frame (List.getElem?_mem hfr)) rfl rfl
      · exact hS

theorem forceFlushLoop_satisfies {PF : SM_FileHandle → Prop}
    {PR : SM_FileHandle → Frame → Prop} (hM : Maintained PF PR) (fs : List Frame) :
    ∀ (fh : SM_FileHandle) (w : Int) (others : List Frame), PF fh →
      (∀ g ∈ fs, PR fh g) → (∀ g ∈ others, PR fh g) →
      PF (forceFlushLoop fs fh w).2.1 ∧
      (∀ g ∈ (forceFlushLoop fs fh w).1, PR (forceFlushLoop fs fh w).2.1 g) ∧
      (∀ g ∈ others, PR (forceFlushLoop fs fh w).2.1 g) := by
  induction fs with
  | nil =>
    intro fh w others hF _ ho
    exact ⟨hF, by simp [forceFlushLoop], ho⟩
  | cons f fs ih =>
    intro fh w others hF hfs ho
    have hf : PR fh f := hfs f (List.mem_cons_self _ _)
    by_cases hd : f.dirty = true ∧ f.fixCount = 0
    · have hW := writeBlock_satisfies hM fh (f :: fs ++ others) f hF
        (by
          intro g hg
          rcases List.mem_append.mp hg with h1 | h1
          · exact hfs g h1
          · exact ho g h1) hf
      have hrec := ih (writeBlock f.pageNum fh f.data).2 (w + 1)
        ({ f with dirty := false } :: others) hW.1
        (fun g hg => hW.2 g (List.mem_append_left _ (List.mem_cons_of_mem _ hg)))
        (by
          intro g hg
          rcases List.mem_cons.mp hg with h1 | h1
          · rw [h1]
            exact hM.same _ f _ (hW.2 f (List.mem_append_left _ (List.mem_cons_self _ _)))
              rfl rfl
          · exact hW.2 g (List.mem_append_right _ h1))
      rw [forceFlushLoop_cons_flushed f fs fh w hd]
      refine ⟨hrec.1, ?_, ?_⟩
      · intro g hg
        rcases List.mem_cons.mp hg with h1 | h1
        · rw [h1]
          exact hrec.2.2 _ (List.mem_cons_self _ _)
        · exact hrec.2.1 g h1
      · intro g hg
        exact hrec.2.2 g (List.mem_cons_of_mem _ hg)
    · have hrec := ih fh w (f :: others) hF
        (fun g hg => hfs g (List.mem_cons_of_mem _ hg))
        (by
          intro g hg
          rcases List.mem_cons.mp hg with h1 | h1
          · rw [h1]
            exact hf
          · exact ho g h1)
      rw [forceFlushLoop_cons_kept f fs fh w hd]
      refine ⟨hrec.1, ?_, ?_⟩
      · intro g hg
        rcases List.mem_cons.mp hg with h1 | h1
        · rw [h1]
          exact hrec.2.2 _ (List.mem_cons_self _ _)
        · exact hrec.2.1 g h1
      · intro g hg
        exact hrec.2.2 g (List.mem_cons_of_mem _ hg)

theorem forceFlushPool_satisfies {PF : SM_FileHandle → Prop}
    {PR : SM_FileHandle → Frame → Prop} (hM : Maintained PF PR) (bm : BM_BufferPool)
    (hS : bm.Satisfies PF PR) : (forceFlushPool bm).2.Satisfies PF PR := by
  have h := forceFlushLoop_satisfies hM bm.mgmtData.frames bm.mgmtData.fh
    bm.mgmtData.writeIO [] hS.1 hS.2 (by simp)
  exact ⟨h.1, h.2.1⟩

theorem Client.call_satisfies {PF : SM_FileHandle → Prop} {PR : SM_FileHandle → Frame → Prop}
    (hM : Maintained PF PR) (c : Client) (x : Call) (rc : RC) (c1 : Client)
    (hx : ∀ bytes, x ≠ Call.store bytes) (hS : c.bm.Satisfies PF PR)
    (h : c.call x = some (rc, c1)) : c1.bm.Satisfies PF PR := by
  cases x with
  | pinPage fuel q =>
    simp only [Client.call, Option.map_eq_some'] at h
    obtain ⟨r, hr, he⟩ := h
    simp only [Prod.mk.injEq] at he
    rw [← he.2]
    exact pinPage_satisfies hM fuel c.bm c.h q r hS hr
  | unpinPage =>
    simp only [Client.call, Option.some.injEq, Prod.mk.injEq] at h
    rw [← h.2]
    exact unpinPage_satisfies hM c.bm c.h hS
  | markDirty =>
    simp only [Client.call, Option.some.injEq, Prod.mk.injEq] at h
    rw [← h.2]
    exact markDirty_satisfies hM c.bm c.h hS
  | forcePage =>
    simp only [Client.call, Option.some.injEq, Prod.mk.injEq] at h
    rw [← h.2]
    exact forcePage_satisfies hM c.bm c.h hS
  | forceFlushPool =>
    simp only [Client.call, Option.some.injEq, Prod.mk.injEq] at h
    rw [← h.2]
    exact forceFlushPool_satisfies hM c.bm hS
  | setPageNum q =>
    simp only [Client.call, Option.some.injEq, Prod.mk.injEq] at h
    rw [← h.2]
    exact hS
  | store bytes => exact absurd rfl (hx bytes)

theorem Client.run_satisfies {PF : SM_FileHandle → Prop} {PR : SM_FileHandle → Frame → Prop}
    (hM : Maintained PF PR) : ∀ (calls : List Call) (c c1 : Client),
    (∀ x ∈ calls, ∀ bytes, x ≠ Call.store bytes) → c.bm.Satisfies PF PR →
    c.run calls = some c1 → c1.bm.Satisfies PF PR := by
  intro calls
  induction calls with
  | nil =>
    intro c c1 _ hS h
    simp only [Client.run, Option.some.injEq] at h
    rw [← h]
    exact hS
  | cons x xs ih =>
    intro c c1 hx hS h
    unfold Client.run at h
    cases hc : c.call x with
    | none => simp [hc] at h
    | some r =>
      obtain ⟨rc, c2⟩ := r
      simp only [hc] at h
      exact ih c2 c1 (fun y hy => hx y (List.mem_cons_of_mem _ hy))
        (Client.call_satisfies hM c x rc c2 (hx x (List.mem_cons_self _ _)) hS hc) h

theorem fileOpen_seek (fh : SM_FileHandle) (x : Int) (h : FileOpen fh) :
    FileOpen { fh with curPagePos := x } := h

theorem fileOpen_grow (fh : SM_FileHandle) (n : Int) (h : FileOpen fh)
    (hn : fh.totalNumPages ≤ n) :
    FileOpen { fh with totalNumPages := n,
                       file := fh.file ++
                         List.replicate (n - fh.totalNumPages).toNat zeroPage } := by
  obtain ⟨hm, hs⟩ := h
  refine ⟨hm, ?_⟩
  unfold FileSync at hs ⊢
  simp only [List.length_append, List.length_replicate]
  push_cast
  omega

theorem fileOpen_write (fh : SM_FileHandle) (q : Int) (d : PageData) (h : FileOpen fh)
    (h0 : 0 ≤ q) (h1 : q < fh.totalNumPages) :
    FileOpen { fh with file := writeAt fh.file q.toNat d } := by
  obtain ⟨hm, hs⟩ := h
  refine ⟨hm, ?_⟩
  unfold FileSync at hs ⊢
  simp only
  rw [length_writeAt _ _ _ (by omega)]
  exact hs

theorem maintained_inFile : Maintained FileOpen Frame.InFile where
  isOpen := by
    intro fh h
    refine ⟨h.1, ?_⟩
    have := h.2
    unfold FileSync at this
    omega
  seekF := fileOpen_seek
  seekR := fun _ _ _ h => h
  growF := fileOpen_grow
  growR := by
    intro fh n f _ hn h
    unfold Frame.InFile at h ⊢
    simp only
    omega
  writeF := fun fh f h _ h0 h1 => fileOpen_write fh f.pageNum f.data h h0 h1
  writeR := fun _ _ _ _ _ _ _ h => h
  same := by
    intro fh f g h hp _
    unfold Frame.InFile at h ⊢
    rw [hp]
    exact h
  reset := by
    intro fh f hF _
    have := hF.2
    unfold FileSync at this
    unfold Frame.InFile resetFrame NO_PAGE
    simp only
    omega
  load := by
    intro fh q d f _ _ h1 hp _
    unfold Frame.InFile
    rw [hp]
    exact h1

theorem maintained_holds (p : Int) (b : PageData) :
    Maintained (FileHolds p b) (Frame.Agrees p b) where
  isOpen := by
    intro fh h
    refine ⟨h.1.1, ?_⟩
    have := h.2
    omega
  seekF := fun _ _ h => h
  seekR := fun _ _ _ h => h
  growF := by
    intro fh n h hn
    obtain ⟨ho, h0, h1, h2⟩ := h
    refine ⟨fileOpen_grow fh n ho hn, h0, ?_, ?_⟩
    · simp only
      omega
    · have hs := ho.2
      unfold FileSync at hs
      simp only
      rw [List.getElem?_append_left (by omega)]
      exact h2
  growR := by
    intro fh n f _ hn h
    unfold Frame.Agrees at h ⊢
    refine ⟨?_, h.2⟩
    simp only
    omega
  writeF := by
    intro fh f h hf hq0 hq1
    obtain ⟨ho, h0, h1, h2⟩ := h
    refine ⟨fileOpen_write fh f.pageNum f.data ho hq0 hq1, h0, h1, ?_⟩
    have hs := ho.2
    unfold FileSync at hs
    simp only
    by_cases hqp : f.pageNum = p
    · rw [hqp, getElem?_writeAt_self, hf.2 hqp]
    · rw [getElem?_writeAt_ne _ _ _ _ (by omega) (by omega)]
      exact h2
  writeR := fun _ _ _ _ _ _ _ h => h
  same := by
    intro fh f g h hp hd
    unfold Frame.Agrees at h ⊢
    rw [hp, hd]
    exact h
  reset := by
    intro fh f hF _
    obtain ⟨_, h0, h1, _⟩ := hF
    unfold Frame.Agrees resetFrame NO_PAGE
    simp only
    refine ⟨by omega, ?_⟩
    intro h
    omega
  load := by
    intro fh q d f hF _ h1 hp hd
    obtain ⟨_, _, _, h2⟩ := hF
    refine ⟨by rw [hp]; exact h1, ?_⟩
    intro hq
    rw [hd, ← hp, hq, h2]
    rfl

theorem pinPageLoad_ok_handle (bm : BM_BufferPool) (page : BM_PageHandle) (q : Int) (v : Nat)
    (fr : Frame) (bm1 : BM_BufferPool) (page1 : BM_PageHandle)
    (hv : v < bm.mgmtData.frames.length)
    (h : pinPageLoad bm page q v fr = (RC_OK, bm1, page1)) :
    ∃ (v : Nat) (f : Frame), page1 = { pageNum := q, data := some v } ∧
      bm1.mgmtData.frames[v]? = some f ∧ f.pageNum = q := by
  obtain ⟨hm, h0⟩ := pinPageLoad_ok_cond _ _ _ _ _ _ _ h
  by_cases hlt : q < bm.mgmtData.fh.totalNumPages
  · rw [pinPageLoad_direct _ _ _ _ _ hm h0 hlt] at h
    obtain ⟨h1, _, _, _, _, ⟨f1, hf1, ha, _⟩, _⟩ := pinPageInstall_effect _ _ _ _ _ _ _ _ hv h
    exact ⟨v, f1, h1, hf1, ha⟩
  · rw [pinPageLoad_grow _ _ _ _ _ hm h0 (by omega)] at h
    obtain ⟨h1, _, _, _, _, ⟨f1, hf1, ha, _⟩, _⟩ := pinPageInstall_effect _ _ _ _ _ _ _ _ hv h
    exact ⟨v, f1, h1, hf1, ha⟩

/-- A `pinPage` that returns `RC_OK` leaves the handle on a frame that holds the page. -/
theorem pinPage_ok_handle (fuel : Nat) (bm : BM_BufferPool) (page : BM_PageHandle) (q : Int)
    (bm1 : BM_BufferPool) (page1 : BM_PageHandle)
    (h : pinPage fuel bm page q = some (RC_OK, bm1, page1)) :
    ∃ (v : Nat) (f : Frame), page1 = { pageNum := q, data := some v } ∧
      bm1.mgmtData.frames[v]? = some f ∧ f.pageNum = q := by
  unfold pinPage at h
  simp only at h
  split at h
  · rename_i hhit
    rcases findFrameFrom_spec bm.mgmtData.frames 0 q with ⟨hno, _⟩ | ⟨k, f, hk, hf, hfind, _⟩
    · exact absurd hno hhit
    · have hfind2 : findFrame bm q = (k : Int) := by
        unfold findFrame
        rw [hfind]
        simp
      simp only [hfind2, Int.toNat_ofNat, Option.some.injEq, Prod.mk.injEq] at h
      obtain ⟨_, hb, hp⟩ := h
      refine ⟨k, hitUpdate bm.countAccess.strategy bm.countAccess.mgmtData.accessCounter
        { f with fixCount := f.fixCount + 1 }, hp.symm, ?_, ?_⟩
      · rw [← hb]
        simp only [BM_BufferPool.withFrames, BM_BufferPool.countAccess]
        rw [getElem?_modFrame, if_pos rfl, hk]
        rfl
      · rw [(hitUpdate_same _ _ _).1]
        exact hf
  · cases hsel : selectVictim fuel bm.countAccess with
    | none => simp [hsel] at h
    | some w =>
      obtain ⟨victimIndex, bmv⟩ := w
      simp only [hsel] at h
      split at h
      · simp only [Option.some.injEq, Prod.mk.injEq] at h
        exact absurd h.1 rc_nofree_ne_ok
      · cases hfr : bmv.mgmtData.frames[victimIndex.toNat]? with
        | none => simp [hfr] at h
        | some fr =>
          simp only [hfr] at h
          have hlt := (List.getElem?_eq_some.mp hfr).1
          split at h
          · split at h
            · rename_i hrc
              simp only [Option.some.injEq, Prod.mk.injEq] at h
              exact absurd h.1 hrc
            · simp only [Option.some.injEq] at h
              exact pinPageLoad_ok_handle _ page q _ _ bm1 page1
                (by simpa using hlt) h
          · simp only [Option.some.injEq] at h
            exact pinPageLoad_ok_handle _ page q _ _ bm1 page1 hlt h

theorem findFrame_only (bm : BM_BufferPool) (p : Int) (v : Nat) (x : Frame)
    (hv : bm.mgmtData.frames[v]? = some x) (hx : x.pageNum = p)
    (hU : ∀ (j : Nat) (g : Frame), bm.mgmtData.frames[j]? = some g → g.pageNum = p → j = v) :
    findFrame bm p = (v : Int) := by
  refine findFrame_eq_of_first bm p v x hv hx ?_
  intro j g hj hg hp
  have := hU j g hg hp
  omega

theorem markDirty_at (bm : BM_BufferPool) (page : BM_PageHandle) (v : Nat) (x : Frame)
    (hfind : findFrame bm page.pageNum = (v : Int)) (hv : bm.mgmtData.frames[v]? = some x) :
    markDirty bm page =
      (RC_OK, bm.withFrames (bm.mgmtData.frames.set v { x with dirty := true })) := by
  unfold markDirty
  simp only [hfind, Int.toNat_ofNat]
  rw [if_neg (by omega)]
  unfold modFrame
  simp only [hv]

theorem unpinPage_at (bm : BM_BufferPool) (page : BM_PageHandle) (v : Nat) (x : Frame)
    (hfind : findFrame bm page.pageNum = (v : Int)) (hv : bm.mgmtData.frames[v]? = some x) :
    unpinPage bm page =
      (RC_OK, bm.withFrames (bm.mgmtData.frames.set v
        (if x.fixCount > 0 then { x with fixCount := x.fixCount - 1 } else x))) := by
  unfold unpinPage
  simp only [hfind, Int.toNat_ofNat]
  rw [if_neg (by omega)]
  unfold modFrame
  simp only [hv]

theorem frame_agrees_of_total (p : Int) (b : PageData) (fh fh1 : SM_FileHandle) (f : Frame)
    (ht : fh1.totalNumPages = fh.totalNumPages) (h : f.Agrees p b fh) : f.Agrees p b fh1 := by
  unfold Frame.Agrees at h ⊢
  rw [ht]
  exact h

/-- The loop of `forceFlushPool` on an open file: page `p` of the file holds the bytes
`b` afterwards if it did before or if one of the frames that the loop writes holds
page `p`, provided that every frame that holds page `p` has the bytes `b` in its
buffer. -/
theorem forceFlushLoop_holds (p : Int) (b : PageData) (fs : List Frame) :
    ∀ (fh : SM_FileHandle) (w : Int), FileOpen fh → 0 ≤ p → p < fh.totalNumPages →
      (∀ g ∈ fs, g.Agrees p b fh) →
      (fh.file[p.toNat]? = some b ∨
        ∃ f ∈ fs, f.pageNum = p ∧ f.dirty = true ∧ f.fixCount = 0) →
      FileHolds p b (forceFlushLoop fs fh w).2.1 ∧
      (forceFlushLoop fs fh w).2.1.totalNumPages = fh.totalNumPages := by
  induction fs with
  | nil =>
    intro fh w ho h0 h1 _ hor
    rcases hor with h | ⟨f, hf, _⟩
    · exact ⟨⟨ho, h0, h1, h⟩, rfl⟩
    · simp at hf
  | cons f fs ih =>
    intro fh w ho h0 h1 hA hor
    have hfA := hA f (List.mem_cons_self _ _)
    have hsync := ho.2
    unfold FileSync at hsync
    by_cases hd : f.dirty = true ∧ f.fixCount = 0
    · rw [forceFlushLoop_cons_flushed f fs fh w hd]
      simp only
      have hW : FileOpen (writeBlock f.pageNum fh f.data).2 ∧
          (writeBlock f.pageNum fh f.data).2.totalNumPages = fh.totalNumPages ∧
          ((fh.file[p.toNat]? = some b ∨ f.pageNum = p) →
            (writeBlock f.pageNum fh f.data).2.file[p.toNat]? = some b) := by
        by_cases hbad : fh.mgmtInfo = false ∨ f.pageNum < 0 ∨ f.pageNum ≥ fh.totalNumPages
        · rw [writeBlock_fail _ _ _ hbad]
          refine ⟨ho, rfl, ?_⟩
          intro h
          rcases h with h | h
          · exact h
          · exfalso
            rcases hbad with hb | hb | hb
            · rw [ho.1] at hb
              cases hb
            · omega
            · omega
        · have hq0 : 0 ≤ f.pageNum := by
            by_contra hc
            exact hbad (Or.inr (Or.inl (by omega)))
          have hq1 : f.pageNum < fh.totalNumPages := by
            by_contra hc
            exact hbad (Or.inr (Or.inr (by omega)))
          rw [writeBlock_ok _ _ _ ho.1 hq0 hq1]
          refine ⟨fileOpen_seek _ _ (fileOpen_write fh f.pageNum f.data ho hq0 hq1), rfl, ?_⟩
          intro h
          simp only
          by_cases hqp : f.pageNum = p
          · rw [hqp, getElem?_writeAt_self, hfA.2 hqp]
          · rw [getElem?_writeAt_ne _ _ _ _ (by omega) (by omega)]
            rcases h with h | h
            · exact h
            · exact absurd h hqp
      have hrec := ih (writeBlock f.pageNum fh f.data).2 (w + 1) hW.1 h0
        (by rw [hW.2.1]; exact h1)
        (fun g hg => frame_agrees_of_total p b fh _ g hW.2.1 (hA g (List.mem_cons_of_mem _ hg)))
        (by
          rcases hor with h | ⟨x, hx, hxp, hxd, hxf⟩
          · exact Or.inl (hW.2.2 (Or.inl h))
          · rcases List.mem_cons.mp hx with h1 | h1
            · left
              apply hW.2.2
              right
              rw [← h1]
              exact hxp
            · exact Or.inr ⟨x, h1, hxp, hxd, hxf⟩)
      exact ⟨hrec.1, by rw [hrec.2, hW.2.1]⟩
    · rw [forceFlushLoop_cons_kept f fs fh w hd]
      simp only
      refine ih fh w ho h0 h1 (fun g hg => hA g (List.mem_cons_of_mem _ hg)) ?_
      rcases hor with h | ⟨x, hx, hxp, hxd, hxf⟩
      · exact Or.inl h
      · rcases List.mem_cons.mp hx with h1 | h1
        · rw [h1] at hxd hxf
          exact absurd ⟨hxd, hxf⟩ hd
        · exact Or.inr ⟨x, h1, hxp, hxd, hxf⟩

/-- After a store of the bytes `b` through a handle on the one frame that holds page
`p`, `markDirty`, `unpinPage` of the last pin and `forceFlushPool`, page `p` of the file
holds `b`, and so does the buffer of every frame that holds page `p`. -/
theorem flush_after_store (bm : BM_BufferPool) (p : Int) (b : PageData) (v : Nat) (f1 : Frame)
    (hS : bm.Satisfies FileOpen Frame.InFile) (hd : DistinctPages bm.mgmtData.frames)
    (hp : 0 ≤ p) (hv : bm.mgmtData.frames[v]? = some f1) (hf1 : f1.pageNum = p)
    (hfix : f1.fixCount = 1) :
    (forceFlushPool (unpinPage (markDirty (storeBytes bm { pageNum := p, data := some v } b)
      { pageNum := p, data := some v }).2 { pageNum := p, data := some v }).2).2.Satisfies
        (FileHolds p b) (Frame.Agrees p b) := by
  have hvlt := (List.getElem?_eq_some.mp hv).1
  have hU : ∀ (x : Frame), x.pageNum = p → ∀ (j : Nat) (g : Frame),
      (bm.mgmtData.frames.set v x)[j]? = some g → g.pageNum = p → j = v := by
    intro x _ j g hg hgp
    by_contra hne
    rw [List.getElem?_set_ne (fun h => hne h.symm)] at hg
    have := (distinctPages_iff _).mp hd j v g f1 hne hg hv (by rw [hgp, hf1])
    unfold NO_PAGE at this
    omega
  have hget : ∀ x : Frame, (bm.mgmtData.frames.set v x)[v]? = some x := by
    intro x
    simp [List.getElem?_set, hvlt]
  have e1 : storeBytes bm { pageNum := p, data := some v } b =
      bm.withFrames (bm.mgmtData.frames.set v { f1 with data := b }) := by
    simp only [storeBytes, modFrame, hv]
  have e2 : markDirty (bm.withFrames (bm.mgmtData.frames.set v { f1 with data := b }))
      { pageNum := p, data := some v } =
      (RC_OK, bm.withFrames (bm.mgmtData.frames.set v { f1 with data := b, dirty := true })) := by
    rw [markDirty_at _ _ v { f1 with data := b }
      (findFrame_only _ p v { f1 with data := b } (hget _) hf1
        (hU { f1 with data := b } hf1)) (hget _)]
    simp only [BM_BufferPool.withFrames, List.set_set]
  have e3 : unpinPage (bm.withFrames (bm.mgmtData.frames.set v
      { f1 with data := b, dirty := true })) { pageNum := p, data := some v } =
      (RC_OK, bm.withFrames (bm.mgmtData.frames.set v
        { f1 with data := b, dirty := true, fixCount := 0 })) := by
    rw [unpinPage_at _ _ v { f1 with data := b, dirty := true }
      (findFrame_only _ p v { f1 with data := b, dirty := true } (hget _) hf1
        (hU { f1 with data := b, dirty := true } hf1))
      (hget _)]
    simp only [BM_BufferPool.withFrames, List.set_set]
    rw [if_pos (by show f1.fixCount > 0; omega)]
    simp only [hfix]
    rfl
  rw [e1, e2, e3]
  obtain ⟨ho, hin⟩ := hS
  have hplt : p < bm.mgmtData.fh.totalNumPages := by
    have := hin f1 (List.getElem?_mem hv)
    unfold Frame.InFile at this
    omega
  have hA : ∀ g ∈ bm.mgmtData.frames.set v { f1 with data := b, dirty := true, fixCount := 0 },
      g.Agrees p b bm.mgmtData.fh := by
    intro g hg
    obtain ⟨j, hj⟩ := List.mem_iff_getElem?.mp hg
    by_cases hjv : j = v
    · rw [hjv, hget] at hj
      cases hj
      exact ⟨by show f1.pageNum < _; omega, fun _ => rfl⟩
    · refine ⟨?_, ?_⟩
      · rcases List.mem_or_eq_of_mem_set hg with h1 | h1
        · exact hin g h1
        · rw [h1]
          show f1.pageNum < _
          omega
      · intro hgp
        exact absurd (hU { f1 with data := b, dirty := true, fixCount := 0 } hf1 j g hj hgp) hjv
  have hloop := forceFlushLoop_holds p b
    (bm.mgmtData.frames.set v { f1 with data := b, dirty := true, fixCount := 0 })
    bm.mgmtData.fh bm.mgmtData.writeIO ho hp hplt hA
    (Or.inr ⟨_, List.getElem?_mem (hget _), hf1, rfl, rfl⟩)
  refine ⟨hloop.1, ?_⟩
  intro g hg
  have hfr := (forceFlushLoop_frames
    (bm.mgmtData.frames.set v { f1 with data := b, dirty := true, fixCount := 0 })
    bm.mgmtData.fh bm.mgmtData.writeIO).1
  have hg2 : g ∈ (forceFlushLoop
      (bm.mgmtData.frames.set v { f1 with data := b, dirty := true, fixCount := 0 })
      bm.mgmtData.fh bm.mgmtData.writeIO).1 := hg
  rw [hfr] at hg2
  obtain ⟨g0, hg0, hge⟩ := List.mem_map.mp hg2
  have h0 := frame_agrees_of_total p b _ _ g0 hloop.2 (hA g0 hg0)
  rw [← hge]
  split
  · exact ⟨h0.1, h0.2⟩
  · exact h0

theorem storeBytes_inFile (bm : BM_BufferPool) (page : BM_PageHandle) (bytes : PageData)
    (hS : bm.Satisfies FileOpen Frame.InFile) :
    (storeBytes bm page bytes).Satisfies FileOpen Frame.InFile := by
  unfold storeBytes
  split
  · refine ⟨hS.1, ?_⟩
    exact forall_mem_modFrame (Frame.InFile bm.mgmtData.fh) _ _ _ (fun f hf => hf) hS.2
  · exact hS

theorem Client.run_inFile : ∀ (calls : List Call) (c c1 : Client),
    c.bm.Satisfies FileOpen Frame.InFile → c.run calls = some c1 →
    c1.bm.Satisfies FileOpen Frame.InFile := by
  intro calls
  induction calls with
  | nil =>
    intro c c1 hS h
    simp only [Client.run, Option.some.injEq] at h
    rw [← h]
    exact hS
  | cons x xs ih =>
    intro c c1 hS h
    unfold Client.run at h
    cases hc : c.call x with
    | none => simp [hc] at h
    | some r =>
      obtain ⟨rc, c2⟩ := r
      simp only [hc] at h
      refine ih c2 c1 ?_ h
      by_cases hx : ∀ bytes, x ≠ Call.store bytes
      · exact Client.call_satisfies maintained_inFile c x rc c2 hx hS hc
      · push_neg at hx
        obtain ⟨bytes, rfl⟩ := hx
        simp only [Client.call, Option.some.injEq, Prod.mk.injEq] at hc
        rw [← hc.2]
        exact storeBytes_inFile c.bm c.h bytes hS

theorem initPool_inFile (strategy : ReplacementStrategy) (n : Nat) (disk : Disk)
    (name : String) (fh : SM_FileHandle) (h : openPageFile disk name = some fh) :
    (initPool strategy n fh).Satisfies FileOpen Frame.InFile := by
  unfold openPageFile at h
  split at h
  · cases h
  · simp only [Option.some.injEq] at h
    rw [← h]
    refine ⟨⟨rfl, rfl⟩, ?_⟩
    intro f hf
    simp only [initPool] at hf
    rw [List.eq_of_mem_replicate hf]
    unfold Frame.InFile initFrame NO_PAGE
    simp only [initPool]
    omega

theorem map_forgetSecond_idem (fs : List Frame) :
    (fs.map Frame.forgetSecond).map Frame.forgetSecond = fs.map Frame.forgetSecond := by
  rw [List.map_map]
  rfl

theorem BM_BufferPool.asLRU_idem (bm : BM_BufferPool) : bm.asLRU.asLRU = bm.asLRU := by
  simp only [BM_BufferPool.asLRU, map_forgetSecond_idem]

theorem findFrameFrom_forgetSecond (fs : List Frame) (i : Nat) (p : Int) :
    findFrameFrom (fs.map Frame.forgetSecond) i p = findFrameFrom fs i p := by
  induction fs generalizing i with
  | nil => rfl
  | cons f fs ih =>
    simp only [List.map_cons, findFrameFrom, ih]
    rfl

theorem findFrame_asLRU (bm : BM_BufferPool) (p : Int) :
    findFrame bm.asLRU p = findFrame bm p :=
  findFrameFrom_forgetSecond _ _ _

theorem findEmptyFrom_forgetSecond (fs : List Frame) (i : Nat) :
    findEmptyFrom (fs.map Frame.forgetSecond) i = findEmptyFrom fs i := by
  induction fs generalizing i with
  | nil => rfl
  | cons f fs ih =>
    simp only [List.map_cons, findEmptyFrom, ih]
    rfl

theorem scanMin_forgetSecond (key : Frame → Int) (hkey : ∀ f : Frame, key f.forgetSecond = key f)
    (fs : List Frame) (i : Nat) (best least : Int) :
    scanMin key (fs.map Frame.forgetSecond) i best least = scanMin key fs i best least := by
  induction fs generalizing i best least with
  | nil => rfl
  | cons f fs ih =>
    simp only [List.map_cons, scanMin, ih, hkey]
    rfl

theorem modFrame_forgetSecond (fs : List Frame) (i : Nat) (g g2 : Frame → Frame)
    (hg : ∀ f : Frame, (g f).forgetSecond = g2 f.forgetSecond) :
    (modFrame fs i g).map Frame.forgetSecond = modFrame (fs.map Frame.forgetSecond) i g2 := by
  unfold modFrame
  rw [List.getElem?_map]
  cases hf : fs[i]? with
  | none => rfl
  | some f =>
    simp only [Option.map_some', List.map_set, hg]

/-- Under LRU and under LRU-K `selectVictim` makes the same choice, from the last
access times alone, and leaves the pool as it is. -/
theorem selectVictim_lru (fuel : Nat) (bm : BM_BufferPool)
    (hs : bm.strategy = RS_LRU ∨ bm.strategy = RS_LRU_K) :
    ∃ v : Int, selectVictim fuel bm = some (v, bm) ∧
      selectVictim fuel bm.asLRU = some (v, bm.asLRU) := by
  unfold selectVictim
  have he : findEmptyFrom bm.asLRU.mgmtData.frames 0 = findEmptyFrom bm.mgmtData.frames 0 :=
    findEmptyFrom_forgetSecond _ _
  have hk : scanMin (fun f => f.lastTwo1) bm.asLRU.mgmtData.frames 0 (-1) INT_MAX =
      scanMin (fun f => f.lastTwo1) bm.mgmtData.frames 0 (-1) INT_MAX :=
    scanMin_forgetSecond (fun f => f.lastTwo1) (fun _ => rfl) _ _ _ _
  rw [he]
  cases findEmptyFrom bm.mgmtData.frames 0 with
  | some i => exact ⟨i, rfl, rfl⟩
  | none =>
    have h2 : bm.asLRU.strategy = RS_LRU := rfl
    simp only [h2, selectLRUVictim, hk]
    rcases hs with h | h <;> rw [h] <;> exact ⟨_, rfl, rfl⟩

theorem pinPageInstall_asLRU (bm : BM_BufferPool) (q : Int) (v : Nat) (fr : Frame)
    (fh : SM_FileHandle) (buf : PageData)
    (hs : bm.strategy = RS_LRU ∨ bm.strategy = RS_LRU_K) :
    asLRUResult (pinPageInstall bm q v fr fh buf) =
      asLRUResult (pinPageInstall bm.asLRU q v fr.forgetSecond fh buf) := by
  have h2 : bm.asLRU.strategy = RS_LRU := rfl
  simp only [pinPageInstall, asLRUResult, h2]
  simp only [BM_BufferPool.asLRU, List.map_set, map_forgetSecond_idem]
  rcases hs with h | h <;> rw [h] <;> rfl

theorem pinPageLoad_asLRU (bm : BM_BufferPool) (page : BM_PageHandle) (q : Int) (v : Nat)
    (fr : Frame) (hs : bm.strategy = RS_LRU ∨ bm.strategy = RS_LRU_K) :
    asLRUResult (pinPageLoad bm page q v fr) =
      asLRUResult (pinPageLoad bm.asLRU page q v fr.forgetSecond) := by
  unfold pinPageLoad
  have e1 : bm.asLRU.mgmtData.fh = bm.mgmtData.fh := rfl
  have e2 : fr.forgetSecond.data = fr.data := rfl
  rw [e1, e2]
  rcases readBlock q bm.mgmtData.fh fr.data with ⟨rc, fh1, buf1⟩
  simp only
  split
  · rcases ensureCapacity (q + 1) fh1 with ⟨rc2, fh2⟩
    simp only
    split
    · simp only [asLRUResult, BM_BufferPool.asLRU, BM_BufferPool.withFh,
        map_forgetSecond_idem]
    · rcases readBlock q fh2 buf1 with ⟨rc3, fh3, buf3⟩
      simp only
      split
      · simp only [asLRUResult, BM_BufferPool.asLRU, BM_BufferPool.withFrames,
          BM_BufferPool.withFh, List.map_set, map_forgetSecond_idem]
        rfl
      · exact pinPageInstall_asLRU bm q v fr fh3 buf3 hs
  · exact pinPageInstall_asLRU bm q v fr fh1 buf1 hs

theorem hitUpdate_forgetSecond (bm : BM_BufferPool)
    (hs : bm.strategy = RS_LRU ∨ bm.strategy = RS_LRU_K) (a : Int) (f : Frame) :
    (hitUpdate bm.strategy a { f with fixCount := f.fixCount + 1 }).forgetSecond =
      (hitUpdate RS_LRU a
        { f.forgetSecond with fixCount := f.forgetSecond.fixCount + 1 }).forgetSecond := by
  rcases hs with h | h <;> rw [h] <;> rfl

theorem pinPage_asLRU (fuel : Nat) (bm : BM_BufferPool) (page : BM_PageHandle) (q : Int)
    (hs : bm.strategy = RS_LRU ∨ bm.strategy = RS_LRU_K) :
    (pinPage fuel bm page q).map asLRUResult = (pinPage fuel bm.asLRU page q).map asLRUResult := by
  obtain ⟨v, hv1, hv2⟩ := selectVictim_lru fuel bm.countAccess hs
  have hv3 : selectVictim fuel bm.asLRU.countAccess = some (v, bm.countAccess.asLRU) := hv2
  unfold pinPage
  simp only [findFrame_asLRU, hv1, hv3]
  split
  · simp only [Option.map_some', Option.some.injEq]
    simp only [asLRUResult, Prod.mk.injEq, true_and, and_true]
    simp only [BM_BufferPool.asLRU, BM_BufferPool.withFrames, BM_BufferPool.countAccess]
    have e1 := modFrame_forgetSecond bm.mgmtData.frames (findFrame bm q).toNat
      (fun f => hitUpdate bm.strategy (bm.mgmtData.accessCounter + 1)
        { f with fixCount := f.fixCount + 1 })
      (fun f => (hitUpdate RS_LRU (bm.mgmtData.accessCounter + 1)
        { f with fixCount := f.fixCount + 1 }).forgetSecond)
      (fun f => hitUpdate_forgetSecond bm hs _ f)
    have e2 := modFrame_forgetSecond (bm.mgmtData.frames.map Frame.forgetSecond)
      (findFrame bm q).toNat
      (fun f => hitUpdate RS_LRU (bm.mgmtData.accessCounter + 1)
        { f with fixCount := f.fixCount + 1 })
      (fun f => (hitUpdate RS_LRU (bm.mgmtData.accessCounter + 1)
        { f with fixCount := f.fixCount + 1 }).forgetSecond)
      (fun f => rfl)
    rw [map_forgetSecond_idem] at e2
    rw [e1, e2]
  · have hlen : bm.countAccess.asLRU.mgmtData.numFrames = bm.countAccess.mgmtData.numFrames := by
      simp [BM_MgmtData.numFrames, BM_BufferPool.asLRU]
    rw [hlen]
    split
    · simp only [Option.map_some', asLRUResult, BM_BufferPool.asLRU_idem]
    · have hget : bm.countAccess.asLRU.mgmtData.frames[v.toNat]? =
          (bm.countAccess.mgmtData.frames[v.toNat]?).map Frame.forgetSecond := by
        simp only [BM_BufferPool.asLRU, List.getElem?_map]
      rw [hget]
      cases hfr : bm.countAccess.mgmtData.frames[v.toNat]? with
      | none => rfl
      | some fr =>
        simp only [Option.map_some']
        have e1 : fr.forgetSecond.dirty = fr.dirty := rfl
        have e2 : fr.forgetSecond.pageNum = fr.pageNum := rfl
        have e3 : fr.forgetSecond.data = fr.data := rfl
        have e4 : bm.countAccess.asLRU.mgmtData.fh = bm.countAccess.mgmtData.fh := rfl
        rw [e1, e2, e3, e4]
        split
        · rcases writeBlock fr.pageNum bm.countAccess.mgmtData.fh fr.data with ⟨rc, fh1⟩
          simp only
          split
          · simp only [Option.map_some', asLRUResult, BM_BufferPool.asLRU,
              BM_BufferPool.withFh, map_forgetSecond_idem]
          · simp only [Option.map_some', Option.some.injEq]
            have h3 := pinPageLoad_asLRU
              { bm.countAccess with mgmtData :=
                  { bm.countAccess.mgmtData with
                      fh := fh1, writeIO := bm.countAccess.mgmtData.writeIO + 1,
                      frames := bm.countAccess.mgmtData.frames.set v.toNat
                        { fr with dirty := false } } }
              page q v.toNat { fr with dirty := false } hs
            rw [h3]
            simp only [BM_BufferPool.asLRU, List.map_set]
            rfl
        · simp only [Option.map_some', Option.some.injEq]
          exact pinPageLoad_asLRU bm.countAccess page q v.toNat fr hs

theorem unpinPage_asLRU (bm : BM_BufferPool) (page : BM_PageHandle) :
    (unpinPage bm.asLRU page).1 = (unpinPage bm page).1 ∧
    (unpinPage bm.asLRU page).2.asLRU = (unpinPage bm page).2.asLRU := by
  unfold unpinPage
  simp only [findFrame_asLRU]
  split
  · exact ⟨rfl, BM_BufferPool.asLRU_idem bm⟩
  · refine ⟨rfl, ?_⟩
    simp only [BM_BufferPool.asLRU, BM_BufferPool.withFrames]
    have e1 := modFrame_forgetSecond bm.mgmtData.frames (findFrame bm page.pageNum).toNat
      (fun f => if f.fixCount > 0 then { f with fixCount := f.fixCount - 1 } else f)
      (fun f => if f.fixCount > 0 then { f with fixCount := f.fixCount - 1 } else f)
      (by
        intro f
        by_cases h : f.fixCount > 0
        · have h2 : f.forgetSecond.fixCount > 0 := h
          simp only [if_pos h, if_pos h2]
          rfl
        · have h2 : ¬ f.forgetSecond.fixCount > 0 := h
          simp only [if_neg h, if_neg h2])
    have e2 := modFrame_forgetSecond (bm.mgmtData.frames.map Frame.forgetSecond)
      (findFrame bm page.pageNum).toNat
      (fun f => if f.fixCount > 0 then { f with fixCount := f.fixCount - 1 } else f)
      (fun f => if f.fixCount > 0 then { f with fixCount := f.fixCount - 1 } else f)
      (by
        intro f
        by_cases h : f.fixCount > 0
        · have h2 : f.forgetSecond.fixCount > 0 := h
          simp only [if_pos h, if_pos h2]
          rfl
        · have h2 : ¬ f.forgetSecond.fixCount > 0 := h
          simp only [if_neg h, if_neg h2])
    rw [map_forgetSecond_idem] at e2
    rw [e1, e2]

theorem markDirty_asLRU (bm : BM_BufferPool) (page : BM_PageHandle) :
    (markDirty bm.asLRU page).1 = (markDirty bm page).1 ∧
    (markDirty bm.asLRU page).2.asLRU = (markDirty bm page).2.asLRU := by
  unfold markDirty
  simp only [findFrame_asLRU]
  split
  · exact ⟨rfl, BM_BufferPool.asLRU_idem bm⟩
  · refine ⟨rfl, ?_⟩
    simp only [BM_BufferPool.asLRU, BM_BufferPool.withFrames]
    have e1 := modFrame_forgetSecond bm.mgmtData.frames (findFrame bm page.pageNum).toNat
      (fun f => { f with dirty := true }) (fun f => { f with dirty := true }) (fun _ => rfl)
    have e2 := modFrame_forgetSecond (bm.mgmtData.frames.map Frame.forgetSecond)
      (findFrame bm page.pageNum).toNat
      (fun f => { f with dirty := true }) (fun f => { f with dirty := true }) (fun _ => rfl)
    rw [map_forgetSecond_idem] at e2
    rw [e1, e2]

theorem storeBytes_asLRU (bm : BM_BufferPool) (page : BM_PageHandle) (bytes : PageData) :
    (storeBytes bm.asLRU page bytes).asLRU = (storeBytes bm page bytes).asLRU := by
  unfold storeBytes
  split
  · rename_i i _
    simp only [BM_BufferPool.asLRU, BM_BufferPool.withFrames]
    have e1 := modFrame_forgetSecond bm.mgmtData.frames i
      (fun f => { f with data := bytes }) (fun f => { f with data := bytes }) (fun _ => rfl)
    have e2 := modFrame_forgetSecond (bm.mgmtData.frames.map Frame.forgetSecond) i
      (fun f => { f with data := bytes }) (fun f => { f with data := bytes }) (fun _ => rfl)
    rw [map_forgetSecond_idem] at e2
    rw [e1, e2]
  · exact BM_BufferPool.asLRU_idem bm

theorem forcePage_asLRU (bm : BM_BufferPool) (page : BM_PageHandle) :
    (forcePage bm.asLRU page).1 = (forcePage bm page).1 ∧
    (forcePage bm.asLRU page).2.asLRU = (forcePage bm page).2.asLRU := by
  unfold forcePage
  simp only [findFrame_asLRU]
  split
  · exact ⟨rfl, BM_BufferPool.asLRU_idem bm⟩
  · have hget : bm.asLRU.mgmtData.frames[(findFrame bm page.pageNum).toNat]? =
        (bm.mgmtData.frames[(findFrame bm page.pageNum).toNat]?).map Frame.forgetSecond := by
      simp only [BM_BufferPool.asLRU, List.getElem?_map]
    rw [hget]
    cases hfr : bm.mgmtData.frames[(findFrame bm page.pageNum).toNat]? with
    | none => exact ⟨rfl, BM_BufferPool.asLRU_idem bm⟩
    | some fr =>
      simp only [Option.map_some']
      have e1 : fr.forgetSecond.dirty = fr.dirty := rfl
      have e2 : fr.forgetSecond.pageNum = fr.pageNum := rfl
      have e3 : fr.forgetSecond.data = fr.data := rfl
      have e4 : bm.asLRU.mgmtData.fh = bm.mgmtData.fh := rfl
      rw [e1, e2, e3, e4]
      split
      · rcases writeBlock fr.pageNum bm.mgmtData.fh fr.data with ⟨rc, fh1⟩
        simp only
        split
        · refine ⟨rfl, ?_⟩
          simp only [BM_BufferPool.asLRU, BM_BufferPool.withFh, map_forgetSecond_idem]
        · refine ⟨rfl, ?_⟩
          simp only [BM_BufferPool.asLRU, List.map_set, map_forgetSecond_idem]
          rfl
      · exact ⟨rfl, BM_BufferPool.asLRU_idem bm⟩

theorem forceFlushLoop_forgetSecond (fs : List Frame) :
    ∀ (fh : SM_FileHandle) (w : Int),
    forceFlushLoop (fs.map Frame.forgetSecond) fh w =
      ((forceFlushLoop fs fh w).1.map Frame.forgetSecond, (forceFlushLoop fs fh w).2) := by
  induction fs with
  | nil =>
    intro fh w
    rfl
  | cons f fs ih =>
    intro fh w
    have e1 : f.forgetSecond.dirty = f.dirty := rfl
    have e2 : f.forgetSecond.fixCount = f.fixCount := rfl
    have e3 : f.forgetSecond.pageNum = f.pageNum := rfl
    have e4 : f.forgetSecond.data = f.data := rfl
    by_cases hd : f.dirty = true ∧ f.fixCount = 0
    · rw [List.map_cons, forceFlushLoop_cons_flushed f.forgetSecond _ fh w hd,
        forceFlushLoop_cons_flushed f fs fh w hd, e3, e4, ih]
      rfl
    · rw [List.map_cons, forceFlushLoop_cons_kept f.forgetSecond _ fh w hd,
        forceFlushLoop_cons_kept f fs fh w hd, ih]
      rfl

theorem forceFlushPool_asLRU (bm : BM_BufferPool) :
    (forceFlushPool bm.asLRU).1 = (forceFlushPool bm).1 ∧
    (forceFlushPool bm.asLRU).2.asLRU = (forceFlushPool bm).2.asLRU := by
  unfold forceFlushPool
  have e : forceFlushLoop bm.asLRU.mgmtData.frames bm.asLRU.mgmtData.fh bm.asLRU.mgmtData.writeIO =
      ((forceFlushLoop bm.mgmtData.frames bm.mgmtData.fh bm.mgmtData.writeIO).1.map
          Frame.forgetSecond,
        (forceFlushLoop bm.mgmtData.frames bm.mgmtData.fh bm.mgmtData.writeIO).2) :=
    forceFlushLoop_forgetSecond _ _ _
  rw [e]
  refine ⟨rfl, ?_⟩
  simp only [BM_BufferPool.asLRU, map_forgetSecond_idem]

theorem pinPageLoad_strategy (bm : BM_BufferPool) (page : BM_PageHandle) (q : Int) (v : Nat)
    (fr : Frame) : (pinPageLoad bm page q v fr).2.1.strategy = bm.strategy := by
  unfold pinPageLoad pinPageInstall
  rcases readBlock q bm.mgmtData.fh fr.data with ⟨rc, fh1, buf1⟩
  simp only
  split
  · rcases ensureCapacity (q + 1) fh1 with ⟨rc2, fh2⟩
    simp only
    split
    · rfl
    · rcases readBlock q fh2 buf1 with ⟨rc3, fh3, buf3⟩
      simp only
      split <;> rfl
  · rfl

theorem pinPage_strategy (fuel : Nat) (bm : BM_BufferPool) (page : BM_PageHandle) (q : Int)
    (r : RC × BM_BufferPool × BM_PageHandle) (h : pinPage fuel bm page q = some r) :
    r.2.1.strategy = bm.strategy := by
  unfold pinPage at h
  simp only at h
  split at h
  · simp only [Option.some.injEq] at h
    rw [← h]
    rfl
  · cases hsel : selectVictim fuel bm.countAccess with
    | none => simp [hsel] at h
    | some w =>
      obtain ⟨victimIndex, bm1⟩ := w
      have hst : bm1.strategy = bm.strategy :=
        (selectVictim_effect fuel bm.countAccess bm1 victimIndex hsel).2.1
      simp only [hsel] at h
      split at h
      · simp only [Option.some.injEq] at h
        rw [← h]
        exact hst
      · cases hfr : bm1.mgmtData.frames[victimIndex.toNat]? with
        | none => simp [hfr] at h
        | some fr =>
          simp only [hfr] at h
          split at h
          · split at h
            · simp only [Option.some.injEq] at h
              rw [← h]
              exact hst
            · simp only [Option.some.injEq] at h
              rw [← h, pinPageLoad_strategy]
              exact hst
          · simp only [Option.some.injEq] at h
            rw [← h, pinPageLoad_strategy]
            exact hst

theorem Client.call_strategy (c : Client) (x : Call) (rc : RC) (c1 : Client)
    (h : c.call x = some (rc, c1)) : c1.bm.strategy = c.bm.strategy := by
  cases x with
  | pinPage fuel q =>
    simp only [Client.call, Option.map_eq_some'] at h
    obtain ⟨r, hr, he⟩ := h
    simp only [Prod.mk.injEq] at he
    rw [← he.2]
    exact pinPage_strategy fuel c.bm c.h q r hr
  | unpinPage =>
    simp only [Client.call, Option.some.injEq, Prod.mk.injEq] at h
    rw [← h.2]
    simp only [unpinPage]
    split <;> rfl
  | markDirty =>
    simp only [Client.call, Option.some.injEq, Prod.mk.injEq] at h
    rw [← h.2]
    simp only [markDirty]
    split <;> rfl
  | forcePage =>
    simp only [Client.call, Option.some.injEq, Prod.mk.injEq] at h
    rw [← h.2]
    simp only [forcePage]
    split
    · rfl
    · split
      · rfl
      · split
        · split <;> rfl
        · rfl
  | forceFlushPool =>
    simp only [Client.call, Option.some.injEq, Prod.mk.injEq] at h
    rw [← h.2]
    rfl
  | setPageNum q =>
    simp only [Client.call, Option.some.injEq, Prod.mk.injEq] at h
    rw [← h.2]
  | store bytes =>
    simp only [Client.call, Option.some.injEq, Prod.mk.injEq] at h
    rw [← h.2]
    simp only [storeBytes]
    split <;> rfl

/-- One step of a client of an LRU or LRU-K pool and the same step on the pool taken as
an LRU pool: the same return code and, taken as LRU pools, the same pool and handle. -/
theorem Client.call_asLRU (c : Client) (x : Call)
    (hs : c.bm.strategy = RS_LRU ∨ c.bm.strategy = RS_LRU_K) :
    (c.asLRU.call x).map (fun r => (r.1, r.2.asLRU)) =
      (c.call x).map (fun r => (r.1, r.2.asLRU)) := by
  cases x with
  | pinPage fuel q =>
    have h := pinPage_asLRU fuel c.bm c.h q hs
    simp only [Client.call, Client.asLRU, Option.map_map]
    have e : ∀ o : Option (RC × BM_BufferPool × BM_PageHandle),
        o.map ((fun r : RC × Client => (r.1, ({ bm := r.2.bm.asLRU, h := r.2.h } : Client))) ∘
          fun r => (r.1, { bm := r.2.1, h := r.2.2 })) =
        (o.map asLRUResult).map (fun r => (r.1, ({ bm := r.2.1, h := r.2.2 } : Client))) := by
      intro o
      cases o <;> rfl
    rw [e, e, h]
  | unpinPage =>
    simp only [Client.call, Client.asLRU, Option.map_some', (unpinPage_asLRU c.bm c.h).1,
      (unpinPage_asLRU c.bm c.h).2]
  | markDirty =>
    simp only [Client.call, Client.asLRU, Option.map_some', (markDirty_asLRU c.bm c.h).1,
      (markDirty_asLRU c.bm c.h).2]
  | forcePage =>
    simp only [Client.call, Client.asLRU, Option.map_some', (forcePage_asLRU c.bm c.h).1,
      (forcePage_asLRU c.bm c.h).2]
  | forceFlushPool =>
    simp only [Client.call, Client.asLRU, Option.map_some', (forceFlushPool_asLRU c.bm).1,
      (forceFlushPool_asLRU c.bm).2]
  | setPageNum q =>
    simp only [Client.call, Client.asLRU, Option.map_some', BM_BufferPool.asLRU_idem]
  | store bytes =>
    simp only [Client.call, Client.asLRU, Option.map_some', storeBytes_asLRU]

theorem poolView_asLRU (bm : BM_BufferPool) : poolView bm.asLRU = poolView bm := by
  simp only [poolView, getFrameContents, getDirtyFlags, getFixCounts, getNumReadIO,
    getNumWriteIO, BM_BufferPool.asLRU, List.map_map]
  rfl

/-- What a client sees of an LRU or LRU-K pool is what it sees of the pool taken as an
LRU pool. -/
theorem Client.views_asLRU : ∀ (calls : List Call) (c : Client),
    (c.bm.strategy = RS_LRU ∨ c.bm.strategy = RS_LRU_K) →
    c.asLRU.views calls = c.views calls := by
  intro calls
  induction calls with
  | nil =>
    intro c _
    rfl
  | cons x xs ih =>
    intro c hs
    have h := Client.call_asLRU c x hs
    unfold Client.views
    cases hc : c.call x with
    | none =>
      rw [hc] at h
      cases hc2 : c.asLRU.call x with
      | none => rfl
      | some r => simp [hc2] at h
    | some r =>
      obtain ⟨rc, c1⟩ := r
      rw [hc] at h
      cases hc2 : c.asLRU.call x with
      | none => simp [hc2] at h
      | some r2 =>
        obtain ⟨rc2, c2⟩ := r2
        rw [hc2] at h
        simp only [Option.map_some', Option.some.injEq, Prod.mk.injEq] at h
        obtain ⟨hrc, hcc⟩ := h
        have hs1 : c1.bm.strategy = RS_LRU ∨ c1.bm.strategy = RS_LRU_K := by
          rw [Client.call_strategy c x rc c1 hc]
          exact hs
        have hs2 : c2.bm.strategy = RS_LRU ∨ c2.bm.strategy = RS_LRU_K := by
          rw [Client.call_strategy c.asLRU x rc2 c2 hc2]
          exact Or.inl rfl
        have hb : c2.bm.asLRU = c1.bm.asLRU := congrArg Client.bm hcc
        have hh : c2.h = c1.h := by
          have := congrArg Client.h hcc
          exact this
        simp only
        rw [← ih c1 hs1, ← ih c2 hs2, hcc, hrc, hh, ← poolView_asLRU c2.bm, hb,
          poolView_asLRU c1.bm]

theorem pinPage_lru_returns (fuel : Nat) (bm : BM_BufferPool) (page : BM_PageHandle) (q : Int)
    (hs : bm.strategy = RS_LRU ∨ bm.strategy = RS_LRU_K) :
    ∃ r, pinPage fuel bm page q = some r := by
  obtain ⟨v, hv1, _⟩ := selectVictim_lru fuel bm.countAccess hs
  unfold pinPage
  simp only [hv1]
  split
  · exact ⟨_, rfl⟩
  · split
    · exact ⟨_, rfl⟩
    · rename_i hr
      have hlt : v.toNat < bm.countAccess.mgmtData.frames.length := by
        unfold BM_MgmtData.numFrames at hr
        omega
      rw [List.getElem?_eq_getElem hlt]
      simp only
      split
      · split <;> exact ⟨_, rfl⟩
      · exact ⟨_, rfl⟩

theorem Client.views_lru_returns : ∀ (calls : List Call) (c : Client),
    (c.bm.strategy = RS_LRU ∨ c.bm.strategy = RS_LRU_K) →
    ∃ l, c.views calls = some l ∧ l.length = calls.length := by
  intro calls
  induction calls with
  | nil =>
    intro c _
    exact ⟨[], rfl, rfl⟩
  | cons x xs ih =>
    intro c hs
    have hret : ∃ r, c.call x = some r := by
      cases x with
      | pinPage fuel q =>
        obtain ⟨r, hr⟩ := pinPage_lru_returns fuel c.bm c.h q hs
        exact ⟨(r.1, { bm := r.2.1, h := r.2.2 }),
          by simp only [Client.call, hr, Option.map_some']⟩
      | unpinPage => exact ⟨_, rfl⟩
      | markDirty => exact ⟨_, rfl⟩
      | forcePage => exact ⟨_, rfl⟩
      | forceFlushPool => exact ⟨_, rfl⟩
      | setPageNum q => exact ⟨_, rfl⟩
      | store bytes => exact ⟨_, rfl⟩
    obtain ⟨⟨rc, c1⟩, hc⟩ := hret
    have hs1 : c1.bm.strategy = RS_LRU ∨ c1.bm.strategy = RS_LRU_K := by
      rw [Client.call_strategy c x rc c1 hc]
      exact hs
    obtain ⟨l, hl, hlen⟩ := ih c1 hs1
    refine ⟨(rc, poolView c1.bm, c1.h) :: l, ?_, by simp [hlen]⟩
    unfold Client.views
    simp only [hc, hl, Option.map_some']

theorem wrapInt_of_int (x : Int) (h0 : INT_MIN ≤ x) (h1 : x ≤ INT_MAX) : wrapInt x = x := by
  unfold wrapInt
  unfold INT_MIN INT_MAX at *
  rw [Int.emod_eq_of_lt (by omega) (by omega)]
  omega

/-- The offset is that of page `pageNum` as long as the product is an `int`. -/
theorem seekOffset_fits (pageNum : Int) (h0 : 0 ≤ pageNum)
    (h1 : pageNum * PAGE_SIZE ≤ INT_MAX) : seekOffset pageNum = pageNum * PAGE_SIZE := by
  unfold seekOffset
  apply wrapInt_of_int _ _ h1
  unfold INT_MIN PAGE_SIZE
  push_cast
  omega

theorem seekSet_fits (s : PageStream) (pageNum : Int) (h0 : 0 ≤ pageNum)
    (h1 : pageNum * PAGE_SIZE ≤ INT_MAX) :
    s.seekSet (seekOffset pageNum) = { s with pos := pageNum.toNat } := by
  rw [seekOffset_fits pageNum h0 h1]
  unfold PageStream.seekSet
  have hp : (PAGE_SIZE : Int) = 4096 := rfl
  rw [if_neg (by rw [hp]; omega), hp, Int.mul_ediv_cancel _ (by decide)]

/-- On the pages whose byte offset is an `int`, `readBlock` of the model is the
function with the `int` product and the file position. -/
theorem readBlock_refines (pageNum : Int) (h : StreamHandle) (memPage : PageData)
    (hfits : 0 ≤ pageNum → pageNum < h.totalNumPages → pageNum * PAGE_SIZE ≤ INT_MAX) :
    readBlock pageNum h.toHandle memPage =
      ((Stdio.readBlock pageNum h memPage).1, (Stdio.readBlock pageNum h memPage).2.1.toHandle,
        (Stdio.readBlock pageNum h memPage).2.2) := by
  unfold readBlock Stdio.readBlock
  cases hs : h.mgmtInfo with
  | none => simp [StreamHandle.toHandle, hs]
  | some s =>
    by_cases hg : pageNum < 0 ∨ pageNum ≥ h.totalNumPages
    · have hg2 : h.toHandle.mgmtInfo = false ∨ pageNum < 0 ∨
          pageNum ≥ h.toHandle.totalNumPages := Or.inr hg
      rw [if_pos hg2]
      simp only [if_pos hg]
    · have hg2 : ¬ (h.toHandle.mgmtInfo = false ∨ pageNum < 0 ∨
          pageNum ≥ h.toHandle.totalNumPages) := by
        simp only [StreamHandle.toHandle, hs, Option.isSome_some, Bool.true_eq_false,
          false_or]
        exact hg
      rw [if_neg hg2]
      simp only [if_neg hg]
      rw [seekSet_fits s pageNum (by omega) (hfits (by omega) (by omega))]
      unfold PageStream.read
      simp only [StreamHandle.toHandle, hs]
      cases hpg : s.pages[pageNum.toNat]? with
      | none => rfl
      | some pg => rfl

theorem getElem?_replicate_append (n : Nat) (z x : PageData) (more : List PageData) :
    (List.replicate n z ++ [x] ++ more)[n]? = some x := by
  rw [List.append_assoc, List.getElem?_append_right (by simp)]
  simp

theorem getElem?_replicate_append_end (n k : Nat) (z x : PageData) (more : List PageData)
    (hk : n + 1 + more.length ≤ k) : (List.replicate n z ++ [x] ++ more)[k]? = none := by
  apply List.getElem?_eq_none
  simp only [List.length_append, List.length_replicate, List.length_singleton]
  omega

theorem PageStream.read_at_end (pages : List PageData) (pos : Nat) (memPage : PageData)
    (h : pages.length ≤ pos) :
    PageStream.read { pages := pages, pos := pos } memPage =
      ({ pages := pages, pos := pos }, memPage) := by
  unfold PageStream.read
  simp only [List.getElem?_eq_none h]

theorem writeAt_at_end (pages : List PageData) (pg : PageData) :
    writeAt pages pages.length pg = pages ++ [pg] := by
  unfold writeAt
  rw [if_neg (by omega), Nat.sub_self]
  simp

/-- When the offset of `pageNum` wraps to a negative `int`, `fseek` fails and a
`readBlock` with the file position at the end of the file transfers nothing, yet
returns `RC_OK`. -/
theorem Stdio.readBlock_seek_fails (pageNum total cur : Int) (pages : List PageData)
    (pos : Nat) (memPage : PageData) (h0 : 0 ≤ pageNum) (h1 : pageNum < total)
    (hoff : seekOffset pageNum < 0) (hend : pages.length ≤ pos) :
    Stdio.readBlock pageNum
        { totalNumPages := total, curPagePos := cur,
          mgmtInfo := some { pages := pages, pos := pos } } memPage =
      (RC_OK, { totalNumPages := total, curPagePos := pageNum,
                mgmtInfo := some { pages := pages, pos := pos } }, memPage) := by
  simp only [Stdio.readBlock]
  rw [if_neg (by omega)]
  simp only [PageStream.seekSet]
  rw [if_pos hoff, PageStream.read_at_end _ _ _ hend]

/-- When the offset of `pageNum` wraps to a negative `int`, `fseek` fails and a
`writeBlock` with the file position at the end of the file appends the bytes there,
yet returns `RC_OK`. -/
theorem Stdio.writeBlock_seek_fails (pageNum total cur : Int) (pages : List PageData)
    (pos : Nat) (memPage : PageData) (h0 : 0 ≤ pageNum) (h1 : pageNum < total)
    (hoff : seekOffset pageNum < 0) (hend : pos = pages.length) :
    Stdio.writeBlock pageNum
        { totalNumPages := total, curPagePos := cur,
          mgmtInfo := some { pages := pages, pos := pos } } memPage =
      (RC_OK, { totalNumPages := total, curPagePos := pageNum,
                mgmtInfo := some { pages := pages ++ [memPage],
                                   pos := pos + 1 } }) := by
  subst hend
  simp only [Stdio.writeBlock]
  rw [if_neg (by omega)]
  simp only [PageStream.seekSet]
  rw [if_pos hoff]
  simp only [PageStream.write, writeAt_at_end]

/-- The model of `appendEmptyBlock` is the function with the file position as long as
the new page count is an `int`. -/
theorem appendEmptyBlock_refines (h : StreamHandle) (h0 : 0 ≤ h.totalNumPages)
    (h1 : h.totalNumPages + 1 ≤ INT_MAX) :
    appendEmptyBlock h.toHandle =
      ((Stdio.appendEmptyBlock h).1, (Stdio.appendEmptyBlock h).2.toHandle) := by
  unfold appendEmptyBlock Stdio.appendEmptyBlock
  cases hs : h.mgmtInfo with
  | none => simp [StreamHandle.toHandle, hs]
  | some s =>
    have hw : wrapInt (h.totalNumPages + 1) = h.totalNumPages + 1 :=
      wrapInt_of_int _ (by unfold INT_MIN; omega) h1
    rw [if_neg (by simp [StreamHandle.toHandle, hs])]
    simp only [StreamHandle.toHandle, hs, hw, PageStream.write, PageStream.seekEnd,
      writeAt_at_end, Option.isSome_some]

theorem ensureCapacityLoop_refines (k : Nat) (numberOfPages : Int) (h : StreamHandle)
    (h0 : 0 ≤ h.totalNumPages) (h1 : numberOfPages ≤ INT_MAX) :
    ensureCapacityLoop k numberOfPages h.toHandle =
      ((Stdio.ensureCapacityLoop k numberOfPages h).1,
        (Stdio.ensureCapacityLoop k numberOfPages h).2.toHandle) := by
  induction k generalizing h with
  | zero => rfl
  | succ k ih =>
    unfold ensureCapacityLoop Stdio.ensureCapacityLoop
    have ht : h.toHandle.totalNumPages = h.totalNumPages := rfl
    rw [ht]
    by_cases hlt : h.totalNumPages < numberOfPages
    · rw [if_pos hlt, if_pos hlt, appendEmptyBlock_refines h h0 (by omega)]
      cases hs : h.mgmtInfo with
      | none =>
        simp [Stdio.appendEmptyBlock, hs, RC_FILE_HANDLE_NOT_INIT, RC_OK]
      | some s =>
        have hw : wrapInt (h.totalNumPages + 1) = h.totalNumPages + 1 :=
          wrapInt_of_int _ (by unfold INT_MIN; omega) (by omega)
        simp only [Stdio.appendEmptyBlock, hs, ne_eq, not_true_eq_false, if_false]
        exact ih _ (by show 0 ≤ wrapInt (h.totalNumPages + 1); rw [hw]; omega)
    · rw [if_neg hlt, if_neg hlt]

/-- The model of `ensureCapacity` is the function with the file position as long as the
page count asked for is an `int`. -/
theorem ensureCapacity_refines (numberOfPages : Int) (h : StreamHandle)
    (h0 : 0 ≤ h.totalNumPages) (h1 : numberOfPages ≤ INT_MAX) :
    ensureCapacity numberOfPages h.toHandle =
      ((Stdio.ensureCapacity numberOfPages h).1,
        (Stdio.ensureCapacity numberOfPages h).2.toHandle) :=
  ensureCapacityLoop_refines _ numberOfPages h h0 h1

/-- When the read of `pageNum` returns `RC_OK`, nothing else is called. -/
theorem Stdio.loadPage_of_read (pageNum : Int) (fHandle : StreamHandle) (data : PageData)
    (h : (Stdio.readBlock pageNum fHandle data).1 = RC_OK) :
    Stdio.loadPage pageNum fHandle data = Stdio.readBlock pageNum fHandle data := by
  unfold Stdio.loadPage
  rcases hr : Stdio.readBlock pageNum fHandle data with ⟨rc, fh1, buf1⟩
  rw [hr] at h
  simp only at h
  simp only [h, ne_eq, not_true_eq_false, if_false]

/-- The page `INT_MAX` cannot be loaded: the sum `pageNum + 1` wraps to `INT_MIN`,
`ensureCapacity` adds no page, and the second read fails like the first. -/
theorem Stdio.loadPage_int_max (fHandle : StreamHandle) (data : PageData)
    (h0 : INT_MIN ≤ fHandle.totalNumPages) (h1 : fHandle.totalNumPages ≤ INT_MAX) :
    Stdio.loadPage INT_MAX fHandle data = (RC_READ_NON_EXISTING_PAGE, fHandle, data) := by
  have hr : ∀ d, Stdio.readBlock INT_MAX fHandle d =
      (RC_READ_NON_EXISTING_PAGE, fHandle, d) := by
    intro d
    unfold Stdio.readBlock
    cases hs : fHandle.mgmtInfo with
    | none => rfl
    | some s =>
      simp only
      rw [if_pos (Or.inr h1)]
  have hw : wrapInt (INT_MAX + 1) = INT_MIN := by decide
  have he : Stdio.ensureCapacity INT_MIN fHandle = (RC_OK, fHandle) := by
    unfold Stdio.ensureCapacity
    rw [show (INT_MIN - fHandle.totalNumPages).toNat = 0 by omega]
    rfl
  unfold Stdio.loadPage
  rw [hr, hw]
  simp only [he, hr]
  simp [RC_READ_NON_EXISTING_PAGE, RC_OK]

theorem length_replicate_append_one (n : Nat) (z x : PageData) :
    (List.replicate n z ++ [x]).length = n + 1 := by
  rw [List.length_append, List.length_replicate, List.length_singleton]

theorem getElem?_replicate_append_one (n : Nat) (z x : PageData) :
    (List.replicate n z ++ [x])[n]? = some x := by
  have h := getElem?_replicate_append n z x []
  rwa [List.append_nil] at h

theorem pageOf_injective (a b : Nat) (h : pageOf a = pageOf b) : a = b := by
  have h0 : (pageOf a)[0]? = (pageOf b)[0]? := by rw [h]
  unfold pageOf at h0
  rw [List.getElem?_replicate, List.getElem?_replicate,
    if_pos (by unfold PAGE_SIZE; omega)] at h0
  exact Option.some.inj h0

theorem seekOffset_524288 : seekOffset 524288 = INT_MIN := by decide

theorem Stdio.writeBlock_totalNumPages (pageNum : Int) (h : StreamHandle)
    (memPage : PageData) :
    (Stdio.writeBlock pageNum h memPage).2.totalNumPages = h.totalNumPages := by
  unfold Stdio.writeBlock
  cases h.mgmtInfo with
  | none => rfl
  | some s =>
    simp only
    split <;> rfl

/-- The CLOCK sweep, step by step: the victim is reached from the hand after `k` steps
in cyclic order and the hand is left on it; a frame that the sweep passes over is
pinned, or its use bit is set and the sweep visits it for the first time; the victim
has fix count 0, and its use bit is 0 or was cleared earlier in the sweep. So `k` is the
first step at which the frame under the hand has fix count 0 and a use bit that is 0 or
was cleared before. -/
theorem clockSweep_first_visit (n fuel : Nat) : ∀ (frames : List Frame) (hand : Nat)
    (frames1 : List Frame) (hand1 v : Nat),
    frames.length = n → hand < n →
    clockSweep fuel n frames hand = some (frames1, hand1, v) →
    ∃ k, k < fuel ∧ v = (hand + k) % n ∧ hand1 = v ∧
      (∀ j, j < k → ∀ f, frames[(hand + j) % n]? = some f →
        f.fixCount ≠ 0 ∨
          (f.useBit ≠ 0 ∧ ∀ j2, j2 < j → (hand + j2) % n ≠ (hand + j) % n)) ∧
      (∃ fv, frames[v]? = some fv ∧ fv.fixCount = 0 ∧
        (fv.useBit = 0 ∨ ∃ j, j < k ∧ (hand + j) % n = v)) ∧
      (∀ (i : Nat) (f : Frame), i ≠ v → frames[i]? = some f →
        ((∃ j, j < k ∧ (hand + j) % n = i) → frames1[i]? = some (clockPass f)) ∧
        ((¬ ∃ j, j < k ∧ (hand + j) % n = i) → frames1[i]? = some f)) := by
  induction fuel with
  | zero =>
    intro frames hand frames1 hand1 v _ _ h
    simp [clockSweep] at h
  | succ fuel ih =>
    intro frames hand frames1 hand1 v hn hhand h
    have hmod0 : (hand + 0) % n = hand := by simp [Nat.mod_eq_of_lt hhand]
    have hnext : (hand + 1) % n < n := Nat.mod_lt _ (by omega)
    have hshift : ∀ j, ((hand + 1) % n + j) % n = (hand + (j + 1)) % n := by
      intro j
      rw [Nat.mod_add_mod]
      congr 1
      omega
    obtain ⟨f, hf⟩ : ∃ f, frames[hand]? = some f := by
      have : hand < frames.length := by omega
      exact ⟨frames[hand], List.getElem?_eq_getElem this⟩
    unfold clockSweep at h
    simp only [hf] at h
    by_cases hfix : f.fixCount = 0
    · rw [if_pos hfix] at h
      by_cases hbit : f.useBit = 0
      · rw [if_pos hbit] at h
        simp only [Option.some.injEq, Prod.mk.injEq] at h
        obtain ⟨h1, h2, h3⟩ := h
        subst h3
        refine ⟨0, by omega, hmod0.symm, h2.symm, ?_, ⟨f, hf, hfix, Or.inl hbit⟩, ?_⟩
        · intro j hj
          omega
        · intro i g hi hg
          refine ⟨?_, ?_⟩
          · rintro ⟨j, hj, _⟩
            omega
          · intro _
            rw [← h1, getElem?_modFrame, if_neg (Ne.symm hi)]
            exact hg
      · rw [if_neg hbit] at h
        obtain ⟨k, hk, hv, hh1, hpass, ⟨fv, hfv, hfv0, hfvbit⟩, hrest⟩ :=
          ih (frames.set hand { f with useBit := 0 }) ((hand + 1) % n) frames1 hand1 v
            (by simp [hn]) hnext h
        have hset : ∀ i, i ≠ hand →
            (frames.set hand { f with useBit := 0 })[i]? = frames[i]? := by
          intro i hi
          rw [List.getElem?_set_ne (Ne.symm hi)]
        have hself : (frames.set hand { f with useBit := 0 })[hand]? =
            some { f with useBit := 0 } := by
          rw [List.getElem?_set_self (by omega)]
        refine ⟨k + 1, by omega, by rw [hv, hshift], hh1, ?_, ?_, ?_⟩
        · intro j hj g hg
          cases j with
          | zero =>
            rw [hmod0, hf] at hg
            cases hg
            exact Or.inr ⟨hbit, fun j2 hj2 => by omega⟩
          | succ j =>
            by_cases hi : (hand + (j + 1)) % n = hand
            · have hc := hpass j (by omega) { f with useBit := 0 } (by rw [hshift, hi, hself])
              rcases hc with hc | ⟨hc, _⟩
              · exact absurd hfix hc
              · exact absurd rfl hc
            · have hc := hpass j (by omega) g (by rw [hshift, hset _ hi]; exact hg)
              rcases hc with hc | ⟨hc, hfirst⟩
              · exact Or.inl hc
              · refine Or.inr ⟨hc, fun j2 hj2 => ?_⟩
                cases j2 with
                | zero =>
                  rw [hmod0]
                  exact Ne.symm hi
                | succ j2 =>
                  have hne := hfirst j2 (by omega)
                  rw [hshift j2, hshift j] at hne
                  exact hne
        · by_cases hvh : v = hand
          · subst hvh
            refine ⟨f, hf, hfix, Or.inr ⟨0, by omega, hmod0⟩⟩
          · refine ⟨fv, by rw [← hset v hvh]; exact hfv, hfv0, ?_⟩
            rcases hfvbit with hb | ⟨j, hj, hjv⟩
            · exact Or.inl hb
            · exact Or.inr ⟨j + 1, by omega, by rw [← hshift]; exact hjv⟩
        · intro i g hi hg
          by_cases hih : i = hand
          · have hih2 := hih.symm
            subst hih2
            rw [hf] at hg
            cases hg
            have hpf : clockPass f = { f with useBit := 0 } := by
              simp [clockPass, hfix]
            have hpf0 : clockPass { f with useBit := 0 } = { f with useBit := 0 } := by
              rw [← hpf, clockPass_idem]
            have hr := hrest hand { f with useBit := 0 } hi hself
            refine ⟨?_, ?_⟩
            · intro _
              by_cases hvis : ∃ j, j < k ∧ ((hand + 1) % n + j) % n = hand
              · rw [hr.1 hvis, hpf0, hpf]
              · rw [hr.2 hvis, hpf]
            · intro hno
              exact absurd ⟨0, by omega, hmod0⟩ hno
          · have hg2 : (frames.set hand { f with useBit := 0 })[i]? = some g := by
              rw [hset i hih]
              exact hg
            have hr := hrest i g hi hg2
            refine ⟨?_, ?_⟩
            · rintro ⟨j, hj, hji⟩
              cases j with
              | zero =>
                rw [hmod0] at hji
                exact absurd hji.symm hih
              | succ j =>
                exact hr.1 ⟨j, by omega, by rw [hshift]; exact hji⟩
            · intro hno
              refine hr.2 ?_
              rintro ⟨j, hj, hji⟩
              exact hno ⟨j + 1, by omega, by rw [← hshift]; exact hji⟩
    · rw [if_neg hfix] at h
      obtain ⟨k, hk, hv, hh1, hpass, ⟨fv, hfv, hfv0, hfvbit⟩, hrest⟩ :=
        ih frames ((hand + 1) % n) frames1 hand1 v hn hnext h
      refine ⟨k + 1, by omega, by rw [hv, hshift], hh1, ?_, ?_, ?_⟩
      · intro j hj g hg
        cases j with
        | zero =>
          rw [hmod0, hf] at hg
          cases hg
          exact Or.inl hfix
        | succ j =>
          have hc := hpass j (by omega) g (by rw [hshift]; exact hg)
          rcases hc with hc | ⟨hc, hfirst⟩
          · exact Or.inl hc
          · by_cases hi : (hand + (j + 1)) % n = hand
            · rw [hi, hf] at hg
              cases hg
              exact Or.inl hfix
            · refine Or.inr ⟨hc, fun j2 hj2 => ?_⟩
              cases j2 with
              | zero =>
                rw [hmod0]
                exact Ne.symm hi
              | succ j2 =>
                have hne := hfirst j2 (by omega)
                rw [hshift j2, hshift j] at hne
                exact hne
      · refine ⟨fv, hfv, hfv0, ?_⟩
        rcases hfvbit with hb | ⟨j, hj, hjv⟩
        · exact Or.inl hb
        · exact Or.inr ⟨j + 1, by omega, by rw [← hshift]; exact hjv⟩
      · intro i g hi hg
        have hr := hrest i g hi hg
        refine ⟨?_, ?_⟩
        · rintro ⟨j, hj, hji⟩
          cases j with
          | zero =>
            rw [hmod0] at hji
            subst hji
            rw [hf] at hg
            cases hg
            have hpf : clockPass f = f := by simp [clockPass, hfix]
            by_cases hvis : ∃ j, j < k ∧ ((hand + 1) % n + j) % n = hand
            · rw [hr.1 hvis]
            · rw [hr.2 hvis, hpf]
          | succ j =>
            exact hr.1 ⟨j, by omega, by rw [hshift]; exact hji⟩
        · intro hno
          refine hr.2 ?_
          rintro ⟨j, hj, hji⟩
          exact hno ⟨j + 1, by omega, by rw [← hshift]; exact hji⟩

/-- When the offset of `pageNum` wraps to a negative `int`, `fseek` fails and
`readBlock` reads the page at the file position. -/
theorem Stdio.readBlock_seek_fails_some (pageNum total cur : Int) (pages : List PageData)
    (pos : Nat) (memPage pg : PageData) (h0 : 0 ≤ pageNum) (h1 : pageNum < total)
    (hoff : seekOffset pageNum < 0) (hpg : pages[pos]? = some pg) :
    Stdio.readBlock pageNum
        { totalNumPages := total, curPagePos := cur,
          mgmtInfo := some { pages := pages, pos := pos } } memPage =
      (RC_OK, { totalNumPages := total, curPagePos := pageNum,
                mgmtInfo := some { pages := pages, pos := pos + 1 } }, pg) := by
  simp only [Stdio.readBlock]
  rw [if_neg (by omega)]
  simp only [PageStream.seekSet]
  rw [if_pos hoff]
  simp only [PageStream.read, hpg]

/-- The read of a page whose offset is an `int`. -/
theorem Stdio.readBlock_in_range (pageNum total cur : Int) (pages : List PageData)
    (pos : Nat) (memPage pg : PageData) (h0 : 0 ≤ pageNum) (h1 : pageNum < total)
    (hfit : pageNum * PAGE_SIZE ≤ INT_MAX) (hpg : pages[pageNum.toNat]? = some pg) :
    Stdio.readBlock pageNum
        { totalNumPages := total, curPagePos := cur,
          mgmtInfo := some { pages := pages, pos := pos } } memPage =
      (RC_OK, { totalNumPages := total, curPagePos := pageNum,
                mgmtInfo := some { pages := pages, pos := pageNum.toNat + 1 } }, pg) := by
  simp only [Stdio.readBlock]
  rw [if_neg (by omega), seekSet_fits _ pageNum h0 hfit]
  simp only [PageStream.read, hpg]

theorem getElem?_replicate_append_lt (n i : Nat) (z : PageData) (more : List PageData)
    (hi : i < n) : (List.replicate n z ++ more)[i]? = some z := by
  rw [List.getElem?_append_left (by rw [List.length_replicate]; exact hi),
    List.getElem?_replicate, if_pos hi]

theorem zeroPage_eq_pageOf : zeroPage = pageOf 0 := rfl

theorem Stdio.loadPage_eq_of_read (pageNum : Int) (fHandle fh1 : StreamHandle)
    (data buf : PageData) (h : Stdio.readBlock pageNum fHandle data = (RC_OK, fh1, buf)) :
    Stdio.loadPage pageNum fHandle data = (RC_OK, fh1, buf) := by
  rw [Stdio.loadPage_of_read _ _ _ (by rw [h]), h]

theorem Stdio.roundTrip_eq (p q : Int) (b : PageData) (fh fh1 fh2 fh3 fh4 : StreamHandle)
    (buf1 buf3 buf4 : PageData) (rc1 rc2 rc3 rc4 : RC)
    (h1 : Stdio.loadPage p fh zeroPage = (rc1, fh1, buf1))
    (h2 : Stdio.writeBlock p fh1 b = (rc2, fh2))
    (h3 : Stdio.loadPage q fh2 b = (rc3, fh3, buf3))
    (h4 : Stdio.loadPage p fh3 buf3 = (rc4, fh4, buf4)) :
    Stdio.roundTrip p q b fh = ([rc1, rc2, rc3, rc4], fh4, buf4) := by
  unfold Stdio.roundTrip
  rw [h1]
  simp only
  rw [h2]
  simp only
  rw [h3]
  simp only
  rw [h4]

/-! ## The claims -/

/-- C1, evaluated under FIFO on a one-frame pool whose frame holds page 0 with fix
count 1 (the state after `pinPage` of page 0 on a fresh pool): `selectVictim` returns
index 0, which is in range and names the pinned frame, and the `pinPage` of page 1
that asked for the victim returns `RC_OK` with page 1 in that frame, so the pinned
page 0 is no longer resident. -/
theorem selectVictim_fifo_returns_pinned_frame :
    (pinPage 2 (initPool RS_FIFO 1 exFile) exHandle 0).map observe
      = some (RC_OK, [(0, false, 1)], 1, 0) ∧
    ((pinPage 2 (initPool RS_FIFO 1 exFile) exHandle 0).bind fun r =>
      (selectVictim 2 r.2.1.countAccess).map fun x => x.1) = some 0 ∧
    (pinnedThenPin RS_FIFO).map observe = some (RC_OK, [(1, false, 1)], 2, 0) := by
  refine ⟨?_, ?_, ?_⟩ <;> rfl

/-- C2, evaluated under FIFO on a one-frame pool whose only frame is pinned: the
`pinPage` of the non-resident page 1 returns `RC_OK` (0), not
`RC_NO_FREE_BUFFER_ERROR` (1004); under LRU the same call returns the error. -/
theorem pinPage_fifo_all_pinned_returns_ok :
    (pinnedThenPin RS_FIFO).map (fun r => r.1) = some RC_OK ∧
    (pinnedThenPin RS_LRU).map (fun r => r.1) = some RC_NO_FREE_BUFFER_ERROR := by
  refine ⟨?_, ?_⟩ <;> rfl

/-- C3, evaluated on a one-frame pool: page 0 is overwritten with the byte 77, marked
dirty and unpinned, then evicted by a pin of page 1 and pinned again. Under LFU and
under CLOCK the three pins succeed, the write counter stays 0 and the buffer that
the last pin returns holds the old bytes (10) of the file; under FIFO the same calls
count one write and return the bytes 77. -/
theorem pinPage_lfu_clock_drop_dirty_victim :
    (dirtyEvictScenario RS_LFU).map observe = some (RC_OK, [(0, false, 1)], 3, 0) ∧
    (dirtyEvictScenario RS_LFU).map (fun r => r.2.1.mgmtData.frames.map (fun f => f.data))
      = some [pageOf 10] ∧
    (dirtyEvictScenario RS_CLOCK).map observe = some (RC_OK, [(0, false, 1)], 3, 0) ∧
    (dirtyEvictScenario RS_CLOCK).map (fun r => r.2.1.mgmtData.frames.map (fun f => f.data))
      = some [pageOf 10] ∧
    (dirtyEvictScenario RS_FIFO).map observe = some (RC_OK, [(0, false, 1)], 3, 1) ∧
    (dirtyEvictScenario RS_FIFO).map (fun r => r.2.1.mgmtData.frames.map (fun f => f.data))
      = some [pageOf 77] := by
  refine ⟨?_, ?_, ?_, ?_, ?_, ?_⟩ <;> rfl

/-- A miss of `pinPage` in the model, where the byte offset of a page is not bounded
(the model reads as storage_mgr.c does for the pages below 524288, see
`readBlock_refines`). A `pinPage` of a page `p` that no frame holds and that returns
`RC_OK` has taken the victim `v` of `selectVictim`, a frame index, and leaves frame `v` with
page number `p`, fix count 1, dirty flag false and its buffer equal to page `p` of
the file; `p` is not negative, the read counter is one higher, the handle is
`(p, buffer of frame v)`, and every other frame keeps its page number, dirty flag,
fix count and buffer. -/
theorem pinPage_miss_installs (fuel : Nat) (bm : BM_BufferPool) (page : BM_PageHandle)
    (p : Int) (bm1 : BM_BufferPool) (page1 : BM_PageHandle)
    (hmiss : ∀ f ∈ bm.mgmtData.frames, f.pageNum ≠ p)
    (hsync : FileSync bm.mgmtData.fh)
    (hok : pinPage fuel bm page p = some (RC_OK, bm1, page1)) :
    ∃ (v : Nat) (bmv : BM_BufferPool) (f1 : Frame),
      selectVictim fuel bm.countAccess = some ((v : Int), bmv) ∧
      v < bm.mgmtData.frames.length ∧ 0 ≤ p ∧
      bm1.mgmtData.frames[v]? = some f1 ∧
      f1.pageNum = p ∧ f1.fixCount = 1 ∧ f1.dirty = false ∧
      bm1.mgmtData.fh.file[p.toNat]? = some f1.data ∧
      bm1.mgmtData.readIO = bm.mgmtData.readIO + 1 ∧
      page1 = { pageNum := p, data := some v } ∧
      bm1.mgmtData.frames.length = bm.mgmtData.frames.length ∧
      ∀ (j : Nat) (f : Frame), j ≠ v → bm.mgmtData.frames[j]? = some f →
        ∃ g, bm1.mgmtData.frames[j]? = some g ∧ f.sameSlot g := by
  have hfind : findFrame bm p = -1 := findFrame_eq_neg_one bm p hmiss
  unfold pinPage at hok
  simp only [hfind, ne_eq, not_true_eq_false, if_false] at hok
  cases hsv : selectVictim fuel bm.countAccess with
  | none => simp [hsv] at hok
  | some r =>
    obtain ⟨vi, bmv⟩ := r
    simp only [hsv] at hok
    obtain ⟨_, _, hfh, _, hrd, _, hlen, hoth⟩ := selectVictim_effect _ _ _ _ hsv
    have hlen0 : bmv.mgmtData.frames.length = bm.mgmtData.frames.length := hlen
    have hrd0 : bmv.mgmtData.readIO = bm.mgmtData.readIO := hrd
    have hsync1 : FileSync bmv.mgmtData.fh := by rw [hfh]; exact hsync
    by_cases hrange : vi < 0 ∨ vi ≥ bmv.mgmtData.numFrames
    · rw [if_pos hrange] at hok
      simp only [Option.some.injEq, Prod.mk.injEq] at hok
      exact absurd hok.1 rc_nofree_ne_ok
    · rw [if_neg hrange] at hok
      unfold BM_MgmtData.numFrames at hrange
      obtain ⟨v, rfl⟩ : ∃ v : Nat, vi = (v : Int) := ⟨vi.toNat, by omega⟩
      have hv : v < bmv.mgmtData.frames.length := by omega
      simp only [Int.toNat_ofNat] at hok
      cases hfr : bmv.mgmtData.frames[v]? with
      | none => simp [hfr] at hok
      | some fr =>
        simp only [hfr] at hok
        have hoth1 : ∀ (j : Nat) (f : Frame), j ≠ v → bm.mgmtData.frames[j]? = some f →
            ∃ g, bmv.mgmtData.frames[j]? = some g ∧ f.sameSlot g := by
          intro j f hj hf
          exact hoth j f (by omega) hf
        by_cases hd : fr.dirty = true
        · rw [if_pos hd] at hok
          unfold writeBlock at hok
          by_cases hw : bmv.mgmtData.fh.mgmtInfo = false ∨ fr.pageNum < 0 ∨
              fr.pageNum ≥ bmv.mgmtData.fh.totalNumPages
          · rw [if_pos hw] at hok
            simp only [rc_write_ne_ok, ne_eq, not_false_eq_true, if_true, Option.some.injEq,
              Prod.mk.injEq] at hok
            exact hok.1.elim
          · rw [if_neg hw] at hok
            simp only [ne_eq, not_true_eq_false, if_false, Option.some.injEq] at hok
            have hsync2 : FileSync { bmv.mgmtData.fh with
                curPagePos := fr.pageNum,
                file := writeAt bmv.mgmtData.fh.file fr.pageNum.toNat fr.data } := by
              unfold FileSync at hsync1 ⊢
              have hq : fr.pageNum.toNat < bmv.mgmtData.fh.file.length := by
                have h1 : (fr.pageNum : Int) < bmv.mgmtData.fh.totalNumPages := by
                  by_contra hc
                  exact hw (Or.inr (Or.inr (by omega)))
                have h2 : (0 : Int) ≤ fr.pageNum := by
                  by_contra hc
                  exact hw (Or.inr (Or.inl (by omega)))
                omega
              show bmv.mgmtData.fh.totalNumPages = _
              rw [length_writeAt _ _ _ hq]
              exact hsync1
            obtain ⟨h0, h1, h2, _, h4, hf1, h6⟩ :=
              pinPageLoad_ok_effect _ _ _ _ _ _ _ hsync2 (by simpa using hv) hok
            refine ⟨v, bmv, ?_⟩
            obtain ⟨f1, hf1a, hf1b⟩ := hf1
            refine ⟨f1, rfl, by omega, h0, hf1a, hf1b.1, hf1b.2.1, hf1b.2.2.1, hf1b.2.2.2,
              by rw [h2]; show bmv.mgmtData.readIO + 1 = _; rw [hrd0], h1,
              by rw [h4]; simpa using hlen0, ?_⟩
            intro j f hj hf
            obtain ⟨g, hg, hs⟩ := hoth1 j f hj hf
            refine ⟨g, ?_, hs⟩
            rw [h6 j hj]
            show (bmv.mgmtData.frames.set v _)[j]? = some g
            rw [List.getElem?_set_ne (Ne.symm hj)]
            exact hg
        · rw [if_neg hd] at hok
          simp only [Option.some.injEq] at hok
          obtain ⟨h0, h1, h2, _, h4, hf1, h6⟩ :=
            pinPageLoad_ok_effect _ _ _ _ _ _ _ hsync1 hv hok
          obtain ⟨f1, hf1a, hf1b⟩ := hf1
          refine ⟨v, bmv, f1, rfl, by omega, h0, hf1a, hf1b.1, hf1b.2.1, hf1b.2.2.1, hf1b.2.2.2,
            by rw [h2, hrd0], h1, by rw [h4]; exact hlen0, ?_⟩
          intro j f hj hf
          obtain ⟨g, hg, hs⟩ := hoth1 j f hj hf
          exact ⟨g, by rw [h6 j hj]; exact hg, hs⟩

/-- Example of `pinPage_miss_installs`: page 1 pinned into the one-frame FIFO pool
`dirtyPool RS_FIFO`. -/
theorem pinPage_miss_installs_witness :
    (∀ f ∈ (dirtyPool RS_FIFO).mgmtData.frames, f.pageNum ≠ 1) ∧
    FileSync (dirtyPool RS_FIFO).mgmtData.fh ∧
    pinPage 2 (dirtyPool RS_FIFO) exHandle 1 = some (RC_OK, afterPin1.2.1, afterPin1.2.2) ∧
    ∃ (v : Nat) (f1 : Frame), afterPin1.2.1.mgmtData.frames[v]? = some f1 ∧
      f1.pageNum = 1 ∧ f1.fixCount = 1 ∧ f1.dirty = false ∧
      afterPin1.2.1.mgmtData.fh.file[(1 : Int).toNat]? = some f1.data ∧
      afterPin1.2.1.mgmtData.readIO = (dirtyPool RS_FIFO).mgmtData.readIO + 1 ∧
      afterPin1.2.2 = { pageNum := 1, data := some v } := by
  have h1 : ∀ f ∈ (dirtyPool RS_FIFO).mgmtData.frames, f.pageNum ≠ 1 := by decide
  have h2 : FileSync (dirtyPool RS_FIFO).mgmtData.fh := by decide
  have h3 : pinPage 2 (dirtyPool RS_FIFO) exHandle 1 =
      some (RC_OK, afterPin1.2.1, afterPin1.2.2) := rfl
  obtain ⟨v, _, f1, _, _, _, ha, hb, hc, hd, he, hf, hg, _⟩ :=
    pinPage_miss_installs 2 (dirtyPool RS_FIFO) exHandle 1 afterPin1.2.1 afterPin1.2.2 h1 h2 h3
  exact ⟨h1, h2, h3, v, f1, ha, hb, hc, hd, he, hf, hg⟩

/-- C5. When some frame holds page `p`, `pinPage` of `p` returns `RC_OK` for every
step budget; with `i` the first frame that holds `p`, the handle is
`(p, buffer of frame i)`, frame `i` has its fix count one higher and its page number,
buffer and dirty flag unchanged, the read counter, the write counter and the file
handle (with the file) are unchanged, and every other frame is unchanged. The
statement does not need `p >= 0`. -/
theorem pinPage_hit (fuel : Nat) (bm : BM_BufferPool) (page : BM_PageHandle) (p : Int)
    (hres : ∃ f ∈ bm.mgmtData.frames, f.pageNum = p) :
    ∃ (i : Nat) (f f1 : Frame) (bm1 : BM_BufferPool),
      bm.mgmtData.frames[i]? = some f ∧ f.pageNum = p ∧
      pinPage fuel bm page p = some (RC_OK, bm1, { pageNum := p, data := some i }) ∧
      bm1.mgmtData.frames[i]? = some f1 ∧
      f1.fixCount = f.fixCount + 1 ∧ f1.pageNum = p ∧ f1.data = f.data ∧ f1.dirty = f.dirty ∧
      bm1.mgmtData.readIO = bm.mgmtData.readIO ∧
      bm1.mgmtData.writeIO = bm.mgmtData.writeIO ∧
      bm1.mgmtData.fh = bm.mgmtData.fh ∧
      bm1.mgmtData.frames.length = bm.mgmtData.frames.length ∧
      ∀ j, j ≠ i → bm1.mgmtData.frames[j]? = bm.mgmtData.frames[j]? := by
  rcases findFrameFrom_spec bm.mgmtData.frames 0 p with ⟨_, hno⟩ | ⟨k, f, hk, hf, hfind, _⟩
  · rcases hres with ⟨f, hmem, hf⟩
    exact absurd hf (hno f hmem)
  · have hfind2 : findFrame bm p = (k : Int) := by
      unfold findFrame
      rw [hfind]
      simp
    have hne : findFrame bm p ≠ -1 := by
      rw [hfind2]
      omega
    have hk2 := hitUpdate_keeps bm.strategy (bm.mgmtData.accessCounter + 1)
      { f with fixCount := f.fixCount + 1 }
    have hpin : pinPage fuel bm page p = some (RC_OK,
        bm.countAccess.withFrames
          (modFrame bm.mgmtData.frames k
            (fun f => hitUpdate bm.strategy (bm.mgmtData.accessCounter + 1)
              { f with fixCount := f.fixCount + 1 })),
        { pageNum := p, data := some k }) := by
      unfold pinPage
      simp only [hfind2, Int.toNat_ofNat]
      rw [if_pos (by omega)]
      rfl
    refine ⟨k, f, hitUpdate bm.strategy (bm.mgmtData.accessCounter + 1)
      { f with fixCount := f.fixCount + 1 }, _, hk, hf, hpin, ?_, ?_, ?_, ?_, ?_, ?_, ?_, ?_, ?_, ?_⟩
    · simp [BM_BufferPool.withFrames, getElem?_modFrame, hk]
    · exact hk2.2.2.2
    · exact hk2.1.trans hf
    · exact hk2.2.1
    · exact hk2.2.2.1
    · rfl
    · rfl
    · rfl
    · simp [BM_BufferPool.withFrames, length_modFrame]
    · intro j hj
      simp [BM_BufferPool.withFrames, getElem?_modFrame, Ne.symm hj]

/-- Witness for C5: page 0 pinned in the one-frame LRU pool
`dirtyPool RS_LRU`, which holds it. -/
theorem pinPage_hit_witness :
    (∃ f ∈ (dirtyPool RS_LRU).mgmtData.frames, f.pageNum = 0) ∧
    ∃ (i : Nat) (bm1 : BM_BufferPool),
      pinPage 2 (dirtyPool RS_LRU) exHandle 0 =
        some (RC_OK, bm1, { pageNum := 0, data := some i }) ∧
      bm1.mgmtData.readIO = (dirtyPool RS_LRU).mgmtData.readIO ∧
      bm1.mgmtData.writeIO = (dirtyPool RS_LRU).mgmtData.writeIO ∧
      bm1.mgmtData.fh = (dirtyPool RS_LRU).mgmtData.fh := by
  have h1 : ∃ f ∈ (dirtyPool RS_LRU).mgmtData.frames, f.pageNum = 0 := by decide
  obtain ⟨i, _, _, bm1, _, _, hp, _, _, _, _, _, hr, hw, hf, _⟩ :=
    pinPage_hit 2 (dirtyPool RS_LRU) exHandle 0 h1
  exact ⟨h1, i, bm1, hp, hr, hw, hf⟩

/-- C6, evaluated on a fresh pool of three frames: `pinPage` of the page number -1
returns `RC_OK` and leaves the empty frame 0 with fix count 1. -/
theorem pinPage_no_page_returns_ok :
    (pinPage 6 (initPool RS_FIFO 3 exFile) exHandle (-1)).map observe
      = some (RC_OK, [(-1, false, 1), (-1, false, 0), (-1, false, 0)], 0, 0) := by
  rfl

/-- The growth of the file in the model, in a well-formed pool (no frame without a
page is dirty; `markDirty` with a handle whose page number is `NO_PAGE` leaves such
pools) and with `p + 1` not bounded (the
model grows the file as storage_mgr.c does for `p` below `INT_MAX`, see
`ensureCapacity_refines`). In a well-formed pool with a frame of fix count 0, a
`pinPage` of a page `p` that no frame holds and that lies past the end of the file (`p >= totalNumPages`):
a read of `p` through a file handle with that page count fails (the first read of
`pinPage` is one, a write-back of the victim leaves the page count), and `pinPage`
returns `RC_OK` (given two revolutions of step budget for the CLOCK sweep) with the
file grown to `p + 1` pages, the pages from the old end on filled with zero bytes,
the read counter exactly one higher and the victim frame holding page `p`, all zero
bytes, with fix count 1. -/
theorem pinPage_grows_file (fuel : Nat) (bm : BM_BufferPool) (page : BM_PageHandle) (p : Int)
    (hwf : bm.WellFormed)
    (hmiss : ∀ f ∈ bm.mgmtData.frames, f.pageNum ≠ p)
    (hp : bm.mgmtData.fh.totalNumPages ≤ p)
    (hev : ∃ f ∈ bm.mgmtData.frames, f.fixCount = 0)
    (hfuel : 2 * bm.mgmtData.frames.length ≤ fuel) :
    (∀ fh buf, fh.totalNumPages = bm.mgmtData.fh.totalNumPages →
      (readBlock p fh buf).1 = RC_READ_NON_EXISTING_PAGE) ∧
    ∃ (bm1 : BM_BufferPool) (v : Nat) (old : List PageData),
      pinPage fuel bm page p = some (RC_OK, bm1, { pageNum := p, data := some v }) ∧
      old.length = bm.mgmtData.fh.file.length ∧
      bm1.mgmtData.fh.file =
        old ++ List.replicate (p + 1 - bm.mgmtData.fh.totalNumPages).toNat zeroPage ∧
      bm1.mgmtData.fh.totalNumPages = p + 1 ∧
      bm1.mgmtData.readIO = bm.mgmtData.readIO + 1 ∧
      ∃ f1, bm1.mgmtData.frames[v]? = some f1 ∧ f1.pageNum = p ∧ f1.data = zeroPage ∧
        f1.fixCount = 1 ∧ f1.dirty = false := by
  obtain ⟨hm, hsync, hnum, hhand, hdirty, hkeys⟩ := hwf
  refine ⟨fun fh buf hfh => by rw [readBlock_fail p _ _ (Or.inr (Or.inr (by omega)))], ?_⟩
  have hfind : findFrame bm p = -1 := findFrame_eq_neg_one bm p hmiss
  obtain ⟨v, bmv, f, g, hsv, hf, hg, hfg⟩ :=
    selectVictim_inRange fuel bm.countAccess hnum hhand hkeys hev hfuel
  obtain ⟨_, _, hfh, _, hrd, _, hlen, _⟩ := selectVictim_effect _ _ _ _ hsv
  have hfh0 : bmv.mgmtData.fh = bm.mgmtData.fh := hfh
  have hrd0 : bmv.mgmtData.readIO = bm.mgmtData.readIO := hrd
  have hv : v < bmv.mgmtData.frames.length := (List.getElem?_eq_some.mp hg).1
  have hf0 : bm.mgmtData.frames[v]? = some f := hf
  unfold pinPage
  simp only [hfind, ne_eq, not_true_eq_false, if_false, hsv]
  rw [if_neg (by unfold BM_MgmtData.numFrames; omega)]
  simp only [Int.toNat_ofNat, hg]
  by_cases hd : g.dirty = true
  · rw [if_pos hd]
    have hgf : g = f := by
      rcases hfg with h | h
      · exact h
      · rw [h] at hd
        cases hd
    subst hgf
    obtain ⟨hq0, hq1⟩ := hdirty g (List.getElem?_mem hf0) hd
    have hwok : ¬ (bmv.mgmtData.fh.mgmtInfo = false ∨ g.pageNum < 0 ∨
        g.pageNum ≥ bmv.mgmtData.fh.totalNumPages) := by
      rw [hfh0, hm]
      intro hcon
      rcases hcon with h | h | h
      · cases h
      · omega
      · omega
    unfold writeBlock
    rw [if_neg hwok]
    simp only [ne_eq, not_true_eq_false, if_false]
    have hqlt : g.pageNum.toNat < bm.mgmtData.fh.file.length := by
      unfold FileSync at hsync
      omega
    have hwl : (writeAt bmv.mgmtData.fh.file g.pageNum.toNat g.data).length =
        bm.mgmtData.fh.file.length := by
      rw [hfh0]
      exact length_writeAt _ _ _ hqlt
    obtain ⟨bm1, h1, h2, h3, h4, _, h6⟩ := pinPageLoad_grow_effect
      { bmv with mgmtData :=
          { bmv.mgmtData with
              fh := { bmv.mgmtData.fh with
                        curPagePos := g.pageNum,
                        file := writeAt bmv.mgmtData.fh.file g.pageNum.toNat g.data },
              writeIO := bmv.mgmtData.writeIO + 1,
              frames := bmv.mgmtData.frames.set v { g with dirty := false } } }
      page p v { g with dirty := false }
      (by show bmv.mgmtData.fh.mgmtInfo = true; rw [hfh0]; exact hm)
      (by
        unfold FileSync at hsync ⊢
        show bmv.mgmtData.fh.totalNumPages = _
        rw [hwl, hfh0]
        exact hsync)
      (by show bmv.mgmtData.fh.totalNumPages ≤ p; rw [hfh0]; exact hp)
      (by simpa using hv)
    refine ⟨bm1, v, _, by rw [h1], hwl, ?_, h3, ?_, h6⟩
    · rw [h2]
      show _ ++ List.replicate (p + 1 - bmv.mgmtData.fh.totalNumPages).toNat zeroPage = _
      rw [hfh0]
    · rw [h4]
      show bmv.mgmtData.readIO + 1 = _
      rw [hrd0]
  · rw [if_neg hd]
    obtain ⟨bm1, h1, h2, h3, h4, _, h6⟩ := pinPageLoad_grow_effect bmv page p v g
      (by rw [hfh0]; exact hm) (by rw [hfh0]; exact hsync) (by rw [hfh0]; exact hp) hv
    refine ⟨bm1, v, bm.mgmtData.fh.file, by rw [h1], rfl, ?_, h3, ?_, h6⟩
    · rw [h2, hfh0]
    · rw [h4, hrd0]

/-- Example of `pinPage_grows_file`: page 5 pinned in the one-frame CLOCK pool
`dirtyPool RS_CLOCK` over a file of two pages. -/
theorem pinPage_grows_file_witness :
    (dirtyPool RS_CLOCK).WellFormed ∧
    (∀ f ∈ (dirtyPool RS_CLOCK).mgmtData.frames, f.pageNum ≠ 5) ∧
    ((dirtyPool RS_CLOCK).mgmtData.fh.totalNumPages ≤ 5) ∧
    (∃ f ∈ (dirtyPool RS_CLOCK).mgmtData.frames, f.fixCount = 0) ∧
    ∃ (bm1 : BM_BufferPool) (v : Nat),
      pinPage 2 (dirtyPool RS_CLOCK) exHandle 5 =
        some (RC_OK, bm1, { pageNum := 5, data := some v }) ∧
      bm1.mgmtData.fh.totalNumPages = 5 + 1 ∧
      bm1.mgmtData.readIO = (dirtyPool RS_CLOCK).mgmtData.readIO + 1 := by
  have h1 : (dirtyPool RS_CLOCK).WellFormed := by decide
  have h2 : ∀ f ∈ (dirtyPool RS_CLOCK).mgmtData.frames, f.pageNum ≠ 5 := by decide
  have h3 : (dirtyPool RS_CLOCK).mgmtData.fh.totalNumPages ≤ 5 := by decide
  have h4 : ∃ f ∈ (dirtyPool RS_CLOCK).mgmtData.frames, f.fixCount = 0 := by decide
  obtain ⟨_, bm1, v, _, hp, _, _, ht, hr, _⟩ :=
    pinPage_grows_file 2 (dirtyPool RS_CLOCK) exHandle 5 h1 h2 h3 h4 (by decide)
  exact ⟨h1, h2, h3, h4, bm1, v, hp, ht, hr⟩

/-- C9, evaluated on a fresh pool of three frames, where no frame holds a page:
`unpinPage` with a handle whose page number is `NO_PAGE` returns `RC_OK`, not
`RC_PAGE_NOT_FOUND`. -/
theorem unpinPage_no_page_returns_ok :
    (unpinPage (initPool RS_FIFO 3 exFile) noPageHandle).1 = RC_OK := by
  rfl

/-- C10, evaluated on a fresh pool of three frames, where no frame holds a page:
`markDirty` with a handle whose page number is `NO_PAGE` returns `RC_OK` and sets the
dirty flag of the empty frame 0; the next `pinPage` of page 0 then fails with
`RC_WRITE_FAILED`. -/
theorem markDirty_no_page_dirties_empty_frame :
    (markDirty (initPool RS_FIFO 3 exFile) noPageHandle).1 = RC_OK ∧
    (markDirty (initPool RS_FIFO 3 exFile) noPageHandle).2.mgmtData.frames.map
      (fun f => (f.pageNum, f.dirty, f.fixCount))
      = [(-1, true, 0), (-1, false, 0), (-1, false, 0)] ∧
    (pinPage 6 (markDirty (initPool RS_FIFO 3 exFile) noPageHandle).2 exHandle 0).map
      (fun r => r.1) = some RC_WRITE_FAILED := by
  refine ⟨?_, ?_, ?_⟩ <;> rfl

/-- What `forcePage` does in the model, by the page number `p` of the handle; a frame
without a page holds the number `NO_PAGE`, and a handle with that number is served by
such a frame. If no frame holds p it
returns RC_PAGE_NOT_FOUND and the pool is unchanged. If the first frame that holds p is clean it
returns RC_OK and the pool is unchanged: nothing is written, and a second call does the
same. If that frame is dirty and p is a page of the open file, it returns RC_OK, page p of
the file is the frame's bytes, the frame differs only in its cleared dirty flag, the write
counter is one more, the read counter and the length of the file are as before, and a
second `forcePage` returns RC_OK and changes nothing. In every case the page numbers and
fix counts of all frames are as before. -/
theorem forcePage_spec (bm : BM_BufferPool) (page : BM_PageHandle) :
    ((∀ f ∈ bm.mgmtData.frames, f.pageNum ≠ page.pageNum) →
      forcePage bm page = (RC_PAGE_NOT_FOUND, bm)) ∧
    (∀ (i : Nat) (f : Frame), bm.mgmtData.frames[i]? = some f → f.pageNum = page.pageNum →
      (∀ (j : Nat) (g : Frame), j < i → bm.mgmtData.frames[j]? = some g →
        g.pageNum ≠ page.pageNum) →
      (f.dirty = false → forcePage bm page = (RC_OK, bm)) ∧
      (f.dirty = true → bm.mgmtData.fh.mgmtInfo = true → 0 ≤ page.pageNum →
        page.pageNum < bm.mgmtData.fh.totalNumPages →
        ∃ bm1, forcePage bm page = (RC_OK, bm1) ∧
          bm1.mgmtData.fh.file[page.pageNum.toNat]? = some f.data ∧
          bm1.mgmtData.frames = bm.mgmtData.frames.set i { f with dirty := false } ∧
          bm1.mgmtData.writeIO = bm.mgmtData.writeIO + 1 ∧
          bm1.mgmtData.readIO = bm.mgmtData.readIO ∧
          bm1.mgmtData.fh.totalNumPages = bm.mgmtData.fh.totalNumPages ∧
          forcePage bm1 page = (RC_OK, bm1))) ∧
    (forcePage bm page).2.mgmtData.frames.map (fun f => (f.pageNum, f.fixCount)) =
      bm.mgmtData.frames.map (fun f => (f.pageNum, f.fixCount)) := by
  refine ⟨?_, ?_, ?_⟩
  · intro hmiss
    unfold forcePage
    simp only [findFrame_eq_neg_one bm page.pageNum hmiss, if_true]
  · intro i f hi hp hfirst
    have hforce := forcePage_first bm page i f hi hp hfirst
    refine ⟨?_, ?_⟩
    · intro hd
      rw [hforce, if_neg (by simp [hd])]
    · intro hd hm h0 h1
      have h0f : 0 ≤ f.pageNum := by omega
      have h1f : f.pageNum < bm.mgmtData.fh.totalNumPages := by omega
      rw [hforce, if_pos hd, writeBlock_ok _ _ _ hm h0f h1f]
      simp only [ne_eq, not_true_eq_false, if_false]
      refine ⟨_, rfl, by rw [← hp]; exact getElem?_writeAt_self _ _ _, rfl, rfl, rfl, rfl, ?_⟩
      have hlt : i < bm.mgmtData.frames.length := (List.getElem?_eq_some.mp hi).1
      rw [forcePage_first _ page i { f with dirty := false }
        (List.getElem?_set_self hlt) hp ?_]
      · simp
      · intro j g hj hg
        have hne : i ≠ j := by omega
        exact hfirst j g hj (by
          have : (bm.mgmtData.frames.set i { f with dirty := false })[j]? = some g := hg
          rw [List.getElem?_set_ne hne] at this
          exact this)
  · rcases findFrameFrom_spec bm.mgmtData.frames 0 page.pageNum with
      ⟨_, hno⟩ | ⟨k, f, hk, hf, _, hmin⟩
    · have : forcePage bm page = (RC_PAGE_NOT_FOUND, bm) := by
        unfold forcePage
        simp only [findFrame_eq_neg_one bm page.pageNum hno, if_true]
      rw [this]
    · rw [forcePage_first bm page k f hk hf hmin]
      split
      · split
        · rfl
        · show (bm.mgmtData.frames.set k { f with dirty := false }).map _ = _
          apply List.ext_getElem?
          intro j
          by_cases hj : k = j
          · subst hj
            obtain ⟨hlt, hget⟩ := List.getElem?_eq_some.mp hk
            simp [List.getElem?_map, List.getElem?_set, hlt, hget]
          · simp [List.getElem?_map, List.getElem?_set, hj]
      · rfl

/-- Example of `forcePage_spec`: page 0 of `dirtyPool RS_FIFO`, dirty in frame 0, forced
once and again, and page 1, which no frame holds. -/
theorem forcePage_spec_witness :
    (∃ bm1, forcePage (dirtyPool RS_FIFO) exHandle = (RC_OK, bm1) ∧
      bm1.mgmtData.fh.file[exHandle.pageNum.toNat]? = some (pageOf 77) ∧
      bm1.mgmtData.writeIO = (dirtyPool RS_FIFO).mgmtData.writeIO + 1 ∧
      forcePage bm1 exHandle = (RC_OK, bm1)) ∧
    forcePage (dirtyPool RS_FIFO) { pageNum := 1, data := none } =
      (RC_PAGE_NOT_FOUND, dirtyPool RS_FIFO) := by
  have h := forcePage_spec (dirtyPool RS_FIFO) exHandle
  have h2 := forcePage_spec (dirtyPool RS_FIFO) { pageNum := 1, data := none }
  obtain ⟨bm1, h3, h4, _, h5, _, _, h6⟩ :=
    ((h.2.1 0 _ rfl rfl (fun j g hj _ => absurd hj (Nat.not_lt_zero j))).2
      rfl rfl (by decide) (by decide))
  exact ⟨⟨bm1, h3, h4, h5, h6⟩, h2.1 (by decide)⟩

/-- C13. On an initialised pool (management data present, `numPages` the number of frames)
`shutdownBufferPool` returns RC_PINNED_PAGES_IN_BUFFER exactly when some frame has a
positive fix count, and then the descriptor, with its frames, counters and file handle, is
the one it was given and no file is written or closed. -/
theorem shutdownBufferPool_pinned (d : PoolDescriptor) (mgmt : BM_MgmtData)
    (hopen : d.mgmtData = some mgmt) (hnum : d.numPages = mgmt.frames.length) :
    ((shutdownBufferPool d).1 = RC_PINNED_PAGES_IN_BUFFER ↔
      ∃ f ∈ mgmt.frames, f.fixCount > 0) ∧
    ((∃ f ∈ mgmt.frames, f.fixCount > 0) →
      shutdownBufferPool d = (RC_PINNED_PAGES_IN_BUFFER, d, none)) := by
  have hpin : (∃ f ∈ mgmt.frames, f.fixCount > 0) →
      shutdownBufferPool d = (RC_PINNED_PAGES_IN_BUFFER, d, none) := by
    intro h
    unfold shutdownBufferPool
    simp only [hopen, hnum, List.take_length]
    rw [if_pos ((any_pinned_iff _).mpr h)]
  refine ⟨⟨?_, fun h => by rw [hpin h]⟩, hpin⟩
  intro h
  by_contra hno
  unfold shutdownBufferPool at h
  simp only [hopen, hnum, List.take_length] at h
  rw [if_neg (fun hc => hno ((any_pinned_iff _).mp hc))] at h
  simp only [forceFlushPool_rc, ne_eq, not_true_eq_false, if_false] at h
  revert h
  decide

/-- Witness for C13: the descriptor of `flushPool`, whose frame 1 is pinned. -/
theorem shutdownBufferPool_pinned_witness :
    (flushPool.descriptor "testbuffer.bin").mgmtData = some flushPool.mgmtData ∧
    (flushPool.descriptor "testbuffer.bin").numPages = flushPool.mgmtData.frames.length ∧
    (∃ f ∈ flushPool.mgmtData.frames, f.fixCount > 0) ∧
    shutdownBufferPool (flushPool.descriptor "testbuffer.bin") =
      (RC_PINNED_PAGES_IN_BUFFER, flushPool.descriptor "testbuffer.bin", none) := by
  have h3 : ∃ f ∈ flushPool.mgmtData.frames, f.fixCount > 0 := by decide
  exact ⟨rfl, rfl, h3,
    (shutdownBufferPool_pinned (flushPool.descriptor "testbuffer.bin") flushPool.mgmtData
      rfl rfl).2 h3⟩

/-- What `shutdownBufferPool` persists in the model when every dirty frame holds a page
of the file (`markDirty` with a handle whose page number is `NO_PAGE` leaves a dirty
frame without a page, which is outside this lemma). When no frame is pinned (the file open
and consistent, the dirty frames holding distinct pages of the file),
`shutdownBufferPool` returns RC_OK, the management data of the
descriptor is released, and in the file that is closed the page of every frame that was
dirty is that frame's bytes. -/
theorem shutdownBufferPool_persists (d : PoolDescriptor) (mgmt : BM_MgmtData)
    (hopen : d.mgmtData = some mgmt) (hnum : d.numPages = mgmt.frames.length)
    (hunpinned : ∀ f ∈ mgmt.frames, f.fixCount = 0)
    (hm : mgmt.fh.mgmtInfo = true) (hsync : FileSync mgmt.fh)
    (hvalid : ∀ f ∈ mgmt.frames, f.dirty = true →
      0 ≤ f.pageNum ∧ f.pageNum < mgmt.fh.totalNumPages)
    (hdist : DistinctPages mgmt.frames) :
    ∃ (d1 : PoolDescriptor) (pages : List PageData),
      shutdownBufferPool d = (RC_OK, d1, some pages) ∧ d1.mgmtData = none ∧
      ∀ f ∈ mgmt.frames, f.dirty = true → pages[f.pageNum.toNat]? = some f.data := by
  have hnp : ¬ ((mgmt.frames.any (fun f => decide (f.fixCount > 0))) = true) := by
    intro hc
    obtain ⟨f, hf, hfx⟩ := (any_pinned_iff _).mp hc
    have := hunpinned f hf
    omega
  obtain ⟨_, _, _, hA, _⟩ := forceFlushLoop_file mgmt.frames mgmt.fh mgmt.writeIO hm hsync
    (fun f hf hd _ => hvalid f hf hd) hdist
  refine ⟨{ d with mgmtData := none, pageFile := none },
    (forceFlushLoop mgmt.frames mgmt.fh mgmt.writeIO).2.1.file, ?_, rfl,
    fun f hf hd => hA f hf hd (hunpinned f hf)⟩
  unfold shutdownBufferPool
  simp only [hopen, hnum, List.take_length]
  rw [if_neg hnp]
  simp only [forceFlushPool_rc, ne_eq, not_true_eq_false, if_false]
  rfl

/-- Example of `shutdownBufferPool_persists`: the descriptor of `dirtyPool RS_FIFO`,
whose one frame is dirty and unpinned. -/
theorem shutdownBufferPool_persists_witness :
    (∀ f ∈ (dirtyPool RS_FIFO).mgmtData.frames, f.fixCount = 0) ∧
    FileSync (dirtyPool RS_FIFO).mgmtData.fh ∧
    DistinctPages (dirtyPool RS_FIFO).mgmtData.frames ∧
    ∃ (d1 : PoolDescriptor) (pages : List PageData),
      shutdownBufferPool ((dirtyPool RS_FIFO).descriptor "testbuffer.bin") =
        (RC_OK, d1, some pages) ∧ d1.mgmtData = none ∧
      ∀ f ∈ (dirtyPool RS_FIFO).mgmtData.frames, f.dirty = true →
        pages[f.pageNum.toNat]? = some f.data := by
  have h1 : ∀ f ∈ (dirtyPool RS_FIFO).mgmtData.frames, f.fixCount = 0 := by decide
  have h2 : FileSync (dirtyPool RS_FIFO).mgmtData.fh := by decide
  have h3 : DistinctPages (dirtyPool RS_FIFO).mgmtData.frames := by decide
  exact ⟨h1, h2, h3,
    shutdownBufferPool_persists ((dirtyPool RS_FIFO).descriptor "testbuffer.bin")
      (dirtyPool RS_FIFO).mgmtData rfl rfl h1 rfl h2 (by decide) h3⟩

/-- C15. After `initBufferPool` has returned RC_OK for n frames, the pool has n frames, each
of them empty (page number NO_PAGE), clean and with fix count 0; the read, write and
access counters and the clock hand are 0; the descriptor records n, the strategy and the
file name, and the file handle is that of the file that was opened. -/
theorem initBufferPool_success (disk : Disk) (framesAllocated : Bool) (d : PoolDescriptor)
    (pageFileName : String) (n : Nat) (strategy : ReplacementStrategy) (d1 : PoolDescriptor)
    (h : initBufferPool disk framesAllocated d pageFileName n strategy = (RC_OK, d1)) :
    ∃ mgmt, d1.mgmtData = some mgmt ∧ mgmt.frames.length = n ∧
      (∀ f ∈ mgmt.frames, f.pageNum = NO_PAGE ∧ f.dirty = false ∧ f.fixCount = 0) ∧
      mgmt.readIO = 0 ∧ mgmt.writeIO = 0 ∧ mgmt.accessCounter = 0 ∧ mgmt.clock_hand = 0 ∧
      d1.numPages = n ∧ d1.strategy = strategy ∧ d1.pageFile = some pageFileName ∧
      ∃ pages, disk pageFileName = some pages ∧ mgmt.fh.file = pages ∧
        mgmt.fh.totalNumPages = pages.length ∧ mgmt.fh.mgmtInfo = true := by
  unfold initBufferPool openPageFile at h
  cases hd : disk pageFileName with
  | none =>
    simp only [hd, Prod.mk.injEq] at h
    exact absurd h.1 (by decide)
  | some pages =>
    simp only [hd] at h
    cases framesAllocated with
    | false =>
      simp only [if_true, Prod.mk.injEq] at h
      exact absurd h.1 (by decide)
    | true =>
      simp only [Bool.true_eq_false, if_false, Prod.mk.injEq, true_and] at h
      subst h
      refine ⟨_, rfl, by simp [initPool], ?_, rfl, rfl, rfl, rfl, rfl, rfl, rfl,
        pages, rfl, rfl, rfl, rfl⟩
      intro f hf
      have : f = initFrame := List.eq_of_mem_replicate hf
      subst this
      exact ⟨rfl, rfl, rfl⟩

/-- Witness for C15: a pool of three LRU frames opened on `testbuffer.bin`. -/
theorem initBufferPool_success_witness :
    initBufferPool exDisk true closedDescriptor "testbuffer.bin" 3 RS_LRU =
      (RC_OK, (initPool RS_LRU 3 { exFile with curPagePos := 0 }).descriptor "testbuffer.bin") ∧
    ∃ mgmt, ((initPool RS_LRU 3 { exFile with curPagePos := 0 }).descriptor
        "testbuffer.bin").mgmtData = some mgmt ∧
      mgmt.frames.length = 3 ∧
      (∀ f ∈ mgmt.frames, f.pageNum = NO_PAGE ∧ f.dirty = false ∧ f.fixCount = 0) ∧
      mgmt.readIO = 0 ∧ mgmt.writeIO = 0 := by
  have h1 : initBufferPool exDisk true closedDescriptor "testbuffer.bin" 3 RS_LRU =
      (RC_OK, (initPool RS_LRU 3 { exFile with curPagePos := 0 }).descriptor
        "testbuffer.bin") := rfl
  obtain ⟨mgmt, ha, hb, hc, hd, he, _⟩ :=
    initBufferPool_success exDisk true closedDescriptor "testbuffer.bin" 3 RS_LRU _ h1
  exact ⟨h1, mgmt, ha, hb, hc, hd, he⟩

/-- C16. With a file that cannot be opened, `initBufferPool` returns RC_FILE_NOT_FOUND and
the descriptor is the one it was given, whether uninitialised or that of a live pool
(frames, fix counts and management data included); a following `initBufferPool` on that
descriptor with a file that exists returns RC_OK. -/
theorem initBufferPool_missing_file (disk : Disk) (framesAllocated : Bool)
    (d : PoolDescriptor) (pageFileName : String) (n : Nat) (strategy : ReplacementStrategy)
    (h : disk pageFileName = none) :
    initBufferPool disk framesAllocated d pageFileName n strategy = (RC_FILE_NOT_FOUND, d) ∧
    ∀ (name2 : String) (pages : List PageData) (n2 : Nat) (s2 : ReplacementStrategy),
      disk name2 = some pages →
      (initBufferPool disk true
        (initBufferPool disk framesAllocated d pageFileName n strategy).2 name2 n2 s2).1
        = RC_OK := by
  have h1 : initBufferPool disk framesAllocated d pageFileName n strategy =
      (RC_FILE_NOT_FOUND, d) := by
    unfold initBufferPool openPageFile
    simp only [h]
  refine ⟨h1, ?_⟩
  intro name2 pages n2 s2 h2
  unfold initBufferPool openPageFile
  simp only [h2]
  rfl

/-- Witness for C16: `unavailable.bin` does not exist on `exDisk`; the descriptor of the
live pool `flushPool` is as it was after the failed call. -/
theorem initBufferPool_missing_file_witness :
    exDisk "unavailable.bin" = none ∧
    initBufferPool exDisk true (flushPool.descriptor "testbuffer.bin") "unavailable.bin" 3
      RS_FIFO = (RC_FILE_NOT_FOUND, flushPool.descriptor "testbuffer.bin") := by
  have h1 : exDisk "unavailable.bin" = none := by decide
  exact ⟨h1, (initBufferPool_missing_file exDisk true (flushPool.descriptor "testbuffer.bin")
    "unavailable.bin" 3 RS_FIFO h1).1⟩

/-- C17. Whatever the strategy and the state of the occupied frames, when some frame is
empty (page number NO_PAGE, fix count 0) `selectVictim` returns the index of the first
empty frame, and the pool (frames, clock hand, counters) is as before. -/
theorem selectVictim_prefers_empty (fuel : Nat) (bm : BM_BufferPool)
    (hempty : ∃ f ∈ bm.mgmtData.frames, f.pageNum = NO_PAGE ∧ f.fixCount = 0) :
    ∃ (i : Nat) (f : Frame), bm.mgmtData.frames[i]? = some f ∧
      f.pageNum = NO_PAGE ∧ f.fixCount = 0 ∧
      (∀ j g, j < i → bm.mgmtData.frames[j]? = some g →
        ¬ (g.pageNum = NO_PAGE ∧ g.fixCount = 0)) ∧
      selectVictim fuel bm = some ((i : Int), bm) := by
  cases he : findEmptyFrom bm.mgmtData.frames 0 with
  | none =>
    obtain ⟨f, hf, h1, h2⟩ := hempty
    exact absurd ⟨h1, h2⟩ (findEmptyFrom_none _ _ he f hf)
  | some i =>
    obtain ⟨k, f, hik, hk, h1, h2, hmin⟩ := findEmptyFrom_some _ _ _ he
    have hki : i = k := by omega
    subst hki
    refine ⟨i, f, hk, h1, h2, hmin, ?_⟩
    unfold selectVictim
    rw [he]

/-- Witness for C17: a fresh CLOCK pool of three frames, without any step of the
sweep. -/
theorem selectVictim_prefers_empty_witness :
    (∃ f ∈ (initPool RS_CLOCK 3 exFile).mgmtData.frames, f.pageNum = NO_PAGE ∧ f.fixCount = 0) ∧
    ∃ (i : Nat), selectVictim 0 (initPool RS_CLOCK 3 exFile) =
      some ((i : Int), initPool RS_CLOCK 3 exFile) := by
  have h1 : ∃ f ∈ (initPool RS_CLOCK 3 exFile).mgmtData.frames,
      f.pageNum = NO_PAGE ∧ f.fixCount = 0 := by decide
  obtain ⟨i, _, _, _, _, _, h⟩ := selectVictim_prefers_empty 0 (initPool RS_CLOCK 3 exFile) h1
  exact ⟨h1, i, h⟩

/-- C18. Under FIFO, with no empty frame, some frame with fix count 0, and the load times
of unpinned frames below INT_MAX, `selectVictim` returns a frame with fix count 0 whose
load time `lastTwo[0]` is least among the frames with fix count 0, and every such frame
of lower index has a strictly greater load time (lowest index among equal load times);
the pool is as before. -/
theorem selectVictim_fifo_oldest (fuel : Nat) (bm : BM_BufferPool)
    (hs : bm.strategy = RS_FIFO)
    (hfull : ∀ f ∈ bm.mgmtData.frames, ¬ (f.pageNum = NO_PAGE ∧ f.fixCount = 0))
    (hev : ∃ f ∈ bm.mgmtData.frames, f.fixCount = 0)
    (hrange : ∀ f ∈ bm.mgmtData.frames, f.fixCount = 0 → f.lastTwo0 < INT_MAX) :
    ∃ (v : Nat) (f : Frame), selectVictim fuel bm = some ((v : Int), bm) ∧
      bm.mgmtData.frames[v]? = some f ∧ f.fixCount = 0 ∧
      (∀ (j : Nat) (g : Frame), bm.mgmtData.frames[j]? = some g → g.fixCount = 0 → f.lastTwo0 ≤ g.lastTwo0) ∧
      (∀ j g, j < v → bm.mgmtData.frames[j]? = some g → g.fixCount = 0 →
        f.lastTwo0 < g.lastTwo0) := by
  obtain ⟨x, hx, hx0⟩ := hev
  obtain ⟨v, f, hv, hf, hres, hmin, hfirst⟩ :=
    scanMin_victim (fun f => f.lastTwo0) bm.mgmtData.frames 0 ⟨x, hx, hx0, hrange x hx hx0⟩
  refine ⟨v, f, ?_, hv, hf, hmin, hfirst⟩
  unfold selectVictim
  rw [findEmptyFrom_eq_none _ _ hfull]
  simp only [hs, hres]

/-- Witness for C18: `twoAccessPool RS_FIFO`. -/
theorem selectVictim_fifo_oldest_witness :
    (∀ f ∈ (twoAccessPool RS_FIFO).mgmtData.frames, ¬ (f.pageNum = NO_PAGE ∧ f.fixCount = 0)) ∧
    (∃ f ∈ (twoAccessPool RS_FIFO).mgmtData.frames, f.fixCount = 0) ∧
    (∀ f ∈ (twoAccessPool RS_FIFO).mgmtData.frames, f.fixCount = 0 → f.lastTwo0 < INT_MAX) ∧
    ∃ (v : Nat) (f : Frame),
      selectVictim 4 (twoAccessPool RS_FIFO) = some ((v : Int), twoAccessPool RS_FIFO) ∧
      (twoAccessPool RS_FIFO).mgmtData.frames[v]? = some f ∧ f.fixCount = 0 := by
  have h1 : ∀ f ∈ (twoAccessPool RS_FIFO).mgmtData.frames,
      ¬ (f.pageNum = NO_PAGE ∧ f.fixCount = 0) := by decide
  have h2 : ∃ f ∈ (twoAccessPool RS_FIFO).mgmtData.frames, f.fixCount = 0 := by decide
  have h3 : ∀ f ∈ (twoAccessPool RS_FIFO).mgmtData.frames,
      f.fixCount = 0 → f.lastTwo0 < INT_MAX := by decide
  obtain ⟨v, f, ha, hb, hc, _⟩ := selectVictim_fifo_oldest 4 (twoAccessPool RS_FIFO) rfl h1 h2 h3
  exact ⟨h1, h2, h3, v, f, ha, hb, hc⟩

/-- C19. Under LRU, with no empty frame and the last-access times of unpinned frames below
INT_MAX: when no frame has fix count 0, `selectVictim` returns -1; otherwise it returns a
frame with fix count 0 whose last-access time `lastTwo[1]` is least among the frames with
fix count 0, the lowest index among equal times. The pool is as before. -/
theorem selectVictim_lru_least_recent (fuel : Nat) (bm : BM_BufferPool)
    (hs : bm.strategy = RS_LRU)
    (hfull : ∀ f ∈ bm.mgmtData.frames, ¬ (f.pageNum = NO_PAGE ∧ f.fixCount = 0))
    (hrange : ∀ f ∈ bm.mgmtData.frames, f.fixCount = 0 → f.lastTwo1 < INT_MAX) :
    ((∀ f ∈ bm.mgmtData.frames, f.fixCount ≠ 0) → selectVictim fuel bm = some (-1, bm)) ∧
    ((∃ f ∈ bm.mgmtData.frames, f.fixCount = 0) →
      ∃ (v : Nat) (f : Frame), selectVictim fuel bm = some ((v : Int), bm) ∧
        bm.mgmtData.frames[v]? = some f ∧ f.fixCount = 0 ∧
        (∀ (j : Nat) (g : Frame), bm.mgmtData.frames[j]? = some g → g.fixCount = 0 →
          f.lastTwo1 ≤ g.lastTwo1) ∧
        (∀ j g, j < v → bm.mgmtData.frames[j]? = some g → g.fixCount = 0 →
          f.lastTwo1 < g.lastTwo1)) := by
  have hsel : selectVictim fuel bm =
      some (scanMin (fun f => f.lastTwo1) bm.mgmtData.frames 0 (-1) INT_MAX, bm) := by
    unfold selectVictim
    rw [findEmptyFrom_eq_none _ _ hfull]
    simp only [hs, selectLRUVictim]
  refine ⟨?_, ?_⟩
  · intro hpinned
    rw [hsel, scanMin_all_pinned _ _ _ _ _ hpinned]
  · intro hev
    obtain ⟨x, hx, hx0⟩ := hev
    obtain ⟨v, f, hv, hf, hres, hmin, hfirst⟩ :=
      scanMin_victim (fun f => f.lastTwo1) bm.mgmtData.frames (-1)
        ⟨x, hx, hx0, hrange x hx hx0⟩
    exact ⟨v, f, by rw [hsel, hres], hv, hf, hmin, hfirst⟩

/-- Witness for C19: `twoAccessPool RS_LRU`. -/
theorem selectVictim_lru_least_recent_witness :
    (∀ f ∈ (twoAccessPool RS_LRU).mgmtData.frames, ¬ (f.pageNum = NO_PAGE ∧ f.fixCount = 0)) ∧
    (∀ f ∈ (twoAccessPool RS_LRU).mgmtData.frames, f.fixCount = 0 → f.lastTwo1 < INT_MAX) ∧
    (∃ f ∈ (twoAccessPool RS_LRU).mgmtData.frames, f.fixCount = 0) ∧
    ∃ (v : Nat) (f : Frame),
      selectVictim 4 (twoAccessPool RS_LRU) = some ((v : Int), twoAccessPool RS_LRU) ∧
      (twoAccessPool RS_LRU).mgmtData.frames[v]? = some f ∧ f.fixCount = 0 := by
  have h1 : ∀ f ∈ (twoAccessPool RS_LRU).mgmtData.frames,
      ¬ (f.pageNum = NO_PAGE ∧ f.fixCount = 0) := by decide
  have h2 : ∀ f ∈ (twoAccessPool RS_LRU).mgmtData.frames,
      f.fixCount = 0 → f.lastTwo1 < INT_MAX := by decide
  have h3 : ∃ f ∈ (twoAccessPool RS_LRU).mgmtData.frames, f.fixCount = 0 := by decide
  obtain ⟨v, f, ha, hb, hc, _⟩ :=
    (selectVictim_lru_least_recent 4 (twoAccessPool RS_LRU) rfl h1 h2).2 h3
  exact ⟨h1, h2, h3, v, f, ha, hb, hc⟩

/-- C20 as stated fails: in `twoAccessPool RS_LRU_K`, the state after `pinPage 0`,
`unpinPage`, `pinPage 0`, `unpinPage`, `pinPage 1`, `unpinPage` on a fresh LRU-K pool of
two frames, both frames are unpinned, frame 1 has the single access and the smaller
second-to-last access time (`lastTwo[0]` is 0 against 1), and `selectVictim` returns
frame 0, the frame with two accesses. -/
theorem selectVictim_lru_k_ignores_second_last :
    twoAccessScenario RS_LRU_K = some (twoAccessPool RS_LRU_K) ∧
    (twoAccessPool RS_LRU_K).mgmtData.frames.map
      (fun f => (f.pageNum, f.fixCount, f.lastTwo0, f.lastTwo1))
      = [(0, 0, 1, 2), (1, 0, 0, 3)] ∧
    selectVictim 4 (twoAccessPool RS_LRU_K) = some (0, twoAccessPool RS_LRU_K) := by
  refine ⟨?_, ?_, ?_⟩ <;> rfl

/-- C20, as amended. Under LRU-K, with no empty frame, some frame with fix count 0, and the
last-access times of unpinned frames below INT_MAX, `selectVictim` ranks the frames with
fix count 0 by their most recent access time `lastTwo[1]` and returns the one with the
least value, the lowest index among equal times; `lastTwo[0]` is not consulted, and the
victim is the frame that LRU selects in the same pool. -/
theorem selectVictim_lru_k_least_recent (fuel : Nat) (bm : BM_BufferPool)
    (hs : bm.strategy = RS_LRU_K)
    (hfull : ∀ f ∈ bm.mgmtData.frames, ¬ (f.pageNum = NO_PAGE ∧ f.fixCount = 0))
    (hev : ∃ f ∈ bm.mgmtData.frames, f.fixCount = 0)
    (hrange : ∀ f ∈ bm.mgmtData.frames, f.fixCount = 0 → f.lastTwo1 < INT_MAX) :
    ∃ (v : Nat) (f : Frame), selectVictim fuel bm = some ((v : Int), bm) ∧
      bm.mgmtData.frames[v]? = some f ∧ f.fixCount = 0 ∧
      (∀ (j : Nat) (g : Frame), bm.mgmtData.frames[j]? = some g → g.fixCount = 0 → f.lastTwo1 ≤ g.lastTwo1) ∧
      (∀ j g, j < v → bm.mgmtData.frames[j]? = some g → g.fixCount = 0 →
        f.lastTwo1 < g.lastTwo1) ∧
      (selectVictim fuel { bm with strategy := RS_LRU }).map (fun r => r.1) =
        some (v : Int) := by
  obtain ⟨x, hx, hx0⟩ := hev
  obtain ⟨v, f, hv, hf, hres, hmin, hfirst⟩ :=
    scanMin_victim (fun f => f.lastTwo1) bm.mgmtData.frames (-1) ⟨x, hx, hx0, hrange x hx hx0⟩
  refine ⟨v, f, ?_, hv, hf, hmin, hfirst, ?_⟩
  · unfold selectVictim
    rw [findEmptyFrom_eq_none _ _ hfull]
    simp only [hs, hres]
  · unfold selectVictim
    simp only [findEmptyFrom_eq_none _ _ hfull, selectLRUVictim, hres, Option.map_some']

/-- Witness for C20 as amended: `twoAccessPool RS_LRU_K`. -/
theorem selectVictim_lru_k_least_recent_witness :
    (∀ f ∈ (twoAccessPool RS_LRU_K).mgmtData.frames,
      ¬ (f.pageNum = NO_PAGE ∧ f.fixCount = 0)) ∧
    (∃ f ∈ (twoAccessPool RS_LRU_K).mgmtData.frames, f.fixCount = 0) ∧
    (∀ f ∈ (twoAccessPool RS_LRU_K).mgmtData.frames, f.fixCount = 0 → f.lastTwo1 < INT_MAX) ∧
    ∃ (v : Nat) (f : Frame),
      selectVictim 4 (twoAccessPool RS_LRU_K) = some ((v : Int), twoAccessPool RS_LRU_K) ∧
      (twoAccessPool RS_LRU_K).mgmtData.frames[v]? = some f ∧ f.fixCount = 0 := by
  have h1 : ∀ f ∈ (twoAccessPool RS_LRU_K).mgmtData.frames,
      ¬ (f.pageNum = NO_PAGE ∧ f.fixCount = 0) := by decide
  have h2 : ∃ f ∈ (twoAccessPool RS_LRU_K).mgmtData.frames, f.fixCount = 0 := by decide
  have h3 : ∀ f ∈ (twoAccessPool RS_LRU_K).mgmtData.frames,
      f.fixCount = 0 → f.lastTwo1 < INT_MAX := by decide
  obtain ⟨v, f, ha, hb, hc, _⟩ :=
    selectVictim_lru_k_least_recent 4 (twoAccessPool RS_LRU_K) rfl h1 h2 h3
  exact ⟨h1, h2, h3, v, f, ha, hb, hc⟩

/-- C21 as stated fails: in `clockPool`, the state after `pinPage 0`, `pinPage 0`,
`pinPage 1`, `unpinPage` on a fresh CLOCK pool of two frames, the sweep starts at frame
0, which is pinned with its use bit set, and selects frame 1. Afterwards the use bit of
the visited frame 0 is still 1, and the clock hand is 1, the index of the victim, not
`(1 + 1) mod 2 = 0`. -/
theorem selectVictim_clock_hand_stays_on_victim :
    ((Client.mk (initPool RS_CLOCK 2 exFile) exHandle).run
      [Call.pinPage 4 0, Call.pinPage 4 0, Call.pinPage 4 1, Call.unpinPage]).map
        (fun c => c.bm) = some clockPool ∧
    (selectVictim 4 clockPool).map
      (fun r => (r.1, r.2.mgmtData.clock_hand, r.2.mgmtData.frames.map
        (fun f => (f.fixCount, f.useBit)))) = some (1, 1, [(2, 1), (0, 0)]) ∧
    (1 + 1) % clockPool.mgmtData.frames.length = 0 := by
  refine ⟨?_, ?_, ?_⟩ <;> rfl

/-- C21, as amended. Under CLOCK, with no empty frame, some frame with fix count 0 and a
step budget of two revolutions, `selectVictim` returns a frame `v` that is reached from
the clock hand after `k` steps in cyclic order. Every frame passed over on the way was
pinned, or had its use bit set and was visited for the first time; the victim has fix count 0, and its use bit was 0 or had been cleared when
the sweep passed over it before: the victim is the first frame visited whose fix count
is 0 and whose use bit is 0 when the hand reaches it. The frames passed over are left
with their use bit cleared if their fix count is 0 and as they were if they are pinned;
the frames not visited are as they were. -/
theorem selectVictim_clock_sweep (fuel : Nat) (bm : BM_BufferPool)
    (hs : bm.strategy = RS_CLOCK) (hnum : bm.numPages = bm.mgmtData.frames.length)
    (hhand : bm.mgmtData.clock_hand < bm.mgmtData.frames.length)
    (hfull : ∀ f ∈ bm.mgmtData.frames, ¬ (f.pageNum = NO_PAGE ∧ f.fixCount = 0))
    (hev : ∃ f ∈ bm.mgmtData.frames, f.fixCount = 0)
    (hfuel : 2 * bm.mgmtData.frames.length ≤ fuel) :
    ∃ (k v : Nat) (bm1 : BM_BufferPool) (fv : Frame),
      selectVictim fuel bm = some ((v : Int), bm1) ∧
      v = (bm.mgmtData.clock_hand + k) % bm.mgmtData.frames.length ∧
      (∀ (j : Nat) (f : Frame), j < k →
        bm.mgmtData.frames[(bm.mgmtData.clock_hand + j) % bm.mgmtData.frames.length]? = some f →
        f.fixCount ≠ 0 ∨
          (f.useBit ≠ 0 ∧ ∀ j2, j2 < j →
            (bm.mgmtData.clock_hand + j2) % bm.mgmtData.frames.length ≠
              (bm.mgmtData.clock_hand + j) % bm.mgmtData.frames.length)) ∧
      bm.mgmtData.frames[v]? = some fv ∧ fv.fixCount = 0 ∧
      (fv.useBit = 0 ∨
        ∃ j, j < k ∧ (bm.mgmtData.clock_hand + j) % bm.mgmtData.frames.length = v) ∧
      (∀ (i : Nat) (f : Frame), i ≠ v → bm.mgmtData.frames[i]? = some f →
        ((∃ j, j < k ∧ (bm.mgmtData.clock_hand + j) % bm.mgmtData.frames.length = i) →
          bm1.mgmtData.frames[i]? = some (clockPass f)) ∧
        ((¬ ∃ j, j < k ∧ (bm.mgmtData.clock_hand + j) % bm.mgmtData.frames.length = i) →
          bm1.mgmtData.frames[i]? = some f)) := by
  obtain ⟨⟨frames1, hand1, v⟩, hsweep⟩ :=
    clockSweep_terminates_two_rev fuel bm.mgmtData.frames bm.mgmtData.clock_hand hhand hev hfuel
  obtain ⟨k, _, hv, _, hpass, ⟨fv, hfv, hfv0, hfvbit⟩, hrest⟩ :=
    clockSweep_first_visit bm.mgmtData.frames.length fuel bm.mgmtData.frames
      bm.mgmtData.clock_hand frames1 hand1 v rfl hhand hsweep
  refine ⟨k, v, { bm with mgmtData := { bm.mgmtData with frames := frames1, clock_hand := hand1 } },
    fv, ?_, hv, fun j f hj hf => hpass j hj f hf, hfv, hfv0, hfvbit, hrest⟩
  unfold selectVictim
  rw [findEmptyFrom_eq_none _ _ hfull]
  simp only [hs, hnum, hsweep]

/-- Witness for C21 as amended: the sweep on `clockBothUsed`, the state that a client
reaches with two hits; both frames are unpinned with their use bits set, the sweep
passes over both and selects frame 0 on its second revolution. -/
theorem selectVictim_clock_sweep_witness :
    ((Client.mk (initPool RS_CLOCK 2 exFile) exHandle).run
      [Call.pinPage 4 0, Call.unpinPage, Call.pinPage 4 0, Call.unpinPage,
       Call.pinPage 4 1, Call.unpinPage, Call.pinPage 4 1, Call.unpinPage]).map
        (fun c => c.bm) = some clockBothUsed ∧
    (selectVictim 4 clockBothUsed).map
      (fun r => (r.1, r.2.mgmtData.frames.map
        (fun f => (f.pageNum, f.fixCount, f.useBit)))) = some (0, [(-1, 0, 0), (1, 0, 0)]) ∧
    (∃ f ∈ clockBothUsed.mgmtData.frames, f.fixCount = 0) ∧
    ∃ (k v : Nat) (bm1 : BM_BufferPool),
      selectVictim 4 clockBothUsed = some ((v : Int), bm1) ∧
      v = (clockBothUsed.mgmtData.clock_hand + k) % clockBothUsed.mgmtData.frames.length := by
  have hev : ∃ f ∈ clockBothUsed.mgmtData.frames, f.fixCount = 0 := by decide
  obtain ⟨k, v, bm1, _, h1, h2, _⟩ :=
    selectVictim_clock_sweep 4 clockBothUsed rfl rfl (by decide) (by decide) hev (by decide)
  exact ⟨rfl, rfl, hev, k, v, bm1, h1, h2⟩

/-- C22, evaluated on a CLOCK pool of one frame whose frame is pinned (`clockPinnedPool`,
the state after `pinPage` of page 0 on a fresh pool): the `pinPage` of page 1 does not
return, whatever the step budget of the sweep is, so it does not return
`RC_NO_FREE_BUFFER_ERROR`; under LRU the same calls return that code. -/
theorem pinPage_clock_all_pinned_never_returns :
    pinPage 2 (initPool RS_CLOCK 1 exFile) exHandle 0 =
      some (RC_OK, clockPinnedPool, { pageNum := 0, data := some 0 }) ∧
    (∀ fuel : Nat, pinPage fuel clockPinnedPool { pageNum := 0, data := some 0 } 1 = none) ∧
    (pinnedThenPin RS_LRU).map (fun r => r.1) = some RC_NO_FREE_BUFFER_ERROR := by
  refine ⟨rfl, ?_, rfl⟩
  intro fuel
  exact pinPage_clock_all_pinned fuel clockPinnedPool _ 1 rfl (by decide) (by decide)

/-- C23. Under LFU, with no empty frame, `numPages` the number of frames and the access
counts of unpinned frames below INT_MAX: when no frame has fix count 0, `selectVictim`
returns -1 and leaves the pool as it is; otherwise it returns a frame with fix count 0
whose `accessCount` is least among the frames with fix count 0, the lowest index among
equal counts (the pool it leaves is the one `replacePage` makes of that frame). -/
theorem selectVictim_lfu_least_frequent (fuel : Nat) (bm : BM_BufferPool)
    (hs : bm.strategy = RS_LFU) (hnum : bm.numPages = bm.mgmtData.frames.length)
    (hfull : ∀ f ∈ bm.mgmtData.frames, ¬ (f.pageNum = NO_PAGE ∧ f.fixCount = 0))
    (hrange : ∀ f ∈ bm.mgmtData.frames, f.fixCount = 0 → f.accessCount < INT_MAX) :
    ((∀ f ∈ bm.mgmtData.frames, f.fixCount ≠ 0) → selectVictim fuel bm = some (-1, bm)) ∧
    ((∃ f ∈ bm.mgmtData.frames, f.fixCount = 0) →
      ∃ (v : Nat) (f : Frame),
        selectVictim fuel bm = some ((v : Int), replacePage bm v) ∧
        bm.mgmtData.frames[v]? = some f ∧ f.fixCount = 0 ∧
        (∀ (j : Nat) (g : Frame), bm.mgmtData.frames[j]? = some g → g.fixCount = 0 →
          f.accessCount ≤ g.accessCount) ∧
        (∀ (j : Nat) (g : Frame), j < v → bm.mgmtData.frames[j]? = some g → g.fixCount = 0 →
          f.accessCount < g.accessCount)) := by
  have htake : bm.mgmtData.frames.take bm.numPages = bm.mgmtData.frames := by
    rw [hnum, List.take_length]
  refine ⟨?_, ?_⟩
  · intro hpinned
    unfold selectVictim
    rw [findEmptyFrom_eq_none _ _ hfull]
    simp only [hs, htake, scanMin_all_pinned _ _ _ _ _ hpinned, ne_eq, not_true_eq_false,
      if_false]
  · intro hev
    obtain ⟨x, hx, hx0⟩ := hev
    obtain ⟨v, f, hv, hf, hres, hmin, hfirst⟩ :=
      scanMin_victim (fun f => f.accessCount) bm.mgmtData.frames (-1)
        ⟨x, hx, hx0, hrange x hx hx0⟩
    refine ⟨v, f, ?_, hv, hf, hmin, hfirst⟩
    unfold selectVictim
    rw [findEmptyFrom_eq_none _ _ hfull]
    simp only [hs, htake, hres]
    rw [if_pos (by omega)]
    simp

/-- Witness for C23: `twoAccessPool RS_LFU`. -/
theorem selectVictim_lfu_least_frequent_witness :
    (∃ f ∈ (twoAccessPool RS_LFU).mgmtData.frames, f.fixCount = 0) ∧
    ∃ (v : Nat) (f : Frame),
      selectVictim 0 (twoAccessPool RS_LFU) =
        some ((v : Int), replacePage (twoAccessPool RS_LFU) v) ∧
      (twoAccessPool RS_LFU).mgmtData.frames[v]? = some f ∧ f.fixCount = 0 := by
  have h3 : ∃ f ∈ (twoAccessPool RS_LFU).mgmtData.frames, f.fixCount = 0 := by decide
  obtain ⟨v, f, ha, hb, hc, _⟩ :=
    (selectVictim_lfu_least_frequent 0 (twoAccessPool RS_LFU) rfl rfl (by decide) (by decide)).2 h3
  exact ⟨h3, v, f, ha, hb, hc⟩

/-- C24. A `pinPage` of page `p` whose first frame is frame `i` returns `RC_OK`, counts
one access and changes frame `i` only: its fix count is one higher, its page, buffer and
dirty flag are as before, and of its metadata FIFO changes nothing, LRU sets
`lastTwo[1]` to the access counter as it is after the call, LRU-K moves `lastTwo[1]`
to `lastTwo[0]` and sets `lastTwo[1]` to that counter value, CLOCK sets the use bit to
1, and LFU adds one to `accessCount`; what a strategy does not use stays as it was. -/
theorem pinPage_hit_metadata (fuel : Nat) (bm : BM_BufferPool) (page : BM_PageHandle)
    (p : Int) (i : Nat) (f : Frame)
    (hi : bm.mgmtData.frames[i]? = some f) (hp : f.pageNum = p)
    (hfirst : ∀ (j : Nat) (g : Frame), j < i → bm.mgmtData.frames[j]? = some g →
      g.pageNum ≠ p) :
    ∃ g : Frame,
      pinPage fuel bm page p =
        some (RC_OK,
          { bm with mgmtData :=
              { bm.mgmtData with accessCounter := bm.mgmtData.accessCounter + 1,
                                 frames := bm.mgmtData.frames.set i g } },
          { pageNum := p, data := some i }) ∧
      g.pageNum = f.pageNum ∧ g.data = f.data ∧ g.dirty = f.dirty ∧
      g.fixCount = f.fixCount + 1 ∧
      (bm.strategy = RS_FIFO →
        g.lastTwo0 = f.lastTwo0 ∧ g.lastTwo1 = f.lastTwo1 ∧
        g.accessCount = f.accessCount ∧ g.useBit = f.useBit) ∧
      (bm.strategy = RS_LRU →
        g.lastTwo1 = bm.mgmtData.accessCounter + 1 ∧ g.lastTwo0 = f.lastTwo0 ∧
        g.accessCount = f.accessCount ∧ g.useBit = f.useBit) ∧
      (bm.strategy = RS_LRU_K →
        g.lastTwo0 = f.lastTwo1 ∧ g.lastTwo1 = bm.mgmtData.accessCounter + 1 ∧
        g.accessCount = f.accessCount ∧ g.useBit = f.useBit) ∧
      (bm.strategy = RS_CLOCK →
        g.useBit = 1 ∧ g.lastTwo0 = f.lastTwo0 ∧ g.lastTwo1 = f.lastTwo1 ∧
        g.accessCount = f.accessCount) ∧
      (bm.strategy = RS_LFU →
        g.accessCount = f.accessCount + 1 ∧ g.lastTwo0 = f.lastTwo0 ∧
        g.lastTwo1 = f.lastTwo1 ∧ g.useBit = f.useBit) := by
  refine ⟨hitUpdate bm.strategy (bm.mgmtData.accessCounter + 1)
    { f with fixCount := f.fixCount + 1 }, ?_, ?_⟩
  · unfold pinPage
    simp only [findFrame_eq_of_first bm p i f hi hp hfirst, Int.toNat_ofNat]
    rw [if_pos (by omega)]
    simp only [BM_BufferPool.countAccess, BM_BufferPool.withFrames, modFrame, hi]
  · cases hs : bm.strategy <;> simp [hitUpdate]

/-- Witness for C24: a hit on page 1 of `twoAccessPool RS_LRU_K`. -/
theorem pinPage_hit_metadata_witness :
    ∃ g : Frame,
      ((pinPage 0 (twoAccessPool RS_LRU_K) exHandle 1).map fun r =>
        (r.1, r.2.1.mgmtData.frames[1]?, r.2.1.mgmtData.frames[0]?)) =
          some (RC_OK, some g, (twoAccessPool RS_LRU_K).mgmtData.frames[0]?) ∧
      g.fixCount = 1 ∧ g.lastTwo0 = 3 ∧ g.lastTwo1 = 4 := by
  obtain ⟨g, h1, _, _, _, h2, _, _, h3, _⟩ :=
    pinPage_hit_metadata 0 (twoAccessPool RS_LRU_K) exHandle 1 1
      { pageNum := 1, data := pageOf 11, dirty := false, fixCount := 0,
        lastTwo0 := 0, lastTwo1 := 3, accessCount := 0, useBit := 0 } rfl rfl
      (by
        intro j g hj hg
        obtain rfl : j = 0 := by omega
        cases hg
        decide)
  have h4 := h3 rfl
  refine ⟨g, ?_, h2, h4.1, h4.2.1⟩
  rw [h1]
  rfl

/-- C25, evaluated on fresh pools of one frame over `exFile`. Under LFU the frame that
`pinPage` of page 0 fills has `accessCount` 0, not 1, and under CLOCK its use bit is 0,
not 1. After three pins of page 0 the count is 2, and the page 1 that replaces page 0
then starts with that count 2 of the evicted page; under CLOCK page 1 starts with use
bit 0, while a hit sets the bit to 1. Under LRU the installed frame has `lastTwo[1]`
equal to the access counter, as the claim says. The tuples are page number,
`lastTwo[0]`, `lastTwo[1]`, `accessCount`, `useBit`. -/
theorem pinPage_install_keeps_lfu_clock_metadata :
    metadataAfter RS_LFU 1 [Call.pinPage 2 0] = some [(0, 0, 0, 0, 0)] ∧
    metadataAfter RS_CLOCK 1 [Call.pinPage 2 0] = some [(0, 0, 0, 0, 0)] ∧
    metadataAfter RS_LFU 1 ([Call.pinPage 2 0, Call.pinPage 2 0, Call.pinPage 2 0,
      Call.unpinPage, Call.unpinPage, Call.unpinPage]) = some [(0, 0, 0, 2, 0)] ∧
    metadataAfter RS_LFU 1 ([Call.pinPage 2 0, Call.pinPage 2 0, Call.pinPage 2 0,
      Call.unpinPage, Call.unpinPage, Call.unpinPage, Call.pinPage 2 1])
      = some [(1, 0, 0, 2, 0)] ∧
    metadataAfter RS_CLOCK 1 ([Call.pinPage 2 0, Call.unpinPage, Call.pinPage 2 1])
      = some [(1, 0, 0, 0, 0)] ∧
    metadataAfter RS_CLOCK 1 ([Call.pinPage 2 0, Call.pinPage 2 0]) = some [(0, 0, 0, 0, 1)] ∧
    metadataAfter RS_LRU 1 [Call.pinPage 2 0] = some [(0, 0, 1, 0, 0)] := by
  refine ⟨?_, ?_, ?_, ?_, ?_, ?_, ?_⟩ <;> rfl

/-- C26. In every state that a client reaches from a pool that `initBufferPool` has
opened, by any steps (calls of `pinPage`, `unpinPage`, `markDirty`, `forcePage`,
`forceFlushPool` with any page numbers, whatever they return), no frame has a negative
fix count; and `unpinPage` of a page whose frame has fix count 0 returns `RC_OK` and
leaves the pool as it is. -/
theorem fixCount_nonneg_reachable (disk : Disk) (framesAllocated : Bool) (d : PoolDescriptor)
    (pageFileName : String) (n : Nat) (strategy : ReplacementStrategy) (d1 : PoolDescriptor)
    (bm : BM_BufferPool) (h0 : BM_PageHandle) (calls : List Call) (c : Client)
    (hinit : initBufferPool disk framesAllocated d pageFileName n strategy = (RC_OK, d1))
    (hopen : d1.pool = some bm)
    (hrun : (Client.mk bm h0).run calls = some c) :
    (∀ f ∈ c.bm.mgmtData.frames, 0 ≤ f.fixCount) ∧
    (∀ (page : BM_PageHandle) (i : Nat) (f : Frame),
      c.bm.mgmtData.frames[i]? = some f → f.pageNum = page.pageNum →
      (∀ (j : Nat) (g : Frame), j < i → c.bm.mgmtData.frames[j]? = some g →
        g.pageNum ≠ page.pageNum) →
      f.fixCount = 0 → unpinPage c.bm page = (RC_OK, c.bm)) := by
  obtain ⟨fh, _, hbm⟩ :=
    initBufferPool_pool disk framesAllocated d pageFileName n strategy d1 bm hinit hopen
  subst hbm
  refine ⟨?_, ?_⟩
  · exact Client.run_invariant FixCountsNonneg fixCountsNonneg_of_keepsAll
      fixCountsNonneg_of_installs calls _ c (fixCountsNonneg_initPool strategy n fh) hrun
  · intro page i f hi hp hfirst hfix
    unfold unpinPage
    simp only [findFrame_eq_of_first c.bm page.pageNum i f hi hp hfirst, Int.toNat_ofNat]
    rw [if_neg (by omega)]
    simp only [modFrame, hi, BM_BufferPool.withFrames]
    rw [if_neg (by omega), set_self_of_getElem? _ _ _ hi]

/-- Witness for C26: page 0 pinned once and unpinned twice, then page 1 pinned. -/
theorem fixCount_nonneg_reachable_witness :
    initBufferPool exDisk true closedDescriptor "testbuffer.bin" 3 RS_FIFO =
      (RC_OK, (initPool RS_FIFO 3 exFile).descriptor "testbuffer.bin") ∧
    (Client.mk (initPool RS_FIFO 3 exFile) exHandle).run overUnpin = some overUnpinned ∧
    ∀ f ∈ overUnpinned.bm.mgmtData.frames, 0 ≤ f.fixCount :=
  ⟨rfl, rfl,
    (fixCount_nonneg_reachable exDisk true closedDescriptor "testbuffer.bin" 3 RS_FIFO
      ((initPool RS_FIFO 3 exFile).descriptor "testbuffer.bin") (initPool RS_FIFO 3 exFile)
      exHandle overUnpin overUnpinned rfl rfl rfl).1⟩

/-- C27. In every state that a client reaches from a pool that `initBufferPool` has
opened, under any strategy and by any steps, no two frames hold the same page number
other than `NO_PAGE`. -/
theorem distinctPages_reachable (disk : Disk) (framesAllocated : Bool) (d : PoolDescriptor)
    (pageFileName : String) (n : Nat) (strategy : ReplacementStrategy) (d1 : PoolDescriptor)
    (bm : BM_BufferPool) (h0 : BM_PageHandle) (calls : List Call) (c : Client)
    (hinit : initBufferPool disk framesAllocated d pageFileName n strategy = (RC_OK, d1))
    (hopen : d1.pool = some bm)
    (hrun : (Client.mk bm h0).run calls = some c) :
    DistinctPages c.bm.mgmtData.frames ∧
    ∀ (i j : Nat) (f g : Frame), i ≠ j → c.bm.mgmtData.frames[i]? = some f →
      c.bm.mgmtData.frames[j]? = some g → f.pageNum ≠ NO_PAGE → f.pageNum ≠ g.pageNum := by
  obtain ⟨fh, _, hbm⟩ :=
    initBufferPool_pool disk framesAllocated d pageFileName n strategy d1 bm hinit hopen
  subst hbm
  have hd : DistinctPages c.bm.mgmtData.frames :=
    Client.run_invariant DistinctPages distinctPages_of_keepsAll
      distinctPages_of_installs calls _ c (distinctPages_initPool strategy n fh) hrun
  refine ⟨hd, ?_⟩
  intro i j f g hij hf hg hne he
  exact hne ((distinctPages_iff _).mp hd i j f g hij hf hg he)

/-- Witness for C27: the frames after the steps `overUnpin`. -/
theorem distinctPages_reachable_witness :
    initBufferPool exDisk true closedDescriptor "testbuffer.bin" 3 RS_FIFO =
      (RC_OK, (initPool RS_FIFO 3 exFile).descriptor "testbuffer.bin") ∧
    (Client.mk (initPool RS_FIFO 3 exFile) exHandle).run overUnpin = some overUnpinned ∧
    DistinctPages overUnpinned.bm.mgmtData.frames :=
  ⟨rfl, rfl,
    (distinctPages_reachable exDisk true closedDescriptor "testbuffer.bin" 3 RS_FIFO
      ((initPool RS_FIFO 3 exFile).descriptor "testbuffer.bin") (initPool RS_FIFO 3 exFile)
      exHandle overUnpin overUnpinned rfl rfl rfl).1⟩

/-- C28. On a FIFO pool of three frames over an open file of at least 7 pages, whatever
the page handle holds at the start, the program of `testFIFO` shows the eleven pool
contents that the test asserts: the pages 0, 1, 2 fill the frames 0, 1, 2; page 3
replaces page 0, giving 3, 1, 2; page 4 replaces page 1 and stays pinned; the pages 5,
6, 0 replace the pages 2, 3, 5 and are dirty; the last content, after page 4 is
unpinned and the pool flushed, is `[6 0],[4 0],[0 0]`. -/
theorem testFIFO_pool_contents (fh : SM_FileHandle) (h0 : BM_PageHandle)
    (hopen : fh.mgmtInfo = true) (h7 : 7 ≤ fh.totalNumPages) :
    (Client.mk (initPool RS_FIFO 3 fh) h0).runBlocks testFIFO = some testFIFO_poolContents := by
  rw [Client.runBlocks_shape 7 testFIFO _ (initPool_within 7 RS_FIFO 3 fh (by omega) h7)
    (by decide)]
  simp only [Client.shape]
  rw [initPool_shape 7 RS_FIFO 3 fh hopen]
  have e1 : (Client.mk ((initPool RS_FIFO 3
      { totalNumPages := 7, curPagePos := 0, mgmtInfo := true, file := [] }).shape 7) h0).call
        (Call.pinPage 0 0) =
      (Client.mk ((initPool RS_FIFO 3
      { totalNumPages := 7, curPagePos := 0, mgmtInfo := true, file := [] }).shape 7)
        exHandle).call (Call.pinPage 0 0) := rfl
  have e2 := Client.runBlocks_first _ _ (Call.pinPage 0 0) [Call.unpinPage] testFIFO.tail e1
  refine Eq.trans e2 ?_
  rfl

/-- Witness for C28: the file of 100 dummy pages of the test. -/
theorem testFIFO_pool_contents_witness :
    (dummyFile 100).mgmtInfo = true ∧ 7 ≤ (dummyFile 100).totalNumPages ∧
    (Client.mk (initPool RS_FIFO 3 (dummyFile 100)) noPageHandle).runBlocks testFIFO =
      some testFIFO_poolContents :=
  ⟨rfl, by decide, testFIFO_pool_contents (dummyFile 100) noPageHandle rfl (by decide)⟩

/-- C29 as stated fails: on an LRU pool of five frames over the file of 100 dummy pages
of the test, after the pages 0 to 4 are loaded and the pages 3, 4, 0, 2, 1 are pinned
and unpinned in this order, the frames hold 0, 1, 2, 3, 4, and after the `pinPage` of
page 5 they hold 0, 1, 2, 5, 4: page 4 is still there, page 3 has been replaced. -/
theorem testLRU_first_eviction_keeps_page_4 :
    (Client.mk (initPool RS_LRU 5 (dummyFile 100)) exHandle).runBlocks testLRU_firstEviction =
      some [cleanContent [0, 1, 2, 3, 4],
            [(0, false, 0), (1, false, 0), (2, false, 0), (5, false, 1), (4, false, 0)]] := by
  rfl

/-- C29, as amended. In the LRU scenario with five frames over an open file of at least
6 pages (the pages 0 to 4 loaded by pin and unpin, then the pages 3, 4, 0, 2, 1 pinned
and unpinned in this order), the frames hold the pages 0, 1, 2, 3, 4, and the next
`pinPage` of page 5 replaces page 3: the frames then hold 0, 1, 2, 5, 4, page 5 with
one pin. -/
theorem testLRU_first_eviction (fh : SM_FileHandle) (h0 : BM_PageHandle)
    (hopen : fh.mgmtInfo = true) (h6 : 6 ≤ fh.totalNumPages) :
    (Client.mk (initPool RS_LRU 5 fh) h0).runBlocks testLRU_firstEviction =
      some [cleanContent [0, 1, 2, 3, 4],
            [(0, false, 0), (1, false, 0), (2, false, 0), (5, false, 1), (4, false, 0)]] := by
  rw [Client.runBlocks_shape 6 testLRU_firstEviction _
    (initPool_within 6 RS_LRU 5 fh (by omega) h6) (by decide)]
  simp only [Client.shape]
  rw [initPool_shape 6 RS_LRU 5 fh hopen]
  have e1 : (Client.mk ((initPool RS_LRU 5
      { totalNumPages := 6, curPagePos := 0, mgmtInfo := true, file := [] }).shape 6) h0).call
        (Call.pinPage 0 0) =
      (Client.mk ((initPool RS_LRU 5
      { totalNumPages := 6, curPagePos := 0, mgmtInfo := true, file := [] }).shape 6)
        exHandle).call (Call.pinPage 0 0) := rfl
  have e2 := Client.runBlocks_first _ _ (Call.pinPage 0 0)
    ((testLRU.take 10).flatten.tail) testLRU_firstEviction.tail e1
  refine Eq.trans e2 ?_
  rfl

/-- Witness for C29 as amended: the file of 100 dummy pages of the test. -/
theorem testLRU_first_eviction_witness :
    (dummyFile 100).mgmtInfo = true ∧ 6 ≤ (dummyFile 100).totalNumPages ∧
    ((Client.mk (initPool RS_LRU 5 (dummyFile 100)) noPageHandle).runBlocks
      testLRU_firstEviction).map (fun l => l.map (fun s => s.map (fun t => t.1))) =
      some [[0, 1, 2, 3, 4], [0, 1, 2, 5, 4]] := by
  refine ⟨rfl, by decide, ?_⟩
  rw [testLRU_first_eviction (dummyFile 100) noPageHandle rfl (by decide)]
  rfl

/-- C30. On an LRU pool of five frames over an open file of at least 10 pages, whatever
the page handle holds at the start, the program of `testLRU` (the pages 0 to 4 loaded,
the pages 3, 4, 0, 2, 1 pinned and unpinned, then the pages 5, 6, 7, 8, 9) shows the
fifteen pool contents that the test asserts, the last five being `[0,1,2,5,4]`,
`[0,1,2,5,6]`, `[7,1,2,5,6]`, `[7,1,8,5,6]`, `[7,9,8,5,6]`, so the pages 3, 4, 0, 2, 1
are replaced in this order; in total there are 10 reads and 0 writes. -/
theorem testLRU_pool_contents (fh : SM_FileHandle) (h0 : BM_PageHandle)
    (hopen : fh.mgmtInfo = true) (h10 : 10 ≤ fh.totalNumPages) :
    (Client.mk (initPool RS_LRU 5 fh) h0).runBlocks testLRU = some testLRU_poolContents ∧
    ((Client.mk (initPool RS_LRU 5 fh) h0).run testLRU.flatten).map ioCounts = some (10, 0) := by
  have hw := initPool_within 10 RS_LRU 5 fh (by omega) h10
  have e1 : (Client.mk ((initPool RS_LRU 5
      { totalNumPages := 10, curPagePos := 0, mgmtInfo := true, file := [] }).shape 10) h0).call
        (Call.pinPage 0 0) =
      (Client.mk ((initPool RS_LRU 5
      { totalNumPages := 10, curPagePos := 0, mgmtInfo := true, file := [] }).shape 10)
        exHandle).call (Call.pinPage 0 0) := rfl
  refine ⟨?_, ?_⟩
  · rw [Client.runBlocks_shape 10 testLRU _ hw (by decide)]
    simp only [Client.shape]
    rw [initPool_shape 10 RS_LRU 5 fh hopen]
    have e2 := Client.runBlocks_first _ _ (Call.pinPage 0 0) [Call.unpinPage] testLRU.tail e1
    refine Eq.trans e2 ?_
    rfl
  · have hr := Client.run_shape 10 testLRU.flatten (Client.mk (initPool RS_LRU 5 fh) h0) hw
      (by decide)
    have hm : ∀ o : Option Client, o.map ioCounts = (o.map (Client.shape 10)).map ioCounts := by
      intro o
      cases o <;> rfl
    rw [hm, hr, ← hm]
    simp only [Client.shape]
    rw [initPool_shape 10 RS_LRU 5 fh hopen]
    have e2 := Client.run_first _ _ (Call.pinPage 0 0) testLRU.flatten.tail e1
    refine Eq.trans (congrArg (Option.map ioCounts) e2) ?_
    rfl

/-- Witness for C30: the file of 100 dummy pages of the test. -/
theorem testLRU_pool_contents_witness :
    (dummyFile 100).mgmtInfo = true ∧ 10 ≤ (dummyFile 100).totalNumPages ∧
    (Client.mk (initPool RS_LRU 5 (dummyFile 100)) noPageHandle).runBlocks testLRU =
      some testLRU_poolContents :=
  ⟨rfl, by decide, (testLRU_pool_contents (dummyFile 100) noPageHandle rfl (by decide)).1⟩

/-- C31. On an LRU-K pool of five frames over an open file of at least 10 pages,
whatever the page handle holds at the start, the program of `testLRU_K` (the pages 0 to
4 loaded by pin and unpin, then pin and unpin of 3, 3, 4, 4, 0, 0, 2, 1, then the pages
5, 6, 7, 8, 9) shows the ten pool contents that the test asserts, the last five being
`[0,1,2,5,4]`, `[0,1,2,5,6]`, `[7,1,2,5,6]`, `[7,1,8,5,6]`, `[7,9,8,5,6]`, so the pages
3, 4, 0, 2, 1 are replaced in this order; in total there are 10 reads and 0 writes. -/
theorem testLRU_K_pool_contents (fh : SM_FileHandle) (h0 : BM_PageHandle)
    (hopen : fh.mgmtInfo = true) (h10 : 10 ≤ fh.totalNumPages) :
    (Client.mk (initPool RS_LRU_K 5 fh) h0).runBlocks testLRU_K = some testLRU_K_poolContents ∧
    ((Client.mk (initPool RS_LRU_K 5 fh) h0).run testLRU_K.flatten).map ioCounts =
      some (10, 0) := by
  have hw := initPool_within 10 RS_LRU_K 5 fh (by omega) h10
  have e1 : (Client.mk ((initPool RS_LRU_K 5
      { totalNumPages := 10, curPagePos := 0, mgmtInfo := true, file := [] }).shape 10) h0).call
        (Call.pinPage 0 0) =
      (Client.mk ((initPool RS_LRU_K 5
      { totalNumPages := 10, curPagePos := 0, mgmtInfo := true, file := [] }).shape 10)
        exHandle).call (Call.pinPage 0 0) := rfl
  refine ⟨?_, ?_⟩
  · rw [Client.runBlocks_shape 10 testLRU_K _ hw (by decide)]
    simp only [Client.shape]
    rw [initPool_shape 10 RS_LRU_K 5 fh hopen]
    have e2 := Client.runBlocks_first _ _ (Call.pinPage 0 0) [Call.unpinPage] testLRU_K.tail e1
    refine Eq.trans e2 ?_
    rfl
  · have hr := Client.run_shape 10 testLRU_K.flatten
      (Client.mk (initPool RS_LRU_K 5 fh) h0) hw (by decide)
    have hm : ∀ o : Option Client, o.map ioCounts = (o.map (Client.shape 10)).map ioCounts := by
      intro o
      cases o <;> rfl
    rw [hm, hr, ← hm]
    simp only [Client.shape]
    rw [initPool_shape 10 RS_LRU_K 5 fh hopen]
    have e2 := Client.run_first _ _ (Call.pinPage 0 0) testLRU_K.flatten.tail e1
    refine Eq.trans (congrArg (Option.map ioCounts) e2) ?_
    rfl

/-- Witness for C31: the file of 100 dummy pages of the test. -/
theorem testLRU_K_pool_contents_witness :
    (dummyFile 100).mgmtInfo = true ∧ 10 ≤ (dummyFile 100).totalNumPages ∧
    (Client.mk (initPool RS_LRU_K 5 (dummyFile 100)) noPageHandle).runBlocks testLRU_K =
      some testLRU_K_poolContents ∧
    ((Client.mk (initPool RS_LRU_K 5 (dummyFile 100)) noPageHandle).run
      testLRU_K.flatten).map ioCounts = some (10, 0) :=
  ⟨rfl, by decide, testLRU_K_pool_contents (dummyFile 100) noPageHandle rfl (by decide)⟩

/-- C34. The statistics functions are snapshots of the pool: `getFrameContents`,
`getDirtyFlags` and `getFixCounts` return arrays of length `numFrames` whose entry `i`
is the page number, the dirty flag and the fix count of frame `i`; a frame that holds
`NO_PAGE` shows as `NO_PAGE`, as every frame of a fresh pool does; `getNumReadIO` and
`getNumWriteIO` return the two counters. The functions only read the pool (the C
functions assign to nothing but the array they return), so each is a function of the
pool alone and the pool after the call is the pool before it. -/
theorem statistics_are_snapshots (bm : BM_BufferPool) :
    ((getFrameContents bm).length : Int) = bm.mgmtData.numFrames ∧
    ((getDirtyFlags bm).length : Int) = bm.mgmtData.numFrames ∧
    ((getFixCounts bm).length : Int) = bm.mgmtData.numFrames ∧
    (∀ (i : Nat) (f : Frame), bm.mgmtData.frames[i]? = some f →
      (getFrameContents bm)[i]? = some f.pageNum ∧
      (getDirtyFlags bm)[i]? = some f.dirty ∧
      (getFixCounts bm)[i]? = some f.fixCount ∧
      (f.pageNum = NO_PAGE → (getFrameContents bm)[i]? = some NO_PAGE)) ∧
    (∀ (strategy : ReplacementStrategy) (n : Nat) (fh : SM_FileHandle),
      getFrameContents (initPool strategy n fh) = List.replicate n NO_PAGE) ∧
    getNumReadIO bm = bm.mgmtData.readIO ∧ getNumWriteIO bm = bm.mgmtData.writeIO := by
  refine ⟨?_, ?_, ?_, ?_, ?_, rfl, rfl⟩
  · simp [getFrameContents, BM_MgmtData.numFrames]
  · simp [getDirtyFlags, BM_MgmtData.numFrames]
  · simp [getFixCounts, BM_MgmtData.numFrames]
  · intro i f hf
    have h1 : (getFrameContents bm)[i]? = some f.pageNum := by
      simp [getFrameContents, List.getElem?_map, hf]
    refine ⟨h1, ?_, ?_, ?_⟩
    · simp [getDirtyFlags, List.getElem?_map, hf]
    · simp [getFixCounts, List.getElem?_map, hf]
    · intro hp
      rw [h1, hp]
  · intro strategy n fh
    simp [getFrameContents, initPool, initFrame]

/-- C35, evaluated where a write fails in `forceFlushPool`. On a fresh FIFO pool of
three frames over a file of two pages, `markDirty` with a handle whose page number is
`NO_PAGE` marks the empty frame 0 dirty. `writeBlock` of that frame returns
`RC_WRITE_FAILED`, and `forcePage` returns this code and leaves the frame dirty and
the write counter at 0; but `forceFlushPool` returns `RC_OK`, marks the frame clean and
counts one write, and the file is as it was. -/
theorem forceFlushPool_ignores_write_failure :
    ((Client.mk (initPool RS_FIFO 3 exFile) exHandle).run
      [Call.setPageNum NO_PAGE, Call.markDirty]).map (fun c => poolContent c.bm) =
      some [(-1, true, 0), (-1, false, 0), (-1, false, 0)] ∧
    (writeBlock NO_PAGE exFile zeroPage).1 = RC_WRITE_FAILED ∧
    ((Client.mk (initPool RS_FIFO 3 exFile) exHandle).trace
      [Call.setPageNum NO_PAGE, Call.markDirty, Call.forcePage]).map
        (fun r => (r.1, getDirtyFlags r.2.bm, getNumWriteIO r.2.bm)) =
      some ([RC_OK, RC_OK, RC_WRITE_FAILED], [true, false, false], 0) ∧
    ((Client.mk (initPool RS_FIFO 3 exFile) exHandle).trace
      [Call.setPageNum NO_PAGE, Call.markDirty, Call.forceFlushPool]).map
        (fun r => (r.1, getDirtyFlags r.2.bm, getNumWriteIO r.2.bm,
          r.2.bm.mgmtData.fh.file)) =
      some ([RC_OK, RC_OK, RC_OK], [false, false, false], 1, exFile.file) := by
  refine ⟨?_, ?_, ?_, ?_⟩ <;> rfl

/-- C36, evaluated on a descriptor whose `mgmtData` is NULL, as it is after
`shutdownBufferPool`: `shutdownBufferPool` returns `RC_BUFFER_POOL_NOT_INIT`, but
`forceFlushPool` and `pinPage` read through the null pointer and return no code at
all. The descriptor that `testError` uses is such a one: a pool is opened on the file
that `createPageFile` has made and is shut down, and the `initBufferPool` on a missing
file leaves the descriptor as it is. -/
theorem closed_pool_flush_and_pin_have_no_result (d : PoolDescriptor) (fuel : Nat)
    (page : BM_PageHandle) (pageNum : Int) (hclosed : d.mgmtData = none) :
    (shutdownBufferPool d).1 = RC_BUFFER_POOL_NOT_INIT ∧
    d.forceFlushPool = none ∧
    d.pinPage fuel page pageNum = none := by
  refine ⟨?_, ?_, ?_⟩
  · simp [shutdownBufferPool, hclosed]
  · simp [PoolDescriptor.forceFlushPool, hclosed]
  · simp [PoolDescriptor.pinPage, hclosed]

/-- Witness for C36: the descriptor of `testError` after the pool on the file of
`createPageFile` has been shut down; the `initBufferPool` on a missing file that
follows returns `RC_FILE_NOT_FOUND` and leaves the descriptor as it is. -/
theorem closed_pool_flush_and_pin_have_no_result_witness :
    (shutdownBufferPool (initBufferPool (createPageFile emptyDisk "testbuffer.bin") true
      closedDescriptor "testbuffer.bin" 3 RS_FIFO).2).1 = RC_OK ∧
    (initBufferPool (createPageFile emptyDisk "testbuffer.bin") true
      (shutdownBufferPool (initBufferPool (createPageFile emptyDisk "testbuffer.bin") true
        closedDescriptor "testbuffer.bin" 3 RS_FIFO).2).2.1 "unavailable.bin" 3 RS_FIFO) =
      (RC_FILE_NOT_FOUND,
        { pageFile := none, numPages := 3, strategy := RS_FIFO, mgmtData := none }) ∧
    (shutdownBufferPool
      { pageFile := none, numPages := 3, strategy := RS_FIFO, mgmtData := none }).1 =
        RC_BUFFER_POOL_NOT_INIT ∧
    PoolDescriptor.forceFlushPool
      { pageFile := none, numPages := 3, strategy := RS_FIFO, mgmtData := none } = none ∧
    PoolDescriptor.pinPage 0
      { pageFile := none, numPages := 3, strategy := RS_FIFO, mgmtData := none }
      exHandle 1 = none :=
  ⟨rfl, rfl, closed_pool_flush_and_pin_have_no_result
    { pageFile := none, numPages := 3, strategy := RS_FIFO, mgmtData := none } 0 exHandle 1 rfl⟩

/-- C37, evaluated on the calls of `testError`. A FIFO pool of three frames is opened
on the file that `createPageFile` has made; the pages 0, 1, 2 are pinned through one
handle, which then names page 2, and `unpinPage` is called three times with it. All
six calls return `RC_OK`, but the three `unpinPage` calls all go to page 2: the pages 0
and 1 keep their fix count 1, and `shutdownBufferPool` returns
`RC_PINNED_PAGES_IN_BUFFER`. When the handle is made to name page 1 and page 0 before
the second and the third `unpinPage`, the fix counts are 0 and `shutdownBufferPool`
returns `RC_OK`. -/
theorem testError_unpins_leave_pages_pinned :
    initBufferPool (createPageFile emptyDisk "testbuffer.bin") true closedDescriptor
      "testbuffer.bin" 3 RS_FIFO =
      (RC_OK, (initPool RS_FIFO 3 newFileHandle).descriptor "testbuffer.bin") ∧
    ((Client.mk (initPool RS_FIFO 3 newFileHandle) exHandle).trace testError_pins).map
        (fun r => (r.1, r.2.h.pageNum, poolContent r.2.bm,
          (shutdownBufferPool (r.2.bm.descriptor "testbuffer.bin")).1)) =
      some ([RC_OK, RC_OK, RC_OK, RC_OK, RC_OK, RC_OK], 2,
        [(0, false, 1), (1, false, 1), (2, false, 0)], RC_PINNED_PAGES_IN_BUFFER) ∧
    ((Client.mk (initPool RS_FIFO 3 newFileHandle) exHandle).trace testError_pins_named).map
        (fun r => (poolContent r.2.bm,
          (shutdownBufferPool (r.2.bm.descriptor "testbuffer.bin")).1)) =
      some ([(0, false, 0), (1, false, 0), (2, false, 0)], RC_OK) := by
  refine ⟨?_, ?_, ?_⟩ <;> rfl

/-- C39. Under CLOCK, when `bm->numPages` is the number of frames, the clock hand is a
frame index and some frame has fix count 0, the loop of the `RS_CLOCK` case of
`selectVictim` reaches its `break` within `2 * numFrames` iterations (and with any
larger budget gives the same result): it has passed over `k` frames with
`k + 1 ≤ 2 * numFrames`, the victim is the frame `k` places after the hand in cyclic
order, a frame index, the fix count of that frame was 0, and the clock hand it leaves
is a frame index. -/
theorem clockSweep_two_revolutions (bm : BM_BufferPool)
    (hnum : bm.numPages = bm.mgmtData.frames.length)
    (hhand : bm.mgmtData.clock_hand < bm.mgmtData.frames.length)
    (hev : ∃ f ∈ bm.mgmtData.frames, f.fixCount = 0) :
    ∃ (frames1 : List Frame) (hand1 v k : Nat) (fv : Frame),
      (∀ m, clockSweep (2 * bm.mgmtData.frames.length + m) bm.numPages bm.mgmtData.frames
        bm.mgmtData.clock_hand = some (frames1, hand1, v)) ∧
      k + 1 ≤ 2 * bm.mgmtData.frames.length ∧
      v = (bm.mgmtData.clock_hand + k) % bm.mgmtData.frames.length ∧
      v < bm.mgmtData.frames.length ∧
      bm.mgmtData.frames[v]? = some fv ∧ fv.fixCount = 0 ∧
      hand1 < bm.mgmtData.frames.length ∧ frames1.length = bm.mgmtData.frames.length := by
  obtain ⟨⟨frames1, hand1, v⟩, hsweep⟩ :=
    clockSweep_terminates_two_rev (2 * bm.mgmtData.frames.length) bm.mgmtData.frames
      bm.mgmtData.clock_hand hhand hev (Nat.le_refl _)
  obtain ⟨k, hk, hv, _, ⟨fv, hfv, hfv0, _⟩, _⟩ :=
    clockSweep_trace bm.mgmtData.frames.length _ bm.mgmtData.frames bm.mgmtData.clock_hand
      frames1 hand1 v rfl hhand hsweep
  obtain ⟨hlen, hvlt, hh, _, _⟩ := clockSweep_effect _ _ _ _ frames1 hand1 v hsweep
  refine ⟨frames1, hand1, v, k, fv, ?_, by omega, hv, hvlt, hfv, hfv0, by omega, hlen⟩
  intro m
  rw [hnum]
  exact clockSweep_mono _ _ m _ _ _ hsweep

/-- Witness for C39: the sweep on `clockPool`, whose hand is on the pinned frame 0. -/
theorem clockSweep_two_revolutions_witness :
    clockPool.numPages = clockPool.mgmtData.frames.length ∧
    clockPool.mgmtData.clock_hand < clockPool.mgmtData.frames.length ∧
    (∃ f ∈ clockPool.mgmtData.frames, f.fixCount = 0) ∧
    ∃ (frames1 : List Frame) (hand1 v : Nat),
      clockSweep (2 * clockPool.mgmtData.frames.length + 0) clockPool.numPages
        clockPool.mgmtData.frames clockPool.mgmtData.clock_hand = some (frames1, hand1, v) ∧
      hand1 < clockPool.mgmtData.frames.length := by
  have hev : ∃ f ∈ clockPool.mgmtData.frames, f.fixCount = 0 := by decide
  obtain ⟨frames1, hand1, v, _, _, h1, _, _, _, _, _, h2, _⟩ :=
    clockSweep_two_revolutions clockPool rfl (by decide) hev
  exact ⟨rfl, by decide, hev, frames1, hand1, v, h1 0, h2⟩

/-- C40, evaluated on a fresh pool. `initBufferPool` opens a FIFO pool of three frames
on `testbuffer.bin`. `markDirty` with a handle whose page number is `NO_PAGE` returns
`RC_OK` and leaves the empty frame 0 dirty; `pinPage` of `NO_PAGE` returns `RC_OK` and
leaves the empty frame 0 with fix count 1; `unpinPage` and `forcePage` with such a
handle return `RC_OK` too. In each case a frame with `pageNum = NO_PAGE` was taken for
the frame of a resident page. -/
theorem no_page_handle_reaches_empty_frame :
    initBufferPool exDisk true closedDescriptor "testbuffer.bin" 3 RS_FIFO =
      (RC_OK, (initPool RS_FIFO 3 exFile).descriptor "testbuffer.bin") ∧
    ((Client.mk (initPool RS_FIFO 3 exFile) exHandle).trace
      [Call.setPageNum NO_PAGE, Call.markDirty]).map (fun r => (r.1, poolContent r.2.bm)) =
      some ([RC_OK, RC_OK], [(-1, true, 0), (-1, false, 0), (-1, false, 0)]) ∧
    ((Client.mk (initPool RS_FIFO 3 exFile) exHandle).trace
      [Call.pinPage 0 NO_PAGE]).map (fun r => (r.1, poolContent r.2.bm)) =
      some ([RC_OK], [(-1, false, 1), (-1, false, 0), (-1, false, 0)]) ∧
    ((Client.mk (initPool RS_FIFO 3 exFile) exHandle).trace
      [Call.setPageNum NO_PAGE, Call.unpinPage, Call.forcePage]).map (fun r => r.1) =
      some [RC_OK, RC_OK, RC_OK] := by
  refine ⟨?_, ?_, ?_, ?_⟩ <;> rfl

/-- The round trip in the model, where the byte offset of a page is not bounded (the
model reads and writes as storage_mgr.c does for the pages below 524288, see
`readBlock_refines` and `writeBlock_refines`), for every strategy, every page `p ≥ 0`
and all bytes `b`. In a state that a client has reached from a pool that `initBufferPool` has opened, by any
steps, let `pinPage` of `p` return `RC_OK` and leave the page with one pin (it is not
pinned otherwise); the client stores `b` in the page buffer and calls `markDirty`,
`unpinPage` and `forceFlushPool`; then it takes any steps that do not store into a page
buffer (such as the pins and unpins of other pages that make the pool replace page
`p`), and then `pinPage` of `p` returns `RC_OK` again. Then the handle points at a frame
that holds page `p`, and the bytes in its buffer are `b`. -/
theorem round_trip (disk : Disk) (framesAllocated : Bool) (d : PoolDescriptor)
    (pageFileName : String) (n : Nat) (strategy : ReplacementStrategy) (d1 : PoolDescriptor)
    (bm : BM_BufferPool) (h0 : BM_PageHandle) (before others : List Call)
    (c0 c1 c2 c3 c4 : Client) (fuel fuel2 : Nat) (p : Int) (b : PageData)
    (hinit : initBufferPool disk framesAllocated d pageFileName n strategy = (RC_OK, d1))
    (hopen : d1.pool = some bm)
    (hbefore : (Client.mk bm h0).run before = some c0)
    (hp : 0 ≤ p)
    (hpin : c0.call (Call.pinPage fuel p) = some (RC_OK, c1))
    (hone : ∀ f ∈ c1.bm.mgmtData.frames, f.pageNum = p → f.fixCount = 1)
    (hstore : c1.run (storeAndFlush b) = some c2)
    (hothers : ∀ x ∈ others, ∀ bytes, x ≠ Call.store bytes)
    (hrun : c2.run others = some c3)
    (hpin2 : c3.call (Call.pinPage fuel2 p) = some (RC_OK, c4)) :
    ∃ (v : Nat) (f : Frame), c4.h = { pageNum := p, data := some v } ∧
      c4.bm.mgmtData.frames[v]? = some f ∧ f.pageNum = p ∧ f.data = b := by
  obtain ⟨fh, hfh, hbm⟩ :=
    initBufferPool_pool disk framesAllocated d pageFileName n strategy d1 bm hinit hopen
  subst hbm
  have hS0 := Client.run_inFile before _ c0
    (initPool_inFile strategy n disk pageFileName fh hfh) hbefore
  have hd0 : DistinctPages c0.bm.mgmtData.frames :=
    Client.run_invariant DistinctPages distinctPages_of_keepsAll
      distinctPages_of_installs before _ c0 (distinctPages_initPool strategy n fh) hbefore
  have hS1 := Client.call_satisfies maintained_inFile c0 _ RC_OK c1
    (by intro bytes h; cases h) hS0 hpin
  simp only [Client.call, Option.map_eq_some'] at hpin
  obtain ⟨r, hr, he⟩ := hpin
  obtain ⟨rc, bm1, page1⟩ := r
  simp only [Prod.mk.injEq] at he
  obtain ⟨hrc, hc1⟩ := he
  subst hrc
  have hd1 : DistinctPages c1.bm.mgmtData.frames := by
    rw [← hc1]
    rcases pinPage_step fuel c0.bm c0.h p _ bm1 page1 hr with hk | hk
    · exact distinctPages_of_keepsAll _ _ hd0 hk
    · exact distinctPages_of_installs p _ _ hd0 hk
  obtain ⟨v, f1, hh, hv, hf1⟩ := pinPage_ok_handle fuel c0.bm c0.h p bm1 page1 hr
  have hbm1 : c1.bm = bm1 := by rw [← hc1]
  have hh1 : c1.h = { pageNum := p, data := some v } := by rw [← hc1]; exact hh
  rw [← hbm1] at hv
  have hfix := hone f1 (List.getElem?_mem hv) hf1
  have hK2 : c2.bm.Satisfies (FileHolds p b) (Frame.Agrees p b) := by
    simp only [storeAndFlush, Client.run, Client.call, Option.some.injEq] at hstore
    rw [← hstore, hh1]
    exact flush_after_store c1.bm p b v f1 hS1 hd1 hp hv hf1 hfix
  have hK3 := Client.run_satisfies (maintained_holds p b) others c2 c3 hothers hK2 hrun
  have hK4 := Client.call_satisfies (maintained_holds p b) c3 _ RC_OK c4
    (by intro bytes h; cases h) hK3 hpin2
  simp only [Client.call, Option.map_eq_some'] at hpin2
  obtain ⟨r2, hr2, he2⟩ := hpin2
  obtain ⟨rc2, bm4, page4⟩ := r2
  simp only [Prod.mk.injEq] at he2
  obtain ⟨hrc2, hc4⟩ := he2
  subst hrc2
  obtain ⟨v4, f4, hh4, hv4, hf4⟩ := pinPage_ok_handle fuel2 c3.bm c3.h p bm4 page4 hr2
  refine ⟨v4, f4, by rw [← hc4]; exact hh4, by rw [← hc4]; exact hv4, hf4, ?_⟩
  have hmem : f4 ∈ c4.bm.mgmtData.frames := by
    rw [← hc4]
    exact List.getElem?_mem hv4
  exact (hK4.2 f4 hmem).2 hf4

/-- Example of `round_trip`: on a fresh LFU pool of one frame over the file of `exDisk`,
page 0 is pinned, filled with the byte 77, marked dirty, unpinned and flushed; page 1 is pinned
and unpinned, which replaces page 0; page 0 is pinned again, and its buffer holds the
byte 77. -/
theorem round_trip_witness :
    ∃ (v : Nat) (f : Frame),
      ((((roundTripStart.after [Call.pinPage 2 0]).after (storeAndFlush (pageOf 77))).after
        (pinUnpin 1)).after [Call.pinPage 2 0]).h = { pageNum := 0, data := some v } ∧
      ((((roundTripStart.after [Call.pinPage 2 0]).after (storeAndFlush (pageOf 77))).after
        (pinUnpin 1)).after [Call.pinPage 2 0]).bm.mgmtData.frames[v]? = some f ∧
      f.pageNum = 0 ∧ f.data = pageOf 77 :=
  round_trip exDisk true closedDescriptor "testbuffer.bin" 1 RS_LFU
    ((initPool RS_LFU 1 exFile).descriptor "testbuffer.bin") (initPool RS_LFU 1 exFile)
    exHandle [] (pinUnpin 1) roundTripStart
    (roundTripStart.after [Call.pinPage 2 0])
    ((roundTripStart.after [Call.pinPage 2 0]).after (storeAndFlush (pageOf 77)))
    (((roundTripStart.after [Call.pinPage 2 0]).after (storeAndFlush (pageOf 77))).after
      (pinUnpin 1))
    ((((roundTripStart.after [Call.pinPage 2 0]).after (storeAndFlush (pageOf 77))).after
      (pinUnpin 1)).after [Call.pinPage 2 0])
    2 2 0 (pageOf 77) rfl rfl rfl (by decide) rfl (by decide) rfl
    (by
      intro x hx bytes h
      subst h
      simp [pinUnpin] at hx)
    rfl rfl

/-- C38. LRU-K is observationally equal to LRU. For every number of frames, every file
handle, every page handle and every sequence of steps of a client (calls of `pinPage`,
`unpinPage`, `markDirty`, `forcePage` and `forceFlushPool`, assignments of a page number
to the handle and stores through it), the pool that `initBufferPool` sets up with
`RS_LRU_K` and the one it sets up with `RS_LRU` show the same to the client: every call
returns, with the same code, and after every step the frame contents, the dirty flags,
the fix counts, the bytes of the page buffers, the pages of the file, the read and
write counts and the page handle are the same. -/
theorem lru_k_equals_lru (n : Nat) (fh : SM_FileHandle) (h0 : BM_PageHandle)
    (calls : List Call) :
    (Client.mk (initPool RS_LRU_K n fh) h0).views calls =
      (Client.mk (initPool RS_LRU n fh) h0).views calls ∧
    ∃ l, (Client.mk (initPool RS_LRU_K n fh) h0).views calls = some l ∧
      l.length = calls.length := by
  refine ⟨?_, Client.views_lru_returns calls _ (Or.inr rfl)⟩
  rw [← Client.views_asLRU calls (Client.mk (initPool RS_LRU_K n fh) h0) (Or.inr rfl),
    ← Client.views_asLRU calls (Client.mk (initPool RS_LRU n fh) h0) (Or.inl rfl)]
  rfl

/-- C32, evaluated. In the run of `testFIFO` on a FIFO pool of three frames over the file
of 100 dummy pages, `getNumReadIO` is 8 and `getNumWriteIO` is 3, the numbers of page
loads and of write-backs of that run. But on a fresh pool of the same kind, after
`markDirty` with a handle whose page number is `NO_PAGE` (which marks the empty frame 0
dirty) and `forceFlushPool`, `getNumWriteIO` is 1 although no frame has been written
back: the one `writeBlock` of the flush returned `RC_WRITE_FAILED` and the file is as it
was. `getNumReadIO` is 0 there, no page having been loaded. -/
theorem writeIO_counts_failed_flush_write :
    ((Client.mk (initPool RS_FIFO 3 (dummyFile 100)) exHandle).run testFIFO.flatten).map
      ioCounts = some (8, 3) ∧
    ((Client.mk (initPool RS_FIFO 3 (dummyFile 100)) exHandle).run
      (dirtyNoPageFlush.take 2)).map (fun c => poolContent c.bm) =
      some [(-1, true, 0), (-1, false, 0), (-1, false, 0)] ∧
    (writeBlock NO_PAGE (dummyFile 100) zeroPage).1 = RC_WRITE_FAILED ∧
    ((Client.mk (initPool RS_FIFO 3 (dummyFile 100)) exHandle).trace dirtyNoPageFlush).map
      (fun r => (r.1, ioCounts r.2, r.2.bm.mgmtData.fh.file)) =
      some ([RC_OK, RC_OK, RC_OK], (0, 1), (dummyFile 100).file) := by
  refine ⟨?_, ?_, ?_, ?_⟩ <;> rfl

/-- C4, evaluated at page 524288, the first page whose byte offset is not an `int`. The
offset `pageNum * PAGE_SIZE` of page 524287 is the `int` 2147479552, but that of page
524288 is 2^31: the `int` product of storage_mgr.c, line 107, overflows, and on a
two's-complement machine `fseek` gets the negative offset `INT_MIN` and fails. On a
file of 524289 pages whose page 524288 is filled with the byte 7, with the file
position at its end, the read that `pinPage` makes for page 524288 into a victim buffer
filled with the byte 1 returns `RC_OK` and leaves the buffer as it was: `pinPage`
installs the page and returns `RC_OK` with a buffer that is not page 524288 of the
file. -/
theorem pinPage_read_offset_overflow_misses_page :
    seekOffset 524287 = 524287 * PAGE_SIZE ∧ seekOffset 524288 = INT_MIN ∧
    (∃ s, bigFile.mgmtInfo = some s ∧ s.pages[524288]? = some (pageOf 7)) ∧
    Stdio.loadPage 524288 bigFile (pageOf 1) =
      (RC_OK, { bigFile with curPagePos := 524288 }, pageOf 1) ∧
    pageOf 1 ≠ pageOf 7 := by
  have hr : Stdio.readBlock 524288 bigFile (pageOf 1) =
      (RC_OK, { bigFile with curPagePos := 524288 }, pageOf 1) :=
    Stdio.readBlock_seek_fails 524288 524289 0 _ 524289 (pageOf 1) (by decide) (by decide)
      (by decide) (by rw [length_replicate_append_one])
  refine ⟨by decide, by decide,
    ⟨_, rfl, getElem?_replicate_append_one 524288 zeroPage (pageOf 7)⟩, ?_,
    fun h => absurd (pageOf_injective 1 7 h) (by decide)⟩
  rw [Stdio.loadPage_of_read _ _ _ (by rw [hr]), hr]

/-- C33, evaluated at page 524288, the first page whose byte offset is not an `int`, on
a file of 524289 pages whose page 524288 holds the byte 7 and whose other pages are
zero, through a pool of one frame: the four calls to the storage manager that the round
trip makes with the bytes `b` = 77 and the other page 0 all return `RC_OK`. The offset
`pageNum * PAGE_SIZE` of page 524288 overflows and `fseek` fails in `writeBlock` and in
`readBlock`: `forceFlushPool` appends the bytes at the end of the file, page 524288 of
the file still holds the byte 7, and the second `pinPage` of page 524288 reads at the
file position that the read of page 0 has left, page 1. Its buffer is the zero bytes of
page 1, not `b`. With page 1 of a file of two pages in the place of page 524288 the
same calls return `b`. -/
theorem round_trip_offset_overflow_loses_bytes :
    (Stdio.roundTrip 524288 0 (pageOf 77) bigFile).1 = [RC_OK, RC_OK, RC_OK, RC_OK] ∧
    (Stdio.roundTrip 524288 0 (pageOf 77) bigFile).2.2 = zeroPage ∧
    zeroPage ≠ pageOf 77 ∧
    (∃ s, (Stdio.roundTrip 524288 0 (pageOf 77) bigFile).2.1.mgmtInfo = some s ∧
      s.pages[524288]? = some (pageOf 7) ∧ pageOf 7 ≠ pageOf 77) ∧
    (Stdio.roundTrip 1 0 (pageOf 77) exStream).1 = [RC_OK, RC_OK, RC_OK, RC_OK] ∧
    (Stdio.roundTrip 1 0 (pageOf 77) exStream).2.2 = pageOf 77 := by
  have hr1 : Stdio.readBlock 524288 bigFile zeroPage =
      (RC_OK, { totalNumPages := 524289, curPagePos := 524288,
                mgmtInfo := some { pages := List.replicate 524288 zeroPage ++ [pageOf 7],
                                   pos := 524289 } }, zeroPage) :=
    Stdio.readBlock_seek_fails 524288 524289 0 _ 524289 zeroPage (by decide) (by decide)
      (by decide) (by rw [length_replicate_append_one])
  have hw := Stdio.writeBlock_seek_fails 524288 524289 524288
    (List.replicate 524288 zeroPage ++ [pageOf 7]) 524289 (pageOf 77) (by decide) (by decide)
    (by decide) (by rw [length_replicate_append_one])
  have hr3 := Stdio.readBlock_in_range 0 524289 524288
    (List.replicate 524288 zeroPage ++ [pageOf 7] ++ [pageOf 77]) (524289 + 1) (pageOf 77)
    zeroPage (by decide) (by decide) (by decide)
    (by
      rw [List.append_assoc]
      exact getElem?_replicate_append_lt 524288 0 zeroPage _ (by decide))
  have hr4 := Stdio.readBlock_seek_fails_some 524288 524289 0
    (List.replicate 524288 zeroPage ++ [pageOf 7] ++ [pageOf 77]) ((0 : Int).toNat + 1)
    zeroPage zeroPage (by decide) (by decide) (by decide)
    (by
      rw [List.append_assoc]
      exact getElem?_replicate_append_lt 524288 1 zeroPage _ (by decide))
  have hrt := Stdio.roundTrip_eq 524288 0 (pageOf 77) bigFile _ _ _ _ _ _ _ _ _ _ _
    (Stdio.loadPage_eq_of_read _ _ _ _ _ hr1) hw
    (Stdio.loadPage_eq_of_read _ _ _ _ _ hr3) (Stdio.loadPage_eq_of_read _ _ _ _ _ hr4)
  rw [hrt]
  refine ⟨rfl, rfl, ?_,
    ⟨_, rfl, getElem?_replicate_append 524288 zeroPage (pageOf 7) [pageOf 77],
      fun h => absurd (pageOf_injective 7 77 h) (by decide)⟩, rfl, rfl⟩
  intro h
  rw [zeroPage_eq_pageOf] at h
  exact absurd (pageOf_injective 0 77 h) (by decide)

/-- C8, evaluated where the claim fails. On a fresh FIFO pool of three frames over a
file of two pages, every frame is evictable. After `markDirty` with a handle whose page
number is `NO_PAGE` (the empty frame 0 is dirty), `pinPage` of the non-resident page 5
selects frame 0, the write of its "page" -1 fails, and `pinPage` returns
`RC_WRITE_FAILED`: no read is made, the file is not extended and the read counter
stays 0. Without the `markDirty`, the same `pinPage` returns `RC_OK`, extends the file
to six pages and counts one read. And for the page `INT_MAX` the sum `pageNum + 1` of
line 366 is not an `int`: it wraps to `INT_MIN`, `ensureCapacity` adds nothing, and the
retried read fails, so `pinPage` returns `RC_READ_NON_EXISTING_PAGE`. -/
theorem pinPage_beyond_end_fails_on_dirty_empty_frame :
    ((Client.mk (initPool RS_FIFO 3 exFile) exHandle).trace
      [Call.setPageNum NO_PAGE, Call.markDirty, Call.pinPage 0 5]).map
        (fun r => (r.1, poolContent r.2.bm, r.2.bm.mgmtData.fh.totalNumPages,
          r.2.bm.mgmtData.fh.file.length, getNumReadIO r.2.bm)) =
      some ([RC_OK, RC_OK, RC_WRITE_FAILED],
        [(-1, true, 0), (-1, false, 0), (-1, false, 0)], 2, 2, 0) ∧
    ((Client.mk (initPool RS_FIFO 3 exFile) exHandle).trace [Call.pinPage 0 5]).map
        (fun r => (r.1, poolContent r.2.bm, r.2.bm.mgmtData.fh.totalNumPages,
          r.2.bm.mgmtData.fh.file.length, getNumReadIO r.2.bm)) =
      some ([RC_OK], [(5, false, 1), (-1, false, 0), (-1, false, 0)], 6, 6, 1) ∧
    Stdio.loadPage INT_MAX exStream zeroPage =
      (RC_READ_NON_EXISTING_PAGE, exStream, zeroPage) :=
  ⟨rfl, rfl, Stdio.loadPage_int_max exStream zeroPage (by decide) (by decide)⟩

/-- C11, evaluated where the claim fails. On a fresh FIFO pool of three frames no page
is resident. `forcePage` with a handle whose page number is 5 returns
`RC_PAGE_NOT_FOUND`, but with a handle whose page number is `NO_PAGE` it returns `RC_OK`
and leaves the pool as it is: `findFrame` takes the empty frame 0 for the frame of the
page. After `markDirty` with the same handle the frame is dirty, and `forcePage`
returns `RC_WRITE_FAILED`: nothing is written, the frame stays dirty and the write
counter stays 0. -/
theorem forcePage_no_page_handle_not_rejected :
    (forcePage (initPool RS_FIFO 3 exFile) { pageNum := 5, data := none }).1 =
      RC_PAGE_NOT_FOUND ∧
    (∀ f ∈ (initPool RS_FIFO 3 exFile).mgmtData.frames, f.pageNum = NO_PAGE) ∧
    forcePage (initPool RS_FIFO 3 exFile) noPageHandle =
      (RC_OK, initPool RS_FIFO 3 exFile) ∧
    ((Client.mk (initPool RS_FIFO 3 exFile) noPageHandle).trace
      [Call.markDirty, Call.forcePage]).map
        (fun r => (r.1, poolContent r.2.bm, getNumWriteIO r.2.bm,
          r.2.bm.mgmtData.fh.file)) =
      some ([RC_OK, RC_WRITE_FAILED], [(-1, true, 0), (-1, false, 0), (-1, false, 0)], 0,
        exFile.file) := by
  refine ⟨rfl, by decide, rfl, rfl⟩

/-- C14, evaluated where the claim fails. `initBufferPool` opens a FIFO pool of three
frames on `testbuffer.bin`, a file of two pages. `pinPage` of `NO_PAGE` returns `RC_OK`
with a handle on the buffer of the empty frame 0; the client stores the byte 77 there,
and `markDirty` and `unpinPage` return `RC_OK`. Now no frame is pinned and frame 0 is
dirty. `shutdownBufferPool` returns `RC_OK` and releases the management data; the file
is closed with the two pages it had: the bytes of the dirty frame are in no page of
it. -/
theorem shutdownBufferPool_drops_dirty_empty_frame :
    initBufferPool exDisk true closedDescriptor "testbuffer.bin" 3 RS_FIFO =
      (RC_OK, (initPool RS_FIFO 3 exFile).descriptor "testbuffer.bin") ∧
    ((Client.mk (initPool RS_FIFO 3 exFile) exHandle).trace
      [Call.pinPage 0 NO_PAGE, Call.store (pageOf 77), Call.markDirty, Call.unpinPage]).map
        (fun r => (r.1, poolContent r.2.bm,
          (r.2.bm.mgmtData.frames[0]?).map (fun f => f.data),
          (shutdownBufferPool (r.2.bm.descriptor "testbuffer.bin")).1,
          (shutdownBufferPool (r.2.bm.descriptor "testbuffer.bin")).2.1.mgmtData,
          (shutdownBufferPool (r.2.bm.descriptor "testbuffer.bin")).2.2)) =
      some ([RC_OK, RC_OK, RC_OK, RC_OK], [(-1, true, 0), (-1, false, 0), (-1, false, 0)],
        some (pageOf 77), RC_OK, none, some [pageOf 10, pageOf 11]) ∧
    pageOf 77 ∉ [pageOf 10, pageOf 11] := by
  refine ⟨rfl, rfl, ?_⟩
  intro h
  rcases List.mem_cons.mp h with h | h
  · exact absurd (pageOf_injective _ _ h) (by decide)
  · rcases List.mem_cons.mp h with h | h
    · exact absurd (pageOf_injective _ _ h) (by decide)
    · exact absurd h (List.not_mem_nil _)

end BufferMgr
